import Mathlib

/-!
# Shift manager backend: scheduler and validation layer

A shallow embedding of `internal/domain`, `internal/utils/validation.go` and
`internal/scheduler` of the shift manager backend, followed by theorems about
the embedded functions.

Conventions of the embedding:

* Go integers (`int64` identifiers, `int32` days) are `Int`; they are only
  compared, never computed with, except `RequiredAssistantNumber - 1`, which is
  wrapped to 32 bits explicitly.
* A `*int64` is an `Option Int` holding the pointee.
* Slices of values are `List`s.  Only the struct fields that the embedded code
  reads are kept.
* An `error` is an `Option GoError`; `none` is Go's `nil`.
* Loop variables are per iteration (the language semantics since Go 1.22), so
  `&shift` taken inside a `range` loop points to that iteration's copy.
-/

namespace ShiftManager

/-! ## internal/domain -/

/-- The Go type `domain.Role` is a string. -/
abbrev Role := String

/-- Constant `domain.RoleNormalAssistant`. -/
def RoleNormalAssistant : Role := "普通助理"

/-- Constant `domain.RoleSeniorAssistant`. -/
def RoleSeniorAssistant : Role := "资深助理"

/-- Constant `domain.RoleBlackCore`. -/
def RoleBlackCore : Role := "黑心"

/-- Struct `domain.User`, with the fields the scheduler reads. -/
structure User where
  ID : Int
  Role : String
  deriving DecidableEq, Repr

/-- Struct `domain.ScheduleTemplateShift`. -/
structure ScheduleTemplateShift where
  ID : Int
  StartTime : String
  EndTime : String
  RequiredAssistantNumber : Int
  ApplicableDays : List Int
  deriving DecidableEq, Repr

/-- Struct `domain.ScheduleTemplate`. -/
structure ScheduleTemplate where
  Shifts : List ScheduleTemplateShift
  deriving DecidableEq, Repr

/-- Struct `domain.AvailabilitySubmissionItem`. -/
structure AvailabilitySubmissionItem where
  ShiftID : Int
  Days : List Int
  deriving DecidableEq, Repr

/-- Struct `domain.AvailabilitySubmission`. -/
structure AvailabilitySubmission where
  UserID : Int
  Items : List AvailabilitySubmissionItem
  deriving DecidableEq, Repr

/-- Struct `domain.SchedulingResultShiftItem`. -/
structure SchedulingResultShiftItem where
  Day : Int
  PrincipalID : Option Int
  AssistantIDs : List Int
  deriving DecidableEq, Repr

/-- Struct `domain.SchedulingResultShift`. -/
structure SchedulingResultShift where
  ShiftID : Int
  Items : List SchedulingResultShiftItem
  deriving DecidableEq, Repr

/-- Struct `domain.SchedulingResult`. -/
structure SchedulingResult where
  Shifts : List SchedulingResultShift
  deriving DecidableEq, Repr

/-! ## Errors -/

/-- One argument handed to a `%d` verb of `fmt.Errorf`.  An `int` argument is
printed as that number.  A `ptr` argument is a `*int64` handed to `%d` without
being dereferenced: `fmt` prints the address held by the pointer, not the
pointee, which is recorded here only to say what the pointer points to. -/
inductive FmtArg where
  | int (v : Int)
  | ptr (pointee : Int)
  deriving DecidableEq, Repr

/-- An error built by `fmt.Errorf` or `errors.New`: the format string and the
arguments in the order they are passed. -/
structure GoError where
  format : String
  args : List FmtArg
  deriving DecidableEq, Repr

/-! ## internal/utils/validation.go -/

/-- Lines 104-108 of `ValidateSchedulingResultWithTemplate`: the search loop has
no `break`, so the pointer ends on the last template shift with the given ID. -/
def findTemplateShift (shifts : List ScheduleTemplateShift) (shiftID : Int) :
    Option ScheduleTemplateShift :=
  shifts.foldl (fun found shift => if shift.ID = shiftID then some shift else found) none

/-- Lines 114-127: every applicable day of the template shift must be the day
of some item of the result shift. -/
def checkCoverage (resultShift : SchedulingResultShift) : List Int → Option GoError
  | [] => none
  | day :: days =>
    if resultShift.Items.any (fun item => item.Day == day) then
      checkCoverage resultShift days
    else
      some ⟨"排班结果中的第 %d 项的班次存在没有提交结果的天数 %d",
        [.int resultShift.ShiftID, .int day]⟩

/-- Lines 129-137: no item on a day outside the template shift, and no item with
more assistants (the principal counted) than the template asks for. -/
def checkItems (resultShift : SchedulingResultShift) (templateShift : ScheduleTemplateShift) :
    List SchedulingResultShiftItem → Option GoError
  | [] => none
  | item :: items =>
    if !templateShift.ApplicableDays.contains item.Day then
      some ⟨"排班结果中的第 %d 项的第 %d 天不符合模板中的班次",
        [.int resultShift.ShiftID, .int item.Day]⟩
    else if (item.AssistantIDs.length : Int) + 1 > templateShift.RequiredAssistantNumber then
      some ⟨"排班结果中的第 %d 项的第 %d 天的助理人数超过了模板中的要求",
        [.int resultShift.ShiftID, .int item.Day]⟩
    else
      checkItems resultShift templateShift items

/-- Body of the outer loop of `ValidateSchedulingResultWithTemplate`
(lines 100-138) for one result shift. -/
def checkResultShift (template : ScheduleTemplate) (resultShift : SchedulingResultShift) :
    Option GoError :=
  match findTemplateShift template.Shifts resultShift.ShiftID with
  | none => some ⟨"排班结果中的第 %d 项不存在于排班模板中", [.int resultShift.ShiftID]⟩
  | some templateShift =>
    match checkCoverage resultShift templateShift.ApplicableDays with
    | some err => some err
    | none => checkItems resultShift templateShift resultShift.Items

/-- The outer loop of `ValidateSchedulingResultWithTemplate`. -/
def checkResultShifts (template : ScheduleTemplate) : List SchedulingResultShift → Option GoError
  | [] => none
  | resultShift :: rest =>
    match checkResultShift template resultShift with
    | some err => some err
    | none => checkResultShifts template rest

/-- Function `utils.ValidateSchedulingResultWithTemplate`. -/
def ValidateSchedulingResultWithTemplate (result : SchedulingResult)
    (template : ScheduleTemplate) : Option GoError :=
  if result.Shifts.length ≠ template.Shifts.length then
    some ⟨"排班结果中的班次数量和模板中的班次数量不匹配", []⟩
  else
    checkResultShifts template result.Shifts

/-- Function `utils.getSubmissionByAssistantID`: the first submission of the
user, `none` for Go's `nil`. -/
def getSubmissionByAssistantID (submissions : List AvailabilitySubmission) (assistantID : Int) :
    Option AvailabilitySubmission :=
  match submissions with
  | [] => none
  | submission :: rest =>
    if submission.UserID = assistantID then some submission
    else getSubmissionByAssistantID rest assistantID

/-- Lines 163-169 and 182-188: the flag `ok`, set when some item of the
submission is for the shift and lists the day. -/
def hasFreeTime (submission : AvailabilitySubmission) (shiftID day : Int) : Bool :=
  submission.Items.any (fun submissionItem =>
    submissionItem.ShiftID == shiftID && submissionItem.Days.contains day)

/-- Lines 155-173: the check of the principal of one item.  Both errors pass
`item.PrincipalID`, the pointer, to `%d`. -/
def checkPrincipal (submissions : List AvailabilitySubmission) (i : Nat)
    (shift : SchedulingResultShift) (item : SchedulingResultShiftItem) : Option GoError :=
  match item.PrincipalID with
  | none => none
  | some principalID =>
    match getSubmissionByAssistantID submissions principalID with
    | none => some ⟨"班次 %d 的第 %d 天的 id 为 %d 的负责人没有提交空闲时间",
        [.int ((i : Int) + 1), .int item.Day, .ptr principalID]⟩
    | some submission =>
      if hasFreeTime submission shift.ShiftID item.Day then none
      else some ⟨"id 为 %d 的负责人在班次 %d 的第 %d 天没有空闲时间",
        [.ptr principalID, .int shift.ShiftID, .int item.Day]⟩

/-- Lines 174-192: the check of the assistants of one item. -/
def checkAssistants (submissions : List AvailabilitySubmission) (i : Nat)
    (shift : SchedulingResultShift) (item : SchedulingResultShiftItem) :
    List Int → Option GoError
  | [] => none
  | assistantID :: rest =>
    match getSubmissionByAssistantID submissions assistantID with
    | none => some ⟨"班次 %d 的第 %d 天的 id 为 %d 的助理没有提交空闲时间",
        [.int ((i : Int) + 1), .int item.Day, .int assistantID]⟩
    | some submission =>
      if hasFreeTime submission shift.ShiftID item.Day then
        checkAssistants submissions i shift item rest
      else some ⟨"id 为 %d 的助理在班次 %d 的第 %d 天没有空闲时间",
        [.int assistantID, .int shift.ShiftID, .int item.Day]⟩

/-- The loop over the items of one result shift (lines 154-193). -/
def checkSubmissionItems (submissions : List AvailabilitySubmission) (i : Nat)
    (shift : SchedulingResultShift) : List SchedulingResultShiftItem → Option GoError
  | [] => none
  | item :: rest =>
    match checkPrincipal submissions i shift item with
    | some err => some err
    | none =>
      match checkAssistants submissions i shift item item.AssistantIDs with
      | some err => some err
      | none => checkSubmissionItems submissions i shift rest

/-- The loop over the result shifts (lines 153-194); `i` is the index of the
first shift of the list. -/
def checkSubmissionShifts (submissions : List AvailabilitySubmission) (i : Nat) :
    List SchedulingResultShift → Option GoError
  | [] => none
  | shift :: rest =>
    match checkSubmissionItems submissions i shift shift.Items with
    | some err => some err
    | none => checkSubmissionShifts submissions (i + 1) rest

/-- Function `utils.ValidateSchedulingResultWithSubmissions`. -/
def ValidateSchedulingResultWithSubmissions (result : SchedulingResult)
    (submissions : List AvailabilitySubmission) : Option GoError :=
  checkSubmissionShifts submissions 0 result.Shifts

/-- Lines 208-214 of `ValidIfExistsDuplicateAssistant`: the loop over the
assistants with the map `seen`, kept as the list of its keys.  Returns whether
the loop hits an assistant that was seen before. -/
def hasSeenTwice (seen : List Int) : List Int → Bool
  | [] => false
  | assistantID :: rest =>
    if seen.contains assistantID then true
    else hasSeenTwice (assistantID :: seen) rest

/-- The loop over the items of one result shift (lines 202-215). -/
def checkDuplicateItems (i : Nat) : List SchedulingResultShiftItem → Option GoError
  | [] => none
  | resultShiftItem :: rest =>
    if (match resultShiftItem.PrincipalID with
        | none => false
        | some principalID => resultShiftItem.AssistantIDs.contains principalID) then
      some ⟨"班次 %d 的第 %d 天中负责人和助理重复", [.int i, .int resultShiftItem.Day]⟩
    else if hasSeenTwice [] resultShiftItem.AssistantIDs then
      some ⟨"班次 %d 的第 %d 天中存在重复助理", [.int i, .int resultShiftItem.Day]⟩
    else
      checkDuplicateItems i rest

/-- The loop over the result shifts (lines 201-216). -/
def checkDuplicateShifts (i : Nat) : List SchedulingResultShift → Option GoError
  | [] => none
  | resultShift :: rest =>
    match checkDuplicateItems i resultShift.Items with
    | some err => some err
    | none => checkDuplicateShifts (i + 1) rest

/-- Function `utils.ValidIfExistsDuplicateAssistant`. -/
def ValidIfExistsDuplicateAssistant (result : SchedulingResult) : Option GoError :=
  checkDuplicateShifts 0 result.Shifts

/-! ## Values of the standard library the scheduler computes with -/

/-- A `float64`, idealised: a finite value is an exact rational (rounding and
overflow to an infinity are not modelled) and `nan` is the IEEE not-a-number. -/
inductive F64 where
  | nan
  | val (q : ℚ)
  deriving DecidableEq

namespace F64

/-- IEEE addition. -/
def add : F64 → F64 → F64
  | val a, val b => val (a + b)
  | _, _ => nan

/-- IEEE subtraction. -/
def sub : F64 → F64 → F64
  | val a, val b => val (a - b)
  | _, _ => nan

/-- IEEE multiplication. -/
def mul : F64 → F64 → F64
  | val a, val b => val (a * b)
  | _, _ => nan

/-- IEEE negation. -/
def neg : F64 → F64
  | val a => val (-a)
  | nan => nan

/-- IEEE division.  `0 / 0` is not-a-number.  A non-zero value divided by zero
is an infinity in IEEE and is given as `nan` here: the scheduler only ever
divides by the size of a tally, and when that size is zero the dividend is the
sum over the empty tally, `0`. -/
def div : F64 → F64 → F64
  | val a, val b => if b = 0 then nan else val (a / b)
  | _, _ => nan

/-- Go's `>` on `float64`: false as soon as one side is not-a-number. -/
def gt : F64 → F64 → Bool
  | val a, val b => decide (b < a)
  | _, _ => false

/-- Go's `>=` on `float64`: false as soon as one side is not-a-number. -/
def ge : F64 → F64 → Bool
  | val a, val b => decide (b ≤ a)
  | _, _ => false

/-- Go's `==` on `float64`: false as soon as one side is not-a-number. -/
def eq : F64 → F64 → Bool
  | val a, val b => decide (a = b)
  | _, _ => false

/-- The conversion `float64(n)` of a length. -/
def ofNat (n : Nat) : F64 := val n

/-- Constant `math.MaxFloat64`, `2^1023 * (2 - 2^-52)`. -/
def maxFloat64 : F64 := val ((2 ^ 1024 - 2 ^ 971 : Nat) : ℚ)

end F64

/-- The value of a decimal digit, `none` for any other character
(`isDigit` of package `time`). -/
def digitValue (c : Char) : Option Nat :=
  if 48 ≤ c.toNat ∧ c.toNat ≤ 57 then some (c.toNat - 48) else none

/-- Function `getnum` of package `time`: a number of two digits, or of one digit
when the second character is no digit and `fixed` is false. -/
def getnum (value : List Char) (fixed : Bool) : Option (Nat × List Char) :=
  match value with
  | [] => none
  | c0 :: rest0 =>
    match digitValue c0 with
    | none => none
    | some d0 =>
      match rest0 with
      | [] => if fixed then none else some (d0, rest0)
      | c1 :: rest1 =>
        match digitValue c1 with
        | none => if fixed then none else some (d0, rest0)
        | some d1 => some (d0 * 10 + d1, rest1)

/-- The leading run of digits of a text, as their values, and what follows. -/
def takeDigits : List Char → List Nat × List Char
  | [] => ([], [])
  | c :: rest =>
    match digitValue c with
    | none => ([], c :: rest)
    | some d => ((d :: (takeDigits rest).1), (takeDigits rest).2)

/-- The fraction of a second that `time.Parse` accepts right after the seconds
(a period or comma and at least one digit), in nanoseconds, and what follows.
`parseNanoseconds` reads the first nine digits and ignores the further ones.
Without such a fraction the value is `0` and the text is untouched. -/
def parseFraction (value : List Char) : Nat × List Char :=
  match value with
  | c :: rest =>
    if (c = '.' ∨ c = ',') ∧ (takeDigits rest).1 ≠ [] then
      let digits := (takeDigits rest).1
      let kept := digits.take 9
      (kept.foldl (fun n d => n * 10 + d) 0 * 10 ^ (9 - kept.length), (takeDigits rest).2)
    else (0, value)
  | [] => (0, value)

/-- Expects a colon: the literal text between two elements of the layout. -/
def skipColon : List Char → Option (List Char)
  | ':' :: rest => some rest
  | _ => none

/-- The call `time.Parse("15:04:05", value)`: the time of day in nanoseconds
since midnight, or `none` when the call returns an error. -/
def parseClock (value : String) : Option Nat :=
  match getnum value.data false with
  | none => none
  | some (hour, v1) =>
    if 24 ≤ hour then none else
    match skipColon v1 with
    | none => none
    | some v2 =>
      match getnum v2 true with
      | none => none
      | some (minute, v3) =>
        if 60 ≤ minute then none else
        match skipColon v3 with
        | none => none
        | some v4 =>
          match getnum v4 true with
          | none => none
          | some (second, v5) =>
            if 60 ≤ second then none else
            match parseFraction v5 with
            | (nsec, []) => some (((hour * 60 + minute) * 60 + second) * 10 ^ 9 + nsec)
            | (_, _ :: _) => none

/-- The `time.Time` that `startTime, _ := time.Parse("15:04:05", s)` leaves in
`startTime`, in nanoseconds since 1 January of year 0, 00:00:00 UTC.  A parsed
clock time is on that day.  When parsing fails the variable holds the zero
`Time`, 1 January of year 1, which is 366 days later. -/
def parseClockOrZero (value : String) : Nat :=
  match parseClock value with
  | some ns => ns
  | none => 366 * 86400 * 10 ^ 9

/-- The expression `endTime.Sub(startTime).Hours()` of `randomInitChromosome`. -/
def workDurationOf (shift : ScheduleTemplateShift) : F64 :=
  F64.val ((((parseClockOrZero shift.EndTime : Int) - (parseClockOrZero shift.StartTime : Int) : Int) : ℚ)
    / (3600 * 10 ^ 9 : ℚ))

/-- The 32-bit two's complement value of an integer: the result of an `int32`
operation whose mathematical result is `x`. -/
def wrapInt32 (x : Int) : Int :=
  (x + 2 ^ 31) % 2 ^ 32 - 2 ^ 31

/-- The random source of `math/rand` as one run sees it: the stream of raw
values it yields and the number of values consumed so far.  Every stream is a
possible run. -/
structure Rand where
  raw : Nat → Nat
  pos : Nat

namespace Rand

/-- The call `rand.Intn(n)` for `n > 0`: a value in `[0, n)`. -/
def Intn (r : Rand) (n : Nat) : Nat × Rand :=
  (r.raw r.pos % n, { r with pos := r.pos + 1 })

/-- The call `rand.Float64()`: a multiple of `2^-53` in `[0, 1)`. -/
def Float64 (r : Rand) : ℚ × Rand :=
  (((r.raw r.pos % 2 ^ 53 : Nat) : ℚ) / (2 : ℚ) ^ 53, { r with pos := r.pos + 1 })

end Rand

/-- The swap `xs[i], xs[j] = xs[j], xs[i]` on a slice. -/
def swapAt (xs : List Int) (i j : Nat) : List Int :=
  (xs.set i (xs.getD j 0)).set j (xs.getD i 0)

/-- The loop of `rand.Shuffle(n, swap)`: for `i` from `n - 1` down to `1`, draw
`j` in `[0, i]` and swap `i` and `j`.  The argument is the current `i`. -/
def shuffleLoop : Nat → List Int → Rand → List Int × Rand
  | 0, xs, r => (xs, r)
  | i + 1, xs, r => shuffleLoop i (swapAt xs (i + 1) (r.Intn (i + 2)).1) (r.Intn (i + 2)).2

/-- The call `rand.Shuffle(len(xs), swap)` with the swap of lines 46-48. -/
def shuffle (xs : List Int) (r : Rand) : List Int × Rand :=
  shuffleLoop (xs.length - 1) xs r

/-! ## internal/scheduler/model.go -/

/-- Struct `scheduler.Gene`: the decision for one (shift, day). -/
structure Gene where
  shiftID : Int
  day : Int
  principalID : Option Int
  assistantIDs : List Int
  requiredNum : Int
  workDuration : F64
  deriving DecidableEq

/-- Struct `scheduler.Chromosome`.  A `*Gene` is held by exactly one chromosome
at any time (crossover exchanges the pointers of two chromosomes position by
position, and nothing else copies one), so a chromosome holds its genes by
value. -/
structure Chromosome where
  genes : List Gene
  fitness : F64
  deriving DecidableEq

/-- Struct `scheduler.Parameters`.  The three `int32` fields are integers, the
three `float64` fields are finite values. -/
structure Parameters where
  PopulationSize : Int
  MaxGenerations : Int
  CrossoverRate : ℚ
  MutationRate : ℚ
  EliteCount : Int
  FairnessWeight : ℚ

/-! ## internal/scheduler/scheduler.go: the scheduler and `New` -/

/-- The Go type `map[int64]map[int32][]int64` of `availableMap`, read as the
scheduler reads it: `m shiftID day` is `m[shiftID][day]`, the empty slice when
a key is absent. -/
abbrev AvailableMap := Int → Int → List Int

/-- Struct `scheduler.Scheduler`. -/
structure Scheduler where
  parameters : Parameters
  users : List User
  shifts : List ScheduleTemplateShift
  submissions : List AvailabilitySubmission
  availableMap : AvailableMap

/-- Line 49 of `New`: `availableMap[shiftID][day] = append(availableMap[shiftID][day], userID)`. -/
def addAvailable (m : AvailableMap) (shiftID day userID : Int) : AvailableMap :=
  fun s d => if s = shiftID ∧ d = day then m s d ++ [userID] else m s d

/-- The loop over the days of one submission item (lines 44-50). -/
def addDays (m : AvailableMap) (shiftID userID : Int) (days : List Int) : AvailableMap :=
  days.foldl (fun acc day => addAvailable acc shiftID day userID) m

/-- The loop over the items of one submission (lines 37-51). -/
def addItems (m : AvailableMap) (userID : Int) (items : List AvailabilitySubmissionItem) :
    AvailableMap :=
  items.foldl (fun acc item => addDays acc item.ShiftID userID item.Days) m

/-- Lines 53-59 of `New`: the first user with the ID, `none` for `nil`. -/
def findUser (users : List User) (userID : Int) : Option User :=
  match users with
  | [] => none
  | u :: rest => if u.ID = userID then some u else findUser rest userID

/-- The loop over the submissions in `New` (lines 34-66): returns the users and
the availability map built, or the error of line 62.  The source adds the items
of a submission to the map before it looks the user up; the error return drops
the map, so the lookup is written first here. -/
def newLoop (users : List User) (acc : List User) (m : AvailableMap) :
    List AvailabilitySubmission → Except GoError (List User × AvailableMap)
  | [] => .ok (acc, m)
  | submission :: rest =>
    match findUser users submission.UserID with
    | none => .error ⟨"用户 %d 不在传入的 users 数组中", [.int submission.UserID]⟩
    | some user =>
      newLoop users (acc ++ [user]) (addItems m submission.UserID submission.Items) rest

/-- Function `scheduler.New`. -/
def New (parameters : Parameters) (users : List User) (template : ScheduleTemplate)
    (availableSubmissions : List AvailabilitySubmission) : Except GoError Scheduler :=
  match newLoop users [] (fun _ _ => []) availableSubmissions with
  | .error err => .error err
  | .ok (submitters, m) =>
    .ok { parameters := parameters, users := submitters, shifts := template.Shifts,
          submissions := availableSubmissions, availableMap := m }

/-! ## internal/scheduler/utils.go and core.go -/

/-- Function `scheduler.isSeniorOrBlackCore`. -/
def isSeniorOrBlackCore (user : User) : Bool :=
  user.Role == RoleSeniorAssistant || user.Role == RoleBlackCore

/-- Lines 19-24 of `randomInitChromosome`: the candidates for principal of a
(shift, day). -/
def principalCandidates (s : Scheduler) (shiftID day : Int) : List Int :=
  (s.users.filter (fun user =>
    isSeniorOrBlackCore user && (s.availableMap shiftID day).contains user.ID)).map (·.ID)

/-- Lines 32-41 of `randomInitChromosome`: the submitters available at the
(shift, day), the chosen principal left out. -/
def assistantCandidates (s : Scheduler) (shiftID day : Int) (principalID : Option Int) :
    List Int :=
  (s.users.filter (fun user =>
    (s.availableMap shiftID day).contains user.ID && !(principalID == some user.ID))).map (·.ID)

/-- Lines 27-29 of `randomInitChromosome`: a principal drawn among the
candidates, `nil` when there is none. -/
def pickPrincipal (principalCandidatesIDs : List Int) (r : Rand) : Option Int × Rand :=
  if principalCandidatesIDs.length > 0 then
    (some (principalCandidatesIDs.getD (r.Intn principalCandidatesIDs.length).1 0),
      (r.Intn principalCandidatesIDs.length).2)
  else (none, r)

/-- The body of the inner loop of `randomInitChromosome` (lines 16-64): the gene
of one (shift, day).  `none` is the panic of the slice expression of line 49
when `chosenNum` is negative. -/
def randomInitGene (s : Scheduler) (shift : ScheduleTemplateShift) (day : Int) (r : Rand) :
    Option (Gene × Rand) :=
  let pick := pickPrincipal (principalCandidates s shift.ID day) r
  let assistantCandidatesIDs := assistantCandidates s shift.ID day pick.1
  let chosenNum : Int :=
    min (wrapInt32 (shift.RequiredAssistantNumber - 1)) (assistantCandidatesIDs.length : Int)
  let shuffled := shuffle assistantCandidatesIDs pick.2
  if chosenNum < 0 then none
  else
    some ({ shiftID := shift.ID, day := day, principalID := pick.1,
            assistantIDs := shuffled.1.take chosenNum.toNat,
            requiredNum := shift.RequiredAssistantNumber,
            workDuration := workDurationOf shift }, shuffled.2)

/-- The loop over the applicable days of one shift (line 15). -/
def randomInitDays (s : Scheduler) (shift : ScheduleTemplateShift) :
    List Int → Rand → Option (List Gene × Rand)
  | [], r => some ([], r)
  | day :: days, r =>
    match randomInitGene s shift day r with
    | none => none
    | some (gene, r1) =>
      match randomInitDays s shift days r1 with
      | none => none
      | some (genes, r2) => some (gene :: genes, r2)

/-- The loop over the shifts (line 14). -/
def randomInitShifts (s : Scheduler) : List ScheduleTemplateShift → Rand → Option (List Gene × Rand)
  | [], r => some ([], r)
  | shift :: shifts, r =>
    match randomInitDays s shift shift.ApplicableDays r with
    | none => none
    | some (genes, r1) =>
      match randomInitShifts s shifts r1 with
      | none => none
      | some (more, r2) => some (genes ++ more, r2)

/-- Method `Scheduler.randomInitChromosome`; `none` is a panic.  The fitness
field of the new chromosome is the zero value. -/
def randomInitChromosome (s : Scheduler) (r : Rand) : Option (Chromosome × Rand) :=
  match randomInitShifts s s.shifts r with
  | none => none
  | some (genes, r1) => some ({ genes := genes, fitness := F64.val 0 }, r1)

/-- Lines 89-92 and 95-98 of `calcFitness`: `userWorkCnt[id] += workDuration`,
creating the entry at `0` first when it is absent.  The map is kept as the list
of its entries. -/
def addWork (userWorkCnt : List (Int × F64)) (id : Int) (workDuration : F64) :
    List (Int × F64) :=
  match userWorkCnt with
  | [] => [(id, F64.add (F64.val 0) workDuration)]
  | (k, v) :: rest =>
    if k = id then (k, F64.add v workDuration) :: rest
    else (k, v) :: addWork rest id workDuration

/-- The body of the loop of lines 86-100 for one gene. -/
def addGeneWork (userWorkCnt : List (Int × F64)) (gene : Gene) : List (Int × F64) :=
  let withPrincipal :=
    match gene.principalID with
    | none => userWorkCnt
    | some principalID => addWork userWorkCnt principalID gene.workDuration
  gene.assistantIDs.foldl (fun acc assistantID => addWork acc assistantID gene.workDuration)
    withPrincipal

/-- Lines 84-100 of `calcFitness`: the tally of hours per assigned user. -/
def workTally (genes : List Gene) : List (Int × F64) :=
  genes.foldl addGeneWork []

/-- Lines 102-126 of `calcFitness`: the fitness computed from the tally. -/
def fitnessOfTally (fairnessWeight : ℚ) (userWorkCnt : List (Int × F64)) : F64 :=
  let notWorkPenalty :=
    userWorkCnt.foldl (fun acc kv => if F64.eq kv.2 (F64.val 0) then F64.add acc (F64.val 1) else acc)
      (F64.val 0)
  let total := userWorkCnt.foldl (fun acc kv => F64.add acc kv.2) (F64.val 0)
  let avgWorkCnt := F64.div total (F64.ofNat userWorkCnt.length)
  let squares :=
    userWorkCnt.foldl
      (fun acc kv => F64.add acc (F64.mul (F64.sub kv.2 avgWorkCnt) (F64.sub kv.2 avgWorkCnt)))
      (F64.val 0)
  let variance := F64.div squares (F64.ofNat userWorkCnt.length)
  F64.sub (F64.neg notWorkPenalty) (F64.mul (F64.val fairnessWeight) variance)

/-- Method `Scheduler.calcFitness`, as the chromosome it leaves behind. -/
def calcFitness (s : Scheduler) (ch : Chromosome) : Chromosome :=
  { ch with fitness := fitnessOfTally s.parameters.FairnessWeight (workTally ch.genes) }

/-- The chromosomes allocated by a run of `Schedule`.  A `*Chromosome` is an
index into the store: the same chromosome can sit in several slots of a
population and is changed in place by crossover, mutation and `calcFitness`. -/
abbrev Store := List Chromosome

/-- The chromosome a `*Chromosome` points to. -/
def deref (store : Store) (p : Nat) : Chromosome :=
  store.getD p { genes := [], fitness := F64.val 0 }

/-- The loop of lines 138-143 of `selectByRoulette`; the accumulator is the
variable that holds the running sum. -/
def rouletteLoop (store : Store) (pick : F64) : F64 → List Nat → Option Nat
  | _, [] => none
  | running, p :: rest =>
    if F64.ge (F64.add running (deref store p).fitness) pick then some p
    else rouletteLoop store pick (F64.add running (deref store p).fitness) rest

/-- Method `Scheduler.selectByRoulette`.  The first component is `none` when
the fallback `pop[len(pop)-1]` panics on an empty population. -/
def selectByRoulette (store : Store) (pop : List Nat) (r : Rand) : Option Nat × Rand :=
  let sumFit := pop.foldl (fun acc p => F64.add acc (deref store p).fitness) (F64.val 0)
  let pick := F64.mul (F64.val r.Float64.1) sumFit
  match rouletteLoop store pick (F64.val 0) pop with
  | some p => (some p, r.Float64.2)
  | none => (pop.getLast?, r.Float64.2)

/-- Writes the genes of the chromosome behind a pointer. -/
def setGenes (store : Store) (p : Nat) (genes : List Gene) : Store :=
  store.set p { deref store p with genes := genes }

/-- Method `Scheduler.singlePointCrossover` on two pointers; `none` is the panic
of `rand.Intn(0)`.  Both new gene lists are computed from the genes before the
call, which is also what the swap loop does when the two pointers are equal. -/
def singlePointCrossover (store : Store) (p1 p2 : Nat) (r : Rand) : Option (Store × Rand) :=
  let genes1 := (deref store p1).genes
  let genes2 := (deref store p2).genes
  if genes1.length ≠ genes2.length then some (store, r)
  else if genes1.length = 0 then none
  else
    let point := (r.Intn genes1.length).1
    some (setGenes (setGenes store p1 (genes1.take point ++ genes2.drop point)) p2
            (genes2.take point ++ genes1.drop point), (r.Intn genes1.length).2)

/-- Lines 180-194 of `mutate`: the candidates for a new principal of a gene. -/
def mutatePrincipalCandidates (s : Scheduler) (gene : Gene) : List Int :=
  (s.users.filter (fun user =>
    isSeniorOrBlackCore user && (s.availableMap gene.shiftID gene.day).contains user.ID
      && !(gene.principalID == some user.ID)
      && !(gene.assistantIDs.contains user.ID))).map (·.ID)

/-- Lines 207-222 of `mutate`: the candidates for a new assistant of a gene. -/
def mutateAssistantCandidates (s : Scheduler) (gene : Gene) : List Int :=
  (s.users.filter (fun user =>
    (s.availableMap gene.shiftID gene.day).contains user.ID
      && !(gene.principalID == some user.ID)
      && !(gene.assistantIDs.contains user.ID))).map (·.ID)

/-- The loop over the assistant slots of a gene (lines 201-227).  The first
argument is the number of slots still to visit, the second is `j`. -/
def mutateSlots (s : Scheduler) : Nat → Nat → Gene → Rand → Gene × Rand
  | 0, _, gene, r => (gene, r)
  | n + 1, j, gene, r =>
    if r.Float64.1 > s.parameters.MutationRate then
      mutateSlots s n (j + 1) gene r.Float64.2
    else
      let assistantCandidatesIDs := mutateAssistantCandidates s gene
      if assistantCandidatesIDs.length > 0 then
        mutateSlots s n (j + 1)
          { gene with assistantIDs := (gene.assistantIDs.set j
              (assistantCandidatesIDs.getD (r.Float64.2.Intn assistantCandidatesIDs.length).1 0)) }
          (r.Float64.2.Intn assistantCandidatesIDs.length).2
      else
        mutateSlots s n (j + 1) gene r.Float64.2

/-- The body of the loop of `mutate` for one gene (lines 175-227).  When the
first draw exceeds the mutation rate the `continue` of line 177 leaves the whole
gene, its assistants included, untouched. -/
def mutateGene (s : Scheduler) (gene : Gene) (r : Rand) : Gene × Rand :=
  if r.Float64.1 > s.parameters.MutationRate then (gene, r.Float64.2)
  else
    let principalCandidatesIDs := mutatePrincipalCandidates s gene
    let withPrincipal : Gene × Rand :=
      if principalCandidatesIDs.length > 0 then
        ({ gene with principalID := (some (principalCandidatesIDs.getD
              (r.Float64.2.Intn principalCandidatesIDs.length).1 0)) },
          (r.Float64.2.Intn principalCandidatesIDs.length).2)
      else (gene, r.Float64.2)
    mutateSlots s withPrincipal.1.assistantIDs.length 0 withPrincipal.1 withPrincipal.2

/-- The loop of `mutate` over the genes of a chromosome. -/
def mutateGenes (s : Scheduler) : List Gene → Rand → List Gene × Rand
  | [], r => ([], r)
  | gene :: genes, r =>
    ((mutateGene s gene r).1 :: (mutateGenes s genes (mutateGene s gene r).2).1,
      (mutateGenes s genes (mutateGene s gene r).2).2)

/-- Method `Scheduler.mutate` on a pointer. -/
def mutate (s : Scheduler) (store : Store) (p : Nat) (r : Rand) : Store × Rand :=
  (setGenes store p (mutateGenes s (deref store p).genes r).1,
    (mutateGenes s (deref store p).genes r).2)

/-! ## internal/scheduler/scheduler.go: `Schedule` -/

/-- Lines 73-77 of `Schedule`: the initial population.  The chromosomes are
allocated in order, so slot `i` of the population points to entry `i` of the
store.  `none` is a panic of `randomInitChromosome`. -/
def initPopulation (s : Scheduler) : Nat → Store → Rand → Option (Store × Rand)
  | 0, store, r => some (store, r)
  | n + 1, store, r =>
    match randomInitChromosome s r with
    | none => none
    | some (ch, r1) => initPopulation s n (store ++ [calcFitness s ch]) r1

/-- The loop of lines 90-95: the arguments are the slots from `i` on, `i`,
`genBestFit` and `genBestIndex`. -/
def bestIndexLoop (store : Store) : List Nat → Nat → F64 → Nat → F64 × Nat
  | [], _, genBestFit, genBestIndex => (genBestFit, genBestIndex)
  | p :: rest, i, genBestFit, genBestIndex =>
    if F64.gt (deref store p).fitness genBestFit then
      bestIndexLoop store rest (i + 1) (deref store p).fitness i
    else
      bestIndexLoop store rest (i + 1) genBestFit genBestIndex

/-- The inner loop of an insertion sort with the `less` of line 119: the new
slot moves left while its fitness is greater than that of its left neighbour.
The sorted part is given from right to left. -/
def insertLeft (store : Store) (p : Nat) : List Nat → List Nat
  | [] => [p]
  | q :: rest =>
    if F64.gt (deref store p).fitness (deref store q).fitness then q :: insertLeft store p rest
    else p :: q :: rest

/-- The call `sort.Slice(pop, less)` of lines 118-120, as the insertion sort
that `sort.Slice` runs on slices of at most 12 elements.  On longer slices
`sort.Slice` runs a different, also unstable, sort by the same `less`. -/
def sortPop (store : Store) (pop : List Nat) : List Nat :=
  (pop.foldl (fun sortedRev p => insertLeft store p sortedRev) []).reverse

/-- Lines 126-134: two parents are selected, crossed with the crossover
probability and mutated.  `none` is a panic. -/
def breedPair (s : Scheduler) (store : Store) (pop : List Nat) (r : Rand) :
    Option (Store × Nat × Nat × Rand) :=
  match selectByRoulette store pop r with
  | (none, _) => none
  | (some p1, r1) =>
    match selectByRoulette store pop r1 with
    | (none, _) => none
    | (some p2, r2) =>
      let crossed : Option (Store × Rand) :=
        if r2.Float64.1 < s.parameters.CrossoverRate then
          singlePointCrossover store p1 p2 r2.Float64.2
        else some (store, r2.Float64.2)
      match crossed with
      | none => none
      | some (store1, r3) =>
        some ((mutate s (mutate s store1 p1 r3).1 p2 (mutate s store1 p1 r3).2).1, p1, p2,
          (mutate s (mutate s store1 p1 r3).1 p2 (mutate s store1 p1 r3).2).2)

/-- The loop of lines 124-141.  The first argument is the number of slots of
the next population still empty, `PopulationSize - len(newPop)`. -/
def breed (s : Scheduler) : Nat → Store → List Nat → List Nat → Rand →
    Option (Store × List Nat × Rand)
  | 0, store, _, newPop, r => some (store, newPop, r)
  | 1, store, pop, newPop, r =>
    match breedPair s store pop r with
    | none => none
    | some (store1, p1, _, r1) => some (store1, newPop ++ [p1], r1)
  | n + 2, store, pop, newPop, r =>
    match breedPair s store pop r with
    | none => none
    | some (store1, p1, p2, r1) => breed s n store1 pop (newPop ++ [p1, p2]) r1

/-- The loop of lines 143-146, the store part: `calcFitness` on every slot of
the new population in order. -/
def recalcFitness (s : Scheduler) (store : Store) (pop : List Nat) : Store :=
  pop.foldl (fun st p => st.set p (calcFitness s (deref st p))) store

/-- The state of the loop over the generations: the store, the population, the
best chromosome so far (an object of its own, never in the population) and the
random source. -/
structure GAState where
  store : Store
  pop : List Nat
  best : Chromosome
  rand : Rand

/-- One generation (lines 86-146); `none` is a panic. -/
def generation (s : Scheduler) (st : GAState) : Option GAState :=
  match st.pop with
  | [] => none
  | p0 :: rest =>
    let found := bestIndexLoop st.store rest 1 (deref st.store p0).fitness 0
    let best : Chromosome :=
      if F64.gt found.1 st.best.fitness then
        { genes := (deref st.store (st.pop.getD found.2 0)).genes, fitness := found.1 }
      else st.best
    let sorted := sortPop st.store st.pop
    if s.parameters.EliteCount < 0 ∨ s.parameters.PopulationSize < s.parameters.EliteCount then none
    else
      let elite := sorted.take s.parameters.EliteCount.toNat
      match breed s (s.parameters.PopulationSize.toNat - elite.length) st.store sorted elite
          st.rand with
      | none => none
      | some (store1, newPop, r1) =>
        let pop1 := newPop.take s.parameters.PopulationSize.toNat
        some { store := recalcFitness s store1 pop1, pop := pop1, best := best, rand := r1 }

/-- The loop over the generations (line 85). -/
def generations (s : Scheduler) : Nat → GAState → Option GAState
  | 0, st => some st
  | n + 1, st =>
    match generation s st with
    | none => none
    | some st1 => generations s n st1

/-- Lines 156-160: the result item of a gene. -/
def geneItem (gene : Gene) : SchedulingResultShiftItem :=
  ⟨gene.day, gene.principalID, gene.assistantIDs⟩

/-- Lines 153-160: the item of a gene is appended to the entry of its shift in
`resultMap`, which is created when absent.  The map is kept as the list of its
entries in the order of creation. -/
def addResultItem (resultMap : List (Int × List SchedulingResultShiftItem)) (gene : Gene) :
    List (Int × List SchedulingResultShiftItem) :=
  match resultMap with
  | [] => [(gene.shiftID, [geneItem gene])]
  | (shiftID, items) :: rest =>
    if shiftID = gene.shiftID then (shiftID, items ++ [geneItem gene]) :: rest
    else (shiftID, items) :: addResultItem rest gene

/-- Lines 150-168: the result built from the genes of the best chromosome.  Go
ranges over `resultMap` in an unspecified order; the shifts are given here in
the order in which their entries were created. -/
def buildResult (genes : List Gene) : List SchedulingResultShift :=
  (genes.foldl addResultItem []).map (fun entry => ⟨entry.1, entry.2⟩)

/-- What a call can end with: a value, a returned error, or a panic. -/
inductive Outcome (α : Type) where
  | ok (value : α)
  | error (err : GoError)
  | panic
  deriving DecidableEq

/-- Method `Scheduler.Schedule`. -/
def Schedule (s : Scheduler) (r : Rand) : Outcome (List SchedulingResultShift) :=
  if s.parameters.PopulationSize < 0 then .panic
  else
    match initPopulation s s.parameters.PopulationSize.toNat [] r with
    | none => .panic
    | some (store, r1) =>
      match generations s s.parameters.MaxGenerations.toNat
          { store := store, pop := List.range s.parameters.PopulationSize.toNat,
            best := { genes := [], fitness := F64.neg F64.maxFloat64 }, rand := r1 } with
      | none => .panic
      | some st =>
        let result := buildResult st.best.genes
        match ValidateSchedulingResultWithSubmissions ⟨result⟩ s.submissions with
        | some err => .error err
        | none =>
          match ValidIfExistsDuplicateAssistant ⟨result⟩ with
          | some err => .error err
          | none => .ok result

/-! ## Statements and inputs the theorems refer to -/

/-- Template consistency of a result as the specification words it (V2): the
shift counts agree, and every result shift has some template shift with its ID
all of whose applicable days appear among the items, with no item on another
day and no item whose assistants plus one exceed the required number. -/
def TemplateConsistent (result : SchedulingResult) (template : ScheduleTemplate) : Prop :=
  result.Shifts.length = template.Shifts.length ∧
  ∀ resultShift ∈ result.Shifts, ∃ templateShift ∈ template.Shifts,
    templateShift.ID = resultShift.ShiftID ∧
    (∀ day ∈ templateShift.ApplicableDays, ∃ item ∈ resultShift.Items, item.Day = day) ∧
    (∀ item ∈ resultShift.Items, item.Day ∈ templateShift.ApplicableDays ∧
      (item.AssistantIDs.length : Int) + 1 ≤ templateShift.RequiredAssistantNumber)

/-- A template in which two shifts carry the ID 1: the first on day 1 with one
assistant required, the second on no day. -/
def repeatedIDTemplate : ScheduleTemplate :=
  ⟨[⟨1, "09:00:00", "10:00:00", 1, [1]⟩, ⟨1, "10:00:00", "11:00:00", 1, []⟩]⟩

/-- A template of two shifts, 1 and 2, each on day 1. -/
def twoShiftTemplate : ScheduleTemplate :=
  ⟨[⟨1, "09:00:00", "10:00:00", 1, [1]⟩, ⟨2, "10:00:00", "11:00:00", 1, [1]⟩]⟩

/-- A result with two entries, both for shift 1, each with an empty item on
day 1. -/
def repeatedShiftResult : SchedulingResult :=
  ⟨[⟨1, [⟨1, none, []⟩]⟩, ⟨1, [⟨1, none, []⟩]⟩]⟩

/-- The submissions of one user, 7, who is free for shift 1 on day 1 only. -/
def dayOneSubmissions : List AvailabilitySubmission :=
  [⟨7, [⟨1, [1]⟩]⟩]

/-- A result that makes user 7 the principal of shift 1 on day 2. -/
def dayTwoPrincipalResult : SchedulingResult :=
  ⟨[⟨1, [⟨2, some 7, []⟩]⟩]⟩

/-- A result that makes user 7 an assistant of shift 1 on day 2. -/
def dayTwoAssistantResult : SchedulingResult :=
  ⟨[⟨1, [⟨2, none, [7]⟩]⟩]⟩

/-- The (shift, day) cells of a list of template shifts in the order in which
`randomInitChromosome` visits them. -/
def cells : List ScheduleTemplateShift → List (ScheduleTemplateShift × Int)
  | [] => []
  | shift :: rest => shift.ApplicableDays.map (fun day => (shift, day)) ++ cells rest

/-- The gene invariant at a cell: the gene carries the cell's shift ID, day and
required number; its principal is absent exactly when the cell has no candidate
for principal, and otherwise is one of the candidates; its assistants are
available at the cell, pairwise distinct and different from the principal; and,
when the required number is an `int32` above the least one, the assistants plus
one do not exceed it. -/
def GeneOK (s : Scheduler) (cell : ScheduleTemplateShift × Int) (g : Gene) : Prop :=
  g.shiftID = cell.1.ID ∧ g.day = cell.2 ∧ g.requiredNum = cell.1.RequiredAssistantNumber ∧
  (g.principalID = none ↔ principalCandidates s cell.1.ID cell.2 = []) ∧
  (∀ p, g.principalID = some p → p ∈ principalCandidates s cell.1.ID cell.2) ∧
  (∀ a ∈ g.assistantIDs, a ∈ s.availableMap cell.1.ID cell.2) ∧
  g.assistantIDs.Nodup ∧
  (∀ p, g.principalID = some p → p ∉ g.assistantIDs) ∧
  (-2 ^ 31 < cell.1.RequiredAssistantNumber ∧ cell.1.RequiredAssistantNumber < 2 ^ 31 →
    (g.assistantIDs.length : Int) + 1 ≤ cell.1.RequiredAssistantNumber)

/-- The chromosome invariant: one gene per cell of the scheduler's shifts, in
order, each satisfying the gene invariant at its cell. -/
def ChromOK (s : Scheduler) (genes : List Gene) : Prop :=
  List.Forall₂ (GeneOK s) (cells s.shifts) genes

/-- The users that `New` keeps in the scheduler: for every submission in order,
the first element of `users` with the submission's `userID`. -/
def submitters (users : List User) (submissions : List AvailabilitySubmission) : List User :=
  submissions.filterMap (fun submission => findUser users submission.UserID)

/-- Every chromosome of the store satisfies the chromosome invariant. -/
def StoreOK (s : Scheduler) (store : Store) : Prop :=
  ∀ ch ∈ store, ChromOK s ch.genes

/-- Every slot of the population points into the store. -/
def PopValid (store : Store) (pop : List Nat) : Prop :=
  ∀ p ∈ pop, p < store.length

/-- The invariant of the loop over the generations: the store and the
population are sound, and the best chromosome so far either still has the `nil`
genes it starts with or satisfies the chromosome invariant. -/
def GAInv (s : Scheduler) (st : GAState) : Prop :=
  StoreOK s st.store ∧ PopValid st.store st.pop ∧
    (st.best.genes = [] ∨ ChromOK s st.best.genes)

/-- A template of one shift, 1, from 09:00 to 11:00 on day 1, with two
assistants required. -/
def oneCellTemplate : ScheduleTemplate :=
  ⟨[⟨1, "09:00:00", "11:00:00", 2, [1]⟩]⟩

/-- Two users: 10 is a senior assistant, 11 a normal assistant. -/
def twoUsers : List User :=
  [⟨10, RoleSeniorAssistant⟩, ⟨11, RoleNormalAssistant⟩]

/-- Both users are free for shift 1 on day 1. -/
def twoSubmissions : List AvailabilitySubmission :=
  [⟨10, [⟨1, [1]⟩]⟩, ⟨11, [⟨1, [1]⟩]⟩]

/-- The smallest parameters the generate request accepts: one chromosome, one
generation, the chromosome kept as elite. -/
def smallParameters : Parameters :=
  ⟨1, 1, 1 / 2, 1 / 2, 1, 1⟩

/-- The random source that yields `0` at every draw. -/
def zeroRand : Rand :=
  ⟨fun _ => 0, 0⟩

/-- The scheduler that `New` builds from the two users and their submissions
on the one-cell template. -/
def twoUserScheduler : Scheduler :=
  ⟨smallParameters, twoUsers, oneCellTemplate.Shifts, twoSubmissions,
    addItems (addItems (fun _ _ => []) 10 [⟨1, [1]⟩]) 11 [⟨1, [1]⟩]⟩

/-- The scheduler that `New` builds on the one-cell template when nobody has
submitted. -/
def emptyScheduler : Scheduler :=
  ⟨smallParameters, [], oneCellTemplate.Shifts, [], fun _ _ => []⟩

/-- A template of two shifts: shift 1 on day 1, and shift 2 on no day. -/
def idleShiftTemplate : ScheduleTemplate :=
  ⟨[⟨1, "09:00:00", "11:00:00", 2, [1]⟩, ⟨2, "14:00:00", "16:00:00", 2, []⟩]⟩

/-- The scheduler that `New` builds from the two users and their submissions
on the template with an idle shift. -/
def idleShiftScheduler : Scheduler :=
  ⟨smallParameters, twoUsers, idleShiftTemplate.Shifts, twoSubmissions,
    addItems (addItems (fun _ _ => []) 10 [⟨1, [1]⟩]) 11 [⟨1, [1]⟩]⟩

/-! ## internal/utils/validation.go: the template time check, the plan time check and the check of a submission -/

/-- The first loop of `ValidateScheduleTemplateShiftTime` (lines 14-26): both
times of every shift must parse and the end must not be before the start.  The
argument `id` is the index of the first shift of the list. -/
def checkShiftTimes (id : Nat) : List ScheduleTemplateShift → Option GoError
  | [] => none
  | shift :: rest =>
    match parseClock shift.StartTime with
    | none => some ⟨"班次 %d 的开始时间格式错误", [.int id]⟩
    | some startTime =>
      match parseClock shift.EndTime with
      | none => some ⟨"班次 %d 的结束时间格式错误", [.int id]⟩
      | some endTime =>
        if endTime < startTime then some ⟨"班次 %d 的结束时间不能小于开始时间", [.int id]⟩
        else checkShiftTimes (id + 1) rest

/-- The inner loop of the second part (lines 33-40): shift `i` against the
shifts from index `j` on.  The times are parsed again with the errors
dropped. -/
def checkConflictsWith (i : Nat) (shiftI : ScheduleTemplateShift) :
    Nat → List ScheduleTemplateShift → Option GoError
  | _, [] => none
  | j, shiftJ :: rest =>
    let iStartTime := parseClockOrZero shiftI.StartTime
    let iEndTime := parseClockOrZero shiftI.EndTime
    let jStartTime := parseClockOrZero shiftJ.StartTime
    let jEndTime := parseClockOrZero shiftJ.EndTime
    if !(decide (iEndTime < jStartTime) || decide (jStartTime = iEndTime)
        || decide (jEndTime < iStartTime) || decide (iStartTime = jEndTime)) then
      some ⟨"班次 %d 和班次 %d 之间的时间冲突", [.int i, .int j]⟩
    else checkConflictsWith i shiftI (j + 1) rest

/-- The outer loop of the second part (lines 29-41); `i` is the index of the
first shift of the list. -/
def checkConflicts (i : Nat) : List ScheduleTemplateShift → Option GoError
  | [] => none
  | shiftI :: rest =>
    match checkConflictsWith i shiftI (i + 1) rest with
    | some err => some err
    | none => checkConflicts (i + 1) rest

/-- Function `utils.ValidateScheduleTemplateShiftTime`. -/
def ValidateScheduleTemplateShiftTime (st : ScheduleTemplate) : Option GoError :=
  match checkShiftTimes 0 st.Shifts with
  | some err => some err
  | none => checkConflicts 0 st.Shifts

/-- Struct `domain.SchedulePlan`, with the four `time.Time` fields the time
check reads.  A `time.Time` is the instant it denotes, counted in nanoseconds;
`After` and `Before` compare instants. -/
structure SchedulePlan where
  SubmissionStartTime : Int
  SubmissionEndTime : Int
  ActiveStartTime : Int
  ActiveEndTime : Int
  deriving DecidableEq, Repr

/-- Function `utils.ValidateSchedulePlanTime`. -/
def ValidateSchedulePlanTime (plan : SchedulePlan) : Option GoError :=
  if plan.SubmissionEndTime < plan.SubmissionStartTime then
    some ⟨"提交开始时间不能晚于提交结束时间", []⟩
  else if plan.ActiveEndTime < plan.ActiveStartTime then
    some ⟨"生效开始时间不能晚于生效结束时间", []⟩
  else if plan.ActiveStartTime < plan.SubmissionEndTime then
    some ⟨"生效开始时间不能早于提交结束时间", []⟩
  else none

/-- Lines 71-78 of `ValidateSubmissionWithTemplate`: the flag `containAllDays`
after the loop over the days of the item. -/
def containAllDays (shift : ScheduleTemplateShift) : List Int → Bool
  | [] => true
  | day :: days => if !shift.ApplicableDays.contains day then false else containAllDays shift days

/-- Lines 69-85: the flag `isValid` after the loop over the template shifts. -/
def itemIsValid (item : AvailabilitySubmissionItem) : List ScheduleTemplateShift → Bool
  | [] => false
  | shift :: shifts =>
    if shift.ID = item.ShiftID then
      if containAllDays shift item.Days then true else itemIsValid item shifts
    else itemIsValid item shifts

/-- The loop over the items of the submission (lines 66-90); `i` is the index
of the first item of the list. -/
def checkSubmissionItemsWithTemplate (template : ScheduleTemplate) (i : Nat) :
    List AvailabilitySubmissionItem → Option GoError
  | [] => none
  | item :: rest =>
    if !itemIsValid item template.Shifts then
      some ⟨"第 %d 项不符合模板中的班次", [.int ((i : Int) + 1)]⟩
    else checkSubmissionItemsWithTemplate template (i + 1) rest

/-- Function `utils.ValidateSubmissionWithTemplate`. -/
def ValidateSubmissionWithTemplate (submission : AvailabilitySubmission)
    (template : ScheduleTemplate) : Option GoError :=
  if template.Shifts.length ≠ submission.Items.length then
    some ⟨"提交的空闲时间中的班次数量和模板中的班次数量不匹配", []⟩
  else checkSubmissionItemsWithTemplate template 0 submission.Items

/-! ## internal/handler/schedule_plans.go: `GenerateSchedulingResult` -/

/-- The call `h.validate.Struct(req)` of lines 361-364 on the request body of
lines 348-355, read from the `validate` tags: `required` rejects the zero value
of the field, `min` and `max` bound a number.  No tag relates `eliteCount` to
`populationSize`. -/
def generateRequestValid (req : Parameters) : Bool :=
  decide (req.PopulationSize ≠ 0) && decide (1 ≤ req.PopulationSize)
    && decide (req.MaxGenerations ≠ 0) && decide (1 ≤ req.MaxGenerations)
    && decide (req.CrossoverRate ≠ 0) && decide (0 ≤ req.CrossoverRate)
    && decide (req.CrossoverRate ≤ 1)
    && decide (req.MutationRate ≠ 0) && decide (0 ≤ req.MutationRate)
    && decide (req.MutationRate ≤ 1)
    && decide (req.EliteCount ≠ 0) && decide (0 ≤ req.EliteCount)
    && decide (req.FairnessWeight ≠ 0) && decide (0 ≤ req.FairnessWeight)

/-- What `GenerateSchedulingResult` answers, or the panic it ends in. -/
inductive Response where
  | badRequest
  | internalServerError (err : GoError)
  | success (res : List SchedulingResultShift)
  | panic
  deriving DecidableEq

/-- Handler `GenerateSchedulingResult` (lines 344-411) from the decoded request
on: the request is validated, the parameters are built from it, and `New` and
`Schedule` are run on the template, the submissions and the users read from the
repository (the three reads are taken to succeed). -/
def GenerateSchedulingResult (req : Parameters) (template : ScheduleTemplate)
    (submissions : List AvailabilitySubmission) (users : List User) (r : Rand) : Response :=
  if !generateRequestValid req then .badRequest
  else
    match New req users template submissions with
    | .error err => .internalServerError err
    | .ok scheduler =>
      match Schedule scheduler r with
      | .panic => .panic
      | .error err => .internalServerError err
      | .ok res => .success res

/-- A template whose one shift starts and ends at 09:00:00. -/
def zeroLengthTemplate : ScheduleTemplate :=
  ⟨[⟨1, "09:00:00", "09:00:00", 1, [1]⟩]⟩

/-- A request whose `eliteCount`, 2, exceeds its `populationSize`, 1. -/
def eliteRequest : Parameters :=
  ⟨1, 1, 1 / 2, 1 / 2, 2, 1⟩

/-- A template whose one shift has no applicable day, so that it has no
(shift, day) cell. -/
def noCellTemplate : ScheduleTemplate :=
  ⟨[⟨1, "09:00:00", "11:00:00", 1, []⟩]⟩

/-- The submissions of the two users on the template without cells: the shift,
on no day. -/
def noDaySubmissions : List AvailabilitySubmission :=
  [⟨10, [⟨1, []⟩]⟩, ⟨11, [⟨1, []⟩]⟩]

/-- A request with two chromosomes, one of them elite, and the crossover rate
1. -/
def crossRequest : Parameters :=
  ⟨2, 1, 1, 1 / 2, 1, 1⟩

/-- Three users: 10 is a senior assistant, 11 and 12 are normal assistants. -/
def threeUsers : List User :=
  [⟨10, RoleSeniorAssistant⟩, ⟨11, RoleNormalAssistant⟩, ⟨12, RoleNormalAssistant⟩]

/-- All three users are free for shift 1 on day 1. -/
def threeSubmissions : List AvailabilitySubmission :=
  [⟨10, [⟨1, [1]⟩]⟩, ⟨11, [⟨1, [1]⟩]⟩, ⟨12, [⟨1, [1]⟩]⟩]

/-- A request with two chromosomes, one of them elite, and both rates 1/2. -/
def pairRequest : Parameters :=
  ⟨2, 1, 1 / 2, 1 / 2, 1, 1⟩

/-- The scheduler that `New` builds from the three users and their submissions
on the one-cell template. -/
def threeUserScheduler : Scheduler :=
  ⟨pairRequest, threeUsers, oneCellTemplate.Shifts, threeSubmissions,
    addItems (addItems (addItems (fun _ _ => []) 10 [⟨1, [1]⟩]) 11 [⟨1, [1]⟩]) 12 [⟨1, [1]⟩]⟩

/-- A random source whose draws are all `0`, except draw 11, which is the
largest raw value below `2^53`: as a `Float64` it is above every rate below 1. -/
def skipRand : Rand :=
  ⟨fun n => if n = 11 then 2 ^ 53 - 1 else 0, 0⟩

/-- The state in which `Schedule` enters the loop over the generations (lines
73-83); `none` is a panic of the initialisation. -/
def initialState (s : Scheduler) (r : Rand) : Option GAState :=
  match initPopulation s s.parameters.PopulationSize.toNat [] r with
  | none => none
  | some (store, r1) =>
    some { store := store, pop := List.range s.parameters.PopulationSize.toNat,
           best := { genes := [], fitness := F64.neg F64.maxFloat64 }, rand := r1 }

/-- The states at the start of each of the next `n` generations, as far as the
run gets without a panic. -/
def generationStarts (s : Scheduler) : Nat → GAState → List GAState
  | 0, _ => []
  | n + 1, st =>
    st :: (match generation s st with
      | none => []
      | some st1 => generationStarts s n st1)

/-- What the initialisation is to produce for a cell, in the words of the
specification: with `P` the senior or black-core users of the scheduler
available at the cell, the principal is absent if `P` is empty and otherwise is
a member of `P`; with `H` the users of the scheduler available at the cell other
than the principal, the assistants are exactly `min(required - 1, |H|)`
pairwise distinct members of `H`. -/
def InitGeneSpec (s : Scheduler) (cell : ScheduleTemplateShift × Int) (g : Gene) : Prop :=
  let P := s.users.filter (fun u =>
    isSeniorOrBlackCore u && decide (u.ID ∈ s.availableMap cell.1.ID cell.2))
  let H := s.users.filter (fun u =>
    decide (u.ID ∈ s.availableMap cell.1.ID cell.2) && decide (g.principalID ≠ some u.ID))
  g.shiftID = cell.1.ID ∧ g.day = cell.2 ∧
  (P = [] → g.principalID = none) ∧
  (P ≠ [] → ∃ u ∈ P, g.principalID = some u.ID) ∧
  (g.assistantIDs.length : Int) = min (cell.1.RequiredAssistantNumber - 1) (H.length : Int) ∧
  (∀ a ∈ g.assistantIDs, ∃ u ∈ H, u.ID = a) ∧
  g.assistantIDs.Nodup

/-- The gene invariant that mutation is to keep, at the gene's own shift and
day: a principal that is present is a senior or black-core user of the
scheduler available there and is not among the assistants, and the assistants
are pairwise distinct and all available there. -/
def GeneInvariant (s : Scheduler) (g : Gene) : Prop :=
  (∀ p, g.principalID = some p →
    (∃ u ∈ s.users, u.ID = p ∧ isSeniorOrBlackCore u = true ∧
      p ∈ s.availableMap g.shiftID g.day) ∧ p ∉ g.assistantIDs) ∧
  g.assistantIDs.Nodup ∧
  ∀ a ∈ g.assistantIDs, a ∈ s.availableMap g.shiftID g.day

/-- Every member of the population of a state has a fitness that is a number
above `-math.MaxFloat64`, the value the fitness of the best chromosome starts
at. -/
def Ordinary (st : GAState) : Prop :=
  ∀ p ∈ st.pop, F64.gt (deref st.store p).fitness (F64.neg F64.maxFloat64) = true

/-- The check of `Ordinary` as a computation. -/
def ordinaryCheck (st : GAState) : Bool :=
  st.pop.all (fun p => F64.gt (deref st.store p).fitness (F64.neg F64.maxFloat64))

/-- A chromosome is the best of the given generation starts: it has the genes
and the fitness that some member of the population had at one of the starts,
and that fitness is at least the fitness of every member at every start. -/
def BestOf (starts : List GAState) (best : Chromosome) : Prop :=
  ∃ st ∈ starts, ∃ p ∈ st.pop,
    best.genes = (deref st.store p).genes ∧ best.fitness = (deref st.store p).fitness ∧
    ∀ st1 ∈ starts, ∀ p1 ∈ st1.pop,
      F64.ge best.fitness (deref st1.store p1).fitness = true

/-- A template of two shifts on day 1: shift 1 of one hour and shift 2 of
three hours, each with one assistant required. -/
def unevenTemplate : ScheduleTemplate :=
  ⟨[⟨1, "09:00:00", "10:00:00", 1, [1]⟩, ⟨2, "10:00:00", "13:00:00", 1, [1]⟩]⟩

/-- Two senior assistants, 10 and 11. -/
def seniorUsers : List User :=
  [⟨10, RoleSeniorAssistant⟩, ⟨11, RoleSeniorAssistant⟩]

/-- User 10 is free for shift 1 and user 11 for shift 2, both on day 1. -/
def unevenSubmissions : List AvailabilitySubmission :=
  [⟨10, [⟨1, [1]⟩, ⟨2, []⟩]⟩, ⟨11, [⟨1, []⟩, ⟨2, [1]⟩]⟩]

/-- The smallest request, with the fairness weight `math.MaxFloat64`. -/
def heavyRequest : Parameters :=
  ⟨1, 1, 1 / 2, 1 / 2, 1, ((2 ^ 1024 - 2 ^ 971 : Nat) : ℚ)⟩

/-- The scheduler that `New` builds from the heavy request, the two senior
users and their submissions on the uneven template. -/
def unevenScheduler : Scheduler :=
  ⟨heavyRequest, seniorUsers, unevenTemplate.Shifts, unevenSubmissions,
    addItems (addItems (fun _ _ => []) 10 [⟨1, [1]⟩, ⟨2, []⟩]) 11 [⟨1, []⟩, ⟨2, [1]⟩]⟩

/-- The number of times the submissions declare the user `u` free for the shift
`s` on the day `d`: one for every submission of the user, every item of it for
the shift and every occurrence of the day among the days of the item. -/
def declaredCount (submissions : List AvailabilitySubmission) (s d u : Int) : Nat :=
  ((submissions.filter (fun submission => submission.UserID = u)).map (fun submission =>
    ((submission.Items.filter (fun item => item.ShiftID = s)).map
      (fun item => item.Days.count d)).sum)).sum

/-- Feasibility of a result by an availability index: for every item of the
result, the principal, when present, and every assistant occur in the index at
the item's shift and day. -/
def FeasibleByIndex (m : AvailableMap) (result : SchedulingResult) : Prop :=
  ∀ shift ∈ result.Shifts, ∀ item ∈ shift.Items,
    (∀ p, item.PrincipalID = some p → p ∈ m shift.ShiftID item.Day) ∧
    ∀ a ∈ item.AssistantIDs, a ∈ m shift.ShiftID item.Day

/-- A store of two chromosomes, both with the fitness `-1`. -/
def minusOneStore : Store :=
  [⟨[], F64.val (-1)⟩, ⟨[], F64.val (-1)⟩]

/-- A random source whose first `Float64` is `3/4`. -/
def threeQuarterRand : Rand :=
  ⟨fun _ => 3 * 2 ^ 51, 0⟩

/-- A random source whose first draw is the largest raw value below `2^53`, a
`Float64` above every rate below 1, and whose later draws are all `0`. -/
def gateRand : Rand :=
  ⟨fun n => if n = 0 then 2 ^ 53 - 1 else 0, 0⟩

/-- A store of one chromosome on the one-cell template: user 10 is the
principal and user 12 the assistant of shift 1 on day 1. -/
def oneGeneStore : Store :=
  [⟨[⟨1, 1, some 10, [12], 2, F64.val 2⟩], F64.val 0⟩]

/-- One iteration of the loop of lines 166-168 of `singlePointCrossover`:
`ch1.genes[i], ch2.genes[i] = ch2.genes[i], ch1.genes[i]`.  Both right-hand
sides are read first; then slot `i` of the first chromosome is written, then
slot `i` of the second. -/
def swapGenesAt (store : Store) (p1 p2 i : Nat) : Store :=
  let gene1 := (deref store p1).genes.getD i ⟨0, 0, none, [], 0, F64.val 0⟩
  let gene2 := (deref store p2).genes.getD i ⟨0, 0, none, [], 0, F64.val 0⟩
  let store1 := setGenes store p1 ((deref store p1).genes.set i gene2)
  setGenes store1 p2 ((deref store1 p2).genes.set i gene1)

/-- The loop of lines 166-168: the first argument is the number of iterations
left, `length - i`, the second is `i`. -/
def swapGenesLoop (p1 p2 : Nat) : Nat → Nat → Store → Store
  | 0, _, store => store
  | n + 1, i, store => swapGenesLoop p1 p2 n (i + 1) (swapGenesAt store p1 p2 i)

/-- Method `Scheduler.singlePointCrossover` with the swap loop run iteration by
iteration; `none` is the panic of `rand.Intn(0)`.  It agrees with
`singlePointCrossover` on every input. -/
def singlePointCrossoverSteps (store : Store) (p1 p2 : Nat) (r : Rand) : Option (Store × Rand) :=
  let length1 := (deref store p1).genes.length
  let length2 := (deref store p2).genes.length
  if length1 ≠ length2 then some (store, r)
  else if length1 = 0 then none
  else
    let point := (r.Intn length1).1
    some (swapGenesLoop p1 p2 (length1 - point) point store, (r.Intn length1).2)
/-- A store of two chromosomes of two genes each, on shifts 1 and 2 of day 1:
the first chromosome assigns user 10 to both cells, the second user 11. -/
def pairStore : Store :=
  [⟨[⟨1, 1, some 10, [], 1, F64.val 1⟩, ⟨2, 1, some 10, [], 1, F64.val 3⟩], F64.val 0⟩,
   ⟨[⟨1, 1, some 11, [], 1, F64.val 1⟩, ⟨2, 1, some 11, [], 1, F64.val 3⟩], F64.val 0⟩]

/-- Every chromosome of the store has one gene per (shift, day) cell of the
scheduler's shifts, in order, each satisfying `Q` at its cell. -/
def StoreCellwise (Q : ScheduleTemplateShift × Int → Gene → Prop) (s : Scheduler)
    (store : Store) : Prop :=
  ∀ ch ∈ store, List.Forall₂ Q (cells s.shifts) ch.genes

/-- The cell-wise invariant of the loop over the generations: the store is
cell-wise sound, the population points into it, and the best chromosome so far
either still has the `nil` genes it starts with or is cell-wise sound. -/
def CellInv (Q : ScheduleTemplateShift × Int → Gene → Prop) (s : Scheduler)
    (st : GAState) : Prop :=
  StoreCellwise Q s st.store ∧ PopValid st.store st.pop ∧
    (st.best.genes = [] ∨ List.Forall₂ Q (cells s.shifts) st.best.genes)

/-- The positional schema at a cell: the gene carries the shift ID, the day and
the required number of the cell. -/
def SchemaAt (cell : ScheduleTemplateShift × Int) (g : Gene) : Prop :=
  g.shiftID = cell.1.ID ∧ g.day = cell.2 ∧ g.requiredNum = cell.1.RequiredAssistantNumber

/-- The number `a` of submitters available at a cell: the users of the scheduler
whose ID occurs in the availability index at the cell's shift and day. -/
def availableCount (s : Scheduler) (cell : ScheduleTemplateShift × Int) : Nat :=
  (s.users.filter (fun u => decide (u.ID ∈ s.availableMap cell.1.ID cell.2))).length

/-- The number `e`: 1 if some senior or black-core submitter is available at the
cell, 0 otherwise. -/
def eligibleCount (s : Scheduler) (cell : ScheduleTemplateShift × Int) : Nat :=
  if s.users.any (fun u =>
      isSeniorOrBlackCore u && decide (u.ID ∈ s.availableMap cell.1.ID cell.2)) then 1
  else 0

/-- The number of assistants the input fixes for a cell,
`min(requiredAssistantNumber - 1, a - e)`. -/
def fixedAssistantCount (s : Scheduler) (cell : ScheduleTemplateShift × Int) : Int :=
  min (cell.1.RequiredAssistantNumber - 1)
    ((availableCount s cell : Int) - (eligibleCount s cell : Int))

/-- The gene sits at its cell and has the number of assistants the input fixes
for the cell. -/
def AssistantCountAt (s : Scheduler) (cell : ScheduleTemplateShift × Int) (g : Gene) : Prop :=
  SchemaAt cell g ∧ (g.assistantIDs.length : Int) = fixedAssistantCount s cell

/-- Lines 102-108 of `calcFitness`: the variable `notWorkPenalty` after the loop
over the tally, one for every entry whose hours equal 0. -/
def notWorkPenalty (userWorkCnt : List (Int × F64)) : F64 :=
  userWorkCnt.foldl (fun acc kv => if F64.eq kv.2 (F64.val 0) then F64.add acc (F64.val 1) else acc)
    (F64.val 0)

/-- Lines 110-122 of `calcFitness`: the variable `variance` after the loops over
the tally. -/
def varianceOfTally (userWorkCnt : List (Int × F64)) : F64 :=
  let total := userWorkCnt.foldl (fun acc kv => F64.add acc kv.2) (F64.val 0)
  let avgWorkCnt := F64.div total (F64.ofNat userWorkCnt.length)
  let squares :=
    userWorkCnt.foldl
      (fun acc kv => F64.add acc (F64.mul (F64.sub kv.2 avgWorkCnt) (F64.sub kv.2 avgWorkCnt)))
      (F64.val 0)
  F64.div squares (F64.ofNat userWorkCnt.length)

/-- The hours of a gene as a number; a not-a-number duration counts as 0. -/
def hoursOf (g : Gene) : ℚ :=
  match g.workDuration with
  | F64.val q => q
  | F64.nan => 0

/-- The total hours `W(u)` assigned to a user: the sum of the hours of the genes
in which the user is the principal or an assistant. -/
def assignedHours (genes : List Gene) (u : Int) : ℚ :=
  ((genes.filter (fun g => decide (g.principalID = some u) || decide (u ∈ g.assistantIDs))).map
    hoursOf).sum

/-- The idle penalty as the specification intends it: the number of submitters
whose total assigned hours are 0. -/
def idleSubmitters (s : Scheduler) (genes : List Gene) : Nat :=
  (s.users.filter (fun u => decide (assignedHours genes u.ID = 0))).length

/-- The population variance of a list of numbers: the mean of the squared
distances to the mean. -/
def populationVariance (xs : List ℚ) : ℚ :=
  ((xs.map (fun x => (x - xs.sum / xs.length) ^ 2)).sum) / xs.length

/-- A template of one shift, 1, from 09:00 to 11:00 on day 1, with one assistant
required: the principal alone. -/
def soloTemplate : ScheduleTemplate :=
  ⟨[⟨1, "09:00:00", "11:00:00", 1, [1]⟩]⟩

/-- The scheduler that `New` builds from the two users and their submissions
on the solo template. -/
def soloScheduler : Scheduler :=
  ⟨smallParameters, twoUsers, soloTemplate.Shifts, twoSubmissions,
    addItems (addItems (fun _ _ => []) 10 [⟨1, [1]⟩]) 11 [⟨1, [1]⟩]⟩

/-- The scheduler that `New` builds from the two users and their submissions
on the template whose shift has the length zero. -/
def zeroLengthScheduler : Scheduler :=
  ⟨smallParameters, twoUsers, zeroLengthTemplate.Shifts, twoSubmissions,
    addItems (addItems (fun _ _ => []) 10 [⟨1, [1]⟩]) 11 [⟨1, [1]⟩]⟩
/-- The users of a gene: the principal, when present, and the assistants. -/
def roles (g : Gene) : List Int :=
  g.principalID.toList ++ g.assistantIDs

/-- The tally that has the given keys, in order, each with the given hours. -/
def tallyOf (keys : List Int) (hours : Int → ℚ) : List (Int × F64) :=
  keys.map (fun k => (k, F64.val (hours k)))

/-- A result for the template of the two shifts 1 and 2: one item on day 1 for
each shift, with nobody assigned. -/
def twoShiftResult : SchedulingResult :=
  ⟨[⟨1, [⟨1, none, []⟩]⟩, ⟨2, [⟨1, none, []⟩]⟩]⟩

/-! ## `float64` arithmetic with rounding -/

/-- A `float64` value: a finite number, an infinity or a not-a-number.  The two
zeros are one value: the code embedded over this type never tells them apart
(it divides only by a length or by a positive constant). -/
inductive Double where
  | fin (q : ℚ)
  | posInf
  | negInf
  | nan
  deriving DecidableEq

namespace Double

/-- The unary minus of `float64`; it is exact. -/
def neg : Double → Double
  | fin q => fin (-q)
  | posInf => negInf
  | negInf => posInf
  | nan => nan

/-- Go's `<=` on `float64`: false as soon as one side is not-a-number. -/
def le : Double → Double → Bool
  | fin a, fin b => decide (a ≤ b)
  | fin _, posInf => true
  | fin _, negInf => false
  | posInf, posInf => true
  | posInf, fin _ => false
  | posInf, negInf => false
  | negInf, fin _ => true
  | negInf, posInf => true
  | negInf, negInf => true
  | nan, _ => false
  | _, nan => false

/-- Go's `>=` on `float64`. -/
def ge (a b : Double) : Bool :=
  le b a

/-- Go's `<` on `float64`: false as soon as one side is not-a-number. -/
def lt : Double → Double → Bool
  | fin a, fin b => decide (a < b)
  | fin _, posInf => true
  | fin _, negInf => false
  | posInf, _ => false
  | negInf, fin _ => true
  | negInf, posInf => true
  | negInf, negInf => false
  | nan, _ => false
  | _, nan => false

/-- Go's `==` on `float64`: false as soon as one side is not-a-number. -/
def eq : Double → Double → Bool
  | fin a, fin b => decide (a = b)
  | posInf, posInf => true
  | negInf, negInf => true
  | _, _ => false

end Double

/-- The arithmetic of `float64`: the function `round` gives the `float64` that
the exact result of an operation is rounded to, and `powTwo` is
`math.Pow(x, 2)`. -/
structure FloatArith where
  round : ℚ → Double
  powTwo : Double → Double

/-- The facts about the arithmetic that the theorems below rely on, all of
which hold for IEEE 754 binary64 with round-to-nearest-even (`binary64_lawful`):
the rounded result is never a not-a-number, rounding is monotone, a rounded
value is kept by rounding it again, rounding commutes with the sign, the
numbers `m * 2^e` with `m < 2^53` and `-1074 <= e <= 971` are `float64` values,
and `math.Pow(0, 2) = 0`. -/
structure FloatArith.Lawful (A : FloatArith) : Prop where
  round_ne_nan : ∀ q, A.round q ≠ Double.nan
  round_mono : ∀ a b, a ≤ b → Double.le (A.round a) (A.round b) = true
  round_fix : ∀ a b, A.round a = Double.fin b → A.round b = Double.fin b
  round_neg : ∀ q, A.round (-q) = Double.neg (A.round q)
  round_dyadic : ∀ (m : Nat) (e : Int), m < 2 ^ 53 → -1074 ≤ e → e ≤ 971 →
    A.round ((m : ℚ) * (2 : ℚ) ^ e) = Double.fin ((m : ℚ) * (2 : ℚ) ^ e)
  powTwo_zero : A.powTwo (Double.fin 0) = Double.fin 0

namespace FloatArith

/-- The sum `x + y` of `float64`. -/
def add (A : FloatArith) : Double → Double → Double
  | .fin a, .fin b => A.round (a + b)
  | .fin _, .posInf => .posInf
  | .fin _, .negInf => .negInf
  | .posInf, .fin _ => .posInf
  | .posInf, .posInf => .posInf
  | .posInf, .negInf => .nan
  | .negInf, .fin _ => .negInf
  | .negInf, .negInf => .negInf
  | .negInf, .posInf => .nan
  | .nan, _ => .nan
  | _, .nan => .nan

/-- The difference `x - y` of `float64`, which is `x + (-y)`. -/
def sub (A : FloatArith) (x y : Double) : Double :=
  A.add x (Double.neg y)

/-- The sign rule for a product or quotient with an infinity: `positive` tells
whether the infinity is the positive one, `a` is the finite factor. -/
def signedInf (positive : Bool) (a : ℚ) : Double :=
  if a = 0 then .nan
  else if (decide (0 < a)) = positive then .posInf else .negInf

/-- The product `x * y` of `float64`. -/
def mul (A : FloatArith) : Double → Double → Double
  | .fin a, .fin b => A.round (a * b)
  | .fin a, .posInf => signedInf true a
  | .fin a, .negInf => signedInf false a
  | .posInf, .fin b => signedInf true b
  | .negInf, .fin b => signedInf false b
  | .posInf, .posInf => .posInf
  | .posInf, .negInf => .negInf
  | .negInf, .posInf => .negInf
  | .negInf, .negInf => .posInf
  | .nan, _ => .nan
  | _, .nan => .nan

/-- The quotient `x / y` of `float64`.  A zero divisor is the positive zero:
the embedded code divides by a length or by a positive constant only. -/
def div (A : FloatArith) : Double → Double → Double
  | .fin a, .fin b =>
    if b = 0 then (if a = 0 then .nan else if 0 < a then .posInf else .negInf)
    else A.round (a / b)
  | .fin _, .posInf => .fin 0
  | .fin _, .negInf => .fin 0
  | .posInf, .fin b => if 0 ≤ b then .posInf else .negInf
  | .negInf, .fin b => if 0 ≤ b then .negInf else .posInf
  | .posInf, .posInf => .nan
  | .posInf, .negInf => .nan
  | .negInf, .posInf => .nan
  | .negInf, .negInf => .nan
  | .nan, _ => .nan
  | _, .nan => .nan

/-- The conversion `float64(n)` of an integer. -/
def ofInt (A : FloatArith) (n : Int) : Double :=
  A.round n

/-- The value is a `float64`: a finite one is kept by rounding. -/
def IsValue (A : FloatArith) : Double → Prop
  | .fin q => A.round q = .fin q
  | _ => True

/-- The loop of lines 138-143 of `selectByRoulette`, in `float64` arithmetic.
The function `fit` gives the field `fitness` of the chromosome behind a
pointer; the accumulator is the variable that holds the running sum. -/
def rouletteLoop (A : FloatArith) (fit : Nat → Double) (pick : Double) :
    Double → List Nat → Option Nat
  | _, [] => none
  | running, p :: rest =>
    if Double.ge (A.add running (fit p)) pick then some p
    else rouletteLoop A fit pick (A.add running (fit p)) rest

/-- The variable `sumFit` of `selectByRoulette` after the loop of lines
132-134. -/
def sumFit (A : FloatArith) (fit : Nat → Double) (pop : List Nat) : Double :=
  pop.foldl (fun acc p => A.add acc (fit p)) (.fin 0)

/-- Method `Scheduler.selectByRoulette` in `float64` arithmetic, as a function
of the population, the fitness of its members and the value `r` that
`rand.Float64()` returns.  `none` is the panic of the fallback
`pop[len(pop)-1]` on an empty population. -/
def selectByRoulette (A : FloatArith) (fit : Nat → Double) (pop : List Nat) (r : Double) :
    Option Nat :=
  let pick := A.mul r (A.sumFit fit pop)
  match A.rouletteLoop fit pick (.fin 0) pop with
  | some p => some p
  | none => pop.getLast?

end FloatArith

/-- The fields of a `Gene` that `calcFitness` reads; the hours are a
`float64`. -/
structure GeneHours where
  principalID : Option Int
  assistantIDs : List Int
  workDuration : Double

namespace FloatArith

/-- Method `Duration.Hours` of package `time` on a duration of `d` nanoseconds:
`float64(d / Hour) + float64(d % Hour) / (60 * 60 * 1e9)`, where the integer
division truncates. -/
def hours (A : FloatArith) (d : Int) : Double :=
  A.add (A.ofInt (Int.tdiv d (3600 * 10 ^ 9)))
    (A.div (A.ofInt (Int.tmod d (3600 * 10 ^ 9))) (.fin (3600 * 10 ^ 9)))

/-- The expression `endTime.Sub(startTime).Hours()` of `randomInitChromosome`,
in `float64` arithmetic. -/
def workDuration (A : FloatArith) (shift : ScheduleTemplateShift) : Double :=
  A.hours ((parseClockOrZero shift.EndTime : Int) - (parseClockOrZero shift.StartTime : Int))

/-- Lines 89-92 and 95-98 of `calcFitness`: `userWorkCnt[id] += workDuration`,
creating the entry at `0` first when it is absent.  The map is kept as the list
of its entries. -/
def addWork (A : FloatArith) (userWorkCnt : List (Int × Double)) (id : Int)
    (workDuration : Double) : List (Int × Double) :=
  match userWorkCnt with
  | [] => [(id, A.add (.fin 0) workDuration)]
  | (k, v) :: rest =>
    if k = id then (k, A.add v workDuration) :: rest
    else (k, v) :: addWork A rest id workDuration

/-- The body of the loop of lines 86-100 for one gene. -/
def addGeneWork (A : FloatArith) (userWorkCnt : List (Int × Double)) (gene : GeneHours) :
    List (Int × Double) :=
  let withPrincipal :=
    match gene.principalID with
    | none => userWorkCnt
    | some principalID => A.addWork userWorkCnt principalID gene.workDuration
  gene.assistantIDs.foldl (fun acc assistantID => A.addWork acc assistantID gene.workDuration)
    withPrincipal

/-- Lines 84-100 of `calcFitness`: the tally of hours per assigned user. -/
def workTally (A : FloatArith) (genes : List GeneHours) : List (Int × Double) :=
  genes.foldl A.addGeneWork []

/-- Lines 102-108 of `calcFitness`: the variable `notWorkPenalty` after the loop
over the map, whose entries the `range` visits in the order `order`. -/
def notWorkPenalty (A : FloatArith) (order : List (Int × Double)) : Double :=
  order.foldl (fun acc kv => if Double.eq kv.2 (.fin 0) then A.add acc (.fin 1) else acc)
    (.fin 0)

/-- Lines 110-122 of `calcFitness`: the variable `variance`.  The number `n` is
`len(userWorkCnt)`; the two `range` loops visit the entries of the map in the
orders `order2` and `order3`. -/
def variance (A : FloatArith) (n : Nat) (order2 order3 : List (Int × Double)) : Double :=
  let avgWorkCnt := A.div (order2.foldl (fun acc kv => A.add acc kv.2) (.fin 0)) (A.ofInt n)
  A.div (order3.foldl (fun acc kv => A.add acc (A.powTwo (A.sub kv.2 avgWorkCnt))) (.fin 0))
    (A.ofInt n)

/-- Method `Scheduler.calcFitness` in `float64` arithmetic: the value stored in
the field `fitness`.  Go visits the entries of a map in an order of its own
choice at every `range`; the three orders are arguments.  The product and the
difference of line 125 are rounded one after the other, as on amd64, where the
compiler does not fuse them. -/
def calcFitness (A : FloatArith) (fairnessWeight : Double) (genes : List GeneHours)
    (order1 order2 order3 : List (Int × Double)) : Double :=
  A.sub (Double.neg (A.notWorkPenalty order1))
    (A.mul fairnessWeight (A.variance (A.workTally genes).length order2 order3))

/-- The value is a `float64` above 0, the positive infinity included. -/
def Positive (A : FloatArith) (x : Double) : Prop :=
  A.IsValue x ∧ Double.lt (.fin 0) x = true

end FloatArith
/-! ## The rounding of IEEE 754 binary64 -/

/-- Rounding of a rational to the nearest integer, a tie going to the even
one. -/
def roundHalfEven (q : ℚ) : Int :=
  if q - ⌊q⌋ < 1 / 2 then ⌊q⌋
  else if 1 / 2 < q - ⌊q⌋ then ⌊q⌋ + 1
  else if ⌊q⌋ % 2 = 0 then ⌊q⌋ else ⌊q⌋ + 1

/-- The exponent of the unit in the last place of the binary64 numbers around a
positive `x`: `floor(log2 x) - 52`, and `-1074` in the subnormal range. -/
def ulpExp (x : ℚ) : Int :=
  max (Int.log 2 x - 52) (-1074)

/-- A positive rational rounded to the nearest multiple of its unit in the last
place, a tie going to the even multiple.  The result may exceed the range of
binary64. -/
def roundMag (x : ℚ) : ℚ :=
  (roundHalfEven (x / (2 : ℚ) ^ ulpExp x) : ℚ) * (2 : ℚ) ^ ulpExp x

/-- Round-to-nearest-even of IEEE 754 binary64: a result of magnitude `2^1024`
or more is an infinity. -/
def round64 (q : ℚ) : Double :=
  if q = 0 then .fin 0
  else if 0 < q then
    if roundMag q < (2 : ℚ) ^ (1024 : Int) then .fin (roundMag q) else .posInf
  else
    if roundMag (-q) < (2 : ℚ) ^ (1024 : Int) then .fin (-(roundMag (-q))) else .negInf

/-- The arithmetic of Go's `float64`: IEEE 754 binary64 with
round-to-nearest-even.  For `math.Pow(x, 2)` it has the square rounded once;
`math.Pow` squares the significand, rounds it and scales it by a power of two,
which is the same value unless the result is subnormal.  The theorems rely on
`math.Pow(0, 2) = 0` only. -/
def binary64 : FloatArith where
  round := round64
  powTwo := fun x =>
    match x with
    | .fin q => round64 (q * q)
    | .nan => .nan
    | _ => .posInf
/-- The fitness of the chromosomes of a population in which every one has the
fitness `-1`. -/
def minusOneFitness : Nat → Double :=
  fun _ => Double.fin (-1)

/-- The fitness of the chromosomes of a population of two: `-1` behind pointer
0 and `-2^-52` behind pointer 1. -/
def edgeFitness : Nat → Double :=
  fun p => if p = 0 then Double.fin (-1) else Double.fin (-(1 / 2 ^ 52))

/-! # Theorems -/

/-! ## The duplicate check -/

theorem hasSeenTwice_eq_false (l : List Int) :
    ∀ seen, hasSeenTwice seen l = false ↔ (l.Nodup ∧ ∀ x ∈ l, x ∉ seen) := by
  induction l with
  | nil => intro seen; simp [hasSeenTwice]
  | cons a rest ih =>
    intro seen
    simp only [hasSeenTwice]
    by_cases h : a ∈ seen
    · simp [h]
    · have hc : seen.contains a = false := by simpa using h
      simp only [hc, Bool.false_eq_true, if_false, ih, List.nodup_cons, List.mem_cons]
      constructor
      · rintro ⟨hnd, hx⟩
        refine ⟨⟨fun ha => (hx a ha) (Or.inl rfl), hnd⟩, ?_⟩
        intro x hx'
        rcases hx' with rfl | hx'
        · exact h
        · exact fun hs => hx x hx' (Or.inr hs)
      · rintro ⟨⟨ha, hnd⟩, hx⟩
        refine ⟨hnd, ?_⟩
        intro x hx' hmem
        rcases hmem with rfl | hmem
        · exact ha hx'
        · exact hx x (Or.inr hx') hmem

theorem checkDuplicateItems_eq_none (i : Nat) (items : List SchedulingResultShiftItem) :
    checkDuplicateItems i items = none ↔
      ∀ item ∈ items,
        (∀ p, item.PrincipalID = some p → p ∉ item.AssistantIDs) ∧ item.AssistantIDs.Nodup := by
  induction items with
  | nil => simp [checkDuplicateItems]
  | cons item rest ih =>
    simp only [checkDuplicateItems, List.forall_mem_cons]
    cases hp : item.PrincipalID with
    | none =>
      by_cases hd : hasSeenTwice [] item.AssistantIDs = true
      · have hnd : ¬ item.AssistantIDs.Nodup := by
          intro hnd
          have := (hasSeenTwice_eq_false item.AssistantIDs []).2 ⟨hnd, by simp⟩
          simp [this] at hd
        simp [hd, hnd]
      · have hf : hasSeenTwice [] item.AssistantIDs = false := by simpa using hd
        have hnd := ((hasSeenTwice_eq_false item.AssistantIDs []).1 hf).1
        simp [hf, hnd, ih]
    | some p =>
      by_cases hc : p ∈ item.AssistantIDs
      · simp [hc]
      · by_cases hd : hasSeenTwice [] item.AssistantIDs = true
        · have hnd : ¬ item.AssistantIDs.Nodup := by
            intro hnd
            have := (hasSeenTwice_eq_false item.AssistantIDs []).2 ⟨hnd, by simp⟩
            simp [this] at hd
          simp [hc, hd, hnd]
        · have hf : hasSeenTwice [] item.AssistantIDs = false := by simpa using hd
          have hnd := ((hasSeenTwice_eq_false item.AssistantIDs []).1 hf).1
          simp [hc, hf, hnd, ih]

theorem checkDuplicateShifts_eq_none (shifts : List SchedulingResultShift) :
    ∀ i, checkDuplicateShifts i shifts = none ↔
      ∀ shift ∈ shifts, ∀ item ∈ shift.Items,
        (∀ p, item.PrincipalID = some p → p ∉ item.AssistantIDs) ∧ item.AssistantIDs.Nodup := by
  induction shifts with
  | nil => intro i; simp [checkDuplicateShifts]
  | cons shift rest ih =>
    intro i
    simp only [checkDuplicateShifts, List.forall_mem_cons]
    cases h : checkDuplicateItems i shift.Items with
    | none =>
      simp only [ih]
      exact ⟨fun hr => ⟨(checkDuplicateItems_eq_none i _).1 h, hr⟩, fun hr => hr.2⟩
    | some err =>
      have : ¬ ∀ item ∈ shift.Items,
          (∀ p, item.PrincipalID = some p → p ∉ item.AssistantIDs) ∧ item.AssistantIDs.Nodup := by
        intro hall
        have := (checkDuplicateItems_eq_none i _).2 hall
        simp [this] at h
      simp [this]

/-- C10: `ValidIfExistsDuplicateAssistant` returns no error exactly when, in
every item of every result shift, the principal (when present) is not among the
assistants and the assistants are pairwise distinct.  The condition is about
each item alone, so a user assigned in several cells is never a reason to
reject. -/
theorem ValidIfExistsDuplicateAssistant_eq_none_iff (result : SchedulingResult) :
    ValidIfExistsDuplicateAssistant result = none ↔
      ∀ shift ∈ result.Shifts, ∀ item ∈ shift.Items,
        (∀ p, item.PrincipalID = some p → p ∉ item.AssistantIDs) ∧ item.AssistantIDs.Nodup :=
  checkDuplicateShifts_eq_none result.Shifts 0

/-! ## The check against the submissions -/

theorem hasFreeTime_iff (submission : AvailabilitySubmission) (shiftID day : Int) :
    hasFreeTime submission shiftID day = true ↔
      ∃ submissionItem ∈ submission.Items,
        submissionItem.ShiftID = shiftID ∧ day ∈ submissionItem.Days := by
  simp [hasFreeTime]

theorem getSubmissionByAssistantID_eq_some (submissions : List AvailabilitySubmission)
    (u : Int) (submission : AvailabilitySubmission) :
    getSubmissionByAssistantID submissions u = some submission ↔
      ∃ pre post, submissions = pre ++ submission :: post ∧
        (∀ other ∈ pre, other.UserID ≠ u) ∧ submission.UserID = u := by
  induction submissions with
  | nil => simp [getSubmissionByAssistantID]
  | cons first rest ih =>
    simp only [getSubmissionByAssistantID]
    by_cases h : first.UserID = u
    · simp only [h, if_true, Option.some.injEq]
      constructor
      · rintro rfl
        exact ⟨[], rest, rfl, by simp, h⟩
      · rintro ⟨pre, post, heq, hpre, _⟩
        cases pre with
        | nil => simpa using (List.cons.inj heq).1
        | cons x pre =>
          have hx : first = x := (List.cons.inj heq).1
          exact absurd (hx ▸ h) (hpre x (List.mem_cons_self _ _))
    · simp only [h, if_false, ih]
      constructor
      · rintro ⟨pre, post, heq, hpre, hu⟩
        refine ⟨first :: pre, post, by simp [heq], ?_, hu⟩
        intro other hother
        rcases List.mem_cons.1 hother with rfl | hother
        · exact h
        · exact hpre other hother
      · rintro ⟨pre, post, heq, hpre, hu⟩
        cases pre with
        | nil =>
          have hx : first = submission := (List.cons.inj heq).1
          exact absurd (hx ▸ hu) h
        | cons x pre =>
          refine ⟨pre, post, (List.cons.inj heq).2, ?_, hu⟩
          exact fun other hother => hpre other (List.mem_cons_of_mem _ hother)

theorem checkPrincipal_eq_none (submissions : List AvailabilitySubmission) (i : Nat)
    (shift : SchedulingResultShift) (item : SchedulingResultShiftItem) :
    checkPrincipal submissions i shift item = none ↔
      ∀ u, item.PrincipalID = some u →
        ∃ submission, getSubmissionByAssistantID submissions u = some submission ∧
          hasFreeTime submission shift.ShiftID item.Day = true := by
  unfold checkPrincipal
  cases hp : item.PrincipalID with
  | none => simp
  | some p =>
    cases hs : getSubmissionByAssistantID submissions p with
    | none => simp [hs]
    | some submission =>
      by_cases hf : hasFreeTime submission shift.ShiftID item.Day = true
      · simp [hs, hf]
      · simp [hs, hf]

theorem checkAssistants_eq_none (submissions : List AvailabilitySubmission) (i : Nat)
    (shift : SchedulingResultShift) (item : SchedulingResultShiftItem) (assistantIDs : List Int) :
    checkAssistants submissions i shift item assistantIDs = none ↔
      ∀ u ∈ assistantIDs,
        ∃ submission, getSubmissionByAssistantID submissions u = some submission ∧
          hasFreeTime submission shift.ShiftID item.Day = true := by
  induction assistantIDs with
  | nil => simp [checkAssistants]
  | cons a rest ih =>
    simp only [checkAssistants, List.forall_mem_cons]
    cases hs : getSubmissionByAssistantID submissions a with
    | none => simp
    | some submission =>
      by_cases hf : hasFreeTime submission shift.ShiftID item.Day = true
      · simp [hf, ih]
      · simp [hf]

theorem checkSubmissionItems_eq_none (submissions : List AvailabilitySubmission) (i : Nat)
    (shift : SchedulingResultShift) (items : List SchedulingResultShiftItem) :
    checkSubmissionItems submissions i shift items = none ↔
      ∀ item ∈ items, ∀ u, (item.PrincipalID = some u ∨ u ∈ item.AssistantIDs) →
        ∃ submission, getSubmissionByAssistantID submissions u = some submission ∧
          hasFreeTime submission shift.ShiftID item.Day = true := by
  induction items with
  | nil => simp [checkSubmissionItems]
  | cons item rest ih =>
    simp only [checkSubmissionItems, List.forall_mem_cons]
    cases hp : checkPrincipal submissions i shift item with
    | some err =>
      have hn : ¬ ∀ u, item.PrincipalID = some u →
          ∃ submission, getSubmissionByAssistantID submissions u = some submission ∧
            hasFreeTime submission shift.ShiftID item.Day = true := by
        intro hall
        have := (checkPrincipal_eq_none submissions i shift item).2 hall
        simp [this] at hp
      simp only [false_iff, reduceCtorEq]
      exact fun h => hn (fun u hu => h.1 u (Or.inl hu))
    | none =>
      have h1 := (checkPrincipal_eq_none submissions i shift item).1 hp
      cases ha : checkAssistants submissions i shift item item.AssistantIDs with
      | some err =>
        have hn : ¬ ∀ u ∈ item.AssistantIDs,
            ∃ submission, getSubmissionByAssistantID submissions u = some submission ∧
              hasFreeTime submission shift.ShiftID item.Day = true := by
          intro hall
          have := (checkAssistants_eq_none submissions i shift item _).2 hall
          simp [this] at ha
        simp only [false_iff, reduceCtorEq]
        exact fun h => hn (fun u hu => h.1 u (Or.inr hu))
      | none =>
        have h2 := (checkAssistants_eq_none submissions i shift item _).1 ha
        simp only [ih]
        constructor
        · intro hr
          refine ⟨?_, hr⟩
          rintro u (hu | hu)
          · exact h1 u hu
          · exact h2 u hu
        · exact fun hr => hr.2

theorem checkSubmissionShifts_eq_none (submissions : List AvailabilitySubmission)
    (shifts : List SchedulingResultShift) :
    ∀ i, checkSubmissionShifts submissions i shifts = none ↔
      ∀ shift ∈ shifts, ∀ item ∈ shift.Items, ∀ u,
        (item.PrincipalID = some u ∨ u ∈ item.AssistantIDs) →
        ∃ submission, getSubmissionByAssistantID submissions u = some submission ∧
          hasFreeTime submission shift.ShiftID item.Day = true := by
  induction shifts with
  | nil => intro i; simp [checkSubmissionShifts]
  | cons shift rest ih =>
    intro i
    simp only [checkSubmissionShifts, List.forall_mem_cons]
    cases h : checkSubmissionItems submissions i shift shift.Items with
    | none =>
      simp only [ih]
      exact ⟨fun hr => ⟨(checkSubmissionItems_eq_none submissions i shift _).1 h, hr⟩,
        fun hr => hr.2⟩
    | some err =>
      simp only [false_iff, reduceCtorEq]
      intro hall
      have := (checkSubmissionItems_eq_none submissions i shift _).2 hall.1
      simp [this] at h

/-- C8: `ValidateSchedulingResultWithSubmissions` returns no error exactly when,
for every result shift, every item of it and every user assigned in the item
(the principal when present, and each assistant), the list of submissions has a
first submission of that user (no earlier element of the list has the user's
ID) and that submission has an item for the shift whose days include the day of
the result item. -/
theorem ValidateSchedulingResultWithSubmissions_eq_none_iff (result : SchedulingResult)
    (submissions : List AvailabilitySubmission) :
    ValidateSchedulingResultWithSubmissions result submissions = none ↔
      ∀ shift ∈ result.Shifts, ∀ item ∈ shift.Items, ∀ u,
        (item.PrincipalID = some u ∨ u ∈ item.AssistantIDs) →
        ∃ pre submission post, submissions = pre ++ submission :: post ∧
          (∀ other ∈ pre, other.UserID ≠ u) ∧ submission.UserID = u ∧
          ∃ submissionItem ∈ submission.Items,
            submissionItem.ShiftID = shift.ShiftID ∧ item.Day ∈ submissionItem.Days := by
  unfold ValidateSchedulingResultWithSubmissions
  rw [checkSubmissionShifts_eq_none]
  constructor
  · intro h shift hshift item hitem u hu
    obtain ⟨submission, hget, hfree⟩ := h shift hshift item hitem u hu
    obtain ⟨pre, post, heq, hpre, hid⟩ :=
      (getSubmissionByAssistantID_eq_some submissions u submission).1 hget
    exact ⟨pre, submission, post, heq, hpre, hid, (hasFreeTime_iff _ _ _).1 hfree⟩
  · intro h shift hshift item hitem u hu
    obtain ⟨pre, submission, post, heq, hpre, hid, hfree⟩ := h shift hshift item hitem u hu
    exact ⟨submission,
      (getSubmissionByAssistantID_eq_some submissions u submission).2 ⟨pre, post, heq, hpre, hid⟩,
      (hasFreeTime_iff _ _ _).2 hfree⟩

/-- C9: at a result with user 7 as principal of shift 1 on day 2, while the
submission of user 7 lists day 1 only, the error of
`ValidateSchedulingResultWithSubmissions` carries the pointer `item.PrincipalID`
as its first `%d` argument, so the message shows an address and not the ID 7;
for the same user as assistant the first argument is the ID 7. -/
theorem ValidateSchedulingResultWithSubmissions_principal_error_args :
    ValidateSchedulingResultWithSubmissions dayTwoPrincipalResult dayOneSubmissions =
        some ⟨"id 为 %d 的负责人在班次 %d 的第 %d 天没有空闲时间", [.ptr 7, .int 1, .int 2]⟩ ∧
      ValidateSchedulingResultWithSubmissions dayTwoAssistantResult dayOneSubmissions =
        some ⟨"id 为 %d 的助理在班次 %d 的第 %d 天没有空闲时间", [.int 7, .int 1, .int 2]⟩ := by
  constructor <;> decide

/-! ## The constructor `New` -/

theorem findUser_eq_none (users : List User) (userID : Int) :
    findUser users userID = none ↔ ∀ u ∈ users, u.ID ≠ userID := by
  induction users with
  | nil => simp [findUser]
  | cons u rest ih =>
    simp only [findUser, List.forall_mem_cons]
    by_cases h : u.ID = userID
    · simp [h]
    · simp [h, ih]

theorem findUser_eq_some {users : List User} {userID : Int} {user : User}
    (h : findUser users userID = some user) : user ∈ users ∧ user.ID = userID := by
  induction users with
  | nil => simp [findUser] at h
  | cons u rest ih =>
    simp only [findUser] at h
    by_cases hu : u.ID = userID
    · simp only [hu, if_true, Option.some.injEq] at h
      subst h
      exact ⟨List.mem_cons_self _ _, hu⟩
    · simp only [hu, if_false] at h
      exact ⟨List.mem_cons_of_mem _ (ih h).1, (ih h).2⟩

theorem newLoop_error_iff (users : List User) (submissions : List AvailabilitySubmission) :
    ∀ (acc : List User) (m : AvailableMap),
      (∃ err, newLoop users acc m submissions = .error err) ↔
        ∃ submission ∈ submissions, ∀ u ∈ users, u.ID ≠ submission.UserID := by
  induction submissions with
  | nil => intro acc m; simp [newLoop]
  | cons submission rest ih =>
    intro acc m
    simp only [newLoop, List.exists_mem_cons]
    cases h : findUser users submission.UserID with
    | none =>
      have := (findUser_eq_none users submission.UserID).1 h
      exact ⟨fun _ => ⟨submission, List.mem_cons_self _ _, this⟩, fun _ => ⟨_, rfl⟩⟩
    | some user =>
      have hn : ¬ ∀ u ∈ users, u.ID ≠ submission.UserID := by
        intro hall
        have := (findUser_eq_none users submission.UserID).2 hall
        simp [this] at h
      simp only [ih]
      constructor
      · rintro ⟨x, hx, hall⟩
        exact ⟨x, List.mem_cons_of_mem _ hx, hall⟩
      · rintro ⟨x, hx, hall⟩
        rcases List.mem_cons.1 hx with rfl | hx
        · exact absurd hall hn
        · exact ⟨x, hx, hall⟩

/-- C5: `New` returns an error exactly when some submission has a `userID` that
is the ID of no element of `users`, and returns a scheduler exactly when every
submission has a `userID` that is the ID of some element of `users`. -/
theorem New_error_iff (parameters : Parameters) (users : List User)
    (template : ScheduleTemplate) (submissions : List AvailabilitySubmission) :
    ((∃ err, New parameters users template submissions = .error err) ↔
        ∃ submission ∈ submissions, ∀ u ∈ users, u.ID ≠ submission.UserID) ∧
      ((∃ s, New parameters users template submissions = .ok s) ↔
        ∀ submission ∈ submissions, ∃ u ∈ users, u.ID = submission.UserID) := by
  have key := newLoop_error_iff users submissions [] (fun _ _ => [])
  have hne : (∀ submission ∈ submissions, ∃ u ∈ users, u.ID = submission.UserID) ↔
      ¬ ∃ submission ∈ submissions, ∀ u ∈ users, u.ID ≠ submission.UserID := by
    push_neg
    rfl
  cases h : newLoop users [] (fun _ _ => []) submissions with
  | error err =>
    have h1 : ∃ submission ∈ submissions, ∀ u ∈ users, u.ID ≠ submission.UserID :=
      key.1 ⟨err, h⟩
    have hN : New parameters users template submissions = .error err := by
      simp only [New, h]
    rw [hne, hN]
    exact ⟨⟨fun _ => h1, fun _ => ⟨err, rfl⟩⟩,
      ⟨fun ⟨s, hs⟩ => (by cases hs), fun hno => absurd h1 hno⟩⟩
  | ok res =>
    have h1 : ¬ ∃ submission ∈ submissions, ∀ u ∈ users, u.ID ≠ submission.UserID := by
      intro hex
      obtain ⟨err, herr⟩ := key.2 hex
      rw [h] at herr
      cases herr
    have hN : ∃ s, New parameters users template submissions = .ok s := by
      obtain ⟨submitters, m⟩ := res
      refine ⟨⟨parameters, submitters, template.Shifts, submissions, m⟩, ?_⟩
      simp only [New, h]
    obtain ⟨s, hs⟩ := hN
    rw [hne, hs]
    exact ⟨⟨fun ⟨err, herr⟩ => (by cases herr), fun hex => absurd hex h1⟩,
      ⟨fun _ => h1, fun _ => ⟨s, rfl⟩⟩⟩

/-! ## The check against the template -/

theorem findTemplateShift_append (shifts : List ScheduleTemplateShift)
    (last : ScheduleTemplateShift) (shiftID : Int) :
    findTemplateShift (shifts ++ [last]) shiftID =
      if last.ID = shiftID then some last else findTemplateShift shifts shiftID := by
  simp [findTemplateShift, List.foldl_append]

theorem findTemplateShift_eq_some (shifts : List ScheduleTemplateShift) (shiftID : Int)
    (templateShift : ScheduleTemplateShift) :
    findTemplateShift shifts shiftID = some templateShift ↔
      ∃ pre post, shifts = pre ++ templateShift :: post ∧ templateShift.ID = shiftID ∧
        ∀ later ∈ post, later.ID ≠ shiftID := by
  induction shifts using List.reverseRecOn with
  | nil => simp [findTemplateShift]
  | append_singleton init last ih =>
    rw [findTemplateShift_append]
    by_cases h : last.ID = shiftID
    · simp only [h, if_true, Option.some.injEq]
      constructor
      · rintro rfl
        exact ⟨init, [], rfl, h, by simp⟩
      · rintro ⟨pre, post, heq, _, hpost⟩
        rcases List.eq_nil_or_concat post with rfl | ⟨post1, x, rfl⟩
        · have := List.append_inj_right' heq rfl
          simpa using this
        · have heq1 : init ++ [last] = (pre ++ templateShift :: post1) ++ [x] := by
            simpa using heq
          have hx : [last] = [x] := List.append_inj_right' heq1 rfl
          have hx1 : last = x := by simpa using hx
          exact absurd (hx1 ▸ h) (hpost x (by simp))
    · simp only [h, if_false, ih]
      constructor
      · rintro ⟨pre, post, heq, hid, hpost⟩
        refine ⟨pre, post ++ [last], by simp [heq], hid, ?_⟩
        intro later hlater
        rcases List.mem_append.1 hlater with hl | hl
        · exact hpost later hl
        · have : later = last := by simpa using hl
          exact this ▸ h
      · rintro ⟨pre, post, heq, hid, hpost⟩
        rcases List.eq_nil_or_concat post with rfl | ⟨post1, x, rfl⟩
        · have hx : [last] = [templateShift] := List.append_inj_right' heq rfl
          have hx1 : last = templateShift := by simpa using hx
          exact absurd (hx1 ▸ hid) h
        · have heq1 : init ++ [last] = (pre ++ templateShift :: post1) ++ [x] := by
            simpa using heq
          refine ⟨pre, post1, List.append_inj_left' heq1 rfl, hid, ?_⟩
          exact fun later hlater => hpost later (by simp [hlater])

theorem findTemplateShift_eq_none (shifts : List ScheduleTemplateShift) (shiftID : Int) :
    findTemplateShift shifts shiftID = none ↔ ∀ shift ∈ shifts, shift.ID ≠ shiftID := by
  induction shifts using List.reverseRecOn with
  | nil => simp [findTemplateShift]
  | append_singleton init last ih =>
    rw [findTemplateShift_append]
    by_cases h : last.ID = shiftID
    · simp only [h, if_true, reduceCtorEq, false_iff]
      exact fun hall => hall last (by simp) h
    · simp only [h, if_false, ih]
      constructor
      · intro hall shift hshift
        rcases List.mem_append.1 hshift with hs | hs
        · exact hall shift hs
        · have : shift = last := by simpa using hs
          exact this ▸ h
      · exact fun hall shift hshift => hall shift (by simp [hshift])

theorem checkCoverage_eq_none (resultShift : SchedulingResultShift) (days : List Int) :
    checkCoverage resultShift days = none ↔
      ∀ day ∈ days, ∃ item ∈ resultShift.Items, item.Day = day := by
  induction days with
  | nil => simp [checkCoverage]
  | cons day rest ih =>
    simp only [checkCoverage, List.forall_mem_cons]
    by_cases h : ∃ item ∈ resultShift.Items, item.Day = day
    · have : resultShift.Items.any (fun item => item.Day == day) = true := by
        simpa using h
      simp [this, ih, h]
    · have : ¬ resultShift.Items.any (fun item => item.Day == day) = true := by
        simpa using h
      simp only [this, if_false, reduceCtorEq, false_iff]
      exact fun hall => h hall.1

theorem checkItems_eq_none (resultShift : SchedulingResultShift)
    (templateShift : ScheduleTemplateShift) (items : List SchedulingResultShiftItem) :
    checkItems resultShift templateShift items = none ↔
      ∀ item ∈ items, item.Day ∈ templateShift.ApplicableDays ∧
        (item.AssistantIDs.length : Int) + 1 ≤ templateShift.RequiredAssistantNumber := by
  induction items with
  | nil => simp [checkItems]
  | cons item rest ih =>
    simp only [checkItems, List.forall_mem_cons]
    by_cases hd : item.Day ∈ templateShift.ApplicableDays
    · by_cases hn : (item.AssistantIDs.length : Int) + 1 > templateShift.RequiredAssistantNumber
      · have hle : ¬ ((item.AssistantIDs.length : Int) + 1 ≤
            templateShift.RequiredAssistantNumber) := not_le.2 hn
        have hc : templateShift.ApplicableDays.contains item.Day = true := by simpa using hd
        simp only [hc, Bool.not_true, Bool.false_eq_true, if_false, hn, if_true, reduceCtorEq,
          false_iff]
        exact fun hall => hle hall.1.2
      · have hle : (item.AssistantIDs.length : Int) + 1 ≤ templateShift.RequiredAssistantNumber :=
          not_lt.1 hn
        simp [hd, hn, hle, ih]
    · simp [hd]

theorem checkResultShifts_eq_none (template : ScheduleTemplate)
    (shifts : List SchedulingResultShift) :
    checkResultShifts template shifts = none ↔
      ∀ resultShift ∈ shifts, checkResultShift template resultShift = none := by
  induction shifts with
  | nil => simp [checkResultShifts]
  | cons resultShift rest ih =>
    simp only [checkResultShifts, List.forall_mem_cons]
    cases h : checkResultShift template resultShift with
    | none => simp [ih]
    | some err => simp

theorem checkResultShift_eq_none (template : ScheduleTemplate)
    (resultShift : SchedulingResultShift) :
    checkResultShift template resultShift = none ↔
      ∃ templateShift, findTemplateShift template.Shifts resultShift.ShiftID = some templateShift ∧
        (∀ day ∈ templateShift.ApplicableDays, ∃ item ∈ resultShift.Items, item.Day = day) ∧
        (∀ item ∈ resultShift.Items, item.Day ∈ templateShift.ApplicableDays ∧
          (item.AssistantIDs.length : Int) + 1 ≤ templateShift.RequiredAssistantNumber) := by
  unfold checkResultShift
  cases hf : findTemplateShift template.Shifts resultShift.ShiftID with
  | none => simp
  | some templateShift =>
    cases hc : checkCoverage resultShift templateShift.ApplicableDays with
    | some err =>
      have hn : ¬ ∀ day ∈ templateShift.ApplicableDays,
          ∃ item ∈ resultShift.Items, item.Day = day := by
        intro hall
        have := (checkCoverage_eq_none resultShift _).2 hall
        simp [this] at hc
      simp only [hc, reduceCtorEq, Option.some.injEq, false_iff]
      rintro ⟨ts, rfl, hcov, _⟩
      exact hn hcov
    | none =>
      have hcov := (checkCoverage_eq_none resultShift _).1 hc
      simp only [hc, Option.some.injEq, checkItems_eq_none]
      constructor
      · exact fun hitems => ⟨templateShift, rfl, hcov, hitems⟩
      · rintro ⟨ts, rfl, _, hitems⟩
        exact hitems

/-- On every template `ValidateSchedulingResultWithTemplate` returns no error exactly
when the number of result shifts equals the number of template shifts and, for
every result shift, the template has a shift with the same ID and the last such
template shift has every applicable day among the days of the items, every
item's day among its applicable days, and every item within
`len(assistantIDs) + 1 <= requiredAssistantNumber`. -/
theorem ValidateSchedulingResultWithTemplate_eq_none_iff (result : SchedulingResult)
    (template : ScheduleTemplate) :
    ValidateSchedulingResultWithTemplate result template = none ↔
      result.Shifts.length = template.Shifts.length ∧
      ∀ resultShift ∈ result.Shifts, ∃ pre templateShift post,
        template.Shifts = pre ++ templateShift :: post ∧
        templateShift.ID = resultShift.ShiftID ∧
        (∀ later ∈ post, later.ID ≠ resultShift.ShiftID) ∧
        (∀ day ∈ templateShift.ApplicableDays, ∃ item ∈ resultShift.Items, item.Day = day) ∧
        (∀ item ∈ resultShift.Items, item.Day ∈ templateShift.ApplicableDays ∧
          (item.AssistantIDs.length : Int) + 1 ≤ templateShift.RequiredAssistantNumber) := by
  unfold ValidateSchedulingResultWithTemplate
  by_cases hlen : result.Shifts.length = template.Shifts.length
  · simp only [hlen, ne_eq, not_true_eq_false, if_false, true_and, checkResultShifts_eq_none]
    constructor
    · intro h resultShift hmem
      obtain ⟨ts, hfind, hcov, hitems⟩ := (checkResultShift_eq_none template resultShift).1
        (h resultShift hmem)
      obtain ⟨pre, post, heq, hid, hpost⟩ := (findTemplateShift_eq_some _ _ _).1 hfind
      exact ⟨pre, ts, post, heq, hid, hpost, hcov, hitems⟩
    · intro h resultShift hmem
      obtain ⟨pre, ts, post, heq, hid, hpost, hcov, hitems⟩ := h resultShift hmem
      exact (checkResultShift_eq_none template resultShift).2
        ⟨ts, (findTemplateShift_eq_some _ _ _).2 ⟨pre, post, heq, hid, hpost⟩, hcov, hitems⟩
  · simp [hlen]

/-- The equivalence with `TemplateConsistent` needs the shift IDs of the template
to be pairwise distinct: on the template whose two shifts both carry the ID 1
(the first on day 1, the second on no day) the result with two entries for
shift 1 on day 1 is consistent with the template, by the first template shift,
while the validator, which looks at the last template shift with the ID,
returns an error. -/
theorem ValidateSchedulingResultWithTemplate_not_iff_TemplateConsistent :
    ¬ (ValidateSchedulingResultWithTemplate repeatedShiftResult repeatedIDTemplate = none ↔
        TemplateConsistent repeatedShiftResult repeatedIDTemplate) := by
  intro h
  have hc : TemplateConsistent repeatedShiftResult repeatedIDTemplate := by
    refine ⟨rfl, ?_⟩
    intro resultShift hmem
    refine ⟨⟨1, "09:00:00", "10:00:00", 1, [1]⟩, by simp [repeatedIDTemplate], ?_⟩
    simp only [repeatedShiftResult, List.mem_cons, List.mem_singleton, or_self,
      List.not_mem_nil, or_false] at hmem
    subst hmem
    simp
  have hv := h.2 hc
  revert hv
  decide

/-- C7: the validator accepts, against the template with the two shifts 1 and 2
(distinct IDs, each on day 1), the result whose two entries are both for
shift 1; that result has no item for shift 2 on day 1. -/
theorem ValidateSchedulingResultWithTemplate_accepts_uncovered :
    ValidateSchedulingResultWithTemplate repeatedShiftResult twoShiftTemplate = none ∧
      (twoShiftTemplate.Shifts.map (·.ID)).Nodup ∧
      ¬ ∃ resultShift ∈ repeatedShiftResult.Shifts,
          resultShift.ShiftID = 2 ∧ ∃ item ∈ resultShift.Items, item.Day = 1 := by
  refine ⟨by decide, by decide, ?_⟩
  simp [repeatedShiftResult]

theorem swapAt_perm (xs : List Int) (i j : Nat) (hi : i < xs.length) (hj : j < xs.length) :
    (swapAt xs i j).Perm xs := by
  rw [List.perm_iff_count]
  intro a
  unfold swapAt
  have hx : xs.getD i 0 = xs[i] := by simp [List.getD_eq_getElem?_getD, hi]
  have hy : xs.getD j 0 = xs[j] := by simp [List.getD_eq_getElem?_getD, hj]
  rw [hx, hy]
  have hj' : j < (xs.set i xs[j]).length := by simpa using hj
  rw [List.count_set _ _ _ _ hj', List.count_set _ _ _ _ hi]
  have h1 : (xs.set i xs[j])[j] = xs[j] := by
    rw [List.getElem_set]
    split <;> rfl
  rw [h1]
  have hci : (if (xs[i] == a) = true then 1 else 0) ≤ xs.count a := by
    have := List.boole_getElem_le_countP (fun x => x == a) xs i hi
    simpa [List.count_eq_countP] using this
  have hcj : (if (xs[j] == a) = true then 1 else 0) ≤ xs.count a := by
    have := List.boole_getElem_le_countP (fun x => x == a) xs j hj
    simpa [List.count_eq_countP] using this
  by_cases h1 : (xs[i] == a) = true <;> by_cases h2 : (xs[j] == a) = true <;>
    simp only [h1, h2, if_true, if_false] at hci hcj ⊢ <;> omega
theorem shuffleLoop_perm : ∀ (i : Nat) (xs : List Int) (r : Rand),
    (i < xs.length ∨ i = 0) → (shuffleLoop i xs r).1.Perm xs := by
  intro i
  induction i with
  | zero => intro xs r _; simp [shuffleLoop]
  | succ i ih =>
    intro xs r h
    have hi : i + 1 < xs.length := by omega
    have hj : (r.Intn (i + 2)).1 < xs.length := by
      have : (r.Intn (i + 2)).1 < i + 2 := Nat.mod_lt _ (by omega)
      omega
    have hp := swapAt_perm xs (i + 1) (r.Intn (i + 2)).1 hi hj
    simp only [shuffleLoop]
    refine (ih _ _ ?_).trans hp
    left
    rw [hp.length_eq]
    omega

theorem shuffle_perm (xs : List Int) (r : Rand) : (shuffle xs r).1.Perm xs := by
  unfold shuffle
  apply shuffleLoop_perm
  omega

theorem getD_mem_of_lt {l : List Int} {i : Nat} (h : i < l.length) : l.getD i 0 ∈ l := by
  rw [List.getD_eq_getElem?_getD, List.getElem?_eq_getElem h]
  exact List.getElem_mem h

theorem Intn_lt (r : Rand) {n : Nat} (h : 0 < n) : (r.Intn n).1 < n :=
  Nat.mod_lt _ h

theorem pickPrincipal_eq_none (cands : List Int) (r : Rand) :
    (pickPrincipal cands r).1 = none ↔ cands = [] := by
  unfold pickPrincipal
  cases cands with
  | nil => simp
  | cons a rest => simp

theorem pickPrincipal_mem {cands : List Int} {r : Rand} {p : Int}
    (h : (pickPrincipal cands r).1 = some p) : p ∈ cands := by
  unfold pickPrincipal at h
  by_cases hl : cands.length > 0
  · simp only [hl, if_true, Option.some.injEq] at h
    rw [← h]
    exact getD_mem_of_lt (Intn_lt r hl)
  · simp [hl] at h

theorem mem_principalCandidates {s : Scheduler} {shiftID day p : Int} :
    p ∈ principalCandidates s shiftID day ↔
      ∃ u ∈ s.users, u.ID = p ∧ isSeniorOrBlackCore u = true ∧ p ∈ s.availableMap shiftID day := by
  unfold principalCandidates
  simp only [List.mem_map, List.mem_filter, Bool.and_eq_true]
  constructor
  · rintro ⟨u, ⟨hu, he, ha⟩, rfl⟩
    exact ⟨u, hu, rfl, he, by simpa using ha⟩
  · rintro ⟨u, hu, rfl, he, ha⟩
    exact ⟨u, ⟨hu, he, by simpa using ha⟩, rfl⟩

theorem mem_assistantCandidates {s : Scheduler} {shiftID day a : Int} {principalID : Option Int} :
    a ∈ assistantCandidates s shiftID day principalID ↔
      (∃ u ∈ s.users, u.ID = a) ∧ a ∈ s.availableMap shiftID day ∧ principalID ≠ some a := by
  unfold assistantCandidates
  simp only [List.mem_map, List.mem_filter, Bool.and_eq_true, Bool.not_eq_true']
  constructor
  · rintro ⟨u, ⟨hu, ha, hp⟩, rfl⟩
    exact ⟨⟨u, hu, rfl⟩, by simpa using ha, by simpa using hp⟩
  · rintro ⟨⟨u, hu, rfl⟩, ha, hp⟩
    exact ⟨u, ⟨hu, by simpa using ha, by simpa using hp⟩, rfl⟩

theorem assistantCandidates_nodup {s : Scheduler} (hU : (s.users.map (·.ID)).Nodup)
    (shiftID day : Int) (principalID : Option Int) :
    (assistantCandidates s shiftID day principalID).Nodup := by
  unfold assistantCandidates
  exact hU.sublist ((List.filter_sublist _).map _)

theorem wrapInt32_eq {x : Int} (h1 : -2 ^ 31 ≤ x) (h2 : x < 2 ^ 31) : wrapInt32 x = x := by
  unfold wrapInt32
  omega

theorem randomInitGene_ok {s : Scheduler} (hU : (s.users.map (·.ID)).Nodup)
    {shift : ScheduleTemplateShift} {day : Int} {r r1 : Rand} {g : Gene}
    (h : randomInitGene s shift day r = some (g, r1)) : GeneOK s (shift, day) g := by
  unfold randomInitGene at h
  simp only [] at h
  split at h
  · cases h
  · rename_i hneg
    simp only [Option.some.injEq, Prod.mk.injEq] at h
    obtain ⟨hg, -⟩ := h
    subst hg
    have hperm := shuffle_perm
      (assistantCandidates s shift.ID day (pickPrincipal (principalCandidates s shift.ID day) r).1)
      (pickPrincipal (principalCandidates s shift.ID day) r).2
    refine ⟨rfl, rfl, rfl, pickPrincipal_eq_none _ _, fun p hp => pickPrincipal_mem hp, ?_, ?_, ?_, ?_⟩
    · intro a ha
      have := hperm.subset (List.take_subset _ _ ha)
      exact (mem_assistantCandidates.1 this).2.1
    · exact ((hperm.nodup_iff).2 (assistantCandidates_nodup hU _ _ _)).sublist (List.take_sublist _ _)
    · intro p hp ha
      have := hperm.subset (List.take_subset _ _ ha)
      exact (mem_assistantCandidates.1 this).2.2 hp
    · rintro ⟨hlo, hhi⟩
      dsimp only at hlo hhi ⊢
      simp only [List.length_take]
      rw [wrapInt32_eq (by omega) (by omega)] at hneg ⊢
      have := hperm.length_eq
      omega

/-! ## Initialisation keeps the gene invariant -/

theorem forall₂_append_of {α β : Type} {R : α → β → Prop} {a1 a2 : List α} {b1 b2 : List β}
    (h1 : List.Forall₂ R a1 b1) (h2 : List.Forall₂ R a2 b2) :
    List.Forall₂ R (a1 ++ a2) (b1 ++ b2) := by
  induction h1 with
  | nil => simpa using h2
  | cons hab _ ih => exact List.Forall₂.cons hab ih

theorem randomInitDays_ok {s : Scheduler} (hU : (s.users.map (·.ID)).Nodup)
    (shift : ScheduleTemplateShift) :
    ∀ (days : List Int) (r r1 : Rand) (genes : List Gene),
      randomInitDays s shift days r = some (genes, r1) →
        List.Forall₂ (GeneOK s) (days.map (fun day => (shift, day))) genes := by
  intro days
  induction days with
  | nil =>
    intro r r1 genes h
    simp only [randomInitDays, Option.some.injEq, Prod.mk.injEq] at h
    rw [← h.1]
    exact List.Forall₂.nil
  | cons day rest ih =>
    intro r r1 genes h
    simp only [randomInitDays] at h
    cases hg : randomInitGene s shift day r with
    | none => simp [hg] at h
    | some res =>
      obtain ⟨gene, r2⟩ := res
      simp only [hg] at h
      cases hr : randomInitDays s shift rest r2 with
      | none => simp [hr] at h
      | some res2 =>
        obtain ⟨more, r3⟩ := res2
        simp only [hr, Option.some.injEq, Prod.mk.injEq] at h
        rw [← h.1]
        exact List.Forall₂.cons (randomInitGene_ok hU hg) (ih _ _ _ hr)

theorem randomInitShifts_ok {s : Scheduler} (hU : (s.users.map (·.ID)).Nodup) :
    ∀ (shifts : List ScheduleTemplateShift) (r r1 : Rand) (genes : List Gene),
      randomInitShifts s shifts r = some (genes, r1) →
        List.Forall₂ (GeneOK s) (cells shifts) genes := by
  intro shifts
  induction shifts with
  | nil =>
    intro r r1 genes h
    simp only [randomInitShifts, Option.some.injEq, Prod.mk.injEq] at h
    rw [← h.1]
    exact List.Forall₂.nil
  | cons shift rest ih =>
    intro r r1 genes h
    simp only [randomInitShifts] at h
    cases hd : randomInitDays s shift shift.ApplicableDays r with
    | none => simp [hd] at h
    | some res =>
      obtain ⟨first, r2⟩ := res
      simp only [hd] at h
      cases hr : randomInitShifts s rest r2 with
      | none => simp [hr] at h
      | some res2 =>
        obtain ⟨more, r3⟩ := res2
        simp only [hr, Option.some.injEq, Prod.mk.injEq] at h
        rw [← h.1]
        exact forall₂_append_of (randomInitDays_ok hU shift _ _ _ _ hd) (ih _ _ _ hr)

theorem randomInitChromosome_ok {s : Scheduler} (hU : (s.users.map (·.ID)).Nodup)
    {r r1 : Rand} {ch : Chromosome} (h : randomInitChromosome s r = some (ch, r1)) :
    ChromOK s ch.genes := by
  unfold randomInitChromosome at h
  cases hs : randomInitShifts s s.shifts r with
  | none => simp [hs] at h
  | some res =>
    obtain ⟨genes, r2⟩ := res
    simp only [hs, Option.some.injEq, Prod.mk.injEq] at h
    rw [← h.1]
    exact randomInitShifts_ok hU _ _ _ _ hs

theorem randomInitGene_isSome (s : Scheduler) (shift : ScheduleTemplateShift) (day : Int)
    (r : Rand) (h1 : 1 ≤ shift.RequiredAssistantNumber)
    (h2 : shift.RequiredAssistantNumber < 2 ^ 31) :
    ∃ res, randomInitGene s shift day r = some res := by
  unfold randomInitGene
  simp only []
  rw [wrapInt32_eq (by omega) (by omega)]
  split
  · omega
  · exact ⟨_, rfl⟩

theorem randomInitDays_isSome (s : Scheduler) (shift : ScheduleTemplateShift)
    (h1 : 1 ≤ shift.RequiredAssistantNumber) (h2 : shift.RequiredAssistantNumber < 2 ^ 31) :
    ∀ (days : List Int) (r : Rand), ∃ res, randomInitDays s shift days r = some res := by
  intro days
  induction days with
  | nil => intro r; exact ⟨_, rfl⟩
  | cons day rest ih =>
    intro r
    obtain ⟨⟨gene, r2⟩, hg⟩ := randomInitGene_isSome s shift day r h1 h2
    obtain ⟨⟨more, r3⟩, hr⟩ := ih r2
    exact ⟨(gene :: more, r3), by simp only [randomInitDays, hg, hr]⟩

theorem randomInitShifts_isSome (s : Scheduler) :
    ∀ (shifts : List ScheduleTemplateShift),
      (∀ shift ∈ shifts, 1 ≤ shift.RequiredAssistantNumber ∧
        shift.RequiredAssistantNumber < 2 ^ 31) →
      ∀ r : Rand, ∃ res, randomInitShifts s shifts r = some res := by
  intro shifts
  induction shifts with
  | nil => intro _ r; exact ⟨_, rfl⟩
  | cons shift rest ih =>
    intro h r
    have hs := h shift (List.mem_cons_self _ _)
    obtain ⟨⟨first, r2⟩, hd⟩ := randomInitDays_isSome s shift hs.1 hs.2 shift.ApplicableDays r
    obtain ⟨⟨more, r3⟩, hr⟩ := ih (fun x hx => h x (List.mem_cons_of_mem _ hx)) r2
    exact ⟨(first ++ more, r3), by simp only [randomInitShifts, hd, hr]⟩

theorem randomInitChromosome_isSome (s : Scheduler)
    (h : ∀ shift ∈ s.shifts, 1 ≤ shift.RequiredAssistantNumber ∧
      shift.RequiredAssistantNumber < 2 ^ 31) (r : Rand) :
    ∃ res, randomInitChromosome s r = some res := by
  obtain ⟨⟨genes, r2⟩, hs⟩ := randomInitShifts_isSome s s.shifts h r
  exact ⟨(⟨genes, F64.val 0⟩, r2), by simp only [randomInitChromosome, hs]⟩

/-! ## Mutation keeps the gene invariant -/

theorem mem_mutatePrincipalCandidates {s : Scheduler} {gene : Gene} {p : Int}
    (h : p ∈ mutatePrincipalCandidates s gene) :
    p ∈ principalCandidates s gene.shiftID gene.day ∧ p ∉ gene.assistantIDs := by
  unfold mutatePrincipalCandidates at h
  simp only [List.mem_map, List.mem_filter, Bool.and_eq_true, Bool.not_eq_true'] at h
  obtain ⟨u, ⟨hu, ⟨⟨he, ha⟩, _⟩, hn⟩, rfl⟩ := h
  refine ⟨mem_principalCandidates.2 ⟨u, hu, rfl, he, by simpa using ha⟩, by simpa using hn⟩

theorem mem_mutateAssistantCandidates {s : Scheduler} {gene : Gene} {a : Int}
    (h : a ∈ mutateAssistantCandidates s gene) :
    a ∈ s.availableMap gene.shiftID gene.day ∧ gene.principalID ≠ some a ∧
      a ∉ gene.assistantIDs := by
  unfold mutateAssistantCandidates at h
  simp only [List.mem_map, List.mem_filter, Bool.and_eq_true, Bool.not_eq_true'] at h
  obtain ⟨u, ⟨hu, ⟨ha, hp⟩, hn⟩, rfl⟩ := h
  exact ⟨by simpa using ha, by simpa using hp, by simpa using hn⟩

theorem GeneOK_set_assistant {s : Scheduler} {cell : ScheduleTemplateShift × Int} {g : Gene}
    (h : GeneOK s cell g) {a : Int} (ha : a ∈ mutateAssistantCandidates s g) (j : Nat) :
    GeneOK s cell { g with assistantIDs := g.assistantIDs.set j a } := by
  obtain ⟨h1, h2, h3, h4, h5, h6, h7, h8, h9⟩ := h
  obtain ⟨hav, hp, hn⟩ := mem_mutateAssistantCandidates ha
  rw [h1, h2] at hav
  refine ⟨h1, h2, h3, h4, h5, ?_, h7.set hn, ?_, ?_⟩
  · intro x hx
    rcases List.mem_or_eq_of_mem_set hx with hx | rfl
    · exact h6 x hx
    · exact hav
  · intro p hpp hx
    rcases List.mem_or_eq_of_mem_set hx with hx | rfl
    · exact h8 p hpp hx
    · exact hp hpp
  · simpa using h9

theorem mutateSlots_ok {s : Scheduler} {cell : ScheduleTemplateShift × Int} :
    ∀ (n j : Nat) (g : Gene) (r : Rand), GeneOK s cell g →
      GeneOK s cell (mutateSlots s n j g r).1 := by
  intro n
  induction n with
  | zero => intro j g r h; simpa [mutateSlots] using h
  | succ n ih =>
    intro j g r h
    simp only [mutateSlots]
    split
    · exact ih _ _ _ h
    · split
      · rename_i hl
        exact ih _ _ _ (GeneOK_set_assistant h (getD_mem_of_lt (Intn_lt _ hl)) j)
      · exact ih _ _ _ h

theorem GeneOK_set_principal {s : Scheduler} {cell : ScheduleTemplateShift × Int} {g : Gene}
    (h : GeneOK s cell g) {p : Int} (hp : p ∈ mutatePrincipalCandidates s g) :
    GeneOK s cell { g with principalID := some p } := by
  obtain ⟨h1, h2, h3, h4, h5, h6, h7, h8, h9⟩ := h
  obtain ⟨hc, hn⟩ := mem_mutatePrincipalCandidates hp
  rw [h1, h2] at hc
  refine ⟨h1, h2, h3, ?_, ?_, h6, h7, ?_, h9⟩
  · constructor
    · intro hnone
      cases hnone
    · intro hnil
      rw [hnil] at hc
      cases hc
  · intro q hq
    simp only [Option.some.injEq] at hq
    exact hq ▸ hc
  · intro q hq
    simp only [Option.some.injEq] at hq
    exact hq ▸ hn

theorem mutateGene_ok {s : Scheduler} {cell : ScheduleTemplateShift × Int} {g : Gene}
    (r : Rand) (h : GeneOK s cell g) : GeneOK s cell (mutateGene s g r).1 := by
  unfold mutateGene
  split
  · exact h
  · simp only []
    split
    · rename_i hl
      exact mutateSlots_ok _ _ _ _ (GeneOK_set_principal h (getD_mem_of_lt (Intn_lt _ hl)))
    · exact mutateSlots_ok _ _ _ _ h

theorem mutateGenes_ok {s : Scheduler} :
    ∀ (cs : List (ScheduleTemplateShift × Int)) (genes : List Gene) (r : Rand),
      List.Forall₂ (GeneOK s) cs genes →
        List.Forall₂ (GeneOK s) cs (mutateGenes s genes r).1 := by
  intro cs genes r h
  induction h generalizing r with
  | nil => simp only [mutateGenes]; exact List.Forall₂.nil
  | cons hab _ ih =>
    simp only [mutateGenes]
    exact List.Forall₂.cons (mutateGene_ok r hab) (ih _)

/-! ## The store under crossover, mutation and selection -/

theorem deref_mem {store : Store} {p : Nat} (h : p < store.length) : deref store p ∈ store := by
  unfold deref
  rw [List.getD_eq_getElem?_getD, List.getElem?_eq_getElem h]
  exact List.getElem_mem h

theorem StoreOK_set {s : Scheduler} {store : Store} (h : StoreOK s store) (p : Nat)
    {ch : Chromosome} (hch : ChromOK s ch.genes) : StoreOK s (store.set p ch) := by
  intro x hx
  rcases List.mem_or_eq_of_mem_set hx with hx | rfl
  · exact h x hx
  · exact hch

theorem StoreOK_setGenes {s : Scheduler} {store : Store} (h : StoreOK s store) (p : Nat)
    {genes : List Gene} (hg : ChromOK s genes) : StoreOK s (setGenes store p genes) :=
  StoreOK_set h p hg

theorem length_setGenes (store : Store) (p : Nat) (genes : List Gene) :
    (setGenes store p genes).length = store.length := by
  simp [setGenes]

theorem mutate_ok {s : Scheduler} {store : Store} {p : Nat} (r : Rand) (h : StoreOK s store)
    (hp : p < store.length) :
    StoreOK s (mutate s store p r).1 ∧ (mutate s store p r).1.length = store.length := by
  unfold mutate
  exact ⟨StoreOK_setGenes h p (mutateGenes_ok _ _ _ (h _ (deref_mem hp))), length_setGenes _ _ _⟩

theorem ChromOK_cross {s : Scheduler} {genes1 genes2 : List Gene} (h1 : ChromOK s genes1)
    (h2 : ChromOK s genes2) (point : Nat) :
    ChromOK s (genes1.take point ++ genes2.drop point) := by
  unfold ChromOK at *
  have := forall₂_append_of (List.forall₂_take point h1) (List.forall₂_drop point h2)
  rwa [List.take_append_drop] at this

theorem singlePointCrossover_ok {s : Scheduler} {store store1 : Store} {p1 p2 : Nat}
    {r r1 : Rand} (h : singlePointCrossover store p1 p2 r = some (store1, r1))
    (hs : StoreOK s store) (hp1 : p1 < store.length) (hp2 : p2 < store.length) :
    StoreOK s store1 ∧ store1.length = store.length := by
  unfold singlePointCrossover at h
  simp only [] at h
  have hg1 := hs _ (deref_mem hp1)
  have hg2 := hs _ (deref_mem hp2)
  split at h
  · simp only [Option.some.injEq, Prod.mk.injEq] at h
    rw [← h.1]
    exact ⟨hs, rfl⟩
  · split at h
    · cases h
    · simp only [Option.some.injEq, Prod.mk.injEq] at h
      rw [← h.1]
      refine ⟨StoreOK_setGenes (StoreOK_setGenes hs p1 (ChromOK_cross hg1 hg2 _)) p2
        (ChromOK_cross hg2 hg1 _), ?_⟩
      rw [length_setGenes, length_setGenes]

theorem singlePointCrossover_isSome {s : Scheduler} {store : Store} {p1 p2 : Nat} (r : Rand)
    (hs : StoreOK s store) (hp1 : p1 < store.length) (hp2 : p2 < store.length)
    (hc : cells s.shifts ≠ []) :
    ∃ res, singlePointCrossover store p1 p2 r = some res := by
  unfold singlePointCrossover
  simp only []
  have hg1 : (cells s.shifts).length = (deref store p1).genes.length :=
    (hs _ (deref_mem hp1)).length_eq
  have hg2 : (cells s.shifts).length = (deref store p2).genes.length :=
    (hs _ (deref_mem hp2)).length_eq
  have hpos : 0 < (cells s.shifts).length := List.length_pos.2 hc
  split
  · exact ⟨_, rfl⟩
  · split
    · omega
    · exact ⟨_, rfl⟩

theorem rouletteLoop_mem {store : Store} {pick : F64} :
    ∀ (pop : List Nat) (running : F64) (p : Nat),
      rouletteLoop store pick running pop = some p → p ∈ pop := by
  intro pop
  induction pop with
  | nil => intro running p h; simp [rouletteLoop] at h
  | cons q rest ih =>
    intro running p h
    simp only [rouletteLoop] at h
    split at h
    · simp only [Option.some.injEq] at h
      exact h ▸ List.mem_cons_self _ _
    · exact List.mem_cons_of_mem _ (ih _ _ h)

theorem selectByRoulette_mem {store : Store} {pop : List Nat} {r : Rand} {p : Nat}
    (h : (selectByRoulette store pop r).1 = some p) : p ∈ pop := by
  unfold selectByRoulette at h
  simp only [] at h
  split at h
  · rename_i q hq
    simp only [Option.some.injEq] at h
    exact h ▸ rouletteLoop_mem _ _ _ hq
  · exact List.mem_of_getLast?_eq_some h

theorem selectByRoulette_isSome (store : Store) {pop : List Nat} (r : Rand) (h : pop ≠ []) :
    ∃ p, (selectByRoulette store pop r).1 = some p := by
  unfold selectByRoulette
  simp only []
  split
  · exact ⟨_, rfl⟩
  · exact ⟨pop.getLast h, List.getLast?_eq_getLast _ h⟩

theorem breedPair_ok {s : Scheduler} {store store1 : Store} {pop : List Nat} {r r1 : Rand}
    {p1 p2 : Nat} (h : breedPair s store pop r = some (store1, p1, p2, r1))
    (hs : StoreOK s store) (hv : PopValid store pop) :
    StoreOK s store1 ∧ store1.length = store.length ∧ p1 ∈ pop ∧ p2 ∈ pop := by
  unfold breedPair at h
  split at h
  · cases h
  · rename_i q1 r2 hq1
    split at h
    · cases h
    · rename_i q2 r3 hq2
      have hm1 : q1 ∈ pop := selectByRoulette_mem (by rw [hq1])
      have hm2 : q2 ∈ pop := selectByRoulette_mem (by rw [hq2])
      simp only [] at h
      split at h
      · cases h
      · rename_i store2 r4 hcross
        simp only [Option.some.injEq, Prod.mk.injEq] at h
        obtain ⟨hst, hp1, hp2, -⟩ := h
        subst hp1 hp2
        have hc : StoreOK s store2 ∧ store2.length = store.length := by
          split at hcross
          · exact singlePointCrossover_ok hcross hs (hv _ hm1) (hv _ hm2)
          · simp only [Option.some.injEq, Prod.mk.injEq] at hcross
            rw [← hcross.1]
            exact ⟨hs, rfl⟩
        have hmu1 := mutate_ok r4 hc.1 (p := q1) (by rw [hc.2]; exact hv _ hm1)
        have hmu2 := mutate_ok (mutate s store2 q1 r4).2 hmu1.1 (p := q2)
          (by rw [hmu1.2, hc.2]; exact hv _ hm2)
        rw [← hst]
        exact ⟨hmu2.1, by rw [hmu2.2, hmu1.2, hc.2], hm1, hm2⟩

theorem breedPair_isSome {s : Scheduler} {store : Store} {pop : List Nat} (r : Rand)
    (hs : StoreOK s store) (hv : PopValid store pop) (hpop : pop ≠ [])
    (hc : cells s.shifts ≠ []) :
    ∃ res, breedPair s store pop r = some res := by
  obtain ⟨q1, hq1⟩ := selectByRoulette_isSome store r hpop
  obtain ⟨q2, hq2⟩ := selectByRoulette_isSome store (selectByRoulette store pop r).2 hpop
  have hm1 : q1 ∈ pop := selectByRoulette_mem hq1
  have hm2 : q2 ∈ pop := selectByRoulette_mem hq2
  unfold breedPair
  have e1 : selectByRoulette store pop r = (some q1, (selectByRoulette store pop r).2) := by
    rw [← hq1]
  rw [e1]
  simp only []
  have e2 : selectByRoulette store pop (selectByRoulette store pop r).2 =
      (some q2, (selectByRoulette store pop (selectByRoulette store pop r).2).2) := by
    rw [← hq2]
  rw [e2]
  simp only []
  split
  · rename_i hcross
    split at hcross
    · obtain ⟨res, hres⟩ := singlePointCrossover_isSome
        (selectByRoulette store pop (selectByRoulette store pop r).2).2.Float64.2 hs
        (hv _ hm1) (hv _ hm2) hc
      rw [hres] at hcross
      cases hcross
    · cases hcross
  · exact ⟨_, rfl⟩

/-! ## One generation keeps the invariant -/

theorem breed_ok {s : Scheduler} {pop : List Nat} :
    ∀ (n : Nat) (store : Store) (newPop : List Nat) (r : Rand) (store1 : Store)
      (newPop1 : List Nat) (r1 : Rand),
      breed s n store pop newPop r = some (store1, newPop1, r1) →
      StoreOK s store → PopValid store pop → (∀ p ∈ newPop, p ∈ pop) →
      StoreOK s store1 ∧ store1.length = store.length ∧ (∀ p ∈ newPop1, p ∈ pop) ∧
        newPop1.length = newPop.length + n := by
  intro n
  induction n using Nat.strongRecOn with
  | _ n ih =>
    intro store newPop r store1 newPop1 r1 h hs hv hnew
    match n, ih with
    | 0, _ =>
      simp only [breed, Option.some.injEq, Prod.mk.injEq] at h
      obtain ⟨rfl, rfl, -⟩ := h
      exact ⟨hs, rfl, hnew, rfl⟩
    | 1, _ =>
      simp only [breed] at h
      split at h
      · cases h
      · rename_i store2 p1 p2 r2 hpair
        simp only [Option.some.injEq, Prod.mk.injEq] at h
        obtain ⟨rfl, rfl, -⟩ := h
        obtain ⟨h1, h2, h3, -⟩ := breedPair_ok hpair hs hv
        refine ⟨h1, h2, ?_, by simp⟩
        intro p hp
        rcases List.mem_append.1 hp with hp | hp
        · exact hnew p hp
        · have : p = p1 := by simpa using hp
          exact this ▸ h3
    | m + 2, ih =>
      simp only [breed] at h
      split at h
      · cases h
      · rename_i store2 p1 p2 r2 hpair
        obtain ⟨h1, h2, h3, h4⟩ := breedPair_ok hpair hs hv
        have hv2 : PopValid store2 pop := fun p hp => by rw [h2]; exact hv p hp
        have hnew2 : ∀ p ∈ newPop ++ [p1, p2], p ∈ pop := by
          intro p hp
          rcases List.mem_append.1 hp with hp | hp
          · exact hnew p hp
          · simp only [List.mem_cons, List.mem_singleton, List.not_mem_nil, or_false] at hp
            rcases hp with rfl | rfl
            · exact h3
            · exact h4
        obtain ⟨g1, g2, g3, g4⟩ := ih m (by omega) _ _ _ _ _ _ h h1 hv2 hnew2
        refine ⟨g1, by rw [g2, h2], g3, ?_⟩
        rw [g4]
        simp only [List.length_append, List.length_cons, List.length_nil]
        omega

theorem breed_isSome {s : Scheduler} {pop : List Nat} (hpop : pop ≠ [])
    (hc : cells s.shifts ≠ []) :
    ∀ (n : Nat) (store : Store) (newPop : List Nat) (r : Rand),
      StoreOK s store → PopValid store pop →
      ∃ res, breed s n store pop newPop r = some res := by
  intro n
  induction n using Nat.strongRecOn with
  | _ n ih =>
    intro store newPop r hs hv
    match n, ih with
    | 0, _ => exact ⟨_, rfl⟩
    | 1, _ =>
      obtain ⟨⟨store2, p1, p2, r2⟩, hpair⟩ := breedPair_isSome r hs hv hpop hc
      exact ⟨(store2, newPop ++ [p1], r2), by simp only [breed, hpair]⟩
    | m + 2, ih =>
      obtain ⟨⟨store2, p1, p2, r2⟩, hpair⟩ := breedPair_isSome r hs hv hpop hc
      obtain ⟨h1, h2, -, -⟩ := breedPair_ok hpair hs hv
      have hv2 : PopValid store2 pop := fun p hp => by rw [h2]; exact hv p hp
      obtain ⟨res, hres⟩ := ih m (by omega) store2 (newPop ++ [p1, p2]) r2 h1 hv2
      exact ⟨res, by simp only [breed, hpair, hres]⟩

theorem insertLeft_perm (store : Store) (p : Nat) :
    ∀ l : List Nat, (insertLeft store p l).Perm (p :: l) := by
  intro l
  induction l with
  | nil => simp [insertLeft]
  | cons q rest ih =>
    simp only [insertLeft]
    split
    · exact (ih.cons q).trans (List.Perm.swap _ _ _)
    · exact List.Perm.refl _

theorem sortPop_perm (store : Store) (pop : List Nat) : (sortPop store pop).Perm pop := by
  unfold sortPop
  have key : ∀ (l acc : List Nat),
      (l.foldl (fun sortedRev p => insertLeft store p sortedRev) acc).Perm (acc ++ l) := by
    intro l
    induction l with
    | nil => intro acc; simp
    | cons p rest ih =>
      intro acc
      simp only [List.foldl_cons]
      refine (ih _).trans ?_
      refine ((insertLeft_perm store p acc).append_right rest).trans ?_
      simpa using (@List.perm_middle _ p acc rest).symm
  exact (List.reverse_perm _).trans (by simpa using key pop [])

theorem recalcFitness_ok {s : Scheduler} :
    ∀ (pop : List Nat) (store : Store), StoreOK s store →
      StoreOK s (recalcFitness s store pop) ∧ (recalcFitness s store pop).length = store.length := by
  intro pop
  induction pop with
  | nil => intro store h; exact ⟨h, rfl⟩
  | cons p rest ih =>
    intro store h
    simp only [recalcFitness, List.foldl_cons]
    have hset : StoreOK s (store.set p (calcFitness s (deref store p))) := by
      by_cases hp : p < store.length
      · have hd : ChromOK s (deref store p).genes := h _ (deref_mem hp)
        exact StoreOK_set h p hd
      · rw [List.set_eq_of_length_le (by omega)]
        exact h
    have := ih _ hset
    simp only [recalcFitness] at this
    exact ⟨this.1, by rw [this.2, List.length_set]⟩

theorem bestIndexLoop_bound (store : Store) :
    ∀ (rest : List Nat) (i : Nat) (fit : F64) (idx : Nat), idx < i →
      (bestIndexLoop store rest i fit idx).2 < i + rest.length := by
  intro rest
  induction rest with
  | nil => intro i fit idx h; simpa [bestIndexLoop] using h
  | cons p more ih =>
    intro i fit idx h
    simp only [bestIndexLoop, List.length_cons]
    split
    · have := ih (i + 1) (deref store p).fitness i (by omega)
      omega
    · have := ih (i + 1) fit idx (by omega)
      omega

theorem getD_mem_pop {pop : List Nat} {i : Nat} (h : i < pop.length) : pop.getD i 0 ∈ pop := by
  rw [List.getD_eq_getElem?_getD, List.getElem?_eq_getElem h]
  exact List.getElem_mem h

theorem generation_ok {s : Scheduler} {st st1 : GAState} (h : generation s st = some st1)
    (hinv : GAInv s st) : GAInv s st1 ∧ st1.store.length = st.store.length := by
  obtain ⟨hs, hv, hb⟩ := hinv
  unfold generation at h
  split at h
  · cases h
  · rename_i p0 rest hpop
    simp only [] at h
    split at h
    · cases h
    · split at h
      · cases h
      · rename_i store1 newPop r1 hbreed
        simp only [Option.some.injEq] at h
        have hsorted := sortPop_perm st.store st.pop
        have hv1 : PopValid st.store (sortPop st.store st.pop) :=
          fun p hp => hv p (hsorted.subset hp)
        obtain ⟨g1, g2, g3, -⟩ := breed_ok _ _ _ _ _ _ _ hbreed hs hv1
          (fun p hp => List.take_subset _ _ hp)
        obtain ⟨k1, k2⟩ := recalcFitness_ok
          (newPop.take s.parameters.PopulationSize.toNat) store1 g1
        rw [← h]
        refine ⟨⟨k1, ?_, ?_⟩, by rw [k2, g2]⟩
        · intro p hp
          show p < (recalcFitness s store1 _).length
          rw [k2, g2]
          exact hv p (hsorted.subset (g3 p (List.take_subset _ _ hp)))
        · show (ite _ _ _ : Chromosome).genes = [] ∨ ChromOK s (ite _ _ _ : Chromosome).genes
          split
          · right
            have hidx := bestIndexLoop_bound st.store rest 1 (deref st.store p0).fitness 0
              (by omega)
            have hlen : st.pop.length = 1 + rest.length := by rw [hpop]; simp; omega
            have hd : ChromOK s (deref st.store (st.pop.getD
                (bestIndexLoop st.store rest 1 (deref st.store p0).fitness 0).2 0)).genes :=
              hs _ (deref_mem (hv _ (getD_mem_pop (by rw [hlen]; exact hidx))))
            exact hd
          · exact hb

theorem generations_ok {s : Scheduler} :
    ∀ (n : Nat) (st st1 : GAState), generations s n st = some st1 → GAInv s st → GAInv s st1 := by
  intro n
  induction n with
  | zero =>
    intro st st1 h hinv
    simp only [generations, Option.some.injEq] at h
    exact h ▸ hinv
  | succ n ih =>
    intro st st1 h hinv
    simp only [generations] at h
    split at h
    · cases h
    · rename_i st2 hgen
      exact ih _ _ h (generation_ok hgen hinv).1

theorem initPopulation_ok {s : Scheduler} (hU : (s.users.map (·.ID)).Nodup) :
    ∀ (n : Nat) (store : Store) (r : Rand) (store1 : Store) (r1 : Rand),
      initPopulation s n store r = some (store1, r1) → StoreOK s store →
        StoreOK s store1 ∧ store1.length = store.length + n := by
  intro n
  induction n with
  | zero =>
    intro store r store1 r1 h hs
    simp only [initPopulation, Option.some.injEq, Prod.mk.injEq] at h
    rw [← h.1]
    exact ⟨hs, rfl⟩
  | succ n ih =>
    intro store r store1 r1 h hs
    simp only [initPopulation] at h
    split at h
    · cases h
    · rename_i ch r2 hch
      have hok : StoreOK s (store ++ [calcFitness s ch]) := by
        intro x hx
        rcases List.mem_append.1 hx with hx | hx
        · exact hs x hx
        · have : x = calcFitness s ch := by simpa using hx
          rw [this]
          have hd : ChromOK s ch.genes := randomInitChromosome_ok hU hch
          exact hd
      obtain ⟨h1, h2⟩ := ih _ _ _ _ h hok
      refine ⟨h1, ?_⟩
      rw [h2]
      simp only [List.length_append, List.length_cons, List.length_nil]
      omega

theorem initPopulation_isSome {s : Scheduler}
    (hreq : ∀ shift ∈ s.shifts, 1 ≤ shift.RequiredAssistantNumber ∧
      shift.RequiredAssistantNumber < 2 ^ 31) :
    ∀ (n : Nat) (store : Store) (r : Rand), ∃ res, initPopulation s n store r = some res := by
  intro n
  induction n with
  | zero => intro store r; exact ⟨_, rfl⟩
  | succ n ih =>
    intro store r
    obtain ⟨⟨ch, r2⟩, hch⟩ := randomInitChromosome_isSome s hreq r
    obtain ⟨res, hres⟩ := ih (store ++ [calcFitness s ch]) r2
    exact ⟨res, by simp only [initPopulation, hch, hres]⟩

/-! ## The generations do not panic -/

theorem generation_isSome {s : Scheduler} {st : GAState} (hinv : GAInv s st)
    (hlen : st.pop.length = s.parameters.PopulationSize.toNat)
    (hpop : 1 ≤ s.parameters.PopulationSize)
    (he0 : 0 ≤ s.parameters.EliteCount)
    (he1 : s.parameters.EliteCount ≤ s.parameters.PopulationSize)
    (hc : cells s.shifts ≠ []) :
    ∃ st1, generation s st = some st1 ∧
      st1.pop.length = s.parameters.PopulationSize.toNat := by
  obtain ⟨hs, hv, hb⟩ := hinv
  have hsorted := sortPop_perm st.store st.pop
  have hv1 : PopValid st.store (sortPop st.store st.pop) :=
    fun p hp => hv p (hsorted.subset hp)
  have hne : sortPop st.store st.pop ≠ [] := by
    intro h0
    have := hsorted.length_eq
    rw [h0, hlen] at this
    simp only [List.length_nil] at this
    omega
  obtain ⟨⟨store1, newPop, r1⟩, hbreed⟩ := breed_isSome hne hc
    (s.parameters.PopulationSize.toNat -
      ((sortPop st.store st.pop).take s.parameters.EliteCount.toNat).length)
    st.store ((sortPop st.store st.pop).take s.parameters.EliteCount.toNat) st.rand hs hv1
  obtain ⟨-, -, -, g4⟩ := breed_ok _ _ _ _ _ _ _ hbreed hs hv1
    (fun p hp => List.take_subset _ _ hp)
  have hel : ((sortPop st.store st.pop).take s.parameters.EliteCount.toNat).length ≤
      s.parameters.PopulationSize.toNat := by
    rw [List.length_take]
    omega
  unfold generation
  split
  · rename_i hnil
    rw [hnil] at hlen
    simp only [List.length_nil] at hlen
    omega
  · simp only []
    split
    · omega
    · rw [hbreed]
      refine ⟨_, rfl, ?_⟩
      simp only [List.length_take]
      omega

theorem generations_isSome {s : Scheduler}
    (hpop : 1 ≤ s.parameters.PopulationSize)
    (he0 : 0 ≤ s.parameters.EliteCount)
    (he1 : s.parameters.EliteCount ≤ s.parameters.PopulationSize)
    (hc : cells s.shifts ≠ []) :
    ∀ (n : Nat) (st : GAState), GAInv s st →
      st.pop.length = s.parameters.PopulationSize.toNat →
      ∃ st1, generations s n st = some st1 := by
  intro n
  induction n with
  | zero => intro st _ _; exact ⟨st, rfl⟩
  | succ n ih =>
    intro st hinv hlen
    obtain ⟨st2, hgen, hlen2⟩ := generation_isSome hinv hlen hpop he0 he1 hc
    obtain ⟨st3, hst3⟩ := ih st2 (generation_ok hgen hinv).1 hlen2
    exact ⟨st3, by simp only [generations, hgen, hst3]⟩

/-! ## The availability map built by `New` -/

theorem mem_addDays (shiftID userID : Int) :
    ∀ (days : List Int) (m0 : AvailableMap) (s d u : Int),
      u ∈ addDays m0 shiftID userID days s d ↔
        u ∈ m0 s d ∨ (s = shiftID ∧ d ∈ days ∧ u = userID) := by
  intro days
  induction days with
  | nil => intro m0 s d u; simp [addDays]
  | cons day rest ih =>
    intro m0 s d u
    have := ih (addAvailable m0 shiftID day userID) s d u
    simp only [addDays, List.foldl_cons] at this ⊢
    rw [this]
    unfold addAvailable
    by_cases h : s = shiftID ∧ d = day
    · simp only [h, and_self, if_true, List.mem_append, List.mem_singleton, true_and,
        List.mem_cons]
      obtain ⟨h1, h2⟩ := h
      subst h1 h2
      tauto
    · simp only [h, if_false, List.mem_cons]
      constructor
      · rintro (h1 | ⟨h1, h2, h3⟩)
        · exact Or.inl h1
        · exact Or.inr ⟨h1, Or.inr h2, h3⟩
      · rintro (h1 | ⟨h1, h2 | h2, h3⟩)
        · exact Or.inl h1
        · exact absurd ⟨h1, h2⟩ h
        · exact Or.inr ⟨h1, h2, h3⟩

theorem mem_addItems (userID : Int) :
    ∀ (items : List AvailabilitySubmissionItem) (m0 : AvailableMap) (s d u : Int),
      u ∈ addItems m0 userID items s d ↔
        u ∈ m0 s d ∨ (u = userID ∧ ∃ item ∈ items, item.ShiftID = s ∧ d ∈ item.Days) := by
  intro items
  induction items with
  | nil => intro m0 s d u; simp [addItems]
  | cons item rest ih =>
    intro m0 s d u
    have := ih (addDays m0 item.ShiftID userID item.Days) s d u
    simp only [addItems, List.foldl_cons] at this ⊢
    rw [this, mem_addDays]
    simp only [List.exists_mem_cons_iff]
    constructor
    · rintro ((h | ⟨h1, h2, h3⟩) | ⟨h1, h2⟩)
      · exact Or.inl h
      · exact Or.inr ⟨h3, Or.inl ⟨h1.symm, h2⟩⟩
      · exact Or.inr ⟨h1, Or.inr h2⟩
    · rintro (h | ⟨h1, ⟨h2, h3⟩ | h2⟩)
      · exact Or.inl (Or.inl h)
      · exact Or.inl (Or.inr ⟨h2.symm, h3, h1⟩)
      · exact Or.inr ⟨h1, h2⟩

theorem newLoop_ok (users : List User) :
    ∀ (submissions : List AvailabilitySubmission) (acc : List User) (m : AvailableMap)
      (acc1 : List User) (m1 : AvailableMap),
      newLoop users acc m submissions = .ok (acc1, m1) →
        acc1.map (·.ID) = acc.map (·.ID) ++ submissions.map (·.UserID) ∧
        ∀ s d u, u ∈ m1 s d ↔
          u ∈ m s d ∨ ∃ submission ∈ submissions, submission.UserID = u ∧
            ∃ item ∈ submission.Items, item.ShiftID = s ∧ d ∈ item.Days := by
  intro submissions
  induction submissions with
  | nil =>
    intro acc m acc1 m1 h
    simp only [newLoop, Except.ok.injEq, Prod.mk.injEq] at h
    obtain ⟨rfl, rfl⟩ := h
    simp
  | cons submission rest ih =>
    intro acc m acc1 m1 h
    simp only [newLoop] at h
    split at h
    · cases h
    · rename_i user huser
      obtain ⟨h1, h2⟩ := ih _ _ _ _ h
      refine ⟨?_, ?_⟩
      · rw [h1]
        simp [(findUser_eq_some huser).2]
      · intro s d u
        rw [h2, mem_addItems]
        simp only [List.exists_mem_cons_iff]
        constructor
        · rintro ((h | ⟨h3, h4⟩) | h)
          · exact Or.inl h
          · exact Or.inr (Or.inl ⟨h3.symm, h4⟩)
          · exact Or.inr (Or.inr h)
        · rintro (h | ⟨h3, h4⟩ | h)
          · exact Or.inl (Or.inl h)
          · exact Or.inl (Or.inr ⟨h3.symm, h4⟩)
          · exact Or.inr h

theorem New_ok {parameters : Parameters} {users : List User} {template : ScheduleTemplate}
    {submissions : List AvailabilitySubmission} {s : Scheduler}
    (h : New parameters users template submissions = .ok s) :
    s.parameters = parameters ∧ s.shifts = template.Shifts ∧ s.submissions = submissions ∧
      s.users.map (·.ID) = submissions.map (·.UserID) ∧
      ∀ shiftID day u, u ∈ s.availableMap shiftID day ↔
        ∃ submission ∈ submissions, submission.UserID = u ∧
          ∃ item ∈ submission.Items, item.ShiftID = shiftID ∧ day ∈ item.Days := by
  unfold New at h
  split at h
  · cases h
  · rename_i submitters m hloop
    simp only [Except.ok.injEq] at h
    subst h
    obtain ⟨h1, h2⟩ := newLoop_ok users _ _ _ _ _ hloop
    refine ⟨rfl, rfl, rfl, by simpa using h1, ?_⟩
    intro shiftID day u
    rw [h2]
    simp

theorem getSubmissionByAssistantID_of_mem :
    ∀ {submissions : List AvailabilitySubmission},
      (submissions.map (·.UserID)).Nodup →
      ∀ {submission : AvailabilitySubmission}, submission ∈ submissions →
        getSubmissionByAssistantID submissions submission.UserID = some submission := by
  intro submissions
  induction submissions with
  | nil => intro _ submission h; cases h
  | cons first rest ih =>
    intro hnd submission hmem
    simp only [List.map_cons, List.nodup_cons, List.mem_map, not_exists, not_and] at hnd
    simp only [getSubmissionByAssistantID]
    rcases List.mem_cons.1 hmem with rfl | hmem
    · simp
    · have hne : first.UserID ≠ submission.UserID := fun heq => hnd.1 submission hmem heq.symm
      simp only [hne, if_false]
      exact ih hnd.2 hmem

/-! ## The result built from the best chromosome -/

theorem addResultItem_items {Q : Int → SchedulingResultShiftItem → Prop} {gene : Gene}
    (hg : Q gene.shiftID (geneItem gene)) :
    ∀ (resultMap : List (Int × List SchedulingResultShiftItem)),
      (∀ entry ∈ resultMap, ∀ item ∈ entry.2, Q entry.1 item) →
      ∀ entry ∈ addResultItem resultMap gene, ∀ item ∈ entry.2, Q entry.1 item := by
  intro resultMap
  induction resultMap with
  | nil =>
    intro _ entry hentry item hitem
    simp only [addResultItem, List.mem_singleton] at hentry
    subst hentry
    simp only [List.mem_singleton] at hitem
    subst hitem
    exact hg
  | cons first rest ih =>
    intro h entry hentry item hitem
    obtain ⟨shiftID, items⟩ := first
    simp only [addResultItem] at hentry
    split at hentry
    · rename_i heq
      rcases List.mem_cons.1 hentry with rfl | hentry
      · rcases List.mem_append.1 hitem with hitem | hitem
        · exact h (shiftID, items) (List.mem_cons_self _ _) item hitem
        · simp only [List.mem_singleton] at hitem
          subst hitem
          subst heq
          exact hg
      · exact h entry (List.mem_cons_of_mem _ hentry) item hitem
    · rcases List.mem_cons.1 hentry with rfl | hentry
      · exact h (shiftID, items) (List.mem_cons_self _ _) item hitem
      · exact ih (fun e he => h e (List.mem_cons_of_mem _ he)) entry hentry item hitem

theorem foldl_addResultItem_items {Q : Int → SchedulingResultShiftItem → Prop} :
    ∀ (genes : List Gene) (resultMap : List (Int × List SchedulingResultShiftItem)),
      (∀ gene ∈ genes, Q gene.shiftID (geneItem gene)) →
      (∀ entry ∈ resultMap, ∀ item ∈ entry.2, Q entry.1 item) →
      ∀ entry ∈ genes.foldl addResultItem resultMap, ∀ item ∈ entry.2, Q entry.1 item := by
  intro genes
  induction genes with
  | nil => intro resultMap _ h; simpa using h
  | cons gene rest ih =>
    intro resultMap hg h
    simp only [List.foldl_cons]
    exact ih _ (fun g hgm => hg g (List.mem_cons_of_mem _ hgm))
      (addResultItem_items (hg gene (List.mem_cons_self _ _)) resultMap h)

theorem buildResult_items {Q : Int → SchedulingResultShiftItem → Prop} {genes : List Gene}
    (hg : ∀ gene ∈ genes, Q gene.shiftID (geneItem gene)) :
    ∀ shift ∈ buildResult genes, ∀ item ∈ shift.Items, Q shift.ShiftID item := by
  intro shift hshift item hitem
  unfold buildResult at hshift
  simp only [List.mem_map] at hshift
  obtain ⟨entry, hentry, rfl⟩ := hshift
  exact foldl_addResultItem_items genes [] hg (by simp) entry hentry item hitem

theorem forall₂_right_mem {α β : Type} {R : α → β → Prop} {l1 : List α} {l2 : List β}
    (h : List.Forall₂ R l1 l2) : ∀ b ∈ l2, ∃ a ∈ l1, R a b := by
  induction h with
  | nil => intro b hb; cases hb
  | cons hab _ ih =>
    intro b hb
    rcases List.mem_cons.1 hb with rfl | hb
    · exact ⟨_, List.mem_cons_self _ _, hab⟩
    · obtain ⟨a, ha, hr⟩ := ih b hb
      exact ⟨a, List.mem_cons_of_mem _ ha, hr⟩

theorem mem_cells {shifts : List ScheduleTemplateShift} {cell : ScheduleTemplateShift × Int} :
    cell ∈ cells shifts ↔ cell.1 ∈ shifts ∧ cell.2 ∈ cell.1.ApplicableDays := by
  induction shifts with
  | nil => simp [cells]
  | cons shift rest ih =>
    simp only [cells, List.mem_append, List.mem_map, ih, List.mem_cons]
    constructor
    · rintro (⟨day, hday, rfl⟩ | ⟨h1, h2⟩)
      · exact ⟨Or.inl rfl, hday⟩
      · exact ⟨Or.inr h1, h2⟩
    · rintro ⟨h1 | h1, h2⟩
      · left
        refine ⟨cell.2, h1 ▸ h2, ?_⟩
        rw [← h1]
      · exact Or.inr ⟨h1, h2⟩

/-- Every item of the result built from the best chromosome is the item of a
gene that satisfies the gene invariant at a cell of its shift. -/
theorem buildResult_GeneOK {s : Scheduler} {best : Chromosome}
    (hb : best.genes = [] ∨ ChromOK s best.genes) :
    ∀ shift ∈ buildResult best.genes, ∀ item ∈ shift.Items,
      ∃ cell ∈ cells s.shifts, ∃ gene, GeneOK s cell gene ∧ gene.shiftID = shift.ShiftID ∧
        item = geneItem gene := by
  apply buildResult_items
    (Q := fun shiftID item => ∃ cell ∈ cells s.shifts, ∃ gene, GeneOK s cell gene ∧
      gene.shiftID = shiftID ∧ item = geneItem gene)
  intro gene hgene
  rcases hb with hb | hb
  · rw [hb] at hgene
    cases hgene
  · obtain ⟨cell, hcell, hok⟩ := forall₂_right_mem hb gene hgene
    exact ⟨cell, hcell, gene, hok, rfl, rfl⟩

theorem New_users {parameters : Parameters} {users : List User} {template : ScheduleTemplate}
    {submissions : List AvailabilitySubmission} {s : Scheduler}
    (h : New parameters users template submissions = .ok s) :
    s.users = submitters users submissions := by
  have key : ∀ (subs : List AvailabilitySubmission) (acc : List User) (m : AvailableMap)
      (acc1 : List User) (m1 : AvailableMap),
      newLoop users acc m subs = .ok (acc1, m1) → acc1 = acc ++ submitters users subs := by
    intro subs
    induction subs with
    | nil =>
      intro acc m acc1 m1 h
      simp only [newLoop, Except.ok.injEq, Prod.mk.injEq] at h
      simp [submitters, h.1]
    | cons submission rest ih =>
      intro acc m acc1 m1 h
      simp only [newLoop] at h
      split at h
      · cases h
      · rename_i user huser
        rw [ih _ _ _ _ h]
        simp [submitters, huser]
  unfold New at h
  split at h
  · cases h
  · rename_i found m hloop
    simp only [Except.ok.injEq] at h
    subst h
    simpa using key _ _ _ _ _ hloop

/-- The two checks that `Schedule` runs on its result accept the result built
from a best chromosome that satisfies the invariant, in whatever order the
shifts of the result are listed. -/
theorem result_accepted {parameters : Parameters} {users : List User}
    {template : ScheduleTemplate} {submissions : List AvailabilitySubmission} {s : Scheduler}
    (hNew : New parameters users template submissions = .ok s)
    (hU : (submissions.map (·.UserID)).Nodup) {best : Chromosome}
    (hb : best.genes = [] ∨ ChromOK s best.genes)
    {reordered : List SchedulingResultShift} (hperm : reordered.Perm (buildResult best.genes)) :
    ValidateSchedulingResultWithSubmissions ⟨reordered⟩ submissions = none ∧
      ValidIfExistsDuplicateAssistant ⟨reordered⟩ = none := by
  obtain ⟨-, -, -, -, havail⟩ := New_ok hNew
  have hitems := buildResult_GeneOK hb
  constructor
  · unfold ValidateSchedulingResultWithSubmissions
    rw [checkSubmissionShifts_eq_none]
    intro shift hshift item hitem u hu
    obtain ⟨cell, -, gene, hok, hid, rfl⟩ := hitems shift (hperm.subset hshift) item hitem
    obtain ⟨h1, h2, -, -, h5, h6, -, -, -⟩ := hok
    have hmem : u ∈ s.availableMap cell.1.ID cell.2 := by
      rcases hu with hu | hu
      · exact (mem_principalCandidates.1 (h5 u hu)).choose_spec.2.2.2
      · exact h6 u hu
    obtain ⟨submission, hsub, hid2, hfree⟩ := (havail _ _ _).1 hmem
    refine ⟨submission, ?_, ?_⟩
    · rw [← hid2]
      exact getSubmissionByAssistantID_of_mem hU hsub
    · rw [hasFreeTime_iff]
      rw [← hid, h1]
      show ∃ x ∈ submission.Items, x.ShiftID = cell.1.ID ∧ gene.day ∈ x.Days
      rw [h2]
      exact hfree
  · unfold ValidIfExistsDuplicateAssistant
    rw [checkDuplicateShifts_eq_none]
    intro shift hshift item hitem
    obtain ⟨cell, -, gene, hok, hid, rfl⟩ := hitems shift (hperm.subset hshift) item hitem
    obtain ⟨-, -, -, -, -, -, h7, h8, -⟩ := hok
    exact ⟨h8, h7⟩

/-! ## `Schedule` -/

theorem GAInv_init {s : Scheduler} (hU : (s.users.map (·.ID)).Nodup) {n : Nat} {r r1 : Rand}
    {store : Store} (h : initPopulation s n [] r = some (store, r1)) :
    GAInv s { store := store, pop := List.range n,
              best := { genes := [], fitness := F64.neg F64.maxFloat64 }, rand := r1 } := by
  obtain ⟨h1, h2⟩ := initPopulation_ok hU n [] r store r1 h (fun ch hch => by cases hch)
  refine ⟨h1, ?_, Or.inl rfl⟩
  intro p hp
  show p < store.length
  rw [h2]
  simpa using hp

/-- A result returned by `Schedule` is built from a best chromosome that
satisfies the invariant. -/
theorem Schedule_ok_inv {s : Scheduler} (hU : (s.users.map (·.ID)).Nodup) {r : Rand}
    {result : List SchedulingResultShift} (h : Schedule s r = .ok result) :
    ∃ best : Chromosome, (best.genes = [] ∨ ChromOK s best.genes) ∧
      result = buildResult best.genes := by
  unfold Schedule at h
  split at h
  · cases h
  · split at h
    · cases h
    · rename_i store r1 hinit
      split at h
      · cases h
      · rename_i st hgens
        have hinv := generations_ok _ _ _ hgens (GAInv_init hU hinit)
        simp only [] at h
        split at h
        · cases h
        · split at h
          · cases h
          · simp only [Outcome.ok.injEq] at h
            exact ⟨st.best, hinv.2.2, h.symm⟩

theorem New_users_nodup {parameters : Parameters} {users : List User}
    {template : ScheduleTemplate} {submissions : List AvailabilitySubmission} {s : Scheduler}
    (hNew : New parameters users template submissions = .ok s)
    (hU : (submissions.map (·.UserID)).Nodup) : (s.users.map (·.ID)).Nodup := by
  rw [(New_ok hNew).2.2.2.1]
  exact hU

/-- C1: with `populationSize >= 1`, `0 <= eliteCount <= populationSize`, a
template with at least one (shift, day) cell whose shifts all have a required
number of at least 1 (an `int32`), and submissions with pairwise distinct
`userID`s that all occur in `users`, `New` builds a scheduler and `Schedule`
returns a result and no error, for every random source, whatever the rates, the
fairness weight and the number of generations are.  The returned result passes
`ValidateSchedulingResultWithSubmissions` and `ValidIfExistsDuplicateAssistant`
in every order of its shifts. -/
theorem Schedule_returns_result (parameters : Parameters) (users : List User)
    (template : ScheduleTemplate) (submissions : List AvailabilitySubmission) (r : Rand)
    (hpop : 1 ≤ parameters.PopulationSize)
    (he0 : 0 ≤ parameters.EliteCount)
    (he1 : parameters.EliteCount ≤ parameters.PopulationSize)
    (hcells : cells template.Shifts ≠ [])
    (hreq : ∀ shift ∈ template.Shifts, 1 ≤ shift.RequiredAssistantNumber ∧
      shift.RequiredAssistantNumber < 2 ^ 31)
    (hU : (submissions.map (·.UserID)).Nodup)
    (hin : ∀ submission ∈ submissions, ∃ u ∈ users, u.ID = submission.UserID) :
    ∃ s result, New parameters users template submissions = .ok s ∧
      Schedule s r = .ok result ∧
      ∀ reordered : List SchedulingResultShift, reordered.Perm result →
        ValidateSchedulingResultWithSubmissions ⟨reordered⟩ submissions = none ∧
          ValidIfExistsDuplicateAssistant ⟨reordered⟩ = none := by
  have hsome : ∃ s, New parameters users template submissions = .ok s := by
    have key := newLoop_error_iff users submissions [] (fun _ _ => [])
    cases hl : newLoop users [] (fun _ _ => []) submissions with
    | error err =>
      obtain ⟨submission, hsub, hall⟩ := key.1 ⟨err, hl⟩
      obtain ⟨u, hu, hid⟩ := hin submission hsub
      exact absurd hid (hall u hu)
    | ok res =>
      obtain ⟨found, m⟩ := res
      exact ⟨⟨parameters, found, template.Shifts, submissions, m⟩, by simp only [New, hl]⟩
  obtain ⟨s, hNew⟩ := hsome
  obtain ⟨hpar, hshifts, hsubs, -, -⟩ := New_ok hNew
  have hUs := New_users_nodup hNew hU
  have hpop1 : 1 ≤ s.parameters.PopulationSize := by rw [hpar]; exact hpop
  have he0s : 0 ≤ s.parameters.EliteCount := by rw [hpar]; exact he0
  have he1s : s.parameters.EliteCount ≤ s.parameters.PopulationSize := by rw [hpar]; exact he1
  have hcs : cells s.shifts ≠ [] := by rw [hshifts]; exact hcells
  have hreqs : ∀ shift ∈ s.shifts, 1 ≤ shift.RequiredAssistantNumber ∧
      shift.RequiredAssistantNumber < 2 ^ 31 := by rw [hshifts]; exact hreq
  obtain ⟨⟨store, r1⟩, hinit⟩ :=
    initPopulation_isSome hreqs s.parameters.PopulationSize.toNat [] r
  have hinv0 := GAInv_init hUs hinit
  obtain ⟨st, hgens⟩ := generations_isSome hpop1 he0s he1s hcs
    s.parameters.MaxGenerations.toNat _ hinv0 (by simp)
  have hinv := generations_ok _ _ _ hgens hinv0
  have hacc := fun (reordered : List SchedulingResultShift)
      (hperm : reordered.Perm (buildResult st.best.genes)) =>
    result_accepted hNew hU hinv.2.2 hperm
  refine ⟨s, buildResult st.best.genes, hNew, ?_, hacc⟩
  obtain ⟨ha1, ha2⟩ := hacc _ (List.Perm.refl _)
  unfold Schedule
  have hneg : ¬ s.parameters.PopulationSize < 0 := by omega
  simp only [hneg, if_false, hinit, hgens, hsubs, ha1, ha2]

/-- C1 at the one-cell template with two users who both submitted. -/
theorem Schedule_returns_result_witness :
    ∃ s result, New smallParameters twoUsers oneCellTemplate twoSubmissions = .ok s ∧
      Schedule s zeroRand = .ok result ∧
      ∀ reordered : List SchedulingResultShift, reordered.Perm result →
        ValidateSchedulingResultWithSubmissions ⟨reordered⟩ twoSubmissions = none ∧
          ValidIfExistsDuplicateAssistant ⟨reordered⟩ = none :=
  Schedule_returns_result smallParameters twoUsers oneCellTemplate twoSubmissions zeroRand
    (by decide) (by decide) (by decide) (by decide) (by decide) (by decide) (by decide)

/-- C4: for a scheduler built by `New` from submissions with pairwise distinct
`userID`s, every item (shift, day) of a result returned by `Schedule` has no
principal exactly when no senior or black-core user among the submitters is in
the availability map at (shift, day), and a principal that is present is the ID
of such a user. -/
theorem Schedule_principal_iff (parameters : Parameters) (users : List User)
    (template : ScheduleTemplate) (submissions : List AvailabilitySubmission) (s : Scheduler)
    (r : Rand) (result : List SchedulingResultShift)
    (hNew : New parameters users template submissions = .ok s)
    (hU : (submissions.map (·.UserID)).Nodup)
    (hres : Schedule s r = .ok result) :
    ∀ shift ∈ result, ∀ item ∈ shift.Items,
      (item.PrincipalID = none ↔
        ¬ ∃ u ∈ submitters users submissions, isSeniorOrBlackCore u = true ∧
            u.ID ∈ s.availableMap shift.ShiftID item.Day) ∧
      (∀ p, item.PrincipalID = some p →
        ∃ u ∈ submitters users submissions, u.ID = p ∧ isSeniorOrBlackCore u = true ∧
          p ∈ s.availableMap shift.ShiftID item.Day) := by
  obtain ⟨best, hb, rfl⟩ := Schedule_ok_inv (New_users_nodup hNew hU) hres
  intro shift hshift item hitem
  obtain ⟨cell, -, gene, hok, hid, rfl⟩ := buildResult_GeneOK hb shift hshift item hitem
  obtain ⟨h1, h2, -, h4, h5, -, -, -, -⟩ := hok
  rw [← New_users hNew, ← hid, h1]
  show (gene.principalID = none ↔ _) ∧ (∀ p, gene.principalID = some p → _)
  simp only [geneItem, h2]
  constructor
  · rw [h4]
    constructor
    · rintro hnil ⟨u, hu, he, ha⟩
      have : u.ID ∈ principalCandidates s cell.1.ID cell.2 :=
        mem_principalCandidates.2 ⟨u, hu, rfl, he, ha⟩
      rw [hnil] at this
      cases this
    · intro hno
      rw [List.eq_nil_iff_forall_not_mem]
      intro p hp
      obtain ⟨u, hu, hpid, he, ha⟩ := mem_principalCandidates.1 hp
      exact hno ⟨u, hu, he, hpid ▸ ha⟩
  · intro p hp
    exact mem_principalCandidates.1 (h5 p hp)

/-- C4 at the one-cell template with two users who both submitted: the run
returns user 10, the senior assistant, as principal of shift 1 on day 1. -/
theorem Schedule_principal_iff_witness :
    New smallParameters twoUsers oneCellTemplate twoSubmissions = .ok twoUserScheduler ∧
      (twoSubmissions.map (·.UserID)).Nodup ∧
      Schedule twoUserScheduler zeroRand = .ok [⟨1, [⟨1, some 10, [11]⟩]⟩] ∧
      ∀ shift ∈ [(⟨1, [⟨1, some 10, [11]⟩]⟩ : SchedulingResultShift)], ∀ item ∈ shift.Items,
        (item.PrincipalID = none ↔
          ¬ ∃ u ∈ submitters twoUsers twoSubmissions, isSeniorOrBlackCore u = true ∧
              u.ID ∈ twoUserScheduler.availableMap shift.ShiftID item.Day) ∧
        (∀ p, item.PrincipalID = some p →
          ∃ u ∈ submitters twoUsers twoSubmissions, u.ID = p ∧ isSeniorOrBlackCore u = true ∧
            p ∈ twoUserScheduler.availableMap shift.ShiftID item.Day) :=
  ⟨rfl, by decide, by decide!,
    Schedule_principal_iff smallParameters twoUsers oneCellTemplate twoSubmissions
      twoUserScheduler zeroRand _ rfl (by decide) (by decide!)⟩

/-! ## The result against the template -/

theorem addResultItem_keys (gene : Gene) :
    ∀ resultMap : List (Int × List SchedulingResultShiftItem),
      (addResultItem resultMap gene).map (·.1) =
        if gene.shiftID ∈ resultMap.map (·.1) then resultMap.map (·.1)
        else resultMap.map (·.1) ++ [gene.shiftID] := by
  intro resultMap
  induction resultMap with
  | nil => simp [addResultItem]
  | cons first rest ih =>
    obtain ⟨shiftID, items⟩ := first
    simp only [addResultItem]
    by_cases h : shiftID = gene.shiftID
    · simp [h]
    · have h' : ¬ gene.shiftID = shiftID := fun e => h e.symm
      simp only [h, if_false, List.map_cons, ih, List.mem_cons, h', false_or]
      split <;> simp

theorem foldl_addResultItem_keys_nodup :
    ∀ (genes : List Gene) (resultMap : List (Int × List SchedulingResultShiftItem)),
      (resultMap.map (·.1)).Nodup → ((genes.foldl addResultItem resultMap).map (·.1)).Nodup := by
  intro genes
  induction genes with
  | nil => intro resultMap h; simpa using h
  | cons gene rest ih =>
    intro resultMap h
    simp only [List.foldl_cons]
    apply ih
    rw [addResultItem_keys]
    split
    · exact h
    · rename_i hn
      rw [List.nodup_append]
      refine ⟨h, List.nodup_singleton _, ?_⟩
      intro a ha hb
      simp only [List.mem_singleton] at hb
      exact hn (hb ▸ ha)

theorem foldl_addResultItem_keys_mem :
    ∀ (genes : List Gene) (resultMap : List (Int × List SchedulingResultShiftItem)) (k : Int),
      k ∈ (genes.foldl addResultItem resultMap).map (·.1) ↔
        k ∈ resultMap.map (·.1) ∨ ∃ gene ∈ genes, gene.shiftID = k := by
  intro genes
  induction genes with
  | nil => intro resultMap k; simp
  | cons gene rest ih =>
    intro resultMap k
    simp only [List.foldl_cons, ih, addResultItem_keys, List.exists_mem_cons_iff]
    split
    · rename_i hmem
      constructor
      · rintro (h | h)
        · exact Or.inl h
        · exact Or.inr (Or.inr h)
      · rintro (h | h | h)
        · exact Or.inl h
        · exact Or.inl (h ▸ hmem)
        · exact Or.inr h
    · simp only [List.mem_append, List.mem_singleton]
      constructor
      · rintro ((h | h) | h)
        · exact Or.inl h
        · exact Or.inr (Or.inl h.symm)
        · exact Or.inr (Or.inr h)
      · rintro (h | h | h)
        · exact Or.inl (Or.inl h)
        · exact Or.inl (Or.inr h.symm)
        · exact Or.inr h

theorem addResultItem_keeps (gene : Gene) (k : Int) (item : SchedulingResultShiftItem) :
    ∀ resultMap : List (Int × List SchedulingResultShiftItem),
      (∃ entry ∈ resultMap, entry.1 = k ∧ item ∈ entry.2) →
      ∃ entry ∈ addResultItem resultMap gene, entry.1 = k ∧ item ∈ entry.2 := by
  intro resultMap
  induction resultMap with
  | nil => rintro ⟨entry, hentry, -⟩; cases hentry
  | cons first rest ih =>
    obtain ⟨shiftID, items⟩ := first
    rintro ⟨entry, hentry, hk, hitem⟩
    simp only [addResultItem]
    split
    · rcases List.mem_cons.1 hentry with rfl | hentry
      · exact ⟨(shiftID, items ++ [geneItem gene]), List.mem_cons_self _ _, hk,
          List.mem_append_left _ hitem⟩
      · exact ⟨entry, List.mem_cons_of_mem _ hentry, hk, hitem⟩
    · rcases List.mem_cons.1 hentry with rfl | hentry
      · exact ⟨(shiftID, items), List.mem_cons_self _ _, hk, hitem⟩
      · obtain ⟨e, he, h1, h2⟩ := ih ⟨entry, hentry, hk, hitem⟩
        exact ⟨e, List.mem_cons_of_mem _ he, h1, h2⟩

theorem addResultItem_adds (gene : Gene) :
    ∀ resultMap : List (Int × List SchedulingResultShiftItem),
      ∃ entry ∈ addResultItem resultMap gene,
        entry.1 = gene.shiftID ∧ geneItem gene ∈ entry.2 := by
  intro resultMap
  induction resultMap with
  | nil => exact ⟨_, List.mem_singleton.2 rfl, rfl, List.mem_singleton.2 rfl⟩
  | cons first rest ih =>
    obtain ⟨shiftID, items⟩ := first
    simp only [addResultItem]
    split
    · rename_i heq
      exact ⟨(shiftID, items ++ [geneItem gene]), List.mem_cons_self _ _, heq,
        List.mem_append_right _ (List.mem_singleton.2 rfl)⟩
    · obtain ⟨e, he, h1, h2⟩ := ih
      exact ⟨e, List.mem_cons_of_mem _ he, h1, h2⟩

theorem foldl_addResultItem_keeps (k : Int) (item : SchedulingResultShiftItem) :
    ∀ (genes : List Gene) (resultMap : List (Int × List SchedulingResultShiftItem)),
      (∃ entry ∈ resultMap, entry.1 = k ∧ item ∈ entry.2) →
      ∃ entry ∈ genes.foldl addResultItem resultMap, entry.1 = k ∧ item ∈ entry.2 := by
  intro genes
  induction genes with
  | nil => intro resultMap h; simpa using h
  | cons gene rest ih =>
    intro resultMap h
    simp only [List.foldl_cons]
    exact ih _ (addResultItem_keeps gene k item resultMap h)

theorem foldl_addResultItem_has :
    ∀ (genes : List Gene) (resultMap : List (Int × List SchedulingResultShiftItem)),
      ∀ gene ∈ genes, ∃ entry ∈ genes.foldl addResultItem resultMap,
        entry.1 = gene.shiftID ∧ geneItem gene ∈ entry.2 := by
  intro genes
  induction genes with
  | nil => intro _ gene h; cases h
  | cons first rest ih =>
    intro resultMap gene hgene
    simp only [List.foldl_cons]
    rcases List.mem_cons.1 hgene with rfl | hgene
    · exact foldl_addResultItem_keeps _ _ rest _ (addResultItem_adds gene resultMap)
    · exact ih _ gene hgene

theorem buildResult_ids (genes : List Gene) :
    (buildResult genes).map (·.ShiftID) = (genes.foldl addResultItem []).map (·.1) := by
  simp [buildResult]

theorem buildResult_ids_nodup (genes : List Gene) :
    ((buildResult genes).map (·.ShiftID)).Nodup := by
  rw [buildResult_ids]
  exact foldl_addResultItem_keys_nodup genes [] (by simp)

theorem buildResult_id_mem (genes : List Gene) (k : Int) :
    k ∈ (buildResult genes).map (·.ShiftID) ↔ ∃ gene ∈ genes, gene.shiftID = k := by
  rw [buildResult_ids, foldl_addResultItem_keys_mem]
  simp

theorem buildResult_has (genes : List Gene) :
    ∀ gene ∈ genes, ∃ shift ∈ buildResult genes,
      shift.ShiftID = gene.shiftID ∧ geneItem gene ∈ shift.Items := by
  intro gene hgene
  obtain ⟨entry, hentry, h1, h2⟩ := foldl_addResultItem_has genes [] gene hgene
  exact ⟨⟨entry.1, entry.2⟩, by
    unfold buildResult
    exact List.mem_map.2 ⟨entry, hentry, rfl⟩, h1, h2⟩

theorem forall₂_left_mem {α β : Type} {R : α → β → Prop} {l1 : List α} {l2 : List β}
    (h : List.Forall₂ R l1 l2) : ∀ a ∈ l1, ∃ b ∈ l2, R a b := by
  induction h with
  | nil => intro a ha; cases ha
  | cons hab _ ih =>
    intro a ha
    rcases List.mem_cons.1 ha with rfl | ha
    · exact ⟨_, List.mem_cons_self _ _, hab⟩
    · obtain ⟨b, hb, hr⟩ := ih a ha
      exact ⟨b, List.mem_cons_of_mem _ hb, hr⟩

theorem eq_of_mem_of_id_eq {shifts : List ScheduleTemplateShift}
    (hnd : (shifts.map (·.ID)).Nodup) {a b : ScheduleTemplateShift} (ha : a ∈ shifts)
    (hb : b ∈ shifts) (hid : a.ID = b.ID) : a = b :=
  List.inj_on_of_nodup_map hnd ha hb hid

theorem findTemplateShift_of_mem {shifts : List ScheduleTemplateShift}
    (hnd : (shifts.map (·.ID)).Nodup) {templateShift : ScheduleTemplateShift}
    (hmem : templateShift ∈ shifts) :
    findTemplateShift shifts templateShift.ID = some templateShift := by
  rw [findTemplateShift_eq_some]
  obtain ⟨pre, post, heq⟩ := List.append_of_mem hmem
  refine ⟨pre, post, heq, rfl, ?_⟩
  intro later hlater hid
  have hl : later ∈ shifts := by rw [heq]; simp [hlater]
  have := eq_of_mem_of_id_eq hnd hl hmem hid
  subst this
  rw [heq] at hnd
  simp only [List.map_append, List.map_cons] at hnd
  have h2 := (List.nodup_append.1 hnd).2.1
  rw [List.nodup_cons] at h2
  exact h2.1 (List.mem_map.2 ⟨later, hlater, rfl⟩)

theorem checkResultShift_buildResult {s : Scheduler} {genes : List Gene}
    (hc : ChromOK s genes) (hnd : (s.shifts.map (·.ID)).Nodup)
    (hreq : ∀ shift ∈ s.shifts, 1 ≤ shift.RequiredAssistantNumber ∧
      shift.RequiredAssistantNumber < 2 ^ 31)
    {resultShift : SchedulingResultShift} (hmem : resultShift ∈ buildResult genes) :
    checkResultShift ⟨s.shifts⟩ resultShift = none := by
  rw [checkResultShift_eq_none]
  have hid : resultShift.ShiftID ∈ (buildResult genes).map (·.ShiftID) :=
    List.mem_map.2 ⟨resultShift, hmem, rfl⟩
  obtain ⟨gene0, hgene0, hk⟩ := (buildResult_id_mem genes _).1 hid
  obtain ⟨cell0, hcell0, hok0⟩ := forall₂_right_mem hc gene0 hgene0
  have hts : cell0.1 ∈ s.shifts := (mem_cells.1 hcell0).1
  have hcid : cell0.1.ID = resultShift.ShiftID := by rw [← hok0.1, hk]
  refine ⟨cell0.1, ?_, ?_, ?_⟩
  · show findTemplateShift s.shifts resultShift.ShiftID = some cell0.1
    rw [← hcid]
    exact findTemplateShift_of_mem hnd hts
  · intro day hday
    have hcell : (cell0.1, day) ∈ cells s.shifts := mem_cells.2 ⟨hts, hday⟩
    obtain ⟨gene, hgene, hok⟩ := forall₂_left_mem hc _ hcell
    obtain ⟨shift1, hshift1, hid1, hitem1⟩ := buildResult_has genes gene hgene
    have hsame : shift1 = resultShift := by
      apply List.inj_on_of_nodup_map (buildResult_ids_nodup genes) hshift1 hmem
      show shift1.ShiftID = resultShift.ShiftID
      rw [hid1, hok.1, ← hcid]
    subst hsame
    exact ⟨geneItem gene, hitem1, hok.2.1⟩
  · intro item hitem
    have hres := buildResult_items
      (Q := fun shiftID item => ∃ cell ∈ cells s.shifts, ∃ gene, GeneOK s cell gene ∧
        gene.shiftID = shiftID ∧ item = geneItem gene)
      (fun gene hgene => by
        obtain ⟨cell, hcell, hok⟩ := forall₂_right_mem hc gene hgene
        exact ⟨cell, hcell, gene, hok, rfl, rfl⟩)
      resultShift hmem item hitem
    obtain ⟨cell, hcell, gene, hok, hgid, rfl⟩ := hres
    have hcm := mem_cells.1 hcell
    have hceq : cell.1 = cell0.1 := by
      apply eq_of_mem_of_id_eq hnd hcm.1 hts
      rw [← hok.1, hgid, hcid]
    obtain ⟨-, h2, -, -, -, -, -, -, h9⟩ := hok
    have hr := hreq cell.1 hcm.1
    rw [← hceq]
    refine ⟨?_, h9 ⟨by omega, hr.2⟩⟩
    show gene.day ∈ cell.1.ApplicableDays
    rw [h2]
    exact hcm.2

theorem buildResult_length {s : Scheduler} {genes : List Gene}
    (hc : ChromOK s genes) (hnd : (s.shifts.map (·.ID)).Nodup)
    (hdays : ∀ shift ∈ s.shifts, shift.ApplicableDays ≠ []) :
    (buildResult genes).length = s.shifts.length := by
  have hperm : ((buildResult genes).map (·.ShiftID)).Perm (s.shifts.map (·.ID)) := by
    rw [List.perm_ext_iff_of_nodup (buildResult_ids_nodup genes) hnd]
    intro k
    rw [buildResult_id_mem]
    constructor
    · rintro ⟨gene, hgene, rfl⟩
      obtain ⟨cell, hcell, hok⟩ := forall₂_right_mem hc gene hgene
      exact List.mem_map.2 ⟨cell.1, (mem_cells.1 hcell).1, hok.1.symm⟩
    · intro hk
      obtain ⟨shift, hshift, rfl⟩ := List.mem_map.1 hk
      obtain ⟨day, hday⟩ := List.exists_mem_of_ne_nil _ (hdays shift hshift)
      have hcell : (shift, day) ∈ cells s.shifts := mem_cells.2 ⟨hshift, hday⟩
      obtain ⟨gene, hgene, hok⟩ := forall₂_left_mem hc _ hcell
      exact ⟨gene, hgene, hok.1⟩
  simpa using hperm.length_eq

/-- C2, amended: for a scheduler built by `New` from submissions with pairwise
distinct `userID`s, a result returned by `Schedule`, in every order of its
shifts, is accepted by `ValidateSchedulingResultWithSubmissions` and by
`ValidIfExistsDuplicateAssistant`; and when the shift IDs of the template are
pairwise distinct, every template shift has at least one applicable day and a
required number of at least 1, and the result is not empty, it is also accepted
by `ValidateSchedulingResultWithTemplate` against the template given to `New`. -/
theorem Schedule_result_validated (parameters : Parameters) (users : List User)
    (template : ScheduleTemplate) (submissions : List AvailabilitySubmission) (s : Scheduler)
    (r : Rand) (result : List SchedulingResultShift)
    (hNew : New parameters users template submissions = .ok s)
    (hU : (submissions.map (·.UserID)).Nodup)
    (hres : Schedule s r = .ok result) :
    (∀ reordered : List SchedulingResultShift, reordered.Perm result →
      ValidateSchedulingResultWithSubmissions ⟨reordered⟩ submissions = none ∧
        ValidIfExistsDuplicateAssistant ⟨reordered⟩ = none) ∧
    ((template.Shifts.map (·.ID)).Nodup →
      (∀ shift ∈ template.Shifts, shift.ApplicableDays ≠ [] ∧
        1 ≤ shift.RequiredAssistantNumber ∧ shift.RequiredAssistantNumber < 2 ^ 31) →
      result ≠ [] →
      ∀ reordered : List SchedulingResultShift, reordered.Perm result →
        ValidateSchedulingResultWithTemplate ⟨reordered⟩ template = none) := by
  obtain ⟨best, hb, rfl⟩ := Schedule_ok_inv (New_users_nodup hNew hU) hres
  refine ⟨fun reordered hperm => result_accepted hNew hU hb hperm, ?_⟩
  intro hnd hshape hne reordered hperm
  have hshifts := (New_ok hNew).2.1
  have htemplate : template = ⟨s.shifts⟩ := by
    cases template
    simp only [ScheduleTemplate.mk.injEq]
    exact hshifts.symm
  have hc : ChromOK s best.genes := by
    rcases hb with hb | hb
    · rw [hb] at hne
      exact absurd rfl hne
    · exact hb
  rw [← hshifts] at hnd hshape
  rw [htemplate]
  unfold ValidateSchedulingResultWithTemplate
  have hlen : reordered.length = s.shifts.length := by
    rw [hperm.length_eq]
    exact buildResult_length hc hnd (fun shift hshift => (hshape shift hshift).1)
  simp only [hlen, ne_eq, not_true_eq_false, if_false]
  rw [checkResultShifts_eq_none]
  intro resultShift hmem
  exact checkResultShift_buildResult hc hnd (fun shift hshift => (hshape shift hshift).2)
    (hperm.subset hmem)

/-- C2 at the one-cell template with two users who both submitted: the run
returns one shift with user 10 as principal and user 11 as assistant. -/
theorem Schedule_result_validated_witness :
    New smallParameters twoUsers oneCellTemplate twoSubmissions = .ok twoUserScheduler ∧
      (twoSubmissions.map (·.UserID)).Nodup ∧
      Schedule twoUserScheduler zeroRand = .ok [⟨1, [⟨1, some 10, [11]⟩]⟩] ∧
      (∀ reordered : List SchedulingResultShift,
        reordered.Perm [⟨1, [⟨1, some 10, [11]⟩]⟩] →
        ValidateSchedulingResultWithSubmissions ⟨reordered⟩ twoSubmissions = none ∧
          ValidIfExistsDuplicateAssistant ⟨reordered⟩ = none) ∧
      ((oneCellTemplate.Shifts.map (·.ID)).Nodup →
        (∀ shift ∈ oneCellTemplate.Shifts, shift.ApplicableDays ≠ [] ∧
          1 ≤ shift.RequiredAssistantNumber ∧ shift.RequiredAssistantNumber < 2 ^ 31) →
        [(⟨1, [⟨1, some 10, [11]⟩]⟩ : SchedulingResultShift)] ≠ [] →
        ∀ reordered : List SchedulingResultShift,
          reordered.Perm [⟨1, [⟨1, some 10, [11]⟩]⟩] →
          ValidateSchedulingResultWithTemplate ⟨reordered⟩ oneCellTemplate = none) :=
  ⟨rfl, by decide, by decide!,
    Schedule_result_validated smallParameters twoUsers oneCellTemplate twoSubmissions
      twoUserScheduler zeroRand _ rfl (by decide) (by decide!)⟩

/-- C2, as stated, fails: on the template whose second shift has no applicable
day, `New` builds a scheduler from one submission per user, `Schedule` returns
a result with the one entry for shift 1, and `ValidateSchedulingResultWithTemplate`
rejects that result against the template given to `New`. -/
theorem Schedule_result_rejected_by_template :
    New smallParameters twoUsers idleShiftTemplate twoSubmissions = .ok idleShiftScheduler ∧
      (twoSubmissions.map (·.UserID)).Nodup ∧
      Schedule idleShiftScheduler zeroRand = .ok [⟨1, [⟨1, some 10, [11]⟩]⟩] ∧
      ValidateSchedulingResultWithTemplate ⟨[⟨1, [⟨1, some 10, [11]⟩]⟩]⟩ idleShiftTemplate ≠ none :=
  ⟨rfl, by decide, by decide!, by decide⟩

/-- C3: on the one-cell template (shift 1 on day 1), with no user and no
submission, `New` builds a scheduler and `Schedule` returns, for every random
source, the empty result and no error: the result has no item for shift 1 on
day 1.  Every fitness is not-a-number, so no chromosome is ever copied into
the best one. -/
theorem Schedule_no_submission_empty_result :
    New smallParameters [] oneCellTemplate [] = .ok emptyScheduler ∧
      (oneCellTemplate.Shifts.map (·.ID)).Nodup ∧
      (∀ shift ∈ oneCellTemplate.Shifts, shift.ApplicableDays.Nodup) ∧
      ∀ r : Rand, Schedule emptyScheduler r = .ok [] :=
  ⟨rfl, by decide, by decide, fun _ => rfl⟩

/-! ## The template time check -/

theorem checkShiftTimes_eq_none (shifts : List ScheduleTemplateShift) :
    ∀ id, checkShiftTimes id shifts = none ↔
      ∀ shift ∈ shifts, ∃ a b, parseClock shift.StartTime = some a ∧
        parseClock shift.EndTime = some b ∧ a ≤ b := by
  induction shifts with
  | nil => intro id; simp [checkShiftTimes]
  | cons shift rest ih =>
    intro id
    simp only [checkShiftTimes, List.forall_mem_cons]
    cases hs : parseClock shift.StartTime with
    | none => simp
    | some a =>
      cases he : parseClock shift.EndTime with
      | none => simp
      | some b =>
        by_cases hlt : b < a
        · simp only [hlt, if_true, reduceCtorEq, Option.some.injEq, false_iff]
          rintro ⟨⟨a1, b1, rfl, rfl, hle⟩, -⟩
          omega
        · simp only [hlt, if_false, ih, Option.some.injEq]
          constructor
          · exact fun h => ⟨⟨a, b, rfl, rfl, by omega⟩, h⟩
          · exact fun h => h.2

theorem checkConflictsWith_eq_none (i : Nat) (shiftI : ScheduleTemplateShift)
    (rest : List ScheduleTemplateShift) :
    ∀ j, checkConflictsWith i shiftI j rest = none ↔
      ∀ shiftJ ∈ rest,
        parseClockOrZero shiftI.EndTime ≤ parseClockOrZero shiftJ.StartTime ∨
          parseClockOrZero shiftJ.EndTime ≤ parseClockOrZero shiftI.StartTime := by
  induction rest with
  | nil => intro j; simp [checkConflictsWith]
  | cons shiftJ more ih =>
    intro j
    simp only [checkConflictsWith, List.forall_mem_cons]
    by_cases h : parseClockOrZero shiftI.EndTime ≤ parseClockOrZero shiftJ.StartTime ∨
        parseClockOrZero shiftJ.EndTime ≤ parseClockOrZero shiftI.StartTime
    · have hc : (decide (parseClockOrZero shiftI.EndTime < parseClockOrZero shiftJ.StartTime)
          || decide (parseClockOrZero shiftJ.StartTime = parseClockOrZero shiftI.EndTime)
          || decide (parseClockOrZero shiftJ.EndTime < parseClockOrZero shiftI.StartTime)
          || decide (parseClockOrZero shiftI.StartTime = parseClockOrZero shiftJ.EndTime))
          = true := by
        simp only [Bool.or_eq_true, decide_eq_true_eq]
        omega
      simp only [hc, Bool.not_true, Bool.false_eq_true, if_false, ih, h, true_and]
    · have hc : (decide (parseClockOrZero shiftI.EndTime < parseClockOrZero shiftJ.StartTime)
          || decide (parseClockOrZero shiftJ.StartTime = parseClockOrZero shiftI.EndTime)
          || decide (parseClockOrZero shiftJ.EndTime < parseClockOrZero shiftI.StartTime)
          || decide (parseClockOrZero shiftI.StartTime = parseClockOrZero shiftJ.EndTime))
          = false := by
        rw [Bool.eq_false_iff]
        simp only [ne_eq, Bool.or_eq_true, decide_eq_true_eq]
        omega
      simp only [hc, Bool.not_false, if_true, reduceCtorEq, h, false_and]

theorem checkConflicts_eq_none (shifts : List ScheduleTemplateShift) :
    ∀ i, checkConflicts i shifts = none ↔
      shifts.Pairwise (fun shiftI shiftJ =>
        parseClockOrZero shiftI.EndTime ≤ parseClockOrZero shiftJ.StartTime ∨
          parseClockOrZero shiftJ.EndTime ≤ parseClockOrZero shiftI.StartTime) := by
  induction shifts with
  | nil => intro i; simp [checkConflicts]
  | cons shiftI rest ih =>
    intro i
    simp only [checkConflicts, List.pairwise_cons]
    cases h : checkConflictsWith i shiftI (i + 1) rest with
    | some err =>
      simp only [reduceCtorEq, false_iff, not_and]
      intro hall
      have := (checkConflictsWith_eq_none i shiftI rest (i + 1)).2 hall
      rw [this] at h
      cases h
    | none =>
      simp only [ih]
      exact ⟨fun hp => ⟨(checkConflictsWith_eq_none i shiftI rest (i + 1)).1 h, hp⟩,
        fun hp => hp.2⟩

theorem parseClockOrZero_of_some {value : String} {ns : Nat} (h : parseClock value = some ns) :
    parseClockOrZero value = ns := by
  simp [parseClockOrZero, h]

/-- C11: `ValidateScheduleTemplateShiftTime` returns no error exactly when the
start and the end of every shift parse as times of day, no end is before its
start, and for every two shifts `i < j` of the template the start of `j` is not
before the end of `i` or the start of `i` is not before the end of `j` (equal
times are allowed, so shifts that touch do not conflict).  In particular a
template with a time that does not parse is rejected. -/
theorem ValidateScheduleTemplateShiftTime_eq_none_iff (st : ScheduleTemplate) :
    (ValidateScheduleTemplateShiftTime st = none ↔
      (∀ shift ∈ st.Shifts, ∃ a b, parseClock shift.StartTime = some a ∧
        parseClock shift.EndTime = some b ∧ a ≤ b) ∧
      st.Shifts.Pairwise (fun shiftI shiftJ =>
        ∀ a b c d, parseClock shiftI.StartTime = some a → parseClock shiftI.EndTime = some b →
          parseClock shiftJ.StartTime = some c → parseClock shiftJ.EndTime = some d →
          (b ≤ c ∨ d ≤ a))) ∧
    ((∃ shift ∈ st.Shifts, parseClock shift.StartTime = none ∨
        parseClock shift.EndTime = none) →
      ValidateScheduleTemplateShiftTime st ≠ none) := by
  have key : ValidateScheduleTemplateShiftTime st = none ↔
      (∀ shift ∈ st.Shifts, ∃ a b, parseClock shift.StartTime = some a ∧
        parseClock shift.EndTime = some b ∧ a ≤ b) ∧
      st.Shifts.Pairwise (fun shiftI shiftJ =>
        ∀ a b c d, parseClock shiftI.StartTime = some a → parseClock shiftI.EndTime = some b →
          parseClock shiftJ.StartTime = some c → parseClock shiftJ.EndTime = some d →
          (b ≤ c ∨ d ≤ a)) := by
    unfold ValidateScheduleTemplateShiftTime
    cases h : checkShiftTimes 0 st.Shifts with
    | some err =>
      simp only [reduceCtorEq, false_iff, not_and]
      intro hall
      have := (checkShiftTimes_eq_none st.Shifts 0).2 hall
      rw [this] at h
      cases h
    | none =>
      have hparse := (checkShiftTimes_eq_none st.Shifts 0).1 h
      simp only [checkConflicts_eq_none]
      constructor
      · intro hp
        refine ⟨hparse, hp.imp ?_⟩
        intro shiftI shiftJ hr a b c d ha hb hc hd
        rw [parseClockOrZero_of_some ha, parseClockOrZero_of_some hb,
          parseClockOrZero_of_some hc, parseClockOrZero_of_some hd] at hr
        exact hr
      · rintro ⟨-, hp⟩
        refine hp.imp_of_mem ?_
        intro shiftI shiftJ hi hj hr
        obtain ⟨a, b, ha, hb, -⟩ := hparse shiftI hi
        obtain ⟨c, d, hc, hd, -⟩ := hparse shiftJ hj
        rw [parseClockOrZero_of_some ha, parseClockOrZero_of_some hb,
          parseClockOrZero_of_some hc, parseClockOrZero_of_some hd]
        exact hr a b c d ha hb hc hd
  refine ⟨key, ?_⟩
  rintro ⟨shift, hmem, hnone⟩ hv
  obtain ⟨a, b, ha, hb, -⟩ := (key.1 hv).1 shift hmem
  rcases hnone with hnone | hnone
  · rw [ha] at hnone
    cases hnone
  · rw [hb] at hnone
    cases hnone

/-- C12: the template whose one shift starts and ends at 09:00:00 is accepted
by `ValidateScheduleTemplateShiftTime`, and the duration of that shift, its end
minus its start in hours, is 0. -/
theorem ValidateScheduleTemplateShiftTime_accepts_zero_length :
    ValidateScheduleTemplateShiftTime zeroLengthTemplate = none ∧
      ∀ shift ∈ zeroLengthTemplate.Shifts,
        parseClock shift.EndTime = parseClock shift.StartTime ∧
          workDurationOf shift = F64.val 0 := by
  refine ⟨by decide, ?_⟩
  intro shift hshift
  simp only [zeroLengthTemplate, List.mem_singleton] at hshift
  subst hshift
  exact ⟨rfl, by decide!⟩

/-! ## The check of a submission against the template -/

theorem containAllDays_iff (shift : ScheduleTemplateShift) (days : List Int) :
    containAllDays shift days = true ↔ ∀ day ∈ days, day ∈ shift.ApplicableDays := by
  induction days with
  | nil => simp [containAllDays]
  | cons day rest ih =>
    simp only [containAllDays, List.forall_mem_cons]
    by_cases h : day ∈ shift.ApplicableDays
    · have hc : shift.ApplicableDays.contains day = true := by simpa using h
      simp [hc, ih, h]
    · have hc : shift.ApplicableDays.contains day = false := by simpa using h
      simp [hc, h]

theorem itemIsValid_iff (item : AvailabilitySubmissionItem)
    (shifts : List ScheduleTemplateShift) :
    itemIsValid item shifts = true ↔
      ∃ shift ∈ shifts, shift.ID = item.ShiftID ∧
        ∀ day ∈ item.Days, day ∈ shift.ApplicableDays := by
  induction shifts with
  | nil => simp [itemIsValid]
  | cons shift rest ih =>
    simp only [itemIsValid, List.exists_mem_cons_iff]
    by_cases hid : shift.ID = item.ShiftID
    · by_cases hd : containAllDays shift item.Days = true
      · simp only [hid, hd, if_true, true_iff]
        exact Or.inl ⟨trivial, (containAllDays_iff shift item.Days).1 hd⟩
      · have hn : ¬ ∀ day ∈ item.Days, day ∈ shift.ApplicableDays :=
          fun hall => hd ((containAllDays_iff shift item.Days).2 hall)
        simp only [hid, hd, if_true, if_false, ih, true_and, hn, false_or, Bool.false_eq_true]
    · simp only [hid, if_false, ih, false_and, false_or]

theorem checkSubmissionItemsWithTemplate_eq_none (template : ScheduleTemplate)
    (items : List AvailabilitySubmissionItem) :
    ∀ i, checkSubmissionItemsWithTemplate template i items = none ↔
      ∀ item ∈ items, itemIsValid item template.Shifts = true := by
  induction items with
  | nil => intro i; simp [checkSubmissionItemsWithTemplate]
  | cons item rest ih =>
    intro i
    simp only [checkSubmissionItemsWithTemplate, List.forall_mem_cons]
    by_cases h : itemIsValid item template.Shifts = true
    · simp [h, ih]
    · simp [h]

/-- C13: `ValidateSubmissionWithTemplate` returns no error exactly when the
number of submission items equals the number of template shifts and, for every
item, some template shift has the item's `shiftID` and has every day of the
item among its applicable days. -/
theorem ValidateSubmissionWithTemplate_eq_none_iff (submission : AvailabilitySubmission)
    (template : ScheduleTemplate) :
    ValidateSubmissionWithTemplate submission template = none ↔
      submission.Items.length = template.Shifts.length ∧
      ∀ item ∈ submission.Items, ∃ shift ∈ template.Shifts,
        shift.ID = item.ShiftID ∧ ∀ day ∈ item.Days, day ∈ shift.ApplicableDays := by
  unfold ValidateSubmissionWithTemplate
  by_cases hlen : template.Shifts.length = submission.Items.length
  · simp only [hlen, ne_eq, not_true_eq_false, if_false, true_and,
      checkSubmissionItemsWithTemplate_eq_none]
    constructor
    · exact fun h item hitem => (itemIsValid_iff item template.Shifts).1 (h item hitem)
    · exact fun h item hitem => (itemIsValid_iff item template.Shifts).2 (h item hitem)
  · have hlen2 : ¬ submission.Items.length = template.Shifts.length := fun e => hlen e.symm
    simp [hlen, hlen2]

/-! ## The plan time check -/

/-- C14: `ValidateSchedulePlanTime` returns no error exactly when
`submissionStartTime <= submissionEndTime`, `activeStartTime <= activeEndTime`
and `submissionEndTime <= activeStartTime`, that is, exactly when the four
instants form the chain submission start, submission end, active start, active
end. -/
theorem ValidateSchedulePlanTime_eq_none_iff (plan : SchedulePlan) :
    (ValidateSchedulePlanTime plan = none ↔
      plan.SubmissionStartTime ≤ plan.SubmissionEndTime ∧
        plan.ActiveStartTime ≤ plan.ActiveEndTime ∧
        plan.SubmissionEndTime ≤ plan.ActiveStartTime) ∧
    (ValidateSchedulePlanTime plan = none ↔
      plan.SubmissionStartTime ≤ plan.SubmissionEndTime ∧
        plan.SubmissionEndTime ≤ plan.ActiveStartTime ∧
        plan.ActiveStartTime ≤ plan.ActiveEndTime) := by
  unfold ValidateSchedulePlanTime
  constructor <;>
  · split
    · simp only [reduceCtorEq, false_iff]; omega
    · split
      · simp only [reduceCtorEq, false_iff]; omega
      · split
        · simp only [reduceCtorEq, false_iff]; omega
        · simp only [true_iff]; omega

/-! ## Panics of `Schedule` -/

theorem generation_eq_none_of_elite {s : Scheduler} (st : GAState)
    (h : s.parameters.PopulationSize < s.parameters.EliteCount) : generation s st = none := by
  unfold generation
  split
  · rfl
  · simp only []
    split
    · rfl
    · rename_i hn
      exact absurd (Or.inr h) hn

theorem Schedule_eq_panic_of_generation {s : Scheduler} {r : Rand}
    (hgen : 1 ≤ s.parameters.MaxGenerations)
    (h : ∀ st, initialState s r = some st → generation s st = none) :
    Schedule s r = .panic := by
  obtain ⟨n, hn⟩ : ∃ n, s.parameters.MaxGenerations.toNat = n + 1 :=
    ⟨s.parameters.MaxGenerations.toNat - 1, by omega⟩
  unfold Schedule
  split
  · rfl
  · cases hinit : initPopulation s s.parameters.PopulationSize.toNat [] r with
    | none => rfl
    | some res =>
      obtain ⟨store, r1⟩ := res
      have hst := h ⟨store, List.range s.parameters.PopulationSize.toNat,
        ⟨[], F64.neg F64.maxFloat64⟩, r1⟩ (by simp only [initialState, hinit])
      simp only [hn, generations, hst]

/-- Whenever `eliteCount` exceeds `populationSize` and there is at least one
generation, `Schedule` panics. -/
theorem Schedule_eq_panic_of_elite {s : Scheduler} (r : Rand)
    (hgen : 1 ≤ s.parameters.MaxGenerations)
    (h : s.parameters.PopulationSize < s.parameters.EliteCount) : Schedule s r = .panic :=
  Schedule_eq_panic_of_generation hgen (fun st _ => generation_eq_none_of_elite st h)

theorem Float64_lt_one (r : Rand) : r.Float64.1 < 1 := by
  unfold Rand.Float64
  simp only []
  rw [div_lt_one (by positivity)]
  have h : r.raw r.pos % 2 ^ 53 < 2 ^ 53 := Nat.mod_lt _ (by positivity)
  exact_mod_cast h

theorem ChromOK_nil_of_no_cells {s : Scheduler} (hc : cells s.shifts = []) {genes : List Gene}
    (h : ChromOK s genes) : genes = [] := by
  unfold ChromOK at h
  rw [hc] at h
  cases h
  rfl

theorem deref_genes_nil {s : Scheduler} (hc : cells s.shifts = []) {store : Store}
    (hs : StoreOK s store) (p : Nat) : (deref store p).genes = [] := by
  by_cases hp : p < store.length
  · exact ChromOK_nil_of_no_cells hc (hs _ (deref_mem hp))
  · unfold deref
    rw [List.getD_eq_getElem?_getD, List.getElem?_eq_none (by omega)]
    rfl

theorem singlePointCrossover_eq_none {store : Store} {p1 p2 : Nat} (r : Rand)
    (h1 : (deref store p1).genes = []) (h2 : (deref store p2).genes = []) :
    singlePointCrossover store p1 p2 r = none := by
  unfold singlePointCrossover
  simp [h1, h2]

theorem breedPair_eq_none_of_no_cells {s : Scheduler} (hc : cells s.shifts = [])
    (hrate : 1 ≤ s.parameters.CrossoverRate) {store : Store} (hs : StoreOK s store)
    (pop : List Nat) (r : Rand) : breedPair s store pop r = none := by
  unfold breedPair
  split
  · rfl
  · split
    · rfl
    · rename_i _ q1 r2 _ _ q2 r3 _
      have hlt : r3.Float64.1 < s.parameters.CrossoverRate :=
        lt_of_lt_of_le (Float64_lt_one r3) hrate
      simp only [hlt, if_true,
        singlePointCrossover_eq_none r3.Float64.2 (deref_genes_nil hc hs q1)
          (deref_genes_nil hc hs q2)]

theorem breed_eq_none_of_breedPair {s : Scheduler} {store : Store} {pop : List Nat} {r : Rand}
    (h : breedPair s store pop r = none) (newPop : List Nat) :
    ∀ n, 1 ≤ n → breed s n store pop newPop r = none := by
  intro n hn
  match n, hn with
  | 1, _ => simp only [breed, h]
  | m + 2, _ => simp only [breed, h]

/-- Whenever the template has no (shift, day) cell, the crossover rate is 1,
`eliteCount` is below `populationSize` and there is at least one generation,
`Schedule` panics: the first crossover draws its point with `rand.Intn(0)`. -/
theorem Schedule_eq_panic_of_no_cells {s : Scheduler} (r : Rand)
    (hU : (s.users.map (·.ID)).Nodup) (hc : cells s.shifts = [])
    (hrate : 1 ≤ s.parameters.CrossoverRate)
    (hgen : 1 ≤ s.parameters.MaxGenerations)
    (he0 : 0 ≤ s.parameters.EliteCount)
    (he1 : s.parameters.EliteCount < s.parameters.PopulationSize) :
    Schedule s r = .panic := by
  apply Schedule_eq_panic_of_generation hgen
  intro st hst
  unfold initialState at hst
  split at hst
  · cases hst
  · rename_i store r1 hinit
    simp only [Option.some.injEq] at hst
    subst hst
    have hinv := GAInv_init hU hinit
    unfold generation
    split
    · rfl
    · simp only []
      split
      · rfl
      · rename_i p0 rest hpop hel
        have hpair := breedPair_eq_none_of_no_cells hc hrate hinv.1
          (sortPop store (List.range s.parameters.PopulationSize.toNat)) r1
        have hlen : ((sortPop store (List.range s.parameters.PopulationSize.toNat)).take
            s.parameters.EliteCount.toNat).length ≤ s.parameters.EliteCount.toNat := by
          rw [List.length_take]
          omega
        rw [breed_eq_none_of_breedPair hpair _ _ (by omega)]

/-- C15: the request with two chromosomes, one elite, one generation and the
crossover rate 1 passes the request validation and has
`eliteCount <= populationSize`; `New` accepts the template whose one shift has
no applicable day with the two users and their submissions; and `Schedule`
panics for every random source. -/
theorem Schedule_no_cell_template_panics :
    generateRequestValid crossRequest = true ∧
      crossRequest.EliteCount ≤ crossRequest.PopulationSize ∧
      ∃ s, New crossRequest twoUsers noCellTemplate noDaySubmissions = .ok s ∧
        ∀ r : Rand, Schedule s r = .panic := by
  refine ⟨by decide!, by decide, ?_⟩
  refine ⟨⟨crossRequest, twoUsers, noCellTemplate.Shifts, noDaySubmissions,
    addItems (addItems (fun _ _ => []) 10 [⟨1, []⟩]) 11 [⟨1, []⟩]⟩, rfl, ?_⟩
  intro r
  exact Schedule_eq_panic_of_no_cells r (by decide) (by decide) (by decide!) (by decide)
    (by decide) (by decide)

/-- C16: the request with `populationSize` 1 and `eliteCount` 2 passes the
request validation, `New` accepts it with the one-cell template and the two
users, and `GenerateSchedulingResult` ends in a panic for every random source,
not in an error. -/
theorem GenerateSchedulingResult_elite_above_population_panics :
    eliteRequest.PopulationSize < eliteRequest.EliteCount ∧
      generateRequestValid eliteRequest = true ∧
      ∀ r : Rand,
        GenerateSchedulingResult eliteRequest oneCellTemplate twoSubmissions twoUsers r =
          .panic := by
  refine ⟨by decide, by decide!, ?_⟩
  intro r
  have hv : generateRequestValid eliteRequest = true := by decide!
  have hN : New eliteRequest twoUsers oneCellTemplate twoSubmissions =
      .ok ⟨eliteRequest, twoUsers, oneCellTemplate.Shifts, twoSubmissions,
        addItems (addItems (fun _ _ => []) 10 [⟨1, [1]⟩]) 11 [⟨1, [1]⟩]⟩ := rfl
  have hS := Schedule_eq_panic_of_elite (s := ⟨eliteRequest, twoUsers, oneCellTemplate.Shifts,
    twoSubmissions, addItems (addItems (fun _ _ => []) 10 [⟨1, [1]⟩]) 11 [⟨1, [1]⟩]⟩) r
    (by decide) (by decide)
  simp only [GenerateSchedulingResult, hv, hN, hS, Bool.not_true, Bool.false_eq_true, if_false]

/-- C17: with three users free for the one cell, two chromosomes and one
elite, the chromosome behind pointer 0 is the elite of the first generation
and holds user 12 as assistant when it is selected; it fills both slots of the
next population, in which it holds user 11 as assistant: it was selected as
parent and mutated in place. -/
theorem generation_mutates_elite :
    New pairRequest threeUsers oneCellTemplate threeSubmissions = .ok threeUserScheduler ∧
      (initialState threeUserScheduler skipRand).map
          (fun st => ((sortPop st.store st.pop).take 1, (deref st.store 0).genes)) =
        some ([0], [⟨1, 1, some 10, [12], 2, F64.val 2⟩]) ∧
      ((initialState threeUserScheduler skipRand).bind (generation threeUserScheduler)).map
          (fun st1 => (st1.pop, (deref st1.store 0).genes)) =
        some ([0, 0], [⟨1, 1, some 10, [11], 2, F64.val 2⟩]) :=
  ⟨rfl, by decide!, by decide!⟩

/-! ## What the initialisation produces -/

theorem principalCandidates_eq (s : Scheduler) (shiftID day : Int) :
    principalCandidates s shiftID day =
      (s.users.filter (fun u =>
        isSeniorOrBlackCore u && decide (u.ID ∈ s.availableMap shiftID day))).map (·.ID) := by
  unfold principalCandidates
  congr 1
  apply List.filter_congr
  intro u _
  simp

theorem assistantCandidates_eq (s : Scheduler) (shiftID day : Int) (principalID : Option Int) :
    assistantCandidates s shiftID day principalID =
      (s.users.filter (fun u =>
        decide (u.ID ∈ s.availableMap shiftID day) &&
          decide (principalID ≠ some u.ID))).map (·.ID) := by
  unfold assistantCandidates
  congr 1
  apply List.filter_congr
  intro u _
  by_cases hp : principalID = some u.ID <;> simp [hp]

theorem randomInitGene_spec {s : Scheduler} (hU : (s.users.map (·.ID)).Nodup)
    {shift : ScheduleTemplateShift} {day : Int} {r r1 : Rand} {g : Gene}
    (h1 : 1 ≤ shift.RequiredAssistantNumber) (h2 : shift.RequiredAssistantNumber < 2 ^ 31)
    (h : randomInitGene s shift day r = some (g, r1)) : InitGeneSpec s (shift, day) g := by
  unfold randomInitGene at h
  simp only [] at h
  split at h
  · cases h
  · rename_i hneg
    simp only [Option.some.injEq, Prod.mk.injEq] at h
    obtain ⟨hg, -⟩ := h
    subst hg
    have hperm := shuffle_perm
      (assistantCandidates s shift.ID day (pickPrincipal (principalCandidates s shift.ID day) r).1)
      (pickPrincipal (principalCandidates s shift.ID day) r).2
    have hnd := assistantCandidates_nodup hU shift.ID day
      (pickPrincipal (principalCandidates s shift.ID day) r).1
    unfold InitGeneSpec
    simp only []
    refine ⟨trivial, trivial, ?_, ?_, ?_, ?_, ?_⟩
    · intro hP
      rw [pickPrincipal_eq_none, principalCandidates_eq, hP]
      rfl
    · intro hP
      cases hp : (pickPrincipal (principalCandidates s shift.ID day) r).1 with
      | none =>
        rw [pickPrincipal_eq_none, principalCandidates_eq] at hp
        exact absurd (List.map_eq_nil_iff.1 hp) hP
      | some p =>
        have hmem := pickPrincipal_mem hp
        rw [principalCandidates_eq] at hmem
        obtain ⟨u, hu, rfl⟩ := List.mem_map.1 hmem
        exact ⟨u, hu, rfl⟩
    · rw [wrapInt32_eq (by omega) (by omega)] at hneg ⊢
      have hlen := hperm.length_eq
      rw [assistantCandidates_eq, List.length_map] at hlen
      rw [assistantCandidates_eq, List.length_map] at hneg ⊢
      simp only [List.length_take]
      omega
    · intro a ha
      have hmem := hperm.subset (List.take_subset _ _ ha)
      rw [assistantCandidates_eq] at hmem
      obtain ⟨u, hu, rfl⟩ := List.mem_map.1 hmem
      exact ⟨u, hu, rfl⟩
    · exact ((hperm.nodup_iff).2 hnd).sublist (List.take_sublist _ _)

theorem randomInitDays_spec {s : Scheduler} (hU : (s.users.map (·.ID)).Nodup)
    (shift : ScheduleTemplateShift) (h1 : 1 ≤ shift.RequiredAssistantNumber)
    (h2 : shift.RequiredAssistantNumber < 2 ^ 31) :
    ∀ (days : List Int) (r r1 : Rand) (genes : List Gene),
      randomInitDays s shift days r = some (genes, r1) →
        List.Forall₂ (InitGeneSpec s) (days.map (fun day => (shift, day))) genes := by
  intro days
  induction days with
  | nil =>
    intro r r1 genes h
    simp only [randomInitDays, Option.some.injEq, Prod.mk.injEq] at h
    rw [← h.1]
    exact List.Forall₂.nil
  | cons day rest ih =>
    intro r r1 genes h
    simp only [randomInitDays] at h
    cases hg : randomInitGene s shift day r with
    | none => simp [hg] at h
    | some res =>
      obtain ⟨gene, r2⟩ := res
      simp only [hg] at h
      cases hr : randomInitDays s shift rest r2 with
      | none => simp [hr] at h
      | some res2 =>
        obtain ⟨more, r3⟩ := res2
        simp only [hr, Option.some.injEq, Prod.mk.injEq] at h
        rw [← h.1]
        exact List.Forall₂.cons (randomInitGene_spec hU h1 h2 hg) (ih _ _ _ hr)

theorem randomInitShifts_spec {s : Scheduler} (hU : (s.users.map (·.ID)).Nodup) :
    ∀ (shifts : List ScheduleTemplateShift),
      (∀ shift ∈ shifts, 1 ≤ shift.RequiredAssistantNumber ∧
        shift.RequiredAssistantNumber < 2 ^ 31) →
      ∀ (r r1 : Rand) (genes : List Gene),
        randomInitShifts s shifts r = some (genes, r1) →
          List.Forall₂ (InitGeneSpec s) (cells shifts) genes := by
  intro shifts
  induction shifts with
  | nil =>
    intro _ r r1 genes h
    simp only [randomInitShifts, Option.some.injEq, Prod.mk.injEq] at h
    rw [← h.1]
    exact List.Forall₂.nil
  | cons shift rest ih =>
    intro hreq r r1 genes h
    have hs := hreq shift (List.mem_cons_self _ _)
    simp only [randomInitShifts] at h
    cases hd : randomInitDays s shift shift.ApplicableDays r with
    | none => simp [hd] at h
    | some res =>
      obtain ⟨first, r2⟩ := res
      simp only [hd] at h
      cases hr : randomInitShifts s rest r2 with
      | none => simp [hr] at h
      | some res2 =>
        obtain ⟨more, r3⟩ := res2
        simp only [hr, Option.some.injEq, Prod.mk.injEq] at h
        rw [← h.1]
        exact forall₂_append_of (randomInitDays_spec hU shift hs.1 hs.2 _ _ _ _ hd)
          (ih (fun x hx => hreq x (List.mem_cons_of_mem _ hx)) _ _ _ hr)

/-- C19: for a scheduler whose users have pairwise distinct IDs and whose
shifts all have a required number of at least 1 (an `int32`), and for every
random source, `randomInitChromosome` returns a chromosome, and the chromosome
it returns has one gene per (shift, day) cell, in order, each as the
specification asks: the principal is absent if no senior or black-core user is
available at the cell and otherwise is one of them; the assistants are exactly
`min(required - 1, |H|)` pairwise distinct users among the set `H` of the users
available at the cell other than the principal.  A gene at a cell nobody is
available at has no principal and no assistants. -/
theorem randomInitChromosome_spec (s : Scheduler) (r : Rand)
    (hU : (s.users.map (·.ID)).Nodup)
    (hreq : ∀ shift ∈ s.shifts, 1 ≤ shift.RequiredAssistantNumber ∧
      shift.RequiredAssistantNumber < 2 ^ 31) :
    (∃ ch r1, randomInitChromosome s r = some (ch, r1)) ∧
    ∀ ch r1, randomInitChromosome s r = some (ch, r1) →
      List.Forall₂ (InitGeneSpec s) (cells s.shifts) ch.genes ∧
      List.Forall₂ (fun cell g => s.availableMap cell.1.ID cell.2 = [] →
        g.principalID = none ∧ g.assistantIDs = []) (cells s.shifts) ch.genes := by
  constructor
  · obtain ⟨⟨ch, r1⟩, h⟩ := randomInitChromosome_isSome s hreq r
    exact ⟨ch, r1, h⟩
  · intro ch r1 h
    have hspec : List.Forall₂ (InitGeneSpec s) (cells s.shifts) ch.genes := by
      unfold randomInitChromosome at h
      cases hs : randomInitShifts s s.shifts r with
      | none => simp [hs] at h
      | some res =>
        obtain ⟨genes, r2⟩ := res
        simp only [hs, Option.some.injEq, Prod.mk.injEq] at h
        rw [← h.1]
        exact randomInitShifts_spec hU _ hreq _ _ _ hs
    refine ⟨hspec, hspec.imp ?_⟩
    intro cell g hg hav
    unfold InitGeneSpec at hg
    simp only [hav, List.not_mem_nil, decide_False, Bool.and_false, Bool.false_and,
      List.filter_false] at hg
    obtain ⟨-, -, h3, -, h5, -, -⟩ := hg
    refine ⟨h3 trivial, ?_⟩
    have : (g.assistantIDs.length : Int) ≤ 0 := by
      rw [h5]
      exact min_le_right _ _
    exact List.length_eq_zero.1 (by omega)

/-- C19 at the one-cell template with two users who both submitted. -/
theorem randomInitChromosome_spec_witness :
    (∃ ch r1, randomInitChromosome twoUserScheduler zeroRand = some (ch, r1)) ∧
    ∀ ch r1, randomInitChromosome twoUserScheduler zeroRand = some (ch, r1) →
      List.Forall₂ (InitGeneSpec twoUserScheduler) (cells twoUserScheduler.shifts) ch.genes ∧
      List.Forall₂ (fun cell g => twoUserScheduler.availableMap cell.1.ID cell.2 = [] →
        g.principalID = none ∧ g.assistantIDs = []) (cells twoUserScheduler.shifts) ch.genes :=
  randomInitChromosome_spec twoUserScheduler zeroRand (by decide) (by decide)

/-! ## Mutation keeps the invariant of a gene at its own shift and day -/

theorem GeneInvariant_set_assistant {s : Scheduler} {g : Gene} (h : GeneInvariant s g)
    {a : Int} (ha : a ∈ mutateAssistantCandidates s g) (j : Nat) :
    GeneInvariant s { g with assistantIDs := g.assistantIDs.set j a } := by
  obtain ⟨h1, h2, h3⟩ := h
  obtain ⟨hav, hp, hn⟩ := mem_mutateAssistantCandidates ha
  refine ⟨?_, h2.set hn, ?_⟩
  · intro p hpp
    refine ⟨(h1 p hpp).1, ?_⟩
    intro hx
    rcases List.mem_or_eq_of_mem_set hx with hx | rfl
    · exact (h1 p hpp).2 hx
    · exact hp hpp
  · intro x hx
    rcases List.mem_or_eq_of_mem_set hx with hx | rfl
    · exact h3 x hx
    · exact hav

theorem mutateSlots_GeneInvariant {s : Scheduler} :
    ∀ (n j : Nat) (g : Gene) (r : Rand), GeneInvariant s g →
      GeneInvariant s (mutateSlots s n j g r).1 := by
  intro n
  induction n with
  | zero => intro j g r h; simpa [mutateSlots] using h
  | succ n ih =>
    intro j g r h
    simp only [mutateSlots]
    split
    · exact ih _ _ _ h
    · split
      · rename_i hl
        exact ih _ _ _ (GeneInvariant_set_assistant h (getD_mem_of_lt (Intn_lt _ hl)) j)
      · exact ih _ _ _ h

theorem GeneInvariant_set_principal {s : Scheduler} {g : Gene} (h : GeneInvariant s g)
    {p : Int} (hp : p ∈ mutatePrincipalCandidates s g) :
    GeneInvariant s { g with principalID := some p } := by
  obtain ⟨-, h2, h3⟩ := h
  obtain ⟨hc, hn⟩ := mem_mutatePrincipalCandidates hp
  refine ⟨?_, h2, h3⟩
  intro q hq
  simp only [Option.some.injEq] at hq
  subst hq
  exact ⟨mem_principalCandidates.1 hc, hn⟩

theorem mutateGene_GeneInvariant {s : Scheduler} {g : Gene} (r : Rand)
    (h : GeneInvariant s g) : GeneInvariant s (mutateGene s g r).1 := by
  unfold mutateGene
  split
  · exact h
  · simp only []
    split
    · rename_i hl
      exact mutateSlots_GeneInvariant _ _ _ _
        (GeneInvariant_set_principal h (getD_mem_of_lt (Intn_lt _ hl)))
    · exact mutateSlots_GeneInvariant _ _ _ _ h

theorem mutateGenes_GeneInvariant {s : Scheduler} :
    ∀ (genes : List Gene) (r : Rand), (∀ g ∈ genes, GeneInvariant s g) →
      ∀ g ∈ (mutateGenes s genes r).1, GeneInvariant s g := by
  intro genes
  induction genes with
  | nil => intro r _ g hg; simp [mutateGenes] at hg
  | cons gene rest ih =>
    intro r h g hg
    simp only [mutateGenes, List.mem_cons] at hg
    rcases hg with rfl | hg
    · exact mutateGene_GeneInvariant r (h gene (List.mem_cons_self _ _))
    · exact ih _ (fun x hx => h x (List.mem_cons_of_mem _ hx)) g hg

theorem deref_setGenes_self {store : Store} {p : Nat} (hp : p < store.length)
    (genes : List Gene) : (deref (setGenes store p genes) p).genes = genes := by
  unfold deref setGenes
  rw [List.getD_eq_getElem?_getD, List.getElem?_set_self hp]
  rfl

/-- C20: `mutate` keeps the gene invariant: when every gene of the chromosome
behind a pointer has its principal (when present) senior or black-core,
available at the gene's shift and day and not among its assistants, and its
assistants pairwise distinct and all available there, then every gene of that
chromosome after `mutate` satisfies the same conditions, for every mutation
rate and every random source; the chromosome has as many genes as before. -/
theorem mutate_GeneInvariant (s : Scheduler) (store : Store) (p : Nat) (r : Rand)
    (hp : p < store.length)
    (h : ∀ g ∈ (deref store p).genes, GeneInvariant s g) :
    (∀ g ∈ (deref (mutate s store p r).1 p).genes, GeneInvariant s g) ∧
      (deref (mutate s store p r).1 p).genes.length = (deref store p).genes.length := by
  have hlen : ∀ (genes : List Gene) (r : Rand),
      (mutateGenes s genes r).1.length = genes.length := by
    intro genes
    induction genes with
    | nil => intro r; rfl
    | cons gene rest ih => intro r; simp only [mutateGenes, List.length_cons, ih]
  unfold mutate
  simp only []
  rw [deref_setGenes_self hp]
  exact ⟨mutateGenes_GeneInvariant _ r h, hlen _ _⟩

/-- C20 at the first chromosome of the population that `Schedule` starts from
with three users free for the one cell. -/
theorem mutate_GeneInvariant_witness :
    0 < [(⟨[⟨1, 1, some 10, [12], 2, F64.val 2⟩], F64.val 0⟩ : Chromosome)].length ∧
    (∀ g ∈ (deref [(⟨[⟨1, 1, some 10, [12], 2, F64.val 2⟩], F64.val 0⟩ : Chromosome)] 0).genes,
      GeneInvariant threeUserScheduler g) ∧
    ((∀ g ∈ (deref (mutate threeUserScheduler
        [(⟨[⟨1, 1, some 10, [12], 2, F64.val 2⟩], F64.val 0⟩ : Chromosome)] 0 zeroRand).1 0).genes,
        GeneInvariant threeUserScheduler g) ∧
      (deref (mutate threeUserScheduler
        [(⟨[⟨1, 1, some 10, [12], 2, F64.val 2⟩], F64.val 0⟩ : Chromosome)] 0 zeroRand).1 0).genes.length
        = (deref [(⟨[⟨1, 1, some 10, [12], 2, F64.val 2⟩], F64.val 0⟩ : Chromosome)] 0).genes.length) := by
  have hinv : ∀ g ∈ (deref [(⟨[⟨1, 1, some 10, [12], 2, F64.val 2⟩], F64.val 0⟩ : Chromosome)]
      0).genes, GeneInvariant threeUserScheduler g := by
    intro g hg
    have hg' : g = ⟨1, 1, some 10, [12], 2, F64.val 2⟩ := by
      simpa [deref] using hg
    subst hg'
    refine ⟨?_, by decide, ?_⟩
    · intro p hp
      simp only [Option.some.injEq] at hp
      subst hp
      exact ⟨⟨⟨10, RoleSeniorAssistant⟩, by decide, rfl, by decide, by decide⟩, by decide⟩
    · intro a ha
      simp only [List.mem_singleton] at ha
      subst ha
      decide
  exact ⟨by decide, hinv,
    mutate_GeneInvariant threeUserScheduler _ 0 zeroRand (by decide) hinv⟩

/-! ## The best chromosome of a run -/

theorem F64.gt_iff {a b : F64} :
    F64.gt a b = true ↔ ∃ qa qb, a = F64.val qa ∧ b = F64.val qb ∧ qb < qa := by
  cases a <;> cases b <;> simp [F64.gt]

theorem F64.ge_iff {a b : F64} :
    F64.ge a b = true ↔ ∃ qa qb, a = F64.val qa ∧ b = F64.val qb ∧ qb ≤ qa := by
  cases a <;> cases b <;> simp [F64.ge]

theorem F64.ge_of_gt_of_ge {a b c : F64} (h1 : F64.gt a b = true) (h2 : F64.ge b c = true) :
    F64.ge a c = true := by
  obtain ⟨qa, qb, rfl, rfl, hab⟩ := F64.gt_iff.1 h1
  obtain ⟨qb1, qc, hb, rfl, hbc⟩ := F64.ge_iff.1 h2
  simp only [F64.val.injEq] at hb
  subst hb
  exact F64.ge_iff.2 ⟨qa, qc, rfl, rfl, le_trans hbc (le_of_lt hab)⟩

theorem F64.ge_trans {a b c : F64} (h1 : F64.ge a b = true) (h2 : F64.ge b c = true) :
    F64.ge a c = true := by
  obtain ⟨qa, qb, rfl, rfl, hab⟩ := F64.ge_iff.1 h1
  obtain ⟨qb1, qc, hb, rfl, hbc⟩ := F64.ge_iff.1 h2
  simp only [F64.val.injEq] at hb
  subst hb
  exact F64.ge_iff.2 ⟨qa, qc, rfl, rfl, le_trans hbc hab⟩

theorem F64.ge_of_not_gt {a b : F64} (ha : ∃ q, a = F64.val q) (hb : ∃ q, b = F64.val q)
    (h : ¬ F64.gt a b = true) : F64.ge b a = true := by
  obtain ⟨qa, rfl⟩ := ha
  obtain ⟨qb, rfl⟩ := hb
  simp only [F64.gt, decide_eq_true_eq, not_lt] at h
  simpa [F64.ge] using h

theorem F64.ge_refl_val (q : ℚ) : F64.ge (F64.val q) (F64.val q) = true := by
  simp [F64.ge]

/-- The loop that finds the best of a generation returns a fitness that is at
least the fitness it starts from and the fitness of every slot it visits, and
an index that is the one it starts from, with that fitness unchanged, or the
index of a visited slot with the returned fitness. -/
theorem bestIndexLoop_spec (store : Store) :
    ∀ (rest : List Nat) (i : Nat) (fit : F64) (idx : Nat),
      (∃ q, fit = F64.val q) →
      (∀ p ∈ rest, ∃ q, (deref store p).fitness = F64.val q) →
      F64.ge (bestIndexLoop store rest i fit idx).1 fit = true ∧
      (∀ p ∈ rest, F64.ge (bestIndexLoop store rest i fit idx).1 (deref store p).fitness = true) ∧
      (((bestIndexLoop store rest i fit idx).1 = fit ∧
          (bestIndexLoop store rest i fit idx).2 = idx) ∨
        ∃ k, k < rest.length ∧ (bestIndexLoop store rest i fit idx).2 = i + k ∧
          (deref store (rest.getD k 0)).fitness = (bestIndexLoop store rest i fit idx).1) := by
  intro rest
  induction rest with
  | nil =>
    intro i fit idx hfit _
    obtain ⟨q, rfl⟩ := hfit
    simp only [bestIndexLoop]
    refine ⟨F64.ge_refl_val q, ?_, Or.inl ⟨trivial, trivial⟩⟩
    intro p hp
    cases hp
  | cons p more ih =>
    intro i fit idx hfit hall
    have hp := hall p (List.mem_cons_self _ _)
    have hmore : ∀ x ∈ more, ∃ q, (deref store x).fitness = F64.val q :=
      fun x hx => hall x (List.mem_cons_of_mem _ hx)
    simp only [bestIndexLoop]
    split
    · rename_i hgt
      obtain ⟨h1, h2, h3⟩ := ih (i + 1) (deref store p).fitness i hp hmore
      have hpfit : F64.ge (deref store p).fitness fit = true := by
        obtain ⟨qa, qb, ha, hb, hlt⟩ := F64.gt_iff.1 hgt
        exact F64.ge_iff.2 ⟨qa, qb, ha, hb, le_of_lt hlt⟩
      refine ⟨F64.ge_trans h1 hpfit, ?_, ?_⟩
      · intro x hx
        rcases List.mem_cons.1 hx with rfl | hx
        · exact h1
        · exact h2 x hx
      · right
        rcases h3 with ⟨e1, e2⟩ | ⟨k, hk, e1, e2⟩
        · exact ⟨0, by simp, by rw [e2]; rfl, by rw [e1]; rfl⟩
        · refine ⟨k + 1, by simp; omega, by rw [e1]; omega, ?_⟩
          rw [← e2]
          rfl
    · rename_i hgt
      obtain ⟨h1, h2, h3⟩ := ih (i + 1) fit idx hfit hmore
      have hpfit : F64.ge fit (deref store p).fitness = true := F64.ge_of_not_gt hp hfit hgt
      refine ⟨h1, ?_, ?_⟩
      · intro x hx
        rcases List.mem_cons.1 hx with rfl | hx
        · exact F64.ge_trans h1 hpfit
        · exact h2 x hx
      · rcases h3 with ⟨e1, e2⟩ | ⟨k, hk, e1, e2⟩
        · exact Or.inl ⟨e1, e2⟩
        · right
          refine ⟨k + 1, by simp; omega, by rw [e1]; omega, ?_⟩
          rw [← e2]
          rfl

theorem Ordinary_val {st : GAState} (h : Ordinary st) {p : Nat} (hp : p ∈ st.pop) :
    ∃ q, (deref st.store p).fitness = F64.val q := by
  obtain ⟨qa, _, ha, -, -⟩ := F64.gt_iff.1 (h p hp)
  exact ⟨qa, ha⟩

/-- The best of the generation found at the start of a generation: a member of
the population whose fitness is at least that of every member. -/
theorem generation_found {st : GAState} (hord : Ordinary st) {p0 : Nat} {rest : List Nat}
    (hpop : st.pop = p0 :: rest) :
    st.pop.getD (bestIndexLoop st.store rest 1 (deref st.store p0).fitness 0).2 0 ∈ st.pop ∧
    (deref st.store
      (st.pop.getD (bestIndexLoop st.store rest 1 (deref st.store p0).fitness 0).2 0)).fitness =
      (bestIndexLoop st.store rest 1 (deref st.store p0).fitness 0).1 ∧
    ∀ p ∈ st.pop,
      F64.ge (bestIndexLoop st.store rest 1 (deref st.store p0).fitness 0).1
        (deref st.store p).fitness = true := by
  have hp0 : p0 ∈ st.pop := by rw [hpop]; exact List.mem_cons_self _ _
  have hrest : ∀ p ∈ rest, p ∈ st.pop := fun p hp => by
    rw [hpop]; exact List.mem_cons_of_mem _ hp
  obtain ⟨h1, h2, h3⟩ := bestIndexLoop_spec st.store rest 1 (deref st.store p0).fitness 0
    (Ordinary_val hord hp0) (fun p hp => Ordinary_val hord (hrest p hp))
  refine ⟨?_, ?_, ?_⟩
  · rcases h3 with ⟨-, e2⟩ | ⟨k, hk, e1, -⟩
    · rw [e2, hpop]
      exact List.mem_cons_self _ _
    · rw [e1]
      exact getD_mem_pop (by rw [hpop]; simp; omega)
  · rcases h3 with ⟨e1, e2⟩ | ⟨k, hk, e1, e2⟩
    · rw [e2, e1, hpop]
      rfl
    · rw [e1, ← e2, hpop]
      have : (p0 :: rest).getD (1 + k) 0 = rest.getD k 0 := by
        rw [Nat.add_comm]
        rfl
      rw [this]
  · intro p hp
    rw [hpop] at hp
    rcases List.mem_cons.1 hp with rfl | hp
    · exact h1
    · exact h2 p hp

theorem generation_best {s : Scheduler} {st st1 : GAState} (h : generation s st = some st1)
    {p0 : Nat} {rest : List Nat} (hpop : st.pop = p0 :: rest) :
    st1.best =
      if F64.gt (bestIndexLoop st.store rest 1 (deref st.store p0).fitness 0).1 st.best.fitness
          = true then
        ⟨(deref st.store
          (st.pop.getD (bestIndexLoop st.store rest 1 (deref st.store p0).fitness 0).2 0)).genes,
          (bestIndexLoop st.store rest 1 (deref st.store p0).fitness 0).1⟩
      else st.best := by
  unfold generation at h
  split at h
  · cases h
  · rename_i q0 more hq
    rw [hpop] at hq
    obtain ⟨rfl, rfl⟩ := List.cons.inj hq
    simp only [] at h
    split at h
    · cases h
    · split at h
      · cases h
      · simp only [Option.some.injEq] at h
        rw [← h]

theorem generation_pop_ne_nil {s : Scheduler} {st st1 : GAState}
    (h : generation s st = some st1) : ∃ p0 rest, st.pop = p0 :: rest := by
  unfold generation at h
  split at h
  · cases h
  · rename_i p0 rest hpop
    exact ⟨p0, rest, hpop⟩

theorem generation_BestOf {s : Scheduler} {st st1 : GAState} (h : generation s st = some st1)
    (hord : Ordinary st) {starts : List GAState} (hstarts : ∀ st0 ∈ starts, Ordinary st0)
    (hbest : (starts = [] ∧ st.best.fitness = F64.neg F64.maxFloat64) ∨ BestOf starts st.best) :
    BestOf (starts ++ [st]) st1.best := by
  obtain ⟨p0, rest, hpop⟩ := generation_pop_ne_nil h
  obtain ⟨hmem, hfit, hmax⟩ := generation_found hord hpop
  rw [generation_best h hpop]
  split
  · rename_i hgt
    refine ⟨st, by simp, _, hmem, rfl, hfit.symm, ?_⟩
    intro st0 hst0 p hp
    rcases List.mem_append.1 hst0 with hst0 | hst0
    · rcases hbest with ⟨hnil, -⟩ | hbest
      · rw [hnil] at hst0
        cases hst0
      · obtain ⟨-, -, -, -, -, -, hall⟩ := hbest
        exact F64.ge_of_gt_of_ge hgt (hall st0 hst0 p hp)
    · have heq : st0 = st := by simpa using hst0
      rw [heq] at hp ⊢
      exact hmax p hp
  · rename_i hgt
    rcases hbest with ⟨-, hsent⟩ | hbest
    · exfalso
      apply hgt
      rw [hsent, ← hfit]
      exact hord _ hmem
    · obtain ⟨stb, hstb, pb, hpb, hg, hf, hall⟩ := hbest
      refine ⟨stb, List.mem_append_left _ hstb, pb, hpb, hg, hf, ?_⟩
      intro st0 hst0 p hp
      rcases List.mem_append.1 hst0 with hst0 | hst0
      · exact hall st0 hst0 p hp
      · have heq : st0 = st := by simpa using hst0
        rw [heq] at hp ⊢
        have hbv : ∃ q, st.best.fitness = F64.val q := by
          rw [hf]
          exact Ordinary_val (hstarts stb hstb) hpb
        have hfv : ∃ q, (bestIndexLoop st.store rest 1 (deref st.store p0).fitness 0).1
            = F64.val q := by
          rw [← hfit]
          exact Ordinary_val hord hmem
        exact F64.ge_trans (F64.ge_of_not_gt hfv hbv hgt) (hmax p hp)

theorem generations_BestOf {s : Scheduler} :
    ∀ (n : Nat) (st stN : GAState) (starts : List GAState),
      generations s n st = some stN →
      (∀ st0 ∈ starts, Ordinary st0) →
      (∀ st0 ∈ generationStarts s n st, Ordinary st0) →
      ((starts = [] ∧ st.best.fitness = F64.neg F64.maxFloat64) ∨ BestOf starts st.best) →
      (starts ≠ [] ∨ 1 ≤ n) →
      BestOf (starts ++ generationStarts s n st) stN.best := by
  intro n
  induction n with
  | zero =>
    intro st stN starts h _ _ hbest hne
    simp only [generations, Option.some.injEq] at h
    subst h
    simp only [generationStarts, List.append_nil]
    rcases hbest with ⟨hnil, -⟩ | hbest
    · rcases hne with hne | hne
      · exact absurd hnil hne
      · omega
    · exact hbest
  | succ n ih =>
    intro st stN starts h hstarts hrest hbest _
    simp only [generations] at h
    split at h
    · cases h
    · rename_i st1 hgen
      simp only [generationStarts, hgen] at hrest ⊢
      have hst : Ordinary st := hrest st (List.mem_cons_self _ _)
      have hstep := generation_BestOf hgen hst hstarts hbest
      have := ih st1 stN (starts ++ [st]) h
        (by
          intro st0 hst0
          rcases List.mem_append.1 hst0 with hst0 | hst0
          · exact hstarts st0 hst0
          · have : st0 = st := by simpa using hst0
            exact this ▸ hst)
        (fun st0 hst0 => hrest st0 (List.mem_cons_of_mem _ hst0))
        (Or.inr hstep) (Or.inl (by simp))
      simpa using this

/-- The best chromosome in exact arithmetic, where equal fitness values are
equal numbers: when `Schedule` returns a result, there is at least one
generation, and every member of the population at the start of every
generation has a fitness that is a number above `-math.MaxFloat64`, the
result is the projection of the genes that some member of the population had
at the start of some generation, and the fitness of that member at that moment
is at least the fitness of every member at the start of every generation.  The
result shows the genes as they were at that start, whatever crossover and
mutation did to that member afterwards. -/
theorem Schedule_returns_best (s : Scheduler) (r : Rand) (result : List SchedulingResultShift)
    (hres : Schedule s r = .ok result)
    (hgen : 1 ≤ s.parameters.MaxGenerations)
    (hord : ∀ st0, initialState s r = some st0 →
      ∀ st ∈ generationStarts s s.parameters.MaxGenerations.toNat st0, Ordinary st) :
    ∃ st0, initialState s r = some st0 ∧
      ∃ st ∈ generationStarts s s.parameters.MaxGenerations.toNat st0, ∃ p ∈ st.pop,
        result = buildResult (deref st.store p).genes ∧
        ∀ st1 ∈ generationStarts s s.parameters.MaxGenerations.toNat st0, ∀ p1 ∈ st1.pop,
          F64.ge (deref st.store p).fitness (deref st1.store p1).fitness = true := by
  unfold Schedule at hres
  split at hres
  · cases hres
  · split at hres
    · cases hres
    · rename_i store r1 hinit
      split at hres
      · cases hres
      · rename_i stN hgens
        have hinitial : initialState s r = some ⟨store,
            List.range s.parameters.PopulationSize.toNat, ⟨[], F64.neg F64.maxFloat64⟩, r1⟩ := by
          simp only [initialState, hinit]
        have hbest := generations_BestOf _ _ _ [] hgens (fun st0 h0 => by cases h0)
          (hord _ hinitial) (Or.inl ⟨rfl, rfl⟩) (Or.inr (by omega))
        simp only [List.nil_append] at hbest
        obtain ⟨st, hst, p, hp, hg, hf, hall⟩ := hbest
        simp only [] at hres
        split at hres
        · cases hres
        · split at hres
          · cases hres
          · simp only [Outcome.ok.injEq] at hres
            refine ⟨_, hinitial, st, hst, p, hp, ?_, ?_⟩
            · rw [← hres, hg]
            · intro st1 hst1 p1 hp1
              rw [← hf]
              exact hall st1 hst1 p1 hp1

theorem ordinaryCheck_iff (st : GAState) : ordinaryCheck st = true ↔ Ordinary st := by
  simp [ordinaryCheck, Ordinary]

/-- The best chromosome at the one-cell template with two users who both
submitted. -/
theorem Schedule_returns_best_witness :
    Schedule twoUserScheduler zeroRand = .ok [⟨1, [⟨1, some 10, [11]⟩]⟩] ∧
    1 ≤ twoUserScheduler.parameters.MaxGenerations ∧
    (∀ st0, initialState twoUserScheduler zeroRand = some st0 →
      ∀ st ∈ generationStarts twoUserScheduler
        twoUserScheduler.parameters.MaxGenerations.toNat st0, Ordinary st) ∧
    ∃ st0, initialState twoUserScheduler zeroRand = some st0 ∧
      ∃ st ∈ generationStarts twoUserScheduler
          twoUserScheduler.parameters.MaxGenerations.toNat st0, ∃ p ∈ st.pop,
        [(⟨1, [⟨1, some 10, [11]⟩]⟩ : SchedulingResultShift)] =
          buildResult (deref st.store p).genes ∧
        ∀ st1 ∈ generationStarts twoUserScheduler
            twoUserScheduler.parameters.MaxGenerations.toNat st0, ∀ p1 ∈ st1.pop,
          F64.ge (deref st.store p).fitness (deref st1.store p1).fitness = true := by
  have hcheck : (initialState twoUserScheduler zeroRand).map (fun st0 =>
      (generationStarts twoUserScheduler 1 st0).all ordinaryCheck) = some true := by decide!
  have hord : ∀ st0, initialState twoUserScheduler zeroRand = some st0 →
      ∀ st ∈ generationStarts twoUserScheduler
        twoUserScheduler.parameters.MaxGenerations.toNat st0, Ordinary st := by
    intro st0 hst0 st hst
    rw [hst0] at hcheck
    simp only [Option.map_some', Option.some.injEq, List.all_eq_true] at hcheck
    exact (ordinaryCheck_iff st).1 (hcheck st hst)
  exact ⟨by decide!, by decide, hord,
    Schedule_returns_best twoUserScheduler zeroRand _ (by decide!) (by decide) hord⟩

/-- C18 fails on this input: with the fairness weight `math.MaxFloat64`, user 10
on the one-hour shift and user 11 on the three-hour shift, the one chromosome
of the one generation has the hours 1 and 3, the mean 2, the variance 1 and the
fitness `-math.MaxFloat64`, an ordinary number (every step of this computation
is exact in `float64`), and its projection has an item for each of the two
shifts; the fitness does not exceed the value `-math.MaxFloat64` that the best
fitness starts at, the best chromosome is never copied, and `Schedule` returns
the empty result with no error. -/
theorem Schedule_sentinel_fitness_empty_result :
    New heavyRequest seniorUsers unevenTemplate unevenSubmissions = .ok unevenScheduler ∧
    Schedule unevenScheduler zeroRand = .ok [] ∧
    (initialState unevenScheduler zeroRand).map (fun st0 =>
      (generationStarts unevenScheduler 1 st0).map (fun st =>
        st.pop.map (fun p =>
          ((deref st.store p).fitness, buildResult (deref st.store p).genes)))) =
    some [[(F64.val (-((2 ^ 1024 - 2 ^ 971 : Nat) : ℚ)),
      [⟨1, [⟨1, some 10, []⟩]⟩, ⟨2, [⟨1, some 11, []⟩]⟩])]] :=
  ⟨rfl, by decide!, by decide!⟩

/-! ## The availability map counts what the submissions declare -/

theorem count_addDays (shiftID userID : Int) :
    ∀ (days : List Int) (m0 : AvailableMap) (s d u : Int),
      (addDays m0 shiftID userID days s d).count u =
        (m0 s d).count u + (if s = shiftID ∧ u = userID then days.count d else 0) := by
  intro days
  induction days with
  | nil => intro m0 s d u; simp [addDays]
  | cons day rest ih =>
    intro m0 s d u
    have := ih (addAvailable m0 shiftID day userID) s d u
    simp only [addDays, List.foldl_cons] at this ⊢
    rw [this]
    unfold addAvailable
    by_cases h1 : s = shiftID
    · by_cases h2 : d = day
      · by_cases h3 : u = userID
        · subst h1 h2 h3
          simp [List.count_cons]
          omega
        · have h3b : ¬ userID = u := fun e => h3 e.symm
          simp [h1, h2, h3, h3b, List.count_cons]
      · have h2b : ¬ day = d := fun e => h2 e.symm
        simp [h1, h2, h2b, List.count_cons]
    · simp [h1]

theorem count_addItems (userID : Int) :
    ∀ (items : List AvailabilitySubmissionItem) (m0 : AvailableMap) (s d u : Int),
      (addItems m0 userID items s d).count u =
        (m0 s d).count u + (if u = userID then
          ((items.filter (fun item => item.ShiftID = s)).map
            (fun item => item.Days.count d)).sum else 0) := by
  intro items
  induction items with
  | nil => intro m0 s d u; simp [addItems]
  | cons item rest ih =>
    intro m0 s d u
    have := ih (addDays m0 item.ShiftID userID item.Days) s d u
    simp only [addItems, List.foldl_cons] at this ⊢
    rw [this, count_addDays]
    by_cases h3 : u = userID
    · by_cases h1 : item.ShiftID = s
      · have h1b : s = item.ShiftID := h1.symm
        simp [h3, h1, List.filter_cons]
        omega
      · have h1b : ¬ s = item.ShiftID := fun e => h1 e.symm
        simp [h3, h1, h1b, List.filter_cons]
    · simp [h3]

theorem count_newLoop (users : List User) :
    ∀ (submissions : List AvailabilitySubmission) (acc : List User) (m : AvailableMap)
      (acc1 : List User) (m1 : AvailableMap),
      newLoop users acc m submissions = .ok (acc1, m1) →
        ∀ s d u, (m1 s d).count u = (m s d).count u + declaredCount submissions s d u := by
  intro submissions
  induction submissions with
  | nil =>
    intro acc m acc1 m1 h
    simp only [newLoop, Except.ok.injEq, Prod.mk.injEq] at h
    obtain ⟨-, rfl⟩ := h
    simp [declaredCount]
  | cons submission rest ih =>
    intro acc m acc1 m1 h s d u
    simp only [newLoop] at h
    split at h
    · cases h
    · rw [ih _ _ _ _ h s d u, count_addItems]
      unfold declaredCount
      by_cases h3 : submission.UserID = u
      · have h3b : u = submission.UserID := h3.symm
        simp [h3, List.filter_cons]
        omega
      · have h3b : ¬ u = submission.UserID := fun e => h3 e.symm
        simp [h3, h3b, List.filter_cons]

/-- C27: after `New` succeeds, a user occurs in `availableMap[s][d]` exactly
when some submission of the user has an item for the shift `s` whose days
contain `d`, and the number of occurrences of the user there is the number of
(submission, item, occurrence of the day) triples that declare it. -/
theorem New_availableMap_declared (parameters : Parameters) (users : List User)
    (template : ScheduleTemplate) (submissions : List AvailabilitySubmission) (sch : Scheduler)
    (h : New parameters users template submissions = .ok sch) :
    ∀ s d u,
      (u ∈ sch.availableMap s d ↔
        ∃ submission ∈ submissions, submission.UserID = u ∧
          ∃ item ∈ submission.Items, item.ShiftID = s ∧ d ∈ item.Days) ∧
      (sch.availableMap s d).count u = declaredCount submissions s d u := by
  intro s d u
  refine ⟨(New_ok h).2.2.2.2 s d u, ?_⟩
  unfold New at h
  split at h
  · cases h
  · rename_i submitters m hloop
    simp only [Except.ok.injEq] at h
    subst h
    have := count_newLoop users submissions [] (fun _ _ => []) submitters m hloop s d u
    simpa using this

theorem New_availableMap_declared_witness :
    New smallParameters twoUsers oneCellTemplate twoSubmissions = .ok twoUserScheduler ∧
    ((10 ∈ twoUserScheduler.availableMap 1 1 ↔
        ∃ submission ∈ twoSubmissions, submission.UserID = 10 ∧
          ∃ item ∈ submission.Items, item.ShiftID = 1 ∧ (1 : Int) ∈ item.Days) ∧
      (twoUserScheduler.availableMap 1 1).count 10 = declaredCount twoSubmissions 1 1 10) :=
  ⟨rfl, New_availableMap_declared smallParameters twoUsers oneCellTemplate twoSubmissions
    twoUserScheduler rfl 1 1 10⟩

/-! ## The validator and the availability index agree -/

/-- C30: when the submissions have pairwise distinct user IDs and `New` builds
a scheduler from them, `ValidateSchedulingResultWithSubmissions` accepts a
result exactly when, for every item of the result, the principal (when present)
and every assistant occur in the scheduler's `availableMap` at the item's shift
and day. -/
theorem ValidateSchedulingResultWithSubmissions_iff_FeasibleByIndex
    (parameters : Parameters) (users : List User) (template : ScheduleTemplate)
    (submissions : List AvailabilitySubmission) (sch : Scheduler) (result : SchedulingResult)
    (hNew : New parameters users template submissions = .ok sch)
    (hU : (submissions.map (·.UserID)).Nodup) :
    ValidateSchedulingResultWithSubmissions result submissions = none ↔
      FeasibleByIndex sch.availableMap result := by
  have hmem := (New_ok hNew).2.2.2.2
  unfold ValidateSchedulingResultWithSubmissions FeasibleByIndex
  rw [checkSubmissionShifts_eq_none]
  constructor
  · intro h shift hshift item hitem
    have key : ∀ u, (item.PrincipalID = some u ∨ u ∈ item.AssistantIDs) →
        u ∈ sch.availableMap shift.ShiftID item.Day := by
      intro u hu
      obtain ⟨submission, hget, hfree⟩ := h shift hshift item hitem u hu
      obtain ⟨pre, post, heq, -, hid⟩ := (getSubmissionByAssistantID_eq_some _ _ _).1 hget
      rw [hmem]
      refine ⟨submission, ?_, hid, (hasFreeTime_iff _ _ _).1 hfree⟩
      rw [heq]
      simp
    exact ⟨fun p hp => key p (Or.inl hp), fun a ha => key a (Or.inr ha)⟩
  · intro h shift hshift item hitem u hu
    have hav : u ∈ sch.availableMap shift.ShiftID item.Day := by
      rcases hu with hu | hu
      · exact (h shift hshift item hitem).1 u hu
      · exact (h shift hshift item hitem).2 u hu
    obtain ⟨submission, hsub, hid, hitems⟩ := (hmem _ _ _).1 hav
    refine ⟨submission, ?_, (hasFreeTime_iff _ _ _).2 hitems⟩
    rw [← hid]
    exact getSubmissionByAssistantID_of_mem hU hsub

theorem ValidateSchedulingResultWithSubmissions_iff_FeasibleByIndex_witness :
    (twoSubmissions.map (·.UserID)).Nodup ∧
    (ValidateSchedulingResultWithSubmissions ⟨[⟨1, [⟨1, some 10, [11]⟩]⟩]⟩ twoSubmissions = none ↔
      FeasibleByIndex twoUserScheduler.availableMap ⟨[⟨1, [⟨1, some 10, [11]⟩]⟩]⟩) :=
  ⟨by decide, ValidateSchedulingResultWithSubmissions_iff_FeasibleByIndex smallParameters
    twoUsers oneCellTemplate twoSubmissions twoUserScheduler _ rfl (by decide)⟩

/-! ## Roulette selection on fitness values that are not positive -/

theorem Float64_nonneg (r : Rand) : 0 ≤ r.Float64.1 := by
  unfold Rand.Float64
  positivity

theorem foldl_add_fitness (store : Store) (f : Nat → ℚ) :
    ∀ (pop : List Nat) (acc : ℚ), (∀ p ∈ pop, (deref store p).fitness = F64.val (f p)) →
      pop.foldl (fun acc p => F64.add acc (deref store p).fitness) (F64.val acc) =
        F64.val (acc + (pop.map f).sum) := by
  intro pop
  induction pop with
  | nil => intro acc _; simp
  | cons p rest ih =>
    intro acc h
    simp only [List.foldl_cons, List.map_cons, List.sum_cons]
    rw [h p (List.mem_cons_self _ _)]
    show List.foldl _ (F64.val (acc + f p)) rest = _
    rw [ih _ (fun q hq => h q (List.mem_cons_of_mem _ hq)), add_assoc]

theorem rouletteLoop_eq_none (store : Store) (f : Nat → ℚ) (pick : ℚ) :
    ∀ (pop : List Nat) (running : ℚ),
      (∀ p ∈ pop, (deref store p).fitness = F64.val (f p) ∧ f p ≤ 0) → running < pick →
      rouletteLoop store (F64.val pick) (F64.val running) pop = none := by
  intro pop
  induction pop with
  | nil => intro running _ _; rfl
  | cons p rest ih =>
    intro running h hlt
    obtain ⟨hp, hle⟩ := h p (List.mem_cons_self _ _)
    simp only [rouletteLoop, hp]
    have hadd : F64.add (F64.val running) (F64.val (f p)) = F64.val (running + f p) := rfl
    rw [hadd]
    have hge : F64.ge (F64.val (running + f p)) (F64.val pick) = false := by
      simp only [F64.ge, decide_eq_false_iff_not, not_le]
      linarith
    rw [hge]
    simp only [Bool.false_eq_true, if_false]
    exact ih _ (fun q hq => h q (List.mem_cons_of_mem _ hq)) (by linarith)

theorem selectByRoulette_cases (store : Store) (first : Nat) (rest : List Nat) (r : Rand)
    (f : Nat → ℚ)
    (hf : ∀ p ∈ first :: rest, (deref store p).fitness = F64.val (f p) ∧ f p ≤ 0) :
    (r.Float64.1 * ((first :: rest).map f).sum ≤ f first →
      (selectByRoulette store (first :: rest) r).1 = some first) ∧
    (f first < r.Float64.1 * ((first :: rest).map f).sum →
      rouletteLoop store (F64.val (r.Float64.1 * ((first :: rest).map f).sum)) (F64.val 0)
          (first :: rest) = none ∧
        (selectByRoulette store (first :: rest) r).1 =
          some ((first :: rest).getLast (List.cons_ne_nil _ _))) := by
  have hsum := foldl_add_fitness store f (first :: rest) 0 (fun p hp => (hf p hp).1)
  rw [zero_add] at hsum
  have hpick : F64.mul (F64.val r.Float64.1) (F64.val ((first :: rest).map f).sum) =
      F64.val (r.Float64.1 * ((first :: rest).map f).sum) := rfl
  have hfirst := (hf first (List.mem_cons_self _ _)).1
  have hadd : F64.add (F64.val 0) (F64.val (f first)) = F64.val (0 + f first) := rfl
  constructor
  · intro hle
    unfold selectByRoulette
    simp only []
    rw [hsum, hpick]
    have hloop : rouletteLoop store (F64.val (r.Float64.1 * ((first :: rest).map f).sum))
        (F64.val 0) (first :: rest) = some first := by
      simp only [rouletteLoop, hfirst]
      rw [hadd]
      have hge : F64.ge (F64.val (0 + f first))
          (F64.val (r.Float64.1 * ((first :: rest).map f).sum)) = true := by
        simp only [F64.ge, decide_eq_true_eq]
        linarith
      rw [hge]
      simp
    rw [hloop]
  · intro hlt
    have hloop : rouletteLoop store (F64.val (r.Float64.1 * ((first :: rest).map f).sum))
        (F64.val 0) (first :: rest) = none := by
      simp only [rouletteLoop, hfirst]
      rw [hadd]
      have hge : F64.ge (F64.val (0 + f first))
          (F64.val (r.Float64.1 * ((first :: rest).map f).sum)) = false := by
        simp only [F64.ge, decide_eq_false_iff_not, not_le]
        linarith
      rw [hge]
      simp only [Bool.false_eq_true, if_false]
      exact rouletteLoop_eq_none store f _ rest _
        (fun q hq => hf q (List.mem_cons_of_mem _ hq)) (by linarith)
    refine ⟨hloop, ?_⟩
    unfold selectByRoulette
    simp only []
    rw [hsum, hpick, hloop]
    show (first :: rest).getLast? = _
    exact List.getLast?_eq_getLast _ _

theorem sum_map_nonpos (f : Nat → ℚ) :
    ∀ l : List Nat, (∀ p ∈ l, f p ≤ 0) → (l.map f).sum ≤ 0 := by
  intro l
  induction l with
  | nil => intro _; simp
  | cons p rest ih =>
    intro h
    simp only [List.map_cons, List.sum_cons]
    have h1 := h p (List.mem_cons_self _ _)
    have h2 := ih (fun q hq => h q (List.mem_cons_of_mem _ hq))
    linarith

/-! ## The draw for the principal gates the assistant slots -/

theorem mutateGene_of_skip (s : Scheduler) (gene : Gene) (r : Rand)
    (h : r.Float64.1 > s.parameters.MutationRate) :
    mutateGene s gene r = (gene, r.Float64.2) := by
  unfold mutateGene
  rw [if_pos h]

/-- C21 fails on this input: the mutation rate is 1/2, the gene has principal 10
and assistant 12, and user 11 is a candidate for the assistant slot.  When the
first draw of the gene, the one that decides about the principal, is above the
rate, `mutate` leaves the gene after that one draw: the slot gets no draw of its
own and no replacement attempt, although every later value of the source is 0,
below the rate.  When that first draw is 0 the same slot is replaced by 11. -/
theorem mutate_slot_gated_by_principal_draw :
    threeUserScheduler.parameters.MutationRate = 1 / 2 ∧
    mutateAssistantCandidates threeUserScheduler ⟨1, 1, some 10, [12], 2, F64.val 2⟩ = [11] ∧
    (mutate threeUserScheduler oneGeneStore 0 gateRand).1 = oneGeneStore ∧
    (mutate threeUserScheduler oneGeneStore 0 gateRand).2.pos = 1 ∧
    (mutate threeUserScheduler oneGeneStore 0 zeroRand).1 =
      [⟨[⟨1, 1, some 10, [11], 2, F64.val 2⟩], F64.val 0⟩] ∧
    (mutate threeUserScheduler oneGeneStore 0 zeroRand).2.pos = 3 :=
  ⟨rfl, by decide!, by decide!, by decide!, by decide!, by decide!⟩

/-! ## Single-point crossover, iteration by iteration -/

theorem store_ext {s1 s2 : Store} (hlen : s1.length = s2.length)
    (h : ∀ q, q < s1.length → deref s1 q = deref s2 q) : s1 = s2 := by
  apply List.ext_getElem hlen
  intro q h1 h2
  have := h q h1
  unfold deref at this
  rw [List.getD_eq_getElem?_getD, List.getD_eq_getElem?_getD, List.getElem?_eq_getElem h1,
    List.getElem?_eq_getElem h2] at this
  simpa using this

theorem deref_setGenes (store : Store) (p : Nat) (genes : List Gene) (q : Nat)
    (hp : p < store.length) :
    deref (setGenes store p genes) q =
      if q = p then { deref store p with genes := genes } else deref store q := by
  unfold setGenes
  by_cases hq : q = p
  · subst hq
    rw [if_pos rfl]
    show (store.set q _).getD q _ = _
    rw [List.getD_eq_getElem?_getD, List.getElem?_set_self hp]
    rfl
  · rw [if_neg hq]
    show (store.set p _).getD q _ = store.getD q _
    rw [List.getD_eq_getElem?_getD, List.getD_eq_getElem?_getD,
      List.getElem?_set_ne (fun e => hq e.symm)]

theorem setGenes_self (store : Store) (p : Nat) (hp : p < store.length) :
    setGenes store p (deref store p).genes = store := by
  apply store_ext (length_setGenes _ _ _)
  intro q _
  rw [deref_setGenes _ _ _ _ hp]
  split
  · rename_i h; rw [h]
  · rfl

theorem lt_length_of_genes_ne_nil {store : Store} {p : Nat}
    (h : (deref store p).genes ≠ []) : p < store.length := by
  by_contra hp
  apply h
  unfold deref
  rw [List.getD_eq_getElem?_getD, List.getElem?_eq_none (by omega)]
  rfl

theorem take_set_append_drop_set (d a : Gene) :
    ∀ (i : Nat) (g1 g2 : List Gene), i < g1.length → i < g2.length →
      (g1.set i (g2.getD i d)).take (i + 1) ++ (g2.set i a).drop (i + 1) =
        g1.take i ++ g2.drop i := by
  intro i
  induction i with
  | zero =>
    intro g1 g2 h1 h2
    cases g1 with
    | nil => simp at h1
    | cons x xs =>
      cases g2 with
      | nil => simp at h2
      | cons y ys => simp
  | succ i ih =>
    intro g1 g2 h1 h2
    cases g1 with
    | nil => simp at h1
    | cons x xs =>
      cases g2 with
      | nil => simp at h2
      | cons y ys =>
        simp only [List.length_cons, Nat.add_lt_add_iff_right] at h1 h2
        have := ih xs ys h1 h2
        simpa using this

theorem set_getD_self (d : Gene) :
    ∀ (i : Nat) (g : List Gene), g.set i (g.getD i d) = g := by
  intro i
  induction i with
  | zero => intro g; cases g <;> simp
  | succ i ih =>
    intro g
    cases g with
    | nil => simp
    | cons x xs => simpa using ih xs
theorem length_swapGenesAt (store : Store) (p1 p2 i : Nat) :
    (swapGenesAt store p1 p2 i).length = store.length := by
  unfold swapGenesAt
  simp only [length_setGenes]

theorem length_swapGenesLoop (p1 p2 : Nat) :
    ∀ (n i : Nat) (store : Store), (swapGenesLoop p1 p2 n i store).length = store.length := by
  intro n
  induction n with
  | zero => intro i store; rfl
  | succ n ih =>
    intro i store
    simp only [swapGenesLoop]
    rw [ih, length_swapGenesAt]

theorem deref_setGenes_pair {store : Store} {p1 p2 : Nat} (hne : p1 ≠ p2)
    (hp1 : p1 < store.length) (hp2 : p2 < store.length) (genes1 genes2 : List Gene) (q : Nat) :
    deref (setGenes (setGenes store p1 genes1) p2 genes2) q =
      if q = p1 then { deref store p1 with genes := genes1 }
      else if q = p2 then { deref store p2 with genes := genes2 }
      else deref store q := by
  have hp2b : p2 < (setGenes store p1 genes1).length := by
    rw [length_setGenes]; exact hp2
  rw [deref_setGenes _ _ _ _ hp2b]
  have hd2 : deref (setGenes store p1 genes1) p2 = deref store p2 := by
    rw [deref_setGenes _ _ _ _ hp1, if_neg (fun e => hne e.symm)]
  by_cases hq1 : q = p1
  · subst hq1
    rw [if_neg hne, if_pos rfl, deref_setGenes _ _ _ _ hp1, if_pos rfl]
  · rw [if_neg hq1]
    by_cases hq2 : q = p2
    · subst hq2
      rw [if_pos rfl, if_pos rfl, hd2]
    · rw [if_neg hq2, if_neg hq2, deref_setGenes _ _ _ _ hp1, if_neg hq1]

theorem deref_swapGenesAt {store : Store} {p1 p2 : Nat} (hne : p1 ≠ p2)
    (hp1 : p1 < store.length) (hp2 : p2 < store.length) (i q : Nat) :
    deref (swapGenesAt store p1 p2 i) q =
      if q = p1 then
        { deref store p1 with genes := ((deref store p1).genes.set i
            ((deref store p2).genes.getD i ⟨0, 0, none, [], 0, F64.val 0⟩)) }
      else if q = p2 then
        { deref store p2 with genes := ((deref store p2).genes.set i
            ((deref store p1).genes.getD i ⟨0, 0, none, [], 0, F64.val 0⟩)) }
      else deref store q := by
  unfold swapGenesAt
  simp only []
  have hd2 : ∀ genes, deref (setGenes store p1 genes) p2 = deref store p2 := by
    intro genes
    rw [deref_setGenes _ _ _ _ hp1, if_neg (fun e => hne e.symm)]
  rw [hd2]
  exact deref_setGenes_pair hne hp1 hp2 _ _ q

theorem deref_swapGenesLoop {p1 p2 : Nat} (hne : p1 ≠ p2) :
    ∀ (n i : Nat) (store : Store), p1 < store.length → p2 < store.length →
      (deref store p1).genes.length = i + n → (deref store p2).genes.length = i + n →
      ∀ q, deref (swapGenesLoop p1 p2 n i store) q =
        if q = p1 then
          { deref store p1 with genes :=
              (deref store p1).genes.take i ++ (deref store p2).genes.drop i }
        else if q = p2 then
          { deref store p2 with genes :=
              (deref store p2).genes.take i ++ (deref store p1).genes.drop i }
        else deref store q := by
  intro n
  induction n with
  | zero =>
    intro i store _ _ h1 h2 q
    simp only [swapGenesLoop]
    have e1 : (deref store p1).genes.take i ++ (deref store p2).genes.drop i =
        (deref store p1).genes := by
      rw [List.take_of_length_le (by omega), List.drop_of_length_le (by omega),
        List.append_nil]
    have e2 : (deref store p2).genes.take i ++ (deref store p1).genes.drop i =
        (deref store p2).genes := by
      rw [List.take_of_length_le (by omega), List.drop_of_length_le (by omega),
        List.append_nil]
    rw [e1, e2]
    split
    · rename_i h; rw [h]
    · split
      · rename_i h; rw [h]
      · rfl
  | succ n ih =>
    intro i store hp1 hp2 h1 h2 q
    simp only [swapGenesLoop]
    have hs1 := deref_swapGenesAt hne hp1 hp2 i p1
    rw [if_pos rfl] at hs1
    have hs2 := deref_swapGenesAt hne hp1 hp2 i p2
    rw [if_neg (fun e => hne e.symm), if_pos rfl] at hs2
    rw [ih (i + 1) (swapGenesAt store p1 p2 i) (by rw [length_swapGenesAt]; exact hp1)
      (by rw [length_swapGenesAt]; exact hp2)
      (by rw [hs1]; simp only [List.length_set]; omega)
      (by rw [hs2]; simp only [List.length_set]; omega) q]
    rw [hs1, hs2]
    simp only []
    rw [take_set_append_drop_set _ _ i _ _ (by omega) (by omega),
      take_set_append_drop_set _ _ i _ _ (by omega) (by omega)]
    by_cases hq1 : q = p1
    · rw [if_pos hq1, if_pos hq1]
    · rw [if_neg hq1, if_neg hq1]
      by_cases hq2 : q = p2
      · rw [if_pos hq2, if_pos hq2]
      · rw [if_neg hq2, if_neg hq2, deref_swapGenesAt hne hp1 hp2, if_neg hq1, if_neg hq2]

theorem swapGenesAt_same {store : Store} {p : Nat} (hp : p < store.length) (i : Nat) :
    swapGenesAt store p p i = store := by
  unfold swapGenesAt
  simp only []
  rw [set_getD_self, setGenes_self _ _ hp, set_getD_self, setGenes_self _ _ hp]

theorem swapGenesLoop_same {p : Nat} :
    ∀ (n i : Nat) (store : Store), p < store.length → swapGenesLoop p p n i store = store := by
  intro n
  induction n with
  | zero => intro i store _; rfl
  | succ n ih =>
    intro i store hp
    simp only [swapGenesLoop]
    rw [swapGenesAt_same hp, ih _ _ hp]

theorem singlePointCrossover_eq_steps (store : Store) (p1 p2 : Nat) (r : Rand) :
    singlePointCrossover store p1 p2 r = singlePointCrossoverSteps store p1 p2 r := by
  unfold singlePointCrossover singlePointCrossoverSteps
  simp only []
  split
  · rfl
  · rename_i hlen
    have hlen : (deref store p1).genes.length = (deref store p2).genes.length := by
      simpa using hlen
    split
    · rfl
    · rename_i hpos
      have hp1 : p1 < store.length :=
        lt_length_of_genes_ne_nil (fun e => hpos (by rw [e]; rfl))
      have hp2 : p2 < store.length :=
        lt_length_of_genes_ne_nil (fun e => hpos (by rw [hlen, e]; rfl))
      have hpoint : (r.Intn (deref store p1).genes.length).1 < (deref store p1).genes.length :=
        Intn_lt r (by omega)
      congr 2
      by_cases hne : p1 = p2
      · subst hne
        rw [swapGenesLoop_same _ _ _ hp1, List.take_append_drop, setGenes_self _ _ hp1,
          setGenes_self _ _ hp1]
      · apply store_ext
        · rw [length_setGenes, length_setGenes, length_swapGenesLoop]
        · intro q _
          rw [deref_swapGenesLoop hne _ _ _ hp1 hp2 (by omega) (by omega) q,
            deref_setGenes_pair hne hp1 hp2]
/-- C22: `singlePointCrossover` on two distinct chromosomes of the store.  If
their lengths differ, the store and the random source are left as they were.
If both have the length `L >= 1`, the call returns, and there is a point
`p < L` such that afterwards the first chromosome holds its own genes of before
at `[0, p)` and those of the second at `[p, L)`, and the second holds its own
at `[0, p)` and those of the first at `[p, L)`; the genes are moved whole, the
two fitness fields and every other chromosome are untouched.  The loop run
iteration by iteration gives what `singlePointCrossover` gives. -/
theorem singlePointCrossoverSteps_spec (store : Store) (p1 p2 : Nat) (r : Rand)
    (hne : p1 ≠ p2) (hp1 : p1 < store.length) (hp2 : p2 < store.length) :
    ((deref store p1).genes.length ≠ (deref store p2).genes.length →
      singlePointCrossoverSteps store p1 p2 r = some (store, r)) ∧
    ((deref store p1).genes.length = (deref store p2).genes.length →
      1 ≤ (deref store p1).genes.length →
      ∃ point store1 r1, point < (deref store p1).genes.length ∧
        singlePointCrossoverSteps store p1 p2 r = some (store1, r1) ∧
        (deref store1 p1).genes =
          (deref store p1).genes.take point ++ (deref store p2).genes.drop point ∧
        (deref store1 p2).genes =
          (deref store p2).genes.take point ++ (deref store p1).genes.drop point ∧
        (deref store1 p1).fitness = (deref store p1).fitness ∧
        (deref store1 p2).fitness = (deref store p2).fitness ∧
        store1.length = store.length ∧
        ∀ q, q ≠ p1 → q ≠ p2 → deref store1 q = deref store q) ∧
    singlePointCrossover store p1 p2 r = singlePointCrossoverSteps store p1 p2 r := by
  refine ⟨?_, ?_, singlePointCrossover_eq_steps store p1 p2 r⟩
  · intro h
    unfold singlePointCrossoverSteps
    simp only []
    rw [if_pos h]
  · intro hlen hpos
    have hpoint : (r.Intn (deref store p1).genes.length).1 < (deref store p1).genes.length :=
      Intn_lt r (by omega)
    have hd := deref_swapGenesLoop hne
      ((deref store p1).genes.length - (r.Intn (deref store p1).genes.length).1)
      (r.Intn (deref store p1).genes.length).1 store hp1 hp2 (by omega) (by omega)
    refine ⟨(r.Intn (deref store p1).genes.length).1,
      swapGenesLoop p1 p2
        ((deref store p1).genes.length - (r.Intn (deref store p1).genes.length).1)
        (r.Intn (deref store p1).genes.length).1 store,
      (r.Intn (deref store p1).genes.length).2, hpoint, ?_, ?_, ?_, ?_, ?_,
      length_swapGenesLoop _ _ _ _ _, ?_⟩
    · unfold singlePointCrossoverSteps
      simp only []
      rw [if_neg (by simpa using hlen), if_neg (by omega)]
    · rw [hd p1, if_pos rfl]
    · rw [hd p2, if_neg (fun e => hne e.symm), if_pos rfl]
    · rw [hd p1, if_pos rfl]
    · rw [hd p2, if_neg (fun e => hne e.symm), if_pos rfl]
    · intro q hq1 hq2
      rw [hd q, if_neg hq1, if_neg hq2]

theorem singlePointCrossoverSteps_spec_witness :
    (0 : Nat) ≠ 1 ∧ 0 < pairStore.length ∧ 1 < pairStore.length ∧
    (((deref pairStore 0).genes.length ≠ (deref pairStore 1).genes.length →
      singlePointCrossoverSteps pairStore 0 1 zeroRand = some (pairStore, zeroRand)) ∧
    ((deref pairStore 0).genes.length = (deref pairStore 1).genes.length →
      1 ≤ (deref pairStore 0).genes.length →
      ∃ point store1 r1, point < (deref pairStore 0).genes.length ∧
        singlePointCrossoverSteps pairStore 0 1 zeroRand = some (store1, r1) ∧
        (deref store1 0).genes =
          (deref pairStore 0).genes.take point ++ (deref pairStore 1).genes.drop point ∧
        (deref store1 1).genes =
          (deref pairStore 1).genes.take point ++ (deref pairStore 0).genes.drop point ∧
        (deref store1 0).fitness = (deref pairStore 0).fitness ∧
        (deref store1 1).fitness = (deref pairStore 1).fitness ∧
        store1.length = pairStore.length ∧
        ∀ q, q ≠ 0 → q ≠ 1 → deref store1 q = deref pairStore q) ∧
    singlePointCrossover pairStore 0 1 zeroRand =
      singlePointCrossoverSteps pairStore 0 1 zeroRand) :=
  ⟨by decide, by decide, by decide,
    singlePointCrossoverSteps_spec pairStore 0 1 zeroRand (by decide) (by decide) (by decide)⟩

/-! ## Cell-wise invariants of the search -/

theorem mutateGenes_cellwise {s : Scheduler} {Q : ScheduleTemplateShift × Int → Gene → Prop}
    (hmut : ∀ cell g r, Q cell g → Q cell (mutateGene s g r).1) :
    ∀ (cs : List (ScheduleTemplateShift × Int)) (genes : List Gene) (r : Rand),
      List.Forall₂ Q cs genes → List.Forall₂ Q cs (mutateGenes s genes r).1 := by
  intro cs genes r h
  induction h generalizing r with
  | nil => simp only [mutateGenes]; exact List.Forall₂.nil
  | cons hab _ ih =>
    simp only [mutateGenes]
    exact List.Forall₂.cons (hmut _ _ r hab) (ih _)

theorem StoreCellwise_set {s : Scheduler} {Q : ScheduleTemplateShift × Int → Gene → Prop}
    {store : Store} (h : StoreCellwise Q s store) (p : Nat) {ch : Chromosome}
    (hch : List.Forall₂ Q (cells s.shifts) ch.genes) : StoreCellwise Q s (store.set p ch) := by
  intro x hx
  rcases List.mem_or_eq_of_mem_set hx with hx | rfl
  · exact h x hx
  · exact hch

theorem StoreCellwise_setGenes {s : Scheduler}
    {Q : ScheduleTemplateShift × Int → Gene → Prop} {store : Store}
    (h : StoreCellwise Q s store) (p : Nat) {genes : List Gene}
    (hg : List.Forall₂ Q (cells s.shifts) genes) : StoreCellwise Q s (setGenes store p genes) :=
  StoreCellwise_set h p hg

theorem StoreCellwise_deref {s : Scheduler} {Q : ScheduleTemplateShift × Int → Gene → Prop}
    {store : Store} (h : StoreCellwise Q s store) {p : Nat} (hp : p < store.length) :
    List.Forall₂ Q (cells s.shifts) (deref store p).genes :=
  h _ (deref_mem hp)

theorem mutate_cellwise {s : Scheduler} {Q : ScheduleTemplateShift × Int → Gene → Prop}
    (hmut : ∀ cell g r, Q cell g → Q cell (mutateGene s g r).1)
    {store : Store} {p : Nat} (r : Rand) (h : StoreCellwise Q s store) (hp : p < store.length) :
    StoreCellwise Q s (mutate s store p r).1 ∧ (mutate s store p r).1.length = store.length := by
  unfold mutate
  exact ⟨StoreCellwise_setGenes h p (mutateGenes_cellwise hmut _ _ _ (StoreCellwise_deref h hp)),
    length_setGenes _ _ _⟩

theorem forall₂_cross {Q : ScheduleTemplateShift × Int → Gene → Prop}
    {cs : List (ScheduleTemplateShift × Int)} {genes1 genes2 : List Gene}
    (h1 : List.Forall₂ Q cs genes1) (h2 : List.Forall₂ Q cs genes2) (point : Nat) :
    List.Forall₂ Q cs (genes1.take point ++ genes2.drop point) := by
  have := forall₂_append_of (List.forall₂_take point h1) (List.forall₂_drop point h2)
  rwa [List.take_append_drop] at this

theorem singlePointCrossover_cellwise {s : Scheduler}
    {Q : ScheduleTemplateShift × Int → Gene → Prop} {store store1 : Store} {p1 p2 : Nat}
    {r r1 : Rand} (h : singlePointCrossover store p1 p2 r = some (store1, r1))
    (hs : StoreCellwise Q s store) (hp1 : p1 < store.length) (hp2 : p2 < store.length) :
    StoreCellwise Q s store1 ∧ store1.length = store.length := by
  unfold singlePointCrossover at h
  simp only [] at h
  have hg1 := StoreCellwise_deref hs hp1
  have hg2 := StoreCellwise_deref hs hp2
  split at h
  · simp only [Option.some.injEq, Prod.mk.injEq] at h
    rw [← h.1]
    exact ⟨hs, rfl⟩
  · split at h
    · cases h
    · simp only [Option.some.injEq, Prod.mk.injEq] at h
      rw [← h.1]
      refine ⟨StoreCellwise_setGenes (StoreCellwise_setGenes hs p1 (forall₂_cross hg1 hg2 _)) p2
        (forall₂_cross hg2 hg1 _), ?_⟩
      rw [length_setGenes, length_setGenes]

theorem breedPair_cellwise {s : Scheduler} {Q : ScheduleTemplateShift × Int → Gene → Prop}
    (hmut : ∀ cell g r, Q cell g → Q cell (mutateGene s g r).1)
    {store store1 : Store} {pop : List Nat} {r r1 : Rand}
    {p1 p2 : Nat} (h : breedPair s store pop r = some (store1, p1, p2, r1))
    (hs : StoreCellwise Q s store) (hv : PopValid store pop) :
    StoreCellwise Q s store1 ∧ store1.length = store.length ∧ p1 ∈ pop ∧ p2 ∈ pop := by
  unfold breedPair at h
  split at h
  · cases h
  · rename_i q1 r2 hq1
    split at h
    · cases h
    · rename_i q2 r3 hq2
      have hm1 : q1 ∈ pop := selectByRoulette_mem (by rw [hq1])
      have hm2 : q2 ∈ pop := selectByRoulette_mem (by rw [hq2])
      simp only [] at h
      split at h
      · cases h
      · rename_i store2 r4 hcross
        simp only [Option.some.injEq, Prod.mk.injEq] at h
        obtain ⟨hst, hp1, hp2, -⟩ := h
        subst hp1 hp2
        have hc : StoreCellwise Q s store2 ∧ store2.length = store.length := by
          split at hcross
          · exact singlePointCrossover_cellwise hcross hs (hv _ hm1) (hv _ hm2)
          · simp only [Option.some.injEq, Prod.mk.injEq] at hcross
            rw [← hcross.1]
            exact ⟨hs, rfl⟩
        have hmu1 := mutate_cellwise hmut r4 hc.1 (p := q1) (by rw [hc.2]; exact hv _ hm1)
        have hmu2 := mutate_cellwise hmut (mutate s store2 q1 r4).2 hmu1.1 (p := q2)
          (by rw [hmu1.2, hc.2]; exact hv _ hm2)
        rw [← hst]
        exact ⟨hmu2.1, by rw [hmu2.2, hmu1.2, hc.2], hm1, hm2⟩

theorem breed_cellwise {s : Scheduler} {Q : ScheduleTemplateShift × Int → Gene → Prop}
    (hmut : ∀ cell g r, Q cell g → Q cell (mutateGene s g r).1) {pop : List Nat} :
    ∀ (n : Nat) (store : Store) (newPop : List Nat) (r : Rand) (store1 : Store)
      (newPop1 : List Nat) (r1 : Rand),
      breed s n store pop newPop r = some (store1, newPop1, r1) →
      StoreCellwise Q s store → PopValid store pop → (∀ p ∈ newPop, p ∈ pop) →
      StoreCellwise Q s store1 ∧ store1.length = store.length ∧ (∀ p ∈ newPop1, p ∈ pop) := by
  intro n
  induction n using Nat.strongRecOn with
  | _ n ih =>
    intro store newPop r store1 newPop1 r1 h hs hv hnew
    match n, ih with
    | 0, _ =>
      simp only [breed, Option.some.injEq, Prod.mk.injEq] at h
      obtain ⟨rfl, rfl, -⟩ := h
      exact ⟨hs, rfl, hnew⟩
    | 1, _ =>
      simp only [breed] at h
      split at h
      · cases h
      · rename_i store2 p1 p2 r2 hpair
        simp only [Option.some.injEq, Prod.mk.injEq] at h
        obtain ⟨rfl, rfl, -⟩ := h
        obtain ⟨h1, h2, h3, -⟩ := breedPair_cellwise hmut hpair hs hv
        refine ⟨h1, h2, ?_⟩
        intro p hp
        rcases List.mem_append.1 hp with hp | hp
        · exact hnew p hp
        · have : p = p1 := by simpa using hp
          exact this ▸ h3
    | m + 2, ih =>
      simp only [breed] at h
      split at h
      · cases h
      · rename_i store2 p1 p2 r2 hpair
        obtain ⟨h1, h2, h3, h4⟩ := breedPair_cellwise hmut hpair hs hv
        have hv2 : PopValid store2 pop := fun p hp => by rw [h2]; exact hv p hp
        have hnew2 : ∀ p ∈ newPop ++ [p1, p2], p ∈ pop := by
          intro p hp
          rcases List.mem_append.1 hp with hp | hp
          · exact hnew p hp
          · simp only [List.mem_cons, List.mem_singleton, List.not_mem_nil, or_false] at hp
            rcases hp with rfl | rfl
            · exact h3
            · exact h4
        obtain ⟨g1, g2, g3⟩ := ih m (by omega) _ _ _ _ _ _ h h1 hv2 hnew2
        exact ⟨g1, by rw [g2, h2], g3⟩

theorem recalcFitness_cellwise {s : Scheduler}
    {Q : ScheduleTemplateShift × Int → Gene → Prop} :
    ∀ (pop : List Nat) (store : Store), StoreCellwise Q s store →
      StoreCellwise Q s (recalcFitness s store pop) ∧
        (recalcFitness s store pop).length = store.length := by
  intro pop
  induction pop with
  | nil => intro store h; exact ⟨h, rfl⟩
  | cons p rest ih =>
    intro store h
    simp only [recalcFitness, List.foldl_cons]
    have hset : StoreCellwise Q s (store.set p (calcFitness s (deref store p))) := by
      by_cases hp : p < store.length
      · have hd : List.Forall₂ Q (cells s.shifts) (deref store p).genes :=
          StoreCellwise_deref h hp
        exact StoreCellwise_set h p hd
      · rw [List.set_eq_of_length_le (by omega)]
        exact h
    have := ih _ hset
    simp only [recalcFitness] at this
    exact ⟨this.1, by rw [this.2, List.length_set]⟩

theorem generation_cellwise {s : Scheduler} {Q : ScheduleTemplateShift × Int → Gene → Prop}
    (hmut : ∀ cell g r, Q cell g → Q cell (mutateGene s g r).1)
    {st st1 : GAState} (h : generation s st = some st1)
    (hinv : CellInv Q s st) : CellInv Q s st1 := by
  obtain ⟨hs, hv, hb⟩ := hinv
  unfold generation at h
  split at h
  · cases h
  · rename_i p0 rest hpop
    simp only [] at h
    split at h
    · cases h
    · split at h
      · cases h
      · rename_i store1 newPop r1 hbreed
        simp only [Option.some.injEq] at h
        have hsorted := sortPop_perm st.store st.pop
        have hv1 : PopValid st.store (sortPop st.store st.pop) :=
          fun p hp => hv p (hsorted.subset hp)
        obtain ⟨g1, g2, g3⟩ := breed_cellwise hmut _ _ _ _ _ _ _ hbreed hs hv1
          (fun p hp => List.take_subset _ _ hp)
        obtain ⟨k1, k2⟩ := recalcFitness_cellwise (Q := Q)
          (newPop.take s.parameters.PopulationSize.toNat) store1 g1
        rw [← h]
        refine ⟨k1, ?_, ?_⟩
        · intro p hp
          show p < (recalcFitness s store1 _).length
          rw [k2, g2]
          exact hv p (hsorted.subset (g3 p (List.take_subset _ _ hp)))
        · show (ite _ _ _ : Chromosome).genes = [] ∨
            List.Forall₂ Q (cells s.shifts) (ite _ _ _ : Chromosome).genes
          split
          · right
            have hidx := bestIndexLoop_bound st.store rest 1 (deref st.store p0).fitness 0
              (by omega)
            have hlen : st.pop.length = 1 + rest.length := by rw [hpop]; simp; omega
            have hd : List.Forall₂ Q (cells s.shifts) (deref st.store (st.pop.getD
                (bestIndexLoop st.store rest 1 (deref st.store p0).fitness 0).2 0)).genes :=
              StoreCellwise_deref hs (hv _ (getD_mem_pop (by rw [hlen]; exact hidx)))
            exact hd
          · exact hb

theorem generations_cellwise {s : Scheduler} {Q : ScheduleTemplateShift × Int → Gene → Prop}
    (hmut : ∀ cell g r, Q cell g → Q cell (mutateGene s g r).1) :
    ∀ (n : Nat) (st st1 : GAState), generations s n st = some st1 → CellInv Q s st →
      CellInv Q s st1 := by
  intro n
  induction n with
  | zero =>
    intro st st1 h hinv
    simp only [generations, Option.some.injEq] at h
    exact h ▸ hinv
  | succ n ih =>
    intro st st1 h hinv
    simp only [generations] at h
    split at h
    · cases h
    · rename_i st2 hgen
      exact ih _ _ h (generation_cellwise hmut hgen hinv)

theorem generationStarts_cellwise {s : Scheduler}
    {Q : ScheduleTemplateShift × Int → Gene → Prop}
    (hmut : ∀ cell g r, Q cell g → Q cell (mutateGene s g r).1) :
    ∀ (n : Nat) (st0 : GAState), CellInv Q s st0 →
      ∀ st ∈ generationStarts s n st0, CellInv Q s st := by
  intro n
  induction n with
  | zero => intro st0 _ st hst; simp [generationStarts] at hst
  | succ n ih =>
    intro st0 hinv st hst
    simp only [generationStarts, List.mem_cons] at hst
    rcases hst with rfl | hst
    · exact hinv
    · split at hst
      · simp at hst
      · rename_i st1 hgen
        exact ih st1 (generation_cellwise hmut hgen hinv) st hst
theorem randomInitDays_cellwise {s : Scheduler} {Q : ScheduleTemplateShift × Int → Gene → Prop}
    (shift : ScheduleTemplateShift)
    (hinit : ∀ day r g r1, randomInitGene s shift day r = some (g, r1) → Q (shift, day) g) :
    ∀ (days : List Int) (r r1 : Rand) (genes : List Gene),
      randomInitDays s shift days r = some (genes, r1) →
        List.Forall₂ Q (days.map (fun day => (shift, day))) genes := by
  intro days
  induction days with
  | nil =>
    intro r r1 genes h
    simp only [randomInitDays, Option.some.injEq, Prod.mk.injEq] at h
    rw [← h.1]
    exact List.Forall₂.nil
  | cons day rest ih =>
    intro r r1 genes h
    simp only [randomInitDays] at h
    cases hg : randomInitGene s shift day r with
    | none => simp [hg] at h
    | some res =>
      obtain ⟨gene, r2⟩ := res
      simp only [hg] at h
      cases hr : randomInitDays s shift rest r2 with
      | none => simp [hr] at h
      | some res2 =>
        obtain ⟨more, r3⟩ := res2
        simp only [hr, Option.some.injEq, Prod.mk.injEq] at h
        rw [← h.1]
        exact List.Forall₂.cons (hinit _ _ _ _ hg) (ih _ _ _ hr)

theorem randomInitShifts_cellwise {s : Scheduler}
    {Q : ScheduleTemplateShift × Int → Gene → Prop} :
    ∀ (shifts : List ScheduleTemplateShift),
      (∀ shift ∈ shifts, ∀ day r g r1,
        randomInitGene s shift day r = some (g, r1) → Q (shift, day) g) →
      ∀ (r r1 : Rand) (genes : List Gene),
        randomInitShifts s shifts r = some (genes, r1) →
          List.Forall₂ Q (cells shifts) genes := by
  intro shifts
  induction shifts with
  | nil =>
    intro _ r r1 genes h
    simp only [randomInitShifts, Option.some.injEq, Prod.mk.injEq] at h
    rw [← h.1]
    exact List.Forall₂.nil
  | cons shift rest ih =>
    intro hinit r r1 genes h
    simp only [randomInitShifts] at h
    cases hd : randomInitDays s shift shift.ApplicableDays r with
    | none => simp [hd] at h
    | some res =>
      obtain ⟨first, r2⟩ := res
      simp only [hd] at h
      cases hr : randomInitShifts s rest r2 with
      | none => simp [hr] at h
      | some res2 =>
        obtain ⟨more, r3⟩ := res2
        simp only [hr, Option.some.injEq, Prod.mk.injEq] at h
        rw [← h.1]
        exact forall₂_append_of
          (randomInitDays_cellwise shift (hinit shift (List.mem_cons_self _ _)) _ _ _ _ hd)
          (ih (fun sh hsh => hinit sh (List.mem_cons_of_mem _ hsh)) _ _ _ hr)

theorem randomInitChromosome_cellwise {s : Scheduler}
    {Q : ScheduleTemplateShift × Int → Gene → Prop}
    (hinit : ∀ shift ∈ s.shifts, ∀ day r g r1,
      randomInitGene s shift day r = some (g, r1) → Q (shift, day) g)
    {r r1 : Rand} {ch : Chromosome} (h : randomInitChromosome s r = some (ch, r1)) :
    List.Forall₂ Q (cells s.shifts) ch.genes := by
  unfold randomInitChromosome at h
  cases hs : randomInitShifts s s.shifts r with
  | none => simp [hs] at h
  | some res =>
    obtain ⟨genes, r2⟩ := res
    simp only [hs, Option.some.injEq, Prod.mk.injEq] at h
    rw [← h.1]
    exact randomInitShifts_cellwise _ hinit _ _ _ hs

theorem initPopulation_cellwise {s : Scheduler}
    {Q : ScheduleTemplateShift × Int → Gene → Prop}
    (hinit : ∀ shift ∈ s.shifts, ∀ day r g r1,
      randomInitGene s shift day r = some (g, r1) → Q (shift, day) g) :
    ∀ (n : Nat) (store : Store) (r : Rand) (store1 : Store) (r1 : Rand),
      initPopulation s n store r = some (store1, r1) → StoreCellwise Q s store →
        StoreCellwise Q s store1 ∧ store1.length = store.length + n := by
  intro n
  induction n with
  | zero =>
    intro store r store1 r1 h hs
    simp only [initPopulation, Option.some.injEq, Prod.mk.injEq] at h
    rw [← h.1]
    exact ⟨hs, rfl⟩
  | succ n ih =>
    intro store r store1 r1 h hs
    simp only [initPopulation] at h
    split at h
    · cases h
    · rename_i ch r2 hch
      have hok : StoreCellwise Q s (store ++ [calcFitness s ch]) := by
        intro x hx
        rcases List.mem_append.1 hx with hx | hx
        · exact hs x hx
        · have : x = calcFitness s ch := by simpa using hx
          rw [this]
          have hd : List.Forall₂ Q (cells s.shifts) ch.genes :=
            randomInitChromosome_cellwise hinit hch
          exact hd
      obtain ⟨h1, h2⟩ := ih _ _ _ _ h hok
      refine ⟨h1, ?_⟩
      rw [h2]
      simp only [List.length_append, List.length_cons, List.length_nil]
      omega

theorem initialState_cellwise {s : Scheduler} {Q : ScheduleTemplateShift × Int → Gene → Prop}
    (hinit : ∀ shift ∈ s.shifts, ∀ day r g r1,
      randomInitGene s shift day r = some (g, r1) → Q (shift, day) g)
    {r : Rand} {st0 : GAState} (h : initialState s r = some st0) : CellInv Q s st0 := by
  unfold initialState at h
  split at h
  · cases h
  · rename_i store r1 hpop
    simp only [Option.some.injEq] at h
    rw [← h]
    obtain ⟨h1, h2⟩ := initPopulation_cellwise hinit _ [] r store r1 hpop
      (fun ch hch => by cases hch)
    refine ⟨h1, ?_, Or.inl rfl⟩
    intro p hp
    show p < store.length
    rw [h2]
    simpa using hp

theorem Schedule_eq_ok_initialState {s : Scheduler} {r : Rand}
    {result : List SchedulingResultShift} (h : Schedule s r = .ok result) :
    ∃ st0 st, initialState s r = some st0 ∧
      generations s s.parameters.MaxGenerations.toNat st0 = some st ∧
      result = buildResult st.best.genes := by
  unfold Schedule at h
  split at h
  · cases h
  · split at h
    · cases h
    · rename_i store r1 hinit
      split at h
      · cases h
      · rename_i st hgens
        simp only [] at h
        split at h
        · cases h
        · split at h
          · cases h
          · simp only [Outcome.ok.injEq] at h
            refine ⟨_, st, ?_, hgens, h.symm⟩
            unfold initialState
            rw [hinit]

theorem cells_length (shifts : List ScheduleTemplateShift) :
    (cells shifts).length = (shifts.map (fun shift => shift.ApplicableDays.length)).sum := by
  induction shifts with
  | nil => rfl
  | cons shift rest ih => simp [cells, ih]

theorem mutateSlots_fields (s : Scheduler) :
    ∀ (n j : Nat) (g : Gene) (r : Rand),
      (mutateSlots s n j g r).1.shiftID = g.shiftID ∧ (mutateSlots s n j g r).1.day = g.day ∧
      (mutateSlots s n j g r).1.requiredNum = g.requiredNum ∧
      (mutateSlots s n j g r).1.workDuration = g.workDuration ∧
      (mutateSlots s n j g r).1.principalID = g.principalID ∧
      (mutateSlots s n j g r).1.assistantIDs.length = g.assistantIDs.length := by
  intro n
  induction n with
  | zero => intro j g r; simp [mutateSlots]
  | succ n ih =>
    intro j g r
    simp only [mutateSlots]
    split
    · exact ih _ _ _
    · split
      · have := ih (j + 1) { g with assistantIDs := (g.assistantIDs.set j
            ((mutateAssistantCandidates s g).getD
              (r.Float64.2.Intn (mutateAssistantCandidates s g).length).1 0)) }
          (r.Float64.2.Intn (mutateAssistantCandidates s g).length).2
        simpa using this
      · exact ih _ _ _

theorem mutateGene_fields (s : Scheduler) (g : Gene) (r : Rand) :
    (mutateGene s g r).1.shiftID = g.shiftID ∧ (mutateGene s g r).1.day = g.day ∧
    (mutateGene s g r).1.requiredNum = g.requiredNum ∧
    (mutateGene s g r).1.workDuration = g.workDuration ∧
    (mutateGene s g r).1.assistantIDs.length = g.assistantIDs.length := by
  unfold mutateGene
  split
  · simp
  · simp only []
    split
    · obtain ⟨h1, h2, h3, h4, -, h6⟩ := mutateSlots_fields s g.assistantIDs.length 0
        { g with principalID := (some ((mutatePrincipalCandidates s g).getD
            (r.Float64.2.Intn (mutatePrincipalCandidates s g).length).1 0)) }
        (r.Float64.2.Intn (mutatePrincipalCandidates s g).length).2
      exact ⟨h1, h2, h3, h4, h6⟩
    · obtain ⟨h1, h2, h3, h4, -, h6⟩ := mutateSlots_fields s g.assistantIDs.length 0 g
        r.Float64.2
      exact ⟨h1, h2, h3, h4, h6⟩
/-! ## The order of the genes is the order of the cells -/

theorem randomInitGene_schema {s : Scheduler} {shift : ScheduleTemplateShift} {day : Int}
    {r r1 : Rand} {g : Gene} (h : randomInitGene s shift day r = some (g, r1)) :
    SchemaAt (shift, day) g := by
  unfold randomInitGene at h
  simp only [] at h
  split at h
  · cases h
  · simp only [Option.some.injEq, Prod.mk.injEq] at h
    rw [← h.1]
    exact ⟨rfl, rfl, rfl⟩

theorem mutateGene_schema (s : Scheduler) (cell : ScheduleTemplateShift × Int) (g : Gene)
    (r : Rand) (h : SchemaAt cell g) : SchemaAt cell (mutateGene s g r).1 := by
  obtain ⟨h1, h2, h3, -, -⟩ := mutateGene_fields s g r
  unfold SchemaAt
  rw [h1, h2, h3]
  exact h

/-- C23: the order of the genes is a fixed positional schema.  Every chromosome
that `randomInitChromosome` returns, whatever the random source, has as many
genes as the template shifts have applicable days in total, and its k-th gene
carries the shift ID, the day and the required number of the k-th (shift, day)
cell, the shifts taken in template order and the days in the order of
`applicableDays`.  `singlePointCrossover` and `mutate` keep this in every
chromosome of a store in which it holds, so it holds for every member of the
population after any number of generations. -/
theorem gene_order_schema (s : Scheduler) :
    (∀ r ch r1, randomInitChromosome s r = some (ch, r1) →
      ch.genes.length = (s.shifts.map (fun shift => shift.ApplicableDays.length)).sum ∧
      List.Forall₂ SchemaAt (cells s.shifts) ch.genes) ∧
    (∀ store p1 p2 r store1 r1, StoreCellwise SchemaAt s store →
      p1 < store.length → p2 < store.length →
      singlePointCrossover store p1 p2 r = some (store1, r1) →
      StoreCellwise SchemaAt s store1) ∧
    (∀ store p r, StoreCellwise SchemaAt s store → p < store.length →
      StoreCellwise SchemaAt s (mutate s store p r).1) ∧
    (∀ r st0, initialState s r = some st0 →
      ∀ n st, generations s n st0 = some st →
      ∀ p ∈ st.pop, p < st.store.length ∧
        (deref st.store p).genes.length =
          (s.shifts.map (fun shift => shift.ApplicableDays.length)).sum ∧
        List.Forall₂ SchemaAt (cells s.shifts) (deref st.store p).genes) := by
  have hinit : ∀ shift ∈ s.shifts, ∀ day r g r1,
      randomInitGene s shift day r = some (g, r1) → SchemaAt (shift, day) g :=
    fun _ _ _ _ _ _ h => randomInitGene_schema h
  have hmut : ∀ cell g r, SchemaAt cell g → SchemaAt cell (mutateGene s g r).1 :=
    fun cell g r h => mutateGene_schema s cell g r h
  refine ⟨?_, ?_, ?_, ?_⟩
  · intro r ch r1 h
    have hf := randomInitChromosome_cellwise hinit h
    exact ⟨by rw [← hf.length_eq, cells_length], hf⟩
  · intro store p1 p2 r store1 r1 hs hp1 hp2 h
    exact (singlePointCrossover_cellwise h hs hp1 hp2).1
  · intro store p r hs hp
    exact (mutate_cellwise hmut r hs hp).1
  · intro r st0 h0 n st hgen p hp
    obtain ⟨hs, hv, -⟩ := generations_cellwise hmut n st0 st hgen (initialState_cellwise hinit h0)
    have hf := StoreCellwise_deref hs (hv p hp)
    exact ⟨hv p hp, by rw [← hf.length_eq, cells_length], hf⟩

theorem gene_order_schema_witness :
    ∃ st0 st, initialState threeUserScheduler skipRand = some st0 ∧
      generations threeUserScheduler 1 st0 = some st ∧ st.pop = [0, 0] ∧
      ∀ p ∈ st.pop, p < st.store.length ∧
        (deref st.store p).genes.length =
          (threeUserScheduler.shifts.map (fun shift => shift.ApplicableDays.length)).sum ∧
        List.Forall₂ SchemaAt (cells threeUserScheduler.shifts) (deref st.store p).genes := by
  have hrun : ((initialState threeUserScheduler skipRand).bind
      (generations threeUserScheduler 1)).map (·.pop) = some [0, 0] := by decide!
  cases h0 : initialState threeUserScheduler skipRand with
  | none => rw [h0] at hrun; cases hrun
  | some st0 =>
    cases hg : generations threeUserScheduler 1 st0 with
    | none => rw [h0, Option.some_bind, hg] at hrun; cases hrun
    | some st =>
      rw [h0, Option.some_bind, hg] at hrun
      simp only [Option.map_some', Option.some.injEq] at hrun
      exact ⟨st0, st, rfl, hg, hrun,
        (gene_order_schema threeUserScheduler).2.2.2 skipRand st0 h0 1 st hg⟩

/-! ## The number of assistants of a cell is fixed by the input -/

theorem filter_length_without (av av1 : User → Bool) (k : Int)
    (hav1 : ∀ u, av1 u = true ↔ (av u = true ∧ u.ID ≠ k)) :
    ∀ users : List User, (users.map (·.ID)).Nodup →
      ((∃ u ∈ users, u.ID = k ∧ av u = true) →
        (users.filter av).length = (users.filter av1).length + 1) ∧
      ((∀ u ∈ users, u.ID ≠ k) → (users.filter av).length = (users.filter av1).length) := by
  intro users
  induction users with
  | nil =>
    intro _
    exact ⟨fun ⟨u, hu, _⟩ => (by cases hu), fun _ => rfl⟩
  | cons x xs ih =>
    intro hnd
    simp only [List.map_cons, List.nodup_cons] at hnd
    obtain ⟨hx, hnd⟩ := hnd
    obtain ⟨ih1, ih2⟩ := ih hnd
    constructor
    · rintro ⟨u, hu, hk, hav⟩
      by_cases hxk : x.ID = k
      · have hxs : ∀ v ∈ xs, v.ID ≠ k := by
          intro v hv hvk
          exact hx (List.mem_map.2 ⟨v, hv, by rw [hvk, hxk]⟩)
        have hux : u = x := by
          rcases List.mem_cons.1 hu with h | h
          · exact h
          · exact absurd hk (hxs u h)
        subst hux
        have hlen := ih2 hxs
        have h1 : av1 u = false := by
          cases hc : av1 u with
          | false => rfl
          | true => exact absurd hxk ((hav1 u).1 hc).2
        rw [List.filter_cons, List.filter_cons, hav, h1]
        simp only [if_true, Bool.false_eq_true, if_false, List.length_cons]
        omega
      · have hu2 : ∃ v ∈ xs, v.ID = k ∧ av v = true := by
          rcases List.mem_cons.1 hu with h | h
          · exact absurd (h ▸ hk) hxk
          · exact ⟨u, h, hk, hav⟩
        have hlen := ih1 hu2
        rw [List.filter_cons, List.filter_cons]
        cases hax : av x with
        | false =>
          have h1 : av1 x = false := by
            cases hc : av1 x with
            | false => rfl
            | true => rw [((hav1 x).1 hc).1] at hax; cases hax
          rw [h1]
          simp only [Bool.false_eq_true, if_false]
          exact hlen
        | true =>
          have h1 : av1 x = true := (hav1 x).2 ⟨hax, hxk⟩
          rw [h1]
          simp only [if_true, List.length_cons]
          omega
    · intro hall
      have hxk : x.ID ≠ k := hall x (List.mem_cons_self _ _)
      have hlen := ih2 (fun v hv => hall v (List.mem_cons_of_mem _ hv))
      rw [List.filter_cons, List.filter_cons]
      cases hax : av x with
      | false =>
        have h1 : av1 x = false := by
          cases hc : av1 x with
          | false => rfl
          | true => rw [((hav1 x).1 hc).1] at hax; cases hax
        rw [h1]
        simp only [Bool.false_eq_true, if_false]
        exact hlen
      | true =>
        have h1 : av1 x = true := (hav1 x).2 ⟨hax, hxk⟩
        rw [h1]
        simp only [if_true, List.length_cons]
        omega

theorem randomInitGene_count {s : Scheduler} (hU : (s.users.map (·.ID)).Nodup)
    {shift : ScheduleTemplateShift} {day : Int} {r r1 : Rand} {g : Gene}
    (h1 : 1 ≤ shift.RequiredAssistantNumber) (h2 : shift.RequiredAssistantNumber < 2 ^ 31)
    (h : randomInitGene s shift day r = some (g, r1)) : AssistantCountAt s (shift, day) g := by
  refine ⟨randomInitGene_schema h, ?_⟩
  obtain ⟨-, -, hP0, hP1, hlen, -, -⟩ := randomInitGene_spec hU h1 h2 h
  simp only [] at hP0 hP1 hlen
  rw [hlen]
  unfold fixedAssistantCount availableCount eligibleCount
  simp only []
  by_cases hP : s.users.filter (fun u =>
      isSeniorOrBlackCore u && decide (u.ID ∈ s.availableMap shift.ID day)) = []
  · have hnone := hP0 hP
    have hany : s.users.any (fun u =>
        isSeniorOrBlackCore u && decide (u.ID ∈ s.availableMap shift.ID day)) = false := by
      rw [List.any_eq_false]
      intro u hu hc
      have : u ∈ s.users.filter (fun u =>
          isSeniorOrBlackCore u && decide (u.ID ∈ s.availableMap shift.ID day)) :=
        List.mem_filter.2 ⟨hu, hc⟩
      rw [hP] at this
      cases this
    rw [hany, hnone]
    simp
  · obtain ⟨u0, hu0, hpr⟩ := hP1 hP
    obtain ⟨hu0m, hu0c⟩ := List.mem_filter.1 hu0
    have hany : s.users.any (fun u =>
        isSeniorOrBlackCore u && decide (u.ID ∈ s.availableMap shift.ID day)) = true :=
      List.any_eq_true.2 ⟨u0, hu0m, hu0c⟩
    have hav : decide (u0.ID ∈ s.availableMap shift.ID day) = true := by
      simp only [Bool.and_eq_true] at hu0c
      exact hu0c.2
    have := (filter_length_without
      (fun u => decide (u.ID ∈ s.availableMap shift.ID day))
      (fun u => decide (u.ID ∈ s.availableMap shift.ID day) &&
        decide (some u0.ID ≠ some u.ID)) u0.ID
      (fun u => by
        simp only [Bool.and_eq_true, decide_eq_true_eq, ne_eq, Option.some.injEq]
        exact ⟨fun h => ⟨h.1, fun e => h.2 e.symm⟩, fun h => ⟨h.1, fun e => h.2 e.symm⟩⟩)
      s.users hU).1 ⟨u0, hu0m, rfl, hav⟩
    rw [hany, hpr, this]
    simp only [if_true, Nat.cast_add, Nat.cast_one]
    congr 1
    omega

theorem mutateGene_count (s : Scheduler) (cell : ScheduleTemplateShift × Int) (g : Gene)
    (r : Rand) (h : AssistantCountAt s cell g) : AssistantCountAt s cell (mutateGene s g r).1 := by
  refine ⟨mutateGene_schema s cell g r h.1, ?_⟩
  rw [(mutateGene_fields s g r).2.2.2.2]
  exact h.2
/-- C29: the number of assistants of a cell is fixed by the input.  When `New`
builds the scheduler from submissions with pairwise distinct user IDs and every
template shift requires at least one assistant (an `int32`), then, for every
random source, every gene of every member of the population after any number of
generations sits at its (shift, day) cell and has exactly
`min(requiredAssistantNumber - 1, a - e)` assistants, where `a` is the number of
submitters available at the cell and `e` is 1 if a senior or black-core
submitter is available there and 0 otherwise; and so has every item of a result
that `Schedule` returns. -/
theorem assistant_count_fixed (parameters : Parameters) (users : List User)
    (template : ScheduleTemplate) (submissions : List AvailabilitySubmission) (sch : Scheduler)
    (r : Rand)
    (hNew : New parameters users template submissions = .ok sch)
    (hU : (submissions.map (·.UserID)).Nodup)
    (hreq : ∀ shift ∈ template.Shifts, 1 ≤ shift.RequiredAssistantNumber ∧
      shift.RequiredAssistantNumber < 2 ^ 31) :
    (∀ st0, initialState sch r = some st0 →
      ∀ n st, generations sch n st0 = some st →
      ∀ p ∈ st.pop,
        List.Forall₂ (AssistantCountAt sch) (cells sch.shifts) (deref st.store p).genes) ∧
    (∀ result, Schedule sch r = .ok result →
      ∀ shift ∈ result, ∀ item ∈ shift.Items,
        ∃ cell ∈ cells sch.shifts, cell.1.ID = shift.ShiftID ∧ cell.2 = item.Day ∧
          (item.AssistantIDs.length : Int) = fixedAssistantCount sch cell) := by
  have hUs := New_users_nodup hNew hU
  have hshifts : sch.shifts = template.Shifts := (New_ok hNew).2.1
  have hinit : ∀ shift ∈ sch.shifts, ∀ day r g r1,
      randomInitGene sch shift day r = some (g, r1) → AssistantCountAt sch (shift, day) g := by
    intro shift hshift day r0 g r1 h
    rw [hshifts] at hshift
    exact randomInitGene_count hUs (hreq shift hshift).1 (hreq shift hshift).2 h
  have hmut : ∀ cell g r, AssistantCountAt sch cell g →
      AssistantCountAt sch cell (mutateGene sch g r).1 :=
    fun cell g r h => mutateGene_count sch cell g r h
  constructor
  · intro st0 h0 n st hgen p hp
    obtain ⟨hs, hv, -⟩ := generations_cellwise hmut n st0 st hgen (initialState_cellwise hinit h0)
    exact StoreCellwise_deref hs (hv p hp)
  · intro result hres
    obtain ⟨st0, st, h0, hgen, hresult⟩ := Schedule_eq_ok_initialState hres
    obtain ⟨-, -, hb⟩ := generations_cellwise hmut _ st0 st hgen (initialState_cellwise hinit h0)
    rw [hresult]
    apply buildResult_items
      (Q := fun k item => ∃ cell ∈ cells sch.shifts, cell.1.ID = k ∧ cell.2 = item.Day ∧
        (item.AssistantIDs.length : Int) = fixedAssistantCount sch cell)
    intro gene hgene
    rcases hb with hb | hb
    · rw [hb] at hgene
      cases hgene
    · obtain ⟨cell, hcell, hq⟩ := forall₂_right_mem hb gene hgene
      exact ⟨cell, hcell, hq.1.1.symm, hq.1.2.1.symm, hq.2⟩

theorem assistant_count_fixed_witness :
    Schedule twoUserScheduler zeroRand = .ok [⟨1, [⟨1, some 10, [11]⟩]⟩] ∧
    ∀ shift ∈ [(⟨1, [⟨1, some 10, [11]⟩]⟩ : SchedulingResultShift)], ∀ item ∈ shift.Items,
      ∃ cell ∈ cells twoUserScheduler.shifts, cell.1.ID = shift.ShiftID ∧ cell.2 = item.Day ∧
        (item.AssistantIDs.length : Int) = fixedAssistantCount twoUserScheduler cell :=
  ⟨by decide!,
    (assistant_count_fixed smallParameters twoUsers oneCellTemplate twoSubmissions
      twoUserScheduler zeroRand rfl (by decide) (by decide)).2 _ (by decide!)⟩

/-! ## The idle penalty of `calcFitness` -/

theorem fitnessOfTally_eq_sub (fairnessWeight : ℚ) (userWorkCnt : List (Int × F64)) :
    fitnessOfTally fairnessWeight userWorkCnt =
      F64.sub (F64.neg (notWorkPenalty userWorkCnt))
        (F64.mul (F64.val fairnessWeight) (varianceOfTally userWorkCnt)) :=
  rfl

/-- C25 fails on this input: users 10 (senior) and 11 both submitted shift 1 on
day 1, and the shift requires one assistant.  The chromosome that the
initialisation builds has user 10 as the principal and no assistant, so that
user 11, a submitter, has no assigned hours; the specified penalty is 1.  The
tally of `calcFitness` has the one entry of user 10, `notWorkPenalty` is 0 and
the fitness is 0, not `-1`. -/
theorem calcFitness_ignores_idle_submitter :
    New smallParameters twoUsers soloTemplate twoSubmissions = .ok soloScheduler ∧
    (randomInitChromosome soloScheduler zeroRand).map (fun res => res.1.genes) =
      some [⟨1, 1, some 10, [], 1, F64.val 2⟩] ∧
    workTally [⟨1, 1, some 10, [], 1, F64.val 2⟩] = [(10, F64.val 2)] ∧
    assignedHours [⟨1, 1, some 10, [], 1, F64.val 2⟩] 11 = 0 ∧
    idleSubmitters soloScheduler [⟨1, 1, some 10, [], 1, F64.val 2⟩] = 1 ∧
    notWorkPenalty (workTally [⟨1, 1, some 10, [], 1, F64.val 2⟩]) = F64.val 0 ∧
    (calcFitness soloScheduler ⟨[⟨1, 1, some 10, [], 1, F64.val 2⟩], F64.val 0⟩).fitness =
      F64.val 0 ∧
    Schedule soloScheduler zeroRand = .ok [⟨1, [⟨1, some 10, []⟩]⟩] :=
  ⟨rfl, by decide!, by decide!, by decide!, by decide!, by decide!, by decide!, by decide!⟩
/-! ## The tally of `calcFitness` -/

theorem mem_roles {g : Gene} {u : Int} :
    u ∈ roles g ↔ (g.principalID = some u ∨ u ∈ g.assistantIDs) := by
  unfold roles
  cases hp : g.principalID with
  | none => simp
  | some p =>
    simp only [Option.toList_some, List.singleton_append, List.mem_cons, Option.some.injEq]
    constructor
    · rintro (h | h)
      · exact Or.inl h.symm
      · exact Or.inr h
    · rintro (h | h)
      · exact Or.inl h.symm
      · exact Or.inr h

theorem roles_nodup {g : Gene} (h1 : ∀ p, g.principalID = some p → p ∉ g.assistantIDs)
    (h2 : g.assistantIDs.Nodup) : (roles g).Nodup := by
  unfold roles
  cases hp : g.principalID with
  | none => simpa using h2
  | some p =>
    simp only [Option.toList_some, List.singleton_append, List.nodup_cons]
    exact ⟨h1 p hp, h2⟩

theorem addGeneWork_eq_foldl (userWorkCnt : List (Int × F64)) (g : Gene) :
    addGeneWork userWorkCnt g =
      (roles g).foldl (fun acc id => addWork acc id g.workDuration) userWorkCnt := by
  unfold addGeneWork roles
  cases g.principalID with
  | none => simp
  | some p => simp

theorem addWork_tallyOf (id : Int) (d : ℚ) (hours : Int → ℚ) :
    ∀ keys : List Int, keys.Nodup → (id ∉ keys → hours id = 0) →
      addWork (tallyOf keys hours) id (F64.val d) =
        tallyOf (if id ∈ keys then keys else keys ++ [id])
          (fun k => if k = id then hours k + d else hours k) := by
  intro keys
  induction keys with
  | nil =>
    intro _ h0
    have := h0 (List.not_mem_nil _)
    simp only [tallyOf, List.map_nil, addWork, List.not_mem_nil, if_false, List.nil_append,
      List.map_cons, if_true, this]
    rfl
  | cons k rest ih =>
    intro hnd h0
    simp only [List.nodup_cons] at hnd
    obtain ⟨hk, hnd⟩ := hnd
    by_cases hkid : k = id
    · subst hkid
      have hrest : rest.map (fun x => (x, F64.val (if x = k then hours x + d else hours x))) =
          rest.map (fun x => (x, F64.val (hours x))) := by
        apply List.map_congr_left
        intro x hx
        have : x ≠ k := fun e => hk (e ▸ hx)
        simp [this]
      simp only [tallyOf, List.map_cons, addWork, if_true, List.mem_cons, true_or, hrest]
      rfl
    · have hid : id ∉ rest → hours id = 0 := by
        intro h
        apply h0
        simp only [List.mem_cons, not_or]
        exact ⟨fun e => hkid e.symm, h⟩
      have := ih hnd hid
      simp only [tallyOf] at this ⊢
      simp only [List.map_cons, addWork, hkid, if_false, this, List.mem_cons]
      have hne : ¬ id = k := fun e => hkid e.symm
      simp only [hne, false_or]
      split <;> simp [hkid]

theorem foldl_addWork_tallyOf (d : ℚ) :
    ∀ (l : List Int), l.Nodup → ∀ (keys : List Int) (hours : Int → ℚ), keys.Nodup →
      (∀ k, k ∉ keys → hours k = 0) →
      ∃ keys1 hours1,
        l.foldl (fun acc id => addWork acc id (F64.val d)) (tallyOf keys hours) =
          tallyOf keys1 hours1 ∧
        keys1.Nodup ∧ (∀ k, k ∉ keys1 → hours1 k = 0) ∧
        (∀ k, k ∈ keys1 ↔ k ∈ keys ∨ k ∈ l) ∧
        (∀ k, hours1 k = hours k + if k ∈ l then d else 0) := by
  intro l
  induction l with
  | nil =>
    intro _ keys hours hnd h0
    exact ⟨keys, hours, rfl, hnd, h0, by simp, by simp⟩
  | cons id rest ih =>
    intro hl keys hours hnd h0
    simp only [List.nodup_cons] at hl
    obtain ⟨hid, hl⟩ := hl
    simp only [List.foldl_cons]
    rw [addWork_tallyOf id d hours keys hnd (h0 id)]
    have hnd1 : (if id ∈ keys then keys else keys ++ [id]).Nodup := by
      split
      · exact hnd
      · rename_i hmem
        rw [List.nodup_append]
        refine ⟨hnd, List.nodup_singleton _, ?_⟩
        intro x hx hx2
        have : x = id := by simpa using hx2
        exact hmem (this ▸ hx)
    have hmem1 : ∀ k, k ∈ (if id ∈ keys then keys else keys ++ [id]) ↔ k ∈ keys ∨ k = id := by
      intro k
      split
      · rename_i hmem
        constructor
        · exact Or.inl
        · rintro (h | h)
          · exact h
          · exact h ▸ hmem
      · simp
    have h01 : ∀ k, k ∉ (if id ∈ keys then keys else keys ++ [id]) →
        (fun k => if k = id then hours k + d else hours k) k = 0 := by
      intro k hk
      rw [hmem1] at hk
      simp only [not_or] at hk
      simp only [hk.2, if_false]
      exact h0 k hk.1
    obtain ⟨keys1, hours1, e1, e2, e3, e4, e5⟩ := ih hl _ _ hnd1 h01
    refine ⟨keys1, hours1, e1, e2, e3, ?_, ?_⟩
    · intro k
      rw [e4, hmem1]
      simp only [List.mem_cons]
      tauto
    · intro k
      rw [e5]
      by_cases hk : k = id
      · subst hk
        simp [hid]
      · simp [hk]
theorem foldl_addGeneWork_tallyOf :
    ∀ (genes : List Gene),
      (∀ g ∈ genes, (roles g).Nodup ∧ ∃ d, g.workDuration = F64.val d) →
      ∀ (keys : List Int) (hours : Int → ℚ), keys.Nodup → (∀ k, k ∉ keys → hours k = 0) →
      ∃ keys1 hours1,
        genes.foldl addGeneWork (tallyOf keys hours) = tallyOf keys1 hours1 ∧
        keys1.Nodup ∧ (∀ k, k ∉ keys1 → hours1 k = 0) ∧
        (∀ k, k ∈ keys1 ↔ k ∈ keys ∨ ∃ g ∈ genes, k ∈ roles g) ∧
        (∀ k, hours1 k = hours k + assignedHours genes k) := by
  intro genes
  induction genes with
  | nil =>
    intro _ keys hours hnd h0
    exact ⟨keys, hours, rfl, hnd, h0, by simp, by simp [assignedHours]⟩
  | cons g rest ih =>
    intro hg keys hours hnd h0
    obtain ⟨hroles, d, hd⟩ := hg g (List.mem_cons_self _ _)
    simp only [List.foldl_cons]
    rw [addGeneWork_eq_foldl, hd]
    obtain ⟨keys1, hours1, e1, e2, e3, e4, e5⟩ :=
      foldl_addWork_tallyOf d (roles g) hroles keys hours hnd h0
    rw [e1]
    obtain ⟨keys2, hours2, f1, f2, f3, f4, f5⟩ :=
      ih (fun x hx => hg x (List.mem_cons_of_mem _ hx)) keys1 hours1 e2 e3
    refine ⟨keys2, hours2, f1, f2, f3, ?_, ?_⟩
    · intro k
      rw [f4, e4]
      simp only [List.exists_mem_cons_iff]
      tauto
    · intro k
      rw [f5, e5]
      have hh : hoursOf g = d := by
        unfold hoursOf
        rw [hd]
      unfold assignedHours
      rw [List.filter_cons]
      by_cases hk : k ∈ roles g
      · have hc : (decide (g.principalID = some k) || decide (k ∈ g.assistantIDs)) = true := by
          rcases mem_roles.1 hk with h | h
          · simp [h]
          · simp [h]
        rw [if_pos hk, if_pos hc, List.map_cons, List.sum_cons, hh]
        ring
      · have hc : ¬ (decide (g.principalID = some k) || decide (k ∈ g.assistantIDs)) = true := by
          intro hc
          apply hk
          rw [mem_roles]
          simpa using hc
        rw [if_neg hk, if_neg hc]
        ring

theorem workTally_eq_tallyOf {genes : List Gene}
    (hg : ∀ g ∈ genes, (roles g).Nodup ∧ ∃ d, g.workDuration = F64.val d) :
    ∃ keys, workTally genes = tallyOf keys (assignedHours genes) ∧ keys.Nodup ∧
      ∀ k, k ∈ keys ↔ ∃ g ∈ genes, k ∈ roles g := by
  obtain ⟨keys1, hours1, e1, e2, -, e4, e5⟩ :=
    foldl_addGeneWork_tallyOf genes hg [] (fun _ => 0) List.nodup_nil (fun _ _ => rfl)
  refine ⟨keys1, ?_, e2, ?_⟩
  · unfold workTally
    have : ([] : List (Int × F64)) = tallyOf [] (fun _ => 0) := rfl
    rw [this, e1]
    unfold tallyOf
    apply List.map_congr_left
    intro k _
    rw [e5]
    simp
  · intro k
    rw [e4]
    simp

theorem sum_pos_of_pos :
    ∀ l : List ℚ, l ≠ [] → (∀ x ∈ l, 0 < x) → 0 < l.sum := by
  intro l
  induction l with
  | nil => intro h; exact absurd rfl h
  | cons x rest ih =>
    intro _ hpos
    rw [List.sum_cons]
    have hx := hpos x (List.mem_cons_self _ _)
    by_cases hr : rest = []
    · rw [hr]
      simpa using hx
    · have := ih hr (fun y hy => hpos y (List.mem_cons_of_mem _ hy))
      linarith

theorem assignedHours_pos {genes : List Gene} (hpos : ∀ g ∈ genes, 0 < hoursOf g) {u : Int}
    (hu : ∃ g ∈ genes, u ∈ roles g) : 0 < assignedHours genes u := by
  obtain ⟨g, hg, hmem⟩ := hu
  unfold assignedHours
  apply sum_pos_of_pos
  · intro hnil
    have hgf : g ∈ genes.filter (fun g =>
        decide (g.principalID = some u) || decide (u ∈ g.assistantIDs)) := by
      rw [List.mem_filter]
      refine ⟨hg, ?_⟩
      rcases mem_roles.1 hmem with h | h
      · simp [h]
      · simp [h]
    have hm : hoursOf g ∈ (genes.filter (fun g =>
        decide (g.principalID = some u) || decide (u ∈ g.assistantIDs))).map hoursOf :=
      List.mem_map.2 ⟨g, hgf, rfl⟩
    rw [hnil] at hm
    cases hm
  · intro x hx
    obtain ⟨g1, hg1, rfl⟩ := List.mem_map.1 hx
    exact hpos g1 (List.mem_filter.1 hg1).1

theorem notWorkPenalty_tallyOf (hours : Int → ℚ) (keys : List Int)
    (h : ∀ k ∈ keys, hours k ≠ 0) : notWorkPenalty (tallyOf keys hours) = F64.val 0 := by
  have key : ∀ (keys : List Int) (acc : F64), (∀ k ∈ keys, hours k ≠ 0) →
      (tallyOf keys hours).foldl
        (fun acc kv => if F64.eq kv.2 (F64.val 0) then F64.add acc (F64.val 1) else acc) acc =
        acc := by
    intro keys
    induction keys with
    | nil => intro acc _; rfl
    | cons k rest ih =>
      intro acc h
      simp only [tallyOf, List.map_cons, List.foldl_cons]
      have hk : F64.eq (F64.val (hours k)) (F64.val 0) = false := by
        simp only [F64.eq, decide_eq_false_iff_not]
        exact h k (List.mem_cons_self _ _)
      rw [hk]
      simp only [Bool.false_eq_true, if_false]
      exact ih acc (fun x hx => h x (List.mem_cons_of_mem _ hx))
  exact key keys _ h

theorem foldl_add_tallyOf (hours : Int → ℚ) :
    ∀ (keys : List Int) (acc : ℚ),
      (tallyOf keys hours).foldl (fun acc kv => F64.add acc kv.2) (F64.val acc) =
        F64.val (acc + (keys.map hours).sum) := by
  intro keys
  induction keys with
  | nil => intro acc; simp [tallyOf]
  | cons k rest ih =>
    intro acc
    have := ih (acc + hours k)
    simp only [tallyOf, List.map_cons, List.foldl_cons, List.sum_cons] at this ⊢
    have hadd : F64.add (F64.val acc) (F64.val (hours k)) = F64.val (acc + hours k) := rfl
    rw [hadd, this, add_assoc]

theorem foldl_squares_tallyOf (hours : Int → ℚ) (m : ℚ) :
    ∀ (keys : List Int) (acc : ℚ),
      (tallyOf keys hours).foldl
          (fun acc kv => F64.add acc
            (F64.mul (F64.sub kv.2 (F64.val m)) (F64.sub kv.2 (F64.val m)))) (F64.val acc) =
        F64.val (acc + ((keys.map hours).map (fun x => (x - m) ^ 2)).sum) := by
  intro keys
  induction keys with
  | nil => intro acc; simp [tallyOf]
  | cons k rest ih =>
    intro acc
    have := ih (acc + (hours k - m) ^ 2)
    simp only [tallyOf, List.map_cons, List.foldl_cons, List.sum_cons] at this ⊢
    have hadd : F64.add (F64.val acc)
        (F64.mul (F64.sub (F64.val (hours k)) (F64.val m))
          (F64.sub (F64.val (hours k)) (F64.val m))) = F64.val (acc + (hours k - m) ^ 2) := by
      show F64.val (acc + (hours k - m) * (hours k - m)) = _
      rw [pow_two]
    rw [hadd, this, add_assoc]

theorem varianceOfTally_tallyOf (hours : Int → ℚ) (keys : List Int) (hne : keys ≠ []) :
    varianceOfTally (tallyOf keys hours) = F64.val (populationVariance (keys.map hours)) := by
  have hlen : (tallyOf keys hours).length = keys.length := by simp [tallyOf]
  have hpos : ((keys.length : Nat) : ℚ) ≠ 0 := by
    have : keys.length ≠ 0 := fun e => hne (List.length_eq_zero.1 e)
    exact_mod_cast this
  have hdiv : ∀ t : ℚ, F64.div (F64.val t) (F64.ofNat keys.length) =
      F64.val (t / keys.length) := by
    intro t
    simp only [F64.div, F64.ofNat, hpos, if_false]
  unfold varianceOfTally
  simp only []
  rw [hlen, foldl_add_tallyOf, hdiv, foldl_squares_tallyOf, hdiv]
  unfold populationVariance
  simp only [zero_add, List.length_map]
theorem workDurationOf_pos {st : ScheduleTemplate}
    (hvalid : ValidateScheduleTemplateShiftTime st = none) {shift : ScheduleTemplateShift}
    (hshift : shift ∈ st.Shifts)
    (hne : parseClock shift.StartTime ≠ parseClock shift.EndTime) :
    ∃ d : ℚ, workDurationOf shift = F64.val d ∧ 0 < d := by
  have hcheck : checkShiftTimes 0 st.Shifts = none := by
    unfold ValidateScheduleTemplateShiftTime at hvalid
    split at hvalid
    · cases hvalid
    · assumption
  obtain ⟨a, b, ha, hb, hab⟩ := (checkShiftTimes_eq_none st.Shifts 0).1 hcheck shift hshift
  have hlt : a < b := by
    rcases Nat.lt_or_ge a b with h | h
    · exact h
    · exfalso
      apply hne
      rw [ha, hb, Nat.le_antisymm hab h]
  refine ⟨_, rfl, ?_⟩
  rw [parseClockOrZero_of_some ha, parseClockOrZero_of_some hb]
  apply div_pos
  · have : (0 : Int) < (b : Int) - (a : Int) := by omega
    exact_mod_cast this
  · norm_num

/-! ## The template check on templates with pairwise distinct shift IDs -/

/-- C6: on a template whose shifts have pairwise distinct IDs, as every
template read from the repository has (`GetScheduleTemplate` collects the shifts
in a map keyed by the shift ID), `ValidateSchedulingResultWithTemplate` returns
no error if and only if the number of result shifts equals the number of
template shifts and for every result shift there is a template shift with the
same ID such that every applicable day of the template shift is the day of some
item of the result shift, every item's day is an applicable day, and every item
satisfies `len(assistantIDs) + 1 <= requiredAssistantNumber`. -/
theorem ValidateSchedulingResultWithTemplate_iff_TemplateConsistent
    (result : SchedulingResult) (template : ScheduleTemplate)
    (hnd : (template.Shifts.map (·.ID)).Nodup) :
    ValidateSchedulingResultWithTemplate result template = none ↔
      TemplateConsistent result template := by
  unfold ValidateSchedulingResultWithTemplate TemplateConsistent
  by_cases hlen : result.Shifts.length = template.Shifts.length
  · simp only [hlen, ne_eq, not_true_eq_false, if_false, true_and, checkResultShifts_eq_none]
    constructor
    · intro h resultShift hmem
      obtain ⟨ts, hfind, hcov, hitems⟩ := (checkResultShift_eq_none template resultShift).1
        (h resultShift hmem)
      obtain ⟨pre, post, heq, hid, -⟩ := (findTemplateShift_eq_some _ _ _).1 hfind
      refine ⟨ts, ?_, hid, hcov, hitems⟩
      rw [heq]
      simp
    · intro h resultShift hmem
      obtain ⟨ts, hts, hid, hcov, hitems⟩ := h resultShift hmem
      refine (checkResultShift_eq_none template resultShift).2 ⟨ts, ?_, hcov, hitems⟩
      rw [← hid]
      exact findTemplateShift_of_mem hnd hts
  · simp [hlen]

theorem ValidateSchedulingResultWithTemplate_iff_TemplateConsistent_witness :
    (twoShiftTemplate.Shifts.map (·.ID)).Nodup ∧
    ValidateSchedulingResultWithTemplate twoShiftResult twoShiftTemplate = none ∧
    (ValidateSchedulingResultWithTemplate twoShiftResult twoShiftTemplate = none ↔
      TemplateConsistent twoShiftResult twoShiftTemplate) :=
  ⟨by decide, by decide,
    ValidateSchedulingResultWithTemplate_iff_TemplateConsistent twoShiftResult twoShiftTemplate
      (by decide)⟩

/-! ## Roulette selection in `float64` arithmetic -/

theorem Double_le_trans {a b c : Double} (h1 : Double.le a b = true)
    (h2 : Double.le b c = true) : Double.le a c = true := by
  cases a <;> cases b <;> cases c <;> simp_all [Double.le]
  exact le_trans h1 h2

theorem Double_lt_of_lt_of_le {a b c : Double} (h1 : Double.lt a b = true)
    (h2 : Double.le b c = true) : Double.lt a c = true := by
  cases a <;> cases b <;> cases c <;> simp_all [Double.le, Double.lt]
  exact lt_of_lt_of_le h1 h2

theorem float_isValue_round (A : FloatArith) (hA : A.Lawful) (q : ℚ) : A.IsValue (A.round q) := by
  cases h : A.round q with
  | fin c => exact hA.round_fix q c h
  | posInf => trivial
  | negInf => trivial
  | nan => trivial

theorem float_round_zero (A : FloatArith) (hA : A.Lawful) : A.round 0 = Double.fin 0 := by
  have := hA.round_dyadic 0 0 (by norm_num) (by norm_num) (by norm_num)
  simpa using this

theorem float_add_zero_left (A : FloatArith) {x : Double} (hx : A.IsValue x) :
    A.add (Double.fin 0) x = x := by
  cases x with
  | fin q =>
    show A.round (0 + q) = Double.fin q
    rw [zero_add]
    exact hx
  | posInf => rfl
  | negInf => rfl
  | nan => rfl

theorem float_add_nonpos (A : FloatArith) (hA : A.Lawful) {x y : Double} (hx : A.IsValue x)
    (hx0 : Double.le x (Double.fin 0) = true) (hy0 : Double.le y (Double.fin 0) = true) :
    A.IsValue (A.add x y) ∧ Double.le (A.add x y) (Double.fin 0) = true ∧
      Double.le (A.add x y) x = true := by
  cases x with
  | fin a =>
    cases y with
    | fin b =>
      have ha : a ≤ 0 := by simpa [Double.le] using hx0
      have hb : b ≤ 0 := by simpa [Double.le] using hy0
      have hm := hA.round_mono (a + b) a (by linarith)
      have hxa : A.round a = Double.fin a := hx
      rw [hxa] at hm
      have hle : Double.le (A.add (Double.fin a) (Double.fin b)) (Double.fin a) = true := hm
      exact ⟨float_isValue_round A hA _, Double_le_trans hle hx0, hle⟩
    | posInf => simp [Double.le] at hy0
    | negInf => exact ⟨trivial, rfl, rfl⟩
    | nan => simp [Double.le] at hy0
  | posInf => simp [Double.le] at hx0
  | negInf =>
    cases y with
    | fin b => exact ⟨trivial, rfl, rfl⟩
    | posInf => simp [Double.le] at hy0
    | negInf => exact ⟨trivial, rfl, rfl⟩
    | nan => simp [Double.le] at hy0
  | nan => simp [Double.le] at hx0

theorem float_rouletteLoop_eq_none (A : FloatArith) (hA : A.Lawful) (fit : Nat → Double) (pick : Double) :
    ∀ (pop : List Nat) (running : Double),
      (∀ p ∈ pop, A.IsValue (fit p) ∧ Double.le (fit p) (Double.fin 0) = true) →
      A.IsValue running → Double.le running (Double.fin 0) = true →
      Double.ge running pick = false →
      A.rouletteLoop fit pick running pop = none := by
  intro pop
  induction pop with
  | nil => intro running _ _ _ _; rfl
  | cons p rest ih =>
    intro running hfit hv h0 hge
    obtain ⟨hpv, hp0⟩ := hfit p (List.mem_cons_self _ _)
    obtain ⟨k1, k2, k3⟩ := float_add_nonpos A hA hv h0 hp0
    have hge2 : Double.ge (A.add running (fit p)) pick = false := by
      cases hc : Double.ge (A.add running (fit p)) pick with
      | false => rfl
      | true =>
        have : Double.ge running pick = true := Double_le_trans hc k3
        rw [this] at hge
        cases hge
    simp only [FloatArith.rouletteLoop, hge2, Bool.false_eq_true, if_false]
    exact ih _ (fun q hq => hfit q (List.mem_cons_of_mem _ hq)) k1 k2 hge2

theorem float_selectByRoulette_cases (A : FloatArith) (hA : A.Lawful) (fit : Nat → Double) (first : Nat)
    (rest : List Nat) (r : Double)
    (hfit : ∀ p ∈ first :: rest, A.IsValue (fit p) ∧ Double.le (fit p) (Double.fin 0) = true) :
    (Double.ge (fit first) (A.mul r (A.sumFit fit (first :: rest))) = true →
      A.selectByRoulette fit (first :: rest) r = some first) ∧
    (Double.ge (fit first) (A.mul r (A.sumFit fit (first :: rest))) = false →
      A.rouletteLoop fit (A.mul r (A.sumFit fit (first :: rest))) (Double.fin 0)
          (first :: rest) = none ∧
        A.selectByRoulette fit (first :: rest) r =
          some ((first :: rest).getLast (List.cons_ne_nil _ _))) := by
  obtain ⟨hv, h0⟩ := hfit first (List.mem_cons_self _ _)
  have hstart : A.add (Double.fin 0) (fit first) = fit first := float_add_zero_left A hv
  constructor
  · intro hge
    unfold FloatArith.selectByRoulette
    simp only [FloatArith.rouletteLoop, hstart, hge, if_true]
  · intro hge
    have hloop : A.rouletteLoop fit (A.mul r (A.sumFit fit (first :: rest))) (Double.fin 0)
        (first :: rest) = none := by
      simp only [FloatArith.rouletteLoop, hstart, hge, Bool.false_eq_true, if_false]
      exact float_rouletteLoop_eq_none A hA fit _ rest _
        (fun q hq => hfit q (List.mem_cons_of_mem _ hq)) hv h0 hge
    refine ⟨hloop, ?_⟩
    unfold FloatArith.selectByRoulette
    simp only [hloop]
    exact List.getLast?_eq_getLast _ _
/-! ## Round-to-nearest-even satisfies `FloatArith.Lawful` -/

theorem roundHalfEven_bounds (q : ℚ) : ⌊q⌋ ≤ roundHalfEven q ∧ roundHalfEven q ≤ ⌊q⌋ + 1 := by
  unfold roundHalfEven
  split_ifs <;> omega

theorem roundHalfEven_intCast (n : Int) : roundHalfEven (n : ℚ) = n := by
  unfold roundHalfEven
  simp

theorem roundHalfEven_mono {a b : ℚ} (h : a ≤ b) : roundHalfEven a ≤ roundHalfEven b := by
  have hf : ⌊a⌋ ≤ ⌊b⌋ := Int.floor_le_floor h
  rcases lt_or_eq_of_le hf with hlt | heq
  · have h1 := (roundHalfEven_bounds a).2
    have h2 := (roundHalfEven_bounds b).1
    omega
  · unfold roundHalfEven
    rw [heq]
    have hab : a - (⌊b⌋ : ℚ) ≤ b - (⌊b⌋ : ℚ) := by linarith
    split_ifs <;> first | omega | (exfalso; linarith)

theorem roundHalfEven_le_of_le_intCast {q : ℚ} {n : Int} (h : q ≤ (n : ℚ)) :
    roundHalfEven q ≤ n := by
  have := roundHalfEven_mono h
  rwa [roundHalfEven_intCast] at this

theorem le_roundHalfEven_of_intCast_le {q : ℚ} {n : Int} (h : (n : ℚ) ≤ q) :
    n ≤ roundHalfEven q := by
  have := roundHalfEven_mono h
  rwa [roundHalfEven_intCast] at this

theorem two_zpow_pos (e : Int) : (0 : ℚ) < (2 : ℚ) ^ e := by
  positivity

theorem two_zpow_le {m n : Int} (h : m ≤ n) : (2 : ℚ) ^ m ≤ (2 : ℚ) ^ n :=
  zpow_le_zpow_right₀ (by norm_num) h

theorem log_two_le {x : ℚ} (hx : 0 < x) : (2 : ℚ) ^ Int.log 2 x ≤ x := by
  have := Int.zpow_log_le_self (b := 2) (r := x) (by norm_num) hx
  simpa using this

theorem lt_log_two_succ (x : ℚ) : x < (2 : ℚ) ^ (Int.log 2 x + 1) := by
  have := Int.lt_zpow_succ_log_self (b := 2) (by norm_num) x
  simpa using this
theorem two_zpow_sub_natCast {t e : Int} (h : e ≤ t) :
    (2 : ℚ) ^ t = (((2 : Int) ^ (t - e).toNat : Int) : ℚ) * (2 : ℚ) ^ e := by
  have hj : ((t - e).toNat : Int) = t - e := Int.toNat_of_nonneg (by omega)
  have : (((2 : Int) ^ (t - e).toNat : Int) : ℚ) = (2 : ℚ) ^ (((t - e).toNat : Nat) : Int) := by
    push_cast
    rw [zpow_natCast]
  rw [this, hj, ← zpow_add₀ (by norm_num : (2 : ℚ) ≠ 0)]
  congr 1
  omega

theorem roundMag_le_pow {x : ℚ} {t : Int} (he : ulpExp x ≤ t)
    (hxt : x ≤ (2 : ℚ) ^ t) : roundMag x ≤ (2 : ℚ) ^ t := by
  unfold roundMag
  have hpos := two_zpow_pos (ulpExp x)
  rw [two_zpow_sub_natCast he]
  apply mul_le_mul_of_nonneg_right _ (le_of_lt hpos)
  have hq : x / (2 : ℚ) ^ ulpExp x ≤ (((2 : Int) ^ (t - ulpExp x).toNat : Int) : ℚ) := by
    rw [div_le_iff₀ hpos, ← two_zpow_sub_natCast he]
    exact hxt
  exact_mod_cast roundHalfEven_le_of_le_intCast hq

theorem pow_le_roundMag {x : ℚ} {t : Int} (he : ulpExp x ≤ t)
    (hxt : (2 : ℚ) ^ t ≤ x) : (2 : ℚ) ^ t ≤ roundMag x := by
  unfold roundMag
  have hpos := two_zpow_pos (ulpExp x)
  rw [two_zpow_sub_natCast he]
  apply mul_le_mul_of_nonneg_right _ (le_of_lt hpos)
  have hq : (((2 : Int) ^ (t - ulpExp x).toNat : Int) : ℚ) ≤ x / (2 : ℚ) ^ ulpExp x := by
    rw [le_div_iff₀ hpos, ← two_zpow_sub_natCast he]
    exact hxt
  exact_mod_cast le_roundHalfEven_of_intCast_le hq

theorem roundMag_nonneg {x : ℚ} (hx : 0 ≤ x) : 0 ≤ roundMag x := by
  unfold roundMag
  apply mul_nonneg _ (le_of_lt (two_zpow_pos _))
  have hq : ((0 : Int) : ℚ) ≤ x / (2 : ℚ) ^ ulpExp x := by
    simp only [Int.cast_zero]
    exact div_nonneg hx (le_of_lt (two_zpow_pos _))
  exact_mod_cast le_roundHalfEven_of_intCast_le hq

theorem roundMag_mono {a b : ℚ} (ha : 0 < a) (hab : a ≤ b) : roundMag a ≤ roundMag b := by
  have hb : 0 < b := lt_of_lt_of_le ha hab
  have hk : Int.log 2 a ≤ Int.log 2 b := Int.log_mono_right ha hab
  have he : ulpExp a ≤ ulpExp b := by
    unfold ulpExp
    omega
  rcases lt_or_eq_of_le he with hlt | heq
  · -- the unit of `b` is coarser: a power of two lies between the two
    have heb : ulpExp b = Int.log 2 b - 52 := by
      unfold ulpExp at hlt ⊢
      omega
    have hka : Int.log 2 a + 1 ≤ Int.log 2 b := by
      unfold ulpExp at hlt
      omega
    have h1 : roundMag a ≤ (2 : ℚ) ^ Int.log 2 b := by
      apply roundMag_le_pow
      · omega
      · exact le_trans (le_of_lt (lt_log_two_succ a)) (two_zpow_le hka)
    have h2 : (2 : ℚ) ^ Int.log 2 b ≤ roundMag b := by
      apply pow_le_roundMag
      · omega
      · exact log_two_le hb
    exact le_trans h1 h2
  · unfold roundMag
    rw [heq]
    have hpos := two_zpow_pos (ulpExp b)
    apply mul_le_mul_of_nonneg_right _ (le_of_lt hpos)
    have hq : a / (2 : ℚ) ^ ulpExp b ≤ b / (2 : ℚ) ^ ulpExp b :=
      div_le_div_of_nonneg_right hab (le_of_lt hpos)
    exact_mod_cast roundHalfEven_mono hq
theorem log_two_lt_of_lt_zpow {x : ℚ} {t : Int} (hx : 0 < x) (h : x < (2 : ℚ) ^ t) :
    Int.log 2 x < t := by
  by_contra hc
  have hle : t ≤ Int.log 2 x := by omega
  have h1 := two_zpow_le hle
  have h2 := log_two_le hx
  linarith

theorem roundMag_grid (n : Nat) (e : Int) (hn0 : 0 < n) (hn : n < 2 ^ 53) (he : -1074 ≤ e) :
    roundMag ((n : ℚ) * (2 : ℚ) ^ e) = (n : ℚ) * (2 : ℚ) ^ e := by
  have hpe := two_zpow_pos e
  have hx : (0 : ℚ) < (n : ℚ) * (2 : ℚ) ^ e := by
    apply mul_pos _ hpe
    exact_mod_cast hn0
  have hlt : (n : ℚ) * (2 : ℚ) ^ e < (2 : ℚ) ^ (53 + e) := by
    rw [zpow_add₀ (by norm_num : (2 : ℚ) ≠ 0)]
    apply mul_lt_mul_of_pos_right _ hpe
    have h53 : (n : ℚ) < (2 : ℚ) ^ (53 : Nat) := by exact_mod_cast hn
    have e53 : (2 : ℚ) ^ (53 : Int) = (2 : ℚ) ^ (53 : Nat) := by norm_num
    rw [e53]
    exact h53
  have hk := log_two_lt_of_lt_zpow hx hlt
  have hu : ulpExp ((n : ℚ) * (2 : ℚ) ^ e) ≤ e := by
    unfold ulpExp
    omega
  unfold roundMag
  generalize ulpExp ((n : ℚ) * (2 : ℚ) ^ e) = u at hu ⊢
  have hsplit := two_zpow_sub_natCast hu
  have hu0 := two_zpow_pos u
  have hq : (n : ℚ) * (2 : ℚ) ^ e / (2 : ℚ) ^ u =
      (((n : Int) * (2 : Int) ^ (e - u).toNat : Int) : ℚ) := by
    rw [div_eq_iff (ne_of_gt hu0), hsplit]
    push_cast
    ring
  rw [hq, roundHalfEven_intCast, hsplit]
  push_cast
  ring
theorem ulpExp_ge (x : ℚ) : -1074 ≤ ulpExp x := by
  unfold ulpExp
  omega

theorem roundMag_form {x : ℚ} (hx : 0 < x) :
    roundMag x = 0 ∨
      ∃ (n : Nat) (e : Int), 0 < n ∧ n < 2 ^ 53 ∧ -1074 ≤ e ∧
        roundMag x = (n : ℚ) * (2 : ℚ) ^ e := by
  have hu := ulpExp_ge x
  have hu2 : Int.log 2 x + 1 ≤ ulpExp x + 53 := by
    unfold ulpExp
    omega
  have hpos := two_zpow_pos (ulpExp x)
  have hm0 : 0 ≤ roundHalfEven (x / (2 : ℚ) ^ ulpExp x) := by
    apply le_roundHalfEven_of_intCast_le
    simp only [Int.cast_zero]
    exact div_nonneg (le_of_lt hx) (le_of_lt hpos)
  have hm1 : roundHalfEven (x / (2 : ℚ) ^ ulpExp x) ≤ 2 ^ 53 := by
    apply roundHalfEven_le_of_le_intCast
    rw [div_le_iff₀ hpos]
    have h1 : x ≤ (2 : ℚ) ^ (ulpExp x + 53) :=
      le_trans (le_of_lt (lt_log_two_succ x)) (two_zpow_le hu2)
    rw [zpow_add₀ (by norm_num : (2 : ℚ) ≠ 0)] at h1
    have e53 : (((2 : Int) ^ 53 : Int) : ℚ) = (2 : ℚ) ^ (53 : Int) := by norm_num
    rw [e53]
    linarith
  unfold roundMag
  generalize roundHalfEven (x / (2 : ℚ) ^ ulpExp x) = m at hm0 hm1 ⊢
  rcases eq_or_lt_of_le hm0 with h0 | h0
  · left
    rw [← h0]
    simp
  · right
    rcases eq_or_lt_of_le hm1 with h1 | h1
    · refine ⟨2 ^ 52, ulpExp x + 1, by norm_num, by norm_num, by omega, ?_⟩
      rw [h1, zpow_add₀ (by norm_num : (2 : ℚ) ≠ 0)]
      norm_num
      ring
    · refine ⟨m.toNat, ulpExp x, by omega, ?_, hu, ?_⟩
      · have : ((m.toNat : Nat) : Int) < ((2 ^ 53 : Nat) : Int) := by
          rw [Int.toNat_of_nonneg hm0]
          exact_mod_cast h1
        exact_mod_cast this
      · have : ((m.toNat : Nat) : Int) = m := Int.toNat_of_nonneg hm0
        have h2 : ((m.toNat : Nat) : ℚ) = (m : ℚ) := by exact_mod_cast this
        rw [h2]

theorem roundMag_idem {x : ℚ} (hx : 0 < x) : roundMag (roundMag x) = roundMag x := by
  rcases roundMag_form hx with h | ⟨n, e, hn0, hn, he, h⟩
  · rw [h]
    unfold roundMag
    simp [roundHalfEven]
  · rw [h]
    exact roundMag_grid n e hn0 hn he
theorem round64_ne_nan (q : ℚ) : round64 q ≠ Double.nan := by
  unfold round64
  split_ifs <;> simp

theorem round64_neg (q : ℚ) : round64 (-q) = Double.neg (round64 q) := by
  rcases lt_trichotomy q 0 with h | h | h
  · have h1 : ¬ (-q = 0) := by intro hc; linarith
    have h2 : 0 < -q := by linarith
    have h3 : ¬ (q = 0) := ne_of_lt h
    have h4 : ¬ (0 < q) := by linarith
    simp only [round64, h1, h2, h3, h4, if_true, if_false]
    split_ifs <;> simp [Double.neg]
  · subst h
    simp [round64, Double.neg]
  · have h1 : ¬ (-q = 0) := by intro hc; linarith
    have h2 : ¬ (0 < -q) := by linarith
    have h3 : ¬ (q = 0) := ne_of_gt h
    simp only [round64, h1, h2, h3, h, if_true, if_false, neg_neg]
    split_ifs <;> simp [Double.neg]

theorem round64_pos_cases {q : ℚ} (hq : 0 < q) :
    (round64 q = Double.fin (roundMag q) ∧ roundMag q < (2 : ℚ) ^ (1024 : Int)) ∨
      (round64 q = Double.posInf ∧ (2 : ℚ) ^ (1024 : Int) ≤ roundMag q) := by
  have h3 : ¬ (q = 0) := ne_of_gt hq
  by_cases h : roundMag q < (2 : ℚ) ^ (1024 : Int)
  · left
    simp only [round64, h3, hq, h, if_true, if_false]
    exact ⟨trivial, trivial⟩
  · right
    simp only [round64, h3, hq, h, if_true, if_false]
    exact ⟨trivial, not_lt.1 h⟩

theorem round64_nonneg {q : ℚ} (hq : 0 ≤ q) : Double.le (Double.fin 0) (round64 q) = true := by
  rcases eq_or_lt_of_le hq with h | h
  · rw [← h]
    simp [round64, Double.le]
  · rcases round64_pos_cases h with ⟨h1, -⟩ | ⟨h1, -⟩
    · rw [h1]
      simp only [Double.le, decide_eq_true_eq]
      exact roundMag_nonneg hq
    · rw [h1]
      rfl

theorem Double_neg_le {x y : Double} (h : Double.le x y = true) :
    Double.le (Double.neg y) (Double.neg x) = true := by
  cases x <;> cases y <;> simp_all [Double.le, Double.neg]

theorem round64_nonpos {q : ℚ} (hq : q ≤ 0) : Double.le (round64 q) (Double.fin 0) = true := by
  have h := Double_neg_le (round64_nonneg (by linarith : (0 : ℚ) ≤ -q))
  rw [round64_neg] at h
  have e : Double.neg (Double.neg (round64 q)) = round64 q := by
    cases round64 q <;> simp [Double.neg]
  rw [e] at h
  simpa [Double.neg] using h

theorem round64_mono_pos {a b : ℚ} (ha : 0 < a) (hab : a ≤ b) :
    Double.le (round64 a) (round64 b) = true := by
  have hb : 0 < b := lt_of_lt_of_le ha hab
  have hm := roundMag_mono ha hab
  rcases round64_pos_cases ha with ⟨h1, k1⟩ | ⟨h1, k1⟩ <;>
    rcases round64_pos_cases hb with ⟨h2, k2⟩ | ⟨h2, k2⟩
  · rw [h1, h2]
    simpa [Double.le] using hm
  · rw [h1, h2]
    rfl
  · exfalso
    linarith
  · rw [h1, h2]
    rfl

theorem round64_mono (a b : ℚ) (hab : a ≤ b) : Double.le (round64 a) (round64 b) = true := by
  rcases lt_or_le 0 a with ha | ha
  · exact round64_mono_pos ha hab
  · rcases lt_or_le b 0 with hb | hb
    · have h := Double_neg_le (round64_mono_pos (by linarith : (0 : ℚ) < -b)
        (by linarith : -b ≤ -a))
      rw [round64_neg, round64_neg] at h
      have e : ∀ x : Double, Double.neg (Double.neg x) = x := by
        intro x
        cases x <;> simp [Double.neg]
      rwa [e, e] at h
    · exact Double_le_trans (round64_nonpos ha) (round64_nonneg hb)

theorem round64_grid (n : Nat) (e : Int) (hn0 : 0 < n) (hn : n < 2 ^ 53) (he : -1074 ≤ e)
    (hlt : (n : ℚ) * (2 : ℚ) ^ e < (2 : ℚ) ^ (1024 : Int)) :
    round64 ((n : ℚ) * (2 : ℚ) ^ e) = Double.fin ((n : ℚ) * (2 : ℚ) ^ e) := by
  have hx : (0 : ℚ) < (n : ℚ) * (2 : ℚ) ^ e := by
    apply mul_pos _ (two_zpow_pos e)
    exact_mod_cast hn0
  have hg := roundMag_grid n e hn0 hn he
  rcases round64_pos_cases hx with ⟨h1, -⟩ | ⟨-, k1⟩
  · rw [h1, hg]
  · exfalso
    rw [hg] at k1
    linarith

theorem round64_fix_pos {a : ℚ} (ha : 0 < a) {b : ℚ} (h : round64 a = Double.fin b) :
    round64 b = Double.fin b := by
  rcases round64_pos_cases ha with ⟨h1, k1⟩ | ⟨h1, -⟩
  · rw [h1] at h
    have hb : roundMag a = b := by
      injection h
    rcases roundMag_form ha with h0 | ⟨n, e, hn0, hn, he, hform⟩
    · rw [← hb, h0]
      simp [round64]
    · rw [← hb, hform]
      apply round64_grid n e hn0 hn he
      rw [← hform]
      exact k1
  · rw [h1] at h
    cases h

theorem round64_fix (a b : ℚ) (h : round64 a = Double.fin b) : round64 b = Double.fin b := by
  rcases lt_trichotomy a 0 with ha | ha | ha
  · have hn : round64 (-a) = Double.fin (-b) := by
      rw [round64_neg, h]
      rfl
    have := round64_fix_pos (by linarith : (0 : ℚ) < -a) hn
    have h2 := round64_neg (-b)
    rw [neg_neg, this] at h2
    rw [h2]
    simp [Double.neg]
  · subst ha
    have : b = 0 := by
      simp only [round64, if_true] at h
      injection h with h
      exact h.symm
    rw [this]
    simp [round64]
  · exact round64_fix_pos ha h

theorem round64_dyadic (m : Nat) (e : Int) (hm : m < 2 ^ 53) (h1 : -1074 ≤ e) (h2 : e ≤ 971) :
    round64 ((m : ℚ) * (2 : ℚ) ^ e) = Double.fin ((m : ℚ) * (2 : ℚ) ^ e) := by
  rcases Nat.eq_zero_or_pos m with h0 | h0
  · subst h0
    simp [round64]
  · apply round64_grid m e h0 hm h1
    have hm2 : (m : ℚ) < (2 : ℚ) ^ (53 : Int) := by
      have h53 : (m : ℚ) < (2 : ℚ) ^ (53 : Nat) := by exact_mod_cast hm
      have e53 : (2 : ℚ) ^ (53 : Int) = (2 : ℚ) ^ (53 : Nat) := by norm_num
      rw [e53]
      exact h53
    have hp : (2 : ℚ) ^ e ≤ (2 : ℚ) ^ (971 : Int) := two_zpow_le h2
    have hpe := two_zpow_pos e
    have e1024 : (2 : ℚ) ^ (1024 : Int) = (2 : ℚ) ^ (53 : Int) * (2 : ℚ) ^ (971 : Int) := by
      rw [← zpow_add₀ (by norm_num : (2 : ℚ) ≠ 0)]
      norm_num
    rw [e1024]
    calc (m : ℚ) * (2 : ℚ) ^ e < (2 : ℚ) ^ (53 : Int) * (2 : ℚ) ^ e :=
          mul_lt_mul_of_pos_right hm2 hpe
      _ ≤ (2 : ℚ) ^ (53 : Int) * (2 : ℚ) ^ (971 : Int) :=
          mul_le_mul_of_nonneg_left hp (le_of_lt (two_zpow_pos 53))

/-- IEEE 754 binary64 with round-to-nearest-even satisfies the laws of
`FloatArith.Lawful`. -/
theorem binary64_lawful : binary64.Lawful where
  round_ne_nan := round64_ne_nan
  round_mono := round64_mono
  round_fix := round64_fix
  round_neg := round64_neg
  round_dyadic := round64_dyadic
  powTwo_zero := by
    show round64 (0 * 0) = Double.fin 0
    simp [round64]
theorem log_two_eq {x : ℚ} {k : Int} (h1 : (2 : ℚ) ^ k ≤ x) (h2 : x < (2 : ℚ) ^ (k + 1)) :
    Int.log 2 x = k := by
  have hx : 0 < x := lt_of_lt_of_le (two_zpow_pos k) h1
  have hlt := log_two_lt_of_lt_zpow hx h2
  have hge : k ≤ Int.log 2 x := by
    by_contra hc
    have hle : Int.log 2 x + 1 ≤ k := by omega
    have h3 := lt_log_two_succ x
    have h4 := two_zpow_le hle
    linarith
  omega

theorem roundHalfEven_up {q : ℚ} {z : Int} (h1 : (z : ℚ) + 1 / 2 < q) (h2 : q < (z : ℚ) + 1) :
    roundHalfEven q = z + 1 := by
  have hf : ⌊q⌋ = z := Int.floor_eq_iff.2 ⟨by linarith, h2⟩
  unfold roundHalfEven
  rw [hf]
  split_ifs with c1 c2 c3
  · exfalso; linarith
  · rfl
  · exfalso; linarith
  · rfl

theorem roundHalfEven_down {q : ℚ} {z : Int} (h1 : (z : ℚ) ≤ q) (h2 : q < (z : ℚ) + 1 / 2) :
    roundHalfEven q = z := by
  have hf : ⌊q⌋ = z := Int.floor_eq_iff.2 ⟨h1, by linarith⟩
  unfold roundHalfEven
  rw [hf]
  split_ifs with c1 c2 c3
  · rfl
  · exfalso; linarith
  · rfl
  · exfalso; linarith

theorem round64_below_one : round64 (1 - 1 / 2 ^ 104) = Double.fin 1 := by
  have hx : (0 : ℚ) < 1 - 1 / 2 ^ 104 := by norm_num
  have hlog : Int.log 2 (1 - 1 / 2 ^ 104 : ℚ) = -1 :=
    log_two_eq (by norm_num) (by norm_num)
  have hu : ulpExp (1 - 1 / 2 ^ 104 : ℚ) = -53 := by
    unfold ulpExp
    rw [hlog]
    rfl
  have hr : roundHalfEven ((1 - 1 / 2 ^ 104 : ℚ) / (2 : ℚ) ^ (-53 : Int)) = (2 ^ 53 - 1) + 1 :=
    roundHalfEven_up (by norm_num) (by norm_num)
  have hm : roundMag (1 - 1 / 2 ^ 104 : ℚ) = 1 := by
    unfold roundMag
    rw [hu, hr]
    norm_num
  rcases round64_pos_cases hx with ⟨h1, -⟩ | ⟨-, k1⟩
  · rw [h1, hm]
  · exfalso
    rw [hm] at k1
    norm_num at k1
theorem Double_le_of_lt {a b : Double} (h : Double.lt a b = true) : Double.le a b = true := by
  cases a <;> cases b <;> simp_all [Double.le, Double.lt]
  exact le_of_lt h

theorem float_round_neg_dyadic (A : FloatArith) (hA : A.Lawful) (m : Nat) (e : Int) (hm : m < 2 ^ 53)
    (h1 : -1074 ≤ e) (h2 : e ≤ 971) :
    A.round (-((m : ℚ) * (2 : ℚ) ^ e)) = Double.fin (-((m : ℚ) * (2 : ℚ) ^ e)) := by
  rw [hA.round_neg, hA.round_dyadic m e hm h1 h2]
  rfl

/-- C28, amended: on a non-empty population whose fitness values are `float64`
values at most 0 (the negative infinity included), and for every value `r` of
the draw, in particular every draw in `[0, 1)`: `selectByRoulette` returns the
first element when `fitness(first) >= pick`, where `pick` is the `float64`
product `r * sumFit` of line 135 and `sumFit` the `float64` sum of lines
131-134, each operation rounded; otherwise it returns the last element, and
then the loop has ended without a return, so that the value comes from the
fallback `pop[len(pop)-1]`; it never returns another member.  This holds for
every arithmetic that satisfies `FloatArith.Lawful`, binary64 among them. -/
theorem selectByRoulette_float_first_or_last (A : FloatArith) (hA : A.Lawful) (fit : Nat → Double)
    (first : Nat) (rest : List Nat) (r : Double)
    (hfit : ∀ p ∈ first :: rest, A.IsValue (fit p) ∧ Double.le (fit p) (Double.fin 0) = true) :
    (Double.ge (fit first) (A.mul r (A.sumFit fit (first :: rest))) = true →
      A.selectByRoulette fit (first :: rest) r = some first) ∧
    (Double.ge (fit first) (A.mul r (A.sumFit fit (first :: rest))) = false →
      A.rouletteLoop fit (A.mul r (A.sumFit fit (first :: rest))) (Double.fin 0)
          (first :: rest) = none ∧
        A.selectByRoulette fit (first :: rest) r =
          some ((first :: rest).getLast (List.cons_ne_nil _ _))) ∧
    (A.selectByRoulette fit (first :: rest) r = some first ∨
      A.selectByRoulette fit (first :: rest) r =
        some ((first :: rest).getLast (List.cons_ne_nil _ _))) := by
  obtain ⟨h1, h2⟩ := float_selectByRoulette_cases A hA fit first rest r hfit
  refine ⟨h1, h2, ?_⟩
  cases hc : Double.ge (fit first) (A.mul r (A.sumFit fit (first :: rest))) with
  | true => exact Or.inl (h1 hc)
  | false => exact Or.inr (h2 hc).2

theorem float_minusOne_run (A : FloatArith) (hA : A.Lawful) :
    A.round (-1) = Double.fin (-1) ∧
    A.sumFit minusOneFitness [0, 1] = Double.fin (-2) ∧
    A.mul (Double.fin (3 / 4)) (Double.fin (-2)) = Double.fin (-3 / 2) ∧
    A.mul (Double.fin (1 / 4)) (Double.fin (-2)) = Double.fin (-1 / 2) := by
  have r1 : A.round (-1) = Double.fin (-1) := by
    have := float_round_neg_dyadic A hA 1 0 (by norm_num) (by norm_num) (by norm_num)
    simpa using this
  have r2 : A.round (-2) = Double.fin (-2) := by
    have := float_round_neg_dyadic A hA 2 0 (by norm_num) (by norm_num) (by norm_num)
    simpa using this
  have r3 : A.round (-3 / 2) = Double.fin (-3 / 2) := by
    have := float_round_neg_dyadic A hA 3 (-1) (by norm_num) (by norm_num) (by norm_num)
    norm_num at this
    have e : (-(3 / 2) : ℚ) = -3 / 2 := by norm_num
    rw [e] at this
    exact this
  have r4 : A.round (-1 / 2) = Double.fin (-1 / 2) := by
    have := float_round_neg_dyadic A hA 1 (-1) (by norm_num) (by norm_num) (by norm_num)
    norm_num at this
    have e : (-(1 / 2) : ℚ) = -1 / 2 := by norm_num
    rw [e] at this
    exact this
  refine ⟨r1, ?_, ?_, ?_⟩
  · show A.add (A.add (Double.fin 0) (Double.fin (-1))) (Double.fin (-1)) = _
    have e1 : A.add (Double.fin 0) (Double.fin (-1)) = Double.fin (-1) :=
      float_add_zero_left A r1
    rw [e1]
    have e : (-1 : ℚ) + -1 = -2 := by norm_num
    show A.round (-1 + -1) = _
    rw [e]
    exact r2
  · have e : (3 / 4 : ℚ) * -2 = -3 / 2 := by norm_num
    show A.round (3 / 4 * -2) = _
    rw [e]
    exact r3
  · have e : (1 / 4 : ℚ) * -2 = -1 / 2 := by norm_num
    show A.round (1 / 4 * -2) = _
    rw [e]
    exact r4

theorem float_minusOne_nonpos (A : FloatArith) (hA : A.Lawful) :
    ∀ p ∈ [0, 1], A.IsValue (minusOneFitness p) ∧
      Double.lt (minusOneFitness p) (Double.fin 0) = true :=
  fun _ _ => ⟨(float_minusOne_run A hA).1, by simp [minusOneFitness, Double.lt]⟩
theorem selectByRoulette_float_first_or_last_witness :
    binary64.Lawful ∧
    (∀ p ∈ [0, 1], binary64.IsValue (minusOneFitness p) ∧
      Double.le (minusOneFitness p) (Double.fin 0) = true) ∧
    binary64.selectByRoulette minusOneFitness [0, 1] (Double.fin (3 / 4)) = some 0 ∧
    binary64.selectByRoulette minusOneFitness [0, 1] (Double.fin (1 / 4)) = some 1 := by
  obtain ⟨-, hsum, hm1, hm2⟩ := float_minusOne_run binary64 binary64_lawful
  have hfit : ∀ p ∈ [0, 1], binary64.IsValue (minusOneFitness p) ∧
      Double.le (minusOneFitness p) (Double.fin 0) = true :=
    fun p hp => ⟨(float_minusOne_nonpos binary64 binary64_lawful p hp).1,
      by simp [minusOneFitness, Double.le]⟩
  refine ⟨binary64_lawful, hfit, ?_, ?_⟩
  · refine (selectByRoulette_float_first_or_last binary64 binary64_lawful minusOneFitness 0 [1]
      (Double.fin (3 / 4)) hfit).1 ?_
    rw [hsum, hm1]
    decide!
  · refine ((selectByRoulette_float_first_or_last binary64 binary64_lawful minusOneFitness 0 [1]
      (Double.fin (1 / 4)) hfit).2.1 ?_).2
    rw [hsum, hm2]
    decide!

/-- C28, as stated, fails in binary64: the population holds two chromosomes with
the fitness `-1` and `-2^-52`, and the draw is `r = 1 - 2^-52`, which is
`(2^53 - 2) / 2^53`, a `float64` in `[0, 1)`.  The sum of all fitness values is
`-1 - 2^-52`, which is a `float64`, and `r` times the sum is `-(1 - 2^-104)`, so
`fitness(first) = -1 >= r * sum` is false and the claim has the last element,
pointer 1, returned.  The code rounds the product to `-1`, finds `-1 >= -1` at
the first chromosome and returns the first element, pointer 0. -/
theorem selectByRoulette_float_rounded_threshold :
    (∀ p ∈ [0, 1], binary64.IsValue (edgeFitness p) ∧
      Double.le (edgeFitness p) (Double.fin 0) = true) ∧
    binary64.IsValue (Double.fin (1 - 1 / 2 ^ 52)) ∧
    (1 - 1 / 2 ^ 52 : ℚ) = ((2 ^ 53 - 2 : Nat) : ℚ) / 2 ^ 53 ∧
    (0 : ℚ) ≤ 1 - 1 / 2 ^ 52 ∧ (1 - 1 / 2 ^ 52 : ℚ) < 1 ∧
    binary64.sumFit edgeFitness [0, 1] = Double.fin (-1 - 1 / 2 ^ 52) ∧
    (1 - 1 / 2 ^ 52 : ℚ) * (-1 - 1 / 2 ^ 52) = -(1 - 1 / 2 ^ 104) ∧
    ¬ ((1 - 1 / 2 ^ 52 : ℚ) * (-1 - 1 / 2 ^ 52) ≤ -1) ∧
    binary64.mul (Double.fin (1 - 1 / 2 ^ 52)) (Double.fin (-1 - 1 / 2 ^ 52)) = Double.fin (-1) ∧
    binary64.selectByRoulette edgeFitness [0, 1] (Double.fin (1 - 1 / 2 ^ 52)) = some 0 ∧
    [0, 1].getLast? = some 1 := by
  have hL := binary64_lawful
  have r1 : binary64.round (-1) = Double.fin (-1) := (float_minusOne_run binary64 hL).1
  have r2 : binary64.round (-(1 / 2 ^ 52)) = Double.fin (-(1 / 2 ^ 52)) := by
    have := float_round_neg_dyadic binary64 hL 1 (-52) (by norm_num) (by norm_num) (by norm_num)
    norm_num at this
    norm_num
    exact this
  have r3 : binary64.round (1 - 1 / 2 ^ 52) = Double.fin (1 - 1 / 2 ^ 52) := by
    have := hL.round_dyadic (2 ^ 52 - 1) (-52) (by norm_num) (by norm_num) (by norm_num)
    have e : (((2 ^ 52 - 1 : Nat) : ℚ)) * (2 : ℚ) ^ (-52 : Int) = 1 - 1 / 2 ^ 52 := by norm_num
    rw [e] at this
    exact this
  have r4 : binary64.round (-1 - 1 / 2 ^ 52) = Double.fin (-1 - 1 / 2 ^ 52) := by
    have := float_round_neg_dyadic binary64 hL (2 ^ 52 + 1) (-52) (by norm_num) (by norm_num)
      (by norm_num)
    have e : (-(((2 ^ 52 + 1 : Nat) : ℚ) * (2 : ℚ) ^ (-52 : Int))) = -1 - 1 / 2 ^ 52 := by
      norm_num
    rw [e] at this
    exact this
  have hfit : ∀ p ∈ [0, 1], binary64.IsValue (edgeFitness p) ∧
      Double.le (edgeFitness p) (Double.fin 0) = true := by
    intro p hp
    simp only [List.mem_cons, List.mem_singleton, List.not_mem_nil, or_false] at hp
    rcases hp with hp | hp
    · subst hp
      exact ⟨r1, by decide⟩
    · subst hp
      exact ⟨r2, by decide!⟩
  have hsum : binary64.sumFit edgeFitness [0, 1] = Double.fin (-1 - 1 / 2 ^ 52) := by
    show binary64.add (binary64.add (Double.fin 0) (Double.fin (-1)))
      (Double.fin (-(1 / 2 ^ 52))) = _
    have e1 : binary64.add (Double.fin 0) (Double.fin (-1)) = Double.fin (-1) :=
      float_add_zero_left binary64 r1
    rw [e1]
    show binary64.round (-1 + -(1 / 2 ^ 52)) = _
    have e : (-1 : ℚ) + -(1 / 2 ^ 52) = -1 - 1 / 2 ^ 52 := by ring
    rw [e]
    exact r4
  have hprod : (1 - 1 / 2 ^ 52 : ℚ) * (-1 - 1 / 2 ^ 52) = -(1 - 1 / 2 ^ 104) := by norm_num
  have hmul : binary64.mul (Double.fin (1 - 1 / 2 ^ 52)) (Double.fin (-1 - 1 / 2 ^ 52)) =
      Double.fin (-1) := by
    show binary64.round ((1 - 1 / 2 ^ 52) * (-1 - 1 / 2 ^ 52)) = _
    rw [hprod, hL.round_neg]
    show Double.neg (round64 (1 - 1 / 2 ^ 104)) = _
    rw [round64_below_one]
    rfl
  refine ⟨hfit, r3, by norm_num, by norm_num, by norm_num, hsum, hprod, by norm_num, hmul, ?_,
    rfl⟩
  refine (float_selectByRoulette_cases binary64 hL edgeFitness 0 [1] _ hfit).1 ?_
  rw [hsum, hmul]
  decide!
/-- C24, amended: on a population of at least two chromosomes whose fitness
values are negative `float64` values (the negative infinity included), and for
every value `r` of the draw, `selectByRoulette` returns the first element when
`fitness(first) >= pick`, where `pick` is the `float64` product `r * sumFit` of
line 135 and `sumFit` the `float64` sum of lines 131-134, each operation
rounded, and the last element otherwise; for the draw 0 it returns the last
element.  This holds for every arithmetic that satisfies `FloatArith.Lawful`,
binary64 among them. -/
theorem selectByRoulette_float_negative (A : FloatArith) (hA : A.Lawful) (fit : Nat → Double)
    (first second : Nat) (rest : List Nat) (r : Double)
    (hfit : ∀ p ∈ first :: second :: rest,
      A.IsValue (fit p) ∧ Double.lt (fit p) (Double.fin 0) = true) :
    (Double.ge (fit first) (A.mul r (A.sumFit fit (first :: second :: rest))) = true →
      A.selectByRoulette fit (first :: second :: rest) r = some first) ∧
    (Double.ge (fit first) (A.mul r (A.sumFit fit (first :: second :: rest))) = false →
      A.selectByRoulette fit (first :: second :: rest) r =
        some ((first :: second :: rest).getLast (List.cons_ne_nil _ _))) ∧
    A.selectByRoulette fit (first :: second :: rest) (Double.fin 0) =
      some ((first :: second :: rest).getLast (List.cons_ne_nil _ _)) := by
  have hle : ∀ p ∈ first :: second :: rest,
      A.IsValue (fit p) ∧ Double.le (fit p) (Double.fin 0) = true :=
    fun p hp => ⟨(hfit p hp).1, Double_le_of_lt (hfit p hp).2⟩
  obtain ⟨h1, h2⟩ := float_selectByRoulette_cases A hA fit first (second :: rest) r hle
  refine ⟨h1, fun h => (h2 h).2, ?_⟩
  obtain ⟨-, k2⟩ := float_selectByRoulette_cases A hA fit first (second :: rest) (Double.fin 0) hle
  refine (k2 ?_).2
  have hneg := (hfit first (List.mem_cons_self _ _)).2
  have hpick : A.mul (Double.fin 0) (A.sumFit fit (first :: second :: rest)) = Double.fin 0 ∨
      A.mul (Double.fin 0) (A.sumFit fit (first :: second :: rest)) = Double.nan := by
    cases A.sumFit fit (first :: second :: rest) with
    | fin s =>
      left
      show A.round (0 * s) = Double.fin 0
      rw [zero_mul]
      exact float_round_zero A hA
    | posInf => right; rfl
    | negInf => right; rfl
    | nan => right; rfl
  rcases hpick with hp | hp
  · rw [hp]
    cases hx : fit first with
    | fin q =>
      rw [hx] at hneg
      have hq : q < 0 := by simpa [Double.lt] using hneg
      simp only [Double.ge, Double.le, decide_eq_false_iff_not, not_le]
      exact hq
    | posInf => rw [hx] at hneg; simp [Double.lt] at hneg
    | negInf => rfl
    | nan => rw [hx] at hneg; simp [Double.lt] at hneg
  · rw [hp]
    cases fit first <;> rfl

theorem selectByRoulette_float_negative_witness :
    binary64.Lawful ∧
    (∀ p ∈ [0, 1], binary64.IsValue (minusOneFitness p) ∧
      Double.lt (minusOneFitness p) (Double.fin 0) = true) ∧
    binary64.selectByRoulette minusOneFitness [0, 1] (Double.fin 0) = some 1 ∧
    binary64.selectByRoulette minusOneFitness [0, 1] (Double.fin (1 / 4)) = some 1 := by
  obtain ⟨-, hsum, -, hm2⟩ := float_minusOne_run binary64 binary64_lawful
  have hfit := float_minusOne_nonpos binary64 binary64_lawful
  refine ⟨binary64_lawful, hfit, ?_, ?_⟩
  · exact (selectByRoulette_float_negative binary64 binary64_lawful minusOneFitness 0 1 []
      (Double.fin 0) hfit).2.2
  · refine (selectByRoulette_float_negative binary64 binary64_lawful minusOneFitness 0 1 []
      (Double.fin (1 / 4)) hfit).2.1 ?_
    rw [hsum, hm2]
    decide!

/-- C24, as stated, fails: the population holds two chromosomes, both with the
fitness `-1`, and the draw is `0.75`; the sum is `-2`, the threshold is
`0.75 * (-2) = -1.5`, the running sum after the first chromosome is
`-1 >= -1.5`, and `selectByRoulette` returns the first element, pointer 0, not
the last, pointer 1.  Every number of this run is a `float64` value, and no
operation of it rounds. -/
theorem selectByRoulette_float_returns_first :
    (∀ p ∈ [0, 1], binary64.IsValue (minusOneFitness p) ∧
      Double.lt (minusOneFitness p) (Double.fin 0) = true) ∧
    binary64.IsValue (Double.fin (3 / 4)) ∧
    binary64.sumFit minusOneFitness [0, 1] = Double.fin (-2) ∧
    binary64.mul (Double.fin (3 / 4)) (Double.fin (-2)) = Double.fin (-3 / 2) ∧
    binary64.selectByRoulette minusOneFitness [0, 1] (Double.fin (3 / 4)) = some 0 ∧
    [0, 1].getLast? = some 1 := by
  have hL := binary64_lawful
  obtain ⟨r1, hsum, hm1, -⟩ := float_minusOne_run binary64 hL
  have r3 : binary64.round (3 / 4) = Double.fin (3 / 4) := by
    have := hL.round_dyadic 3 (-2) (by norm_num) (by norm_num) (by norm_num)
    norm_num at this
    exact this
  refine ⟨float_minusOne_nonpos binary64 hL, r3, hsum, hm1, ?_, rfl⟩
  refine (float_selectByRoulette_cases binary64 hL minusOneFitness 0 [1] (Double.fin (3 / 4))
    (fun p hp => ⟨(float_minusOne_nonpos binary64 hL p hp).1,
      by simp [minusOneFitness, Double.le]⟩)).1 ?_
  rw [hsum, hm1]
  decide!
/-! ## The idle penalty in `float64` arithmetic -/

theorem float_add_pos (A : FloatArith) (hA : A.Lawful) {x y : Double} (hx : A.Positive x) (hy : A.Positive y) :
    A.Positive (A.add x y) := by
  obtain ⟨hxv, hx0⟩ := hx
  obtain ⟨hyv, hy0⟩ := hy
  cases x with
  | fin a =>
    cases y with
    | fin b =>
      have ha : 0 < a := by simpa [Double.lt] using hx0
      have hb : 0 < b := by simpa [Double.lt] using hy0
      have hm := hA.round_mono a (a + b) (by linarith)
      have hxa : A.round a = Double.fin a := hxv
      rw [hxa] at hm
      exact ⟨float_isValue_round A hA _, Double_lt_of_lt_of_le hx0 hm⟩
    | posInf => exact ⟨trivial, rfl⟩
    | negInf => simp [Double.lt] at hy0
    | nan => simp [Double.lt] at hy0
  | posInf =>
    cases y with
    | fin b => exact ⟨trivial, rfl⟩
    | posInf => exact ⟨trivial, rfl⟩
    | negInf => simp [Double.lt] at hy0
    | nan => simp [Double.lt] at hy0
  | negInf => simp [Double.lt] at hx0
  | nan => simp [Double.lt] at hx0

theorem float_addWork_pos (A : FloatArith) (hA : A.Lawful) (id : Int) {d : Double} (hd : A.Positive d) :
    ∀ tally : List (Int × Double), (∀ kv ∈ tally, A.Positive kv.2) →
      ∀ kv ∈ A.addWork tally id d, A.Positive kv.2 := by
  intro tally
  induction tally with
  | nil =>
    intro _ kv hkv
    simp only [FloatArith.addWork, List.mem_singleton] at hkv
    rw [hkv]
    show A.Positive (A.add (Double.fin 0) d)
    rw [float_add_zero_left A hd.1]
    exact hd
  | cons e rest ih =>
    intro h kv hkv
    obtain ⟨k, v⟩ := e
    simp only [FloatArith.addWork] at hkv
    split at hkv
    · rcases List.mem_cons.1 hkv with hk | hk
      · rw [hk]
        exact float_add_pos A hA (h (k, v) (List.mem_cons_self _ _)) hd
      · exact h kv (List.mem_cons_of_mem _ hk)
    · rcases List.mem_cons.1 hkv with hk | hk
      · rw [hk]
        exact h (k, v) (List.mem_cons_self _ _)
      · exact ih (fun x hx => h x (List.mem_cons_of_mem _ hx)) kv hk

theorem float_foldl_addWork_pos (A : FloatArith) (hA : A.Lawful) {d : Double} (hd : A.Positive d) :
    ∀ (ids : List Int) (tally : List (Int × Double)), (∀ kv ∈ tally, A.Positive kv.2) →
      ∀ kv ∈ ids.foldl (fun acc id => A.addWork acc id d) tally, A.Positive kv.2 := by
  intro ids
  induction ids with
  | nil => intro tally h; simpa using h
  | cons id rest ih =>
    intro tally h
    simp only [List.foldl_cons]
    exact ih _ (float_addWork_pos A hA id hd tally h)

theorem float_addGeneWork_pos (A : FloatArith) (hA : A.Lawful) {gene : GeneHours}
    (hd : A.Positive gene.workDuration) (tally : List (Int × Double))
    (h : ∀ kv ∈ tally, A.Positive kv.2) :
    ∀ kv ∈ A.addGeneWork tally gene, A.Positive kv.2 := by
  unfold FloatArith.addGeneWork
  simp only []
  apply float_foldl_addWork_pos A hA hd
  cases gene.principalID with
  | none => exact h
  | some p => exact float_addWork_pos A hA p hd tally h

theorem float_workTally_pos (A : FloatArith) (hA : A.Lawful) :
    ∀ (genes : List GeneHours) (tally : List (Int × Double)),
      (∀ g ∈ genes, A.Positive g.workDuration) → (∀ kv ∈ tally, A.Positive kv.2) →
      ∀ kv ∈ genes.foldl A.addGeneWork tally, A.Positive kv.2 := by
  intro genes
  induction genes with
  | nil => intro tally _ h; simpa using h
  | cons g rest ih =>
    intro tally hg h
    simp only [List.foldl_cons]
    exact ih _ (fun x hx => hg x (List.mem_cons_of_mem _ hx))
      (float_addGeneWork_pos A hA (hg g (List.mem_cons_self _ _)) tally h)

theorem float_notWorkPenalty_zero (A : FloatArith) (order : List (Int × Double))
    (h : ∀ kv ∈ order, A.Positive kv.2) : A.notWorkPenalty order = Double.fin 0 := by
  have key : ∀ (order : List (Int × Double)) (acc : Double),
      (∀ kv ∈ order, A.Positive kv.2) →
      order.foldl (fun acc kv =>
        if Double.eq kv.2 (Double.fin 0) then A.add acc (Double.fin 1) else acc) acc = acc := by
    intro order
    induction order with
    | nil => intro acc _; rfl
    | cons kv rest ih =>
      intro acc h
      simp only [List.foldl_cons]
      have hk : Double.eq kv.2 (Double.fin 0) = false := by
        obtain ⟨-, hpos⟩ := h kv (List.mem_cons_self _ _)
        cases hv : kv.2 with
        | fin q =>
          rw [hv] at hpos
          have : 0 < q := by simpa [Double.lt] using hpos
          simp only [Double.eq, decide_eq_false_iff_not]
          exact ne_of_gt this
        | posInf => rfl
        | negInf => rfl
        | nan => rfl
      rw [hk]
      simp only [Bool.false_eq_true, if_false]
      exact ih acc (fun x hx => h x (List.mem_cons_of_mem _ hx))
  exact key order _ h
theorem float_addWork_keys (A : FloatArith) (id : Int) (d : Double) (u : Int) :
    ∀ tally : List (Int × Double),
      u ∈ (A.addWork tally id d).map Prod.fst ↔ u ∈ tally.map Prod.fst ∨ u = id := by
  intro tally
  induction tally with
  | nil => simp [FloatArith.addWork]
  | cons e rest ih =>
    obtain ⟨k, v⟩ := e
    simp only [FloatArith.addWork]
    split
    · rename_i hk
      simp only [List.map_cons, List.mem_cons]
      constructor
      · intro h
        exact Or.inl h
      · rintro (h | h)
        · exact h
        · left
          rw [h, hk]
    · simp only [List.map_cons, List.mem_cons, ih]
      tauto

theorem float_foldl_addWork_keys (A : FloatArith) (d : Double) (u : Int) :
    ∀ (ids : List Int) (tally : List (Int × Double)),
      u ∈ (ids.foldl (fun acc id => A.addWork acc id d) tally).map Prod.fst ↔
        u ∈ tally.map Prod.fst ∨ u ∈ ids := by
  intro ids
  induction ids with
  | nil => intro tally; simp
  | cons id rest ih =>
    intro tally
    simp only [List.foldl_cons, ih, float_addWork_keys, List.mem_cons]
    tauto

theorem float_addGeneWork_keys (A : FloatArith) (gene : GeneHours) (u : Int)
    (tally : List (Int × Double)) :
    u ∈ (A.addGeneWork tally gene).map Prod.fst ↔
      u ∈ tally.map Prod.fst ∨ gene.principalID = some u ∨ u ∈ gene.assistantIDs := by
  unfold FloatArith.addGeneWork
  simp only [float_foldl_addWork_keys]
  cases gene.principalID with
  | none => simp
  | some p =>
    simp only [float_addWork_keys, Option.some.injEq]
    constructor
    · rintro ((h | h) | h)
      · exact Or.inl h
      · exact Or.inr (Or.inl h.symm)
      · exact Or.inr (Or.inr h)
    · rintro (h | h | h)
      · exact Or.inl (Or.inl h)
      · exact Or.inl (Or.inr h.symm)
      · exact Or.inr h

theorem float_workTally_keys (A : FloatArith) (u : Int) :
    ∀ (genes : List GeneHours) (tally : List (Int × Double)),
      u ∈ (genes.foldl A.addGeneWork tally).map Prod.fst ↔
        u ∈ tally.map Prod.fst ∨ ∃ g ∈ genes, g.principalID = some u ∨ u ∈ g.assistantIDs := by
  intro genes
  induction genes with
  | nil => intro tally; simp
  | cons g rest ih =>
    intro tally
    simp only [List.foldl_cons, ih, float_addGeneWork_keys, List.mem_cons, exists_eq_or_imp]
    generalize (∃ g ∈ rest, g.principalID = some u ∨ u ∈ g.assistantIDs) = P
    tauto
theorem float_add_ge (A : FloatArith) (hA : A.Lawful) {x y : Double} (hx : A.IsValue x)
    (hx0 : Double.le (Double.fin 0) x = true) (hy : A.IsValue y)
    (hy0 : Double.le (Double.fin 0) y = true) :
    A.IsValue (A.add x y) ∧ Double.le x (A.add x y) = true ∧
      Double.le y (A.add x y) = true := by
  cases x with
  | fin a =>
    cases y with
    | fin b =>
      have ha : 0 ≤ a := by simpa [Double.le] using hx0
      have hb : 0 ≤ b := by simpa [Double.le] using hy0
      have hm1 := hA.round_mono a (a + b) (by linarith)
      have hm2 := hA.round_mono b (a + b) (by linarith)
      have hxa : A.round a = Double.fin a := hx
      have hyb : A.round b = Double.fin b := hy
      rw [hxa] at hm1
      rw [hyb] at hm2
      exact ⟨float_isValue_round A hA _, hm1, hm2⟩
    | posInf => exact ⟨trivial, rfl, rfl⟩
    | negInf => simp [Double.le] at hy0
    | nan => simp [Double.le] at hy0
  | posInf =>
    cases y with
    | fin b => exact ⟨trivial, rfl, rfl⟩
    | posInf => exact ⟨trivial, rfl, rfl⟩
    | negInf => simp [Double.le] at hy0
    | nan => simp [Double.le] at hy0
  | negInf => simp [Double.le] at hx0
  | nan => simp [Double.le] at hx0

theorem float_round_nat (A : FloatArith) (hA : A.Lawful) (n : Nat) (h : n < 2 ^ 53) :
    A.round (n : ℚ) = Double.fin (n : ℚ) := by
  have := hA.round_dyadic n 0 h (by norm_num) (by norm_num)
  simpa using this

theorem float_hours_pos (A : FloatArith) (hA : A.Lawful) {d : Int} (hd : 0 < d) : A.Positive (A.hours d) := by
  unfold FloatArith.hours FloatArith.ofInt
  have hH : (0 : Int) < 3600 * 10 ^ 9 := by norm_num
  have hdiv : 0 ≤ Int.tdiv d (3600 * 10 ^ 9) := Int.tdiv_nonneg (le_of_lt hd) (le_of_lt hH)
  have hmod0 : 0 ≤ Int.tmod d (3600 * 10 ^ 9) := Int.tmod_nonneg _ (le_of_lt hd)
  have hmod1 : Int.tmod d (3600 * 10 ^ 9) < 3600 * 10 ^ 9 := Int.tmod_lt_of_pos _ hH
  have hsum : 3600 * 10 ^ 9 * Int.tdiv d (3600 * 10 ^ 9) + Int.tmod d (3600 * 10 ^ 9) = d :=
    Int.tdiv_add_tmod d _
  -- the whole hours
  have hX0 : Double.le (Double.fin 0) (A.round ((Int.tdiv d (3600 * 10 ^ 9) : Int) : ℚ)) = true := by
    have := hA.round_mono 0 ((Int.tdiv d (3600 * 10 ^ 9) : Int) : ℚ) (by exact_mod_cast hdiv)
    rwa [float_round_zero A hA] at this
  -- the remainder is a value
  obtain ⟨n, hn⟩ := Int.eq_ofNat_of_zero_le hmod0
  have hnlt : n < 2 ^ 53 := by
    have : (n : Int) < 3600 * 10 ^ 9 := by rw [← hn]; exact hmod1
    have h2 : (3600 * 10 ^ 9 : Int) < 2 ^ 53 := by norm_num
    exact_mod_cast lt_trans this h2
  have hcast : ((Int.tmod d (3600 * 10 ^ 9) : Int) : ℚ) = (n : ℚ) := by
    rw [hn]
    norm_cast
  rw [hcast, float_round_nat A hA n hnlt]
  have hFeq : A.div (Double.fin (n : ℚ)) (Double.fin (3600 * 10 ^ 9)) =
      A.round ((n : ℚ) / (3600 * 10 ^ 9)) := by
    have hne : ¬ ((3600 * 10 ^ 9 : ℚ) = 0) := by norm_num
    simp only [FloatArith.div, hne, if_false]
  rw [hFeq]
  have hF0 : Double.le (Double.fin 0) (A.round ((n : ℚ) / (3600 * 10 ^ 9))) = true := by
    have := hA.round_mono 0 ((n : ℚ) / (3600 * 10 ^ 9)) (by positivity)
    rwa [float_round_zero A hA] at this
  obtain ⟨k1, k2, k3⟩ := float_add_ge A hA (float_isValue_round A hA _) hX0
    (float_isValue_round A hA _) hF0
  refine ⟨k1, ?_⟩
  by_cases hn0 : n = 0
  · -- a whole number of hours, at least one
    have hq : 1 ≤ Int.tdiv d (3600 * 10 ^ 9) := by
      rw [hn, hn0] at hsum
      by_contra hlt
      have h0 : Int.tdiv d (3600 * 10 ^ 9) = 0 := by omega
      rw [h0] at hsum
      simp at hsum
      omega
    have hm := hA.round_mono 1 ((Int.tdiv d (3600 * 10 ^ 9) : Int) : ℚ) (by exact_mod_cast hq)
    have h1 : A.round 1 = Double.fin 1 := by
      have := float_round_nat A hA 1 (by norm_num)
      simpa using this
    rw [h1] at hm
    have hlt : Double.lt (Double.fin 0) (Double.fin 1) = true := by decide!
    exact Double_lt_of_lt_of_le (Double_lt_of_lt_of_le hlt hm) k2
  · -- a remainder of at least one nanosecond
    have hn1 : (1 : ℚ) ≤ (n : ℚ) := by
      have : 1 ≤ n := Nat.one_le_iff_ne_zero.2 hn0
      exact_mod_cast this
    have hsmall : (1 : ℚ) * (2 : ℚ) ^ (-42 : Int) ≤ (n : ℚ) / (3600 * 10 ^ 9) := by
      rw [le_div_iff₀ (by norm_num)]
      have : (1 : ℚ) * (2 : ℚ) ^ (-42 : Int) * (3600 * 10 ^ 9) ≤ 1 := by norm_num
      linarith
    have hm := hA.round_mono _ _ hsmall
    have h42 := hA.round_dyadic 1 (-42) (by norm_num) (by norm_num) (by norm_num)
    simp only [Nat.cast_one] at h42
    rw [h42] at hm
    have hlt : Double.lt (Double.fin 0) (Double.fin ((1 : ℚ) * (2 : ℚ) ^ (-42 : Int))) = true := by
      simp only [Double.lt, decide_eq_true_eq]
      positivity
    exact Double_lt_of_lt_of_le (Double_lt_of_lt_of_le hlt hm) k3

theorem float_workDuration_pos (A : FloatArith) (hA : A.Lawful) {st : ScheduleTemplate}
    (hvalid : ValidateScheduleTemplateShiftTime st = none) {shift : ScheduleTemplateShift}
    (hshift : shift ∈ st.Shifts)
    (hne : parseClock shift.StartTime ≠ parseClock shift.EndTime) :
    A.Positive (A.workDuration shift) := by
  have hcheck : checkShiftTimes 0 st.Shifts = none := by
    unfold ValidateScheduleTemplateShiftTime at hvalid
    split at hvalid
    · cases hvalid
    · assumption
  obtain ⟨a, b, ha, hb, hab⟩ := (checkShiftTimes_eq_none st.Shifts 0).1 hcheck shift hshift
  have hlt : a < b := by
    rcases Nat.lt_or_ge a b with h | h
    · exact h
    · exfalso
      apply hne
      rw [ha, hb, Nat.le_antisymm hab h]
  unfold FloatArith.workDuration
  rw [parseClockOrZero_of_some ha, parseClockOrZero_of_some hb]
  exact float_hours_pos A hA (by omega)

theorem float_isValue_mul (A : FloatArith) (hA : A.Lawful) (x y : Double) : A.IsValue (A.mul x y) := by
  cases x <;> cases y <;>
    first
    | exact float_isValue_round A hA _
    | trivial
    | (simp only [FloatArith.mul, FloatArith.signedInf]; split <;> [trivial; (split <;> trivial)])

theorem float_isValue_neg (A : FloatArith) (hA : A.Lawful) {x : Double} (h : A.IsValue x) :
    A.IsValue (Double.neg x) := by
  cases x with
  | fin q =>
    show A.round (-q) = Double.fin (-q)
    have hq : A.round q = Double.fin q := h
    rw [hA.round_neg, hq]
    rfl
  | posInf => trivial
  | negInf => trivial
  | nan => trivial

/-- C26, amended: for a template that `ValidateScheduleTemplateShiftTime`
accepts and in which every shift ends strictly after it starts, and a
chromosome whose genes take their hours from shifts of the template: the keys
of the tally are the users that appear in the chromosome, each with hours above
0; `notWorkPenalty` is 0, in whatever order the map is visited; and the fitness
that `calcFitness` stores is `-(fairnessWeight * variance)`, where `variance` is
the `float64` value that lines 110-122 compute from the tally and the product
is the `float64` product; no other rounding takes place.  This holds for every
arithmetic that satisfies `FloatArith.Lawful`, binary64 among them. -/
theorem calcFitness_float_penalty_zero (A : FloatArith) (hA : A.Lawful) (fairnessWeight : Double)
    (st : ScheduleTemplate) (genes : List GeneHours)
    (order1 order2 order3 : List (Int × Double))
    (hvalid : ValidateScheduleTemplateShiftTime st = none)
    (hstrict : ∀ shift ∈ st.Shifts, parseClock shift.StartTime ≠ parseClock shift.EndTime)
    (hbuilt : ∀ g ∈ genes, ∃ shift ∈ st.Shifts, g.workDuration = A.workDuration shift)
    (horder : order1.Perm (A.workTally genes)) :
    (∀ u, u ∈ (A.workTally genes).map Prod.fst ↔
      ∃ g ∈ genes, g.principalID = some u ∨ u ∈ g.assistantIDs) ∧
    (∀ kv ∈ A.workTally genes, Double.lt (Double.fin 0) kv.2 = true) ∧
    A.notWorkPenalty order1 = Double.fin 0 ∧
    A.calcFitness fairnessWeight genes order1 order2 order3 =
      Double.neg (A.mul fairnessWeight
        (A.variance (A.workTally genes).length order2 order3)) := by
  have hdur : ∀ g ∈ genes, A.Positive g.workDuration := by
    intro g hg
    obtain ⟨shift, hshift, hw⟩ := hbuilt g hg
    rw [hw]
    exact float_workDuration_pos A hA hvalid hshift (hstrict shift hshift)
  have htally : ∀ kv ∈ A.workTally genes, A.Positive kv.2 :=
    float_workTally_pos A hA genes [] hdur (fun kv hkv => by cases hkv)
  have hpen : A.notWorkPenalty order1 = Double.fin 0 :=
    float_notWorkPenalty_zero A order1 (fun kv hkv => htally kv (horder.subset hkv))
  have hkeys : ∀ u, u ∈ (A.workTally genes).map Prod.fst ↔
      ∃ g ∈ genes, g.principalID = some u ∨ u ∈ g.assistantIDs := by
    intro u
    have := float_workTally_keys A u genes []
    simpa [FloatArith.workTally] using this
  refine ⟨hkeys, fun kv hkv => (htally kv hkv).2, hpen, ?_⟩
  unfold FloatArith.calcFitness FloatArith.sub
  rw [hpen]
  have h0 : Double.neg (Double.fin 0) = Double.fin 0 := by
    show Double.fin (-0) = Double.fin 0
    rw [neg_zero]
  rw [h0]
  exact float_add_zero_left A (float_isValue_neg A hA (float_isValue_mul A hA _ _))
theorem float_small_values (A : FloatArith) (hA : A.Lawful) :
    A.round 0 = Double.fin 0 ∧ A.round 1 = Double.fin 1 ∧ A.round 2 = Double.fin 2 ∧
      A.round (-1) = Double.fin (-1) := by
  have r1 : A.round 1 = Double.fin 1 := by
    have := float_round_nat A hA 1 (by norm_num)
    simpa using this
  have r2 : A.round 2 = Double.fin 2 := by
    have := float_round_nat A hA 2 (by norm_num)
    simpa using this
  refine ⟨float_round_zero A hA, r1, r2, ?_⟩
  rw [hA.round_neg, r1]
  rfl

theorem float_div_zero_hour (A : FloatArith) (hA : A.Lawful) :
    A.div (Double.fin 0) (Double.fin (3600 * 10 ^ 9)) = Double.fin 0 := by
  have hne : ¬ ((3600 * 10 ^ 9 : ℚ) = 0) := by norm_num
  simp only [FloatArith.div, hne, if_false, zero_div, float_round_zero A hA]

theorem float_twoHour_run (A : FloatArith) (hA : A.Lawful) :
    A.workDuration ⟨1, "09:00:00", "11:00:00", 2, [1]⟩ = Double.fin 2 ∧
    A.workTally [⟨some 10, [11], Double.fin 2⟩] = [(10, Double.fin 2), (11, Double.fin 2)] := by
  obtain ⟨r0, r1, r2, -⟩ := float_small_values A hA
  have a02 : A.add (Double.fin 0) (Double.fin 2) = Double.fin 2 := float_add_zero_left A r2
  constructor
  · have hd : (parseClockOrZero "11:00:00" : Int) - (parseClockOrZero "09:00:00" : Int) =
        7200 * 10 ^ 9 := by decide!
    unfold FloatArith.workDuration FloatArith.hours FloatArith.ofInt
    simp only [hd]
    have e1 : Int.tdiv (7200 * 10 ^ 9) (3600 * 10 ^ 9) = 2 := by decide!
    have e2 : Int.tmod (7200 * 10 ^ 9) (3600 * 10 ^ 9) = 0 := by decide!
    rw [e1, e2]
    simp only [Int.cast_ofNat, Int.cast_zero, r0, r2, float_div_zero_hour A hA]
    show A.round (2 + 0) = Double.fin 2
    rw [add_zero]
    exact r2
  · have hne : ¬ ((10 : Int) = 11) := by decide
    simp only [FloatArith.workTally, List.foldl_cons, List.foldl_nil, FloatArith.addGeneWork,
      FloatArith.addWork, a02, hne, if_false]

theorem calcFitness_float_penalty_zero_witness :
    binary64.Lawful ∧
    ValidateScheduleTemplateShiftTime oneCellTemplate = none ∧
    binary64.workDuration ⟨1, "09:00:00", "11:00:00", 2, [1]⟩ = Double.fin 2 ∧
    binary64.workTally [⟨some 10, [11], Double.fin 2⟩] =
      [(10, Double.fin 2), (11, Double.fin 2)] ∧
    binary64.notWorkPenalty [(11, Double.fin 2), (10, Double.fin 2)] = Double.fin 0 ∧
    binary64.calcFitness (Double.fin 1) [⟨some 10, [11], Double.fin 2⟩]
        [(11, Double.fin 2), (10, Double.fin 2)] [(10, Double.fin 2), (11, Double.fin 2)]
        [(11, Double.fin 2), (10, Double.fin 2)] =
      Double.neg (binary64.mul (Double.fin 1)
        (binary64.variance
          (binary64.workTally [⟨some 10, [11], Double.fin 2⟩]).length
          [(10, Double.fin 2), (11, Double.fin 2)] [(11, Double.fin 2), (10, Double.fin 2)])) := by
  obtain ⟨hdur, htally⟩ := float_twoHour_run binary64 binary64_lawful
  have h := calcFitness_float_penalty_zero binary64 binary64_lawful (Double.fin 1)
    oneCellTemplate [⟨some 10, [11], Double.fin 2⟩] [(11, Double.fin 2), (10, Double.fin 2)]
    [(10, Double.fin 2), (11, Double.fin 2)] [(11, Double.fin 2), (10, Double.fin 2)]
    (by decide!) (by decide!)
    (by
      intro g hg
      rw [List.mem_singleton] at hg
      rw [hg]
      exact ⟨_, List.mem_singleton.2 rfl, hdur.symm⟩)
    (by
      rw [htally]
      exact List.Perm.swap _ _ _)
  exact ⟨binary64_lawful, by decide!, hdur, htally, h.2.2.1, h.2.2.2⟩

/-- C26, as stated, fails: the template whose one shift starts and ends at
09:00:00 is accepted by `ValidateScheduleTemplateShiftTime`; the chromosome
built over it assigns user 10, and the hours of the shift are 0; the tally has
the entry of user 10 at 0 hours, `notWorkPenalty` is 1, the variance is 0 and,
with the fairness weight 1, the fitness is `-1`, not
`-(fairnessWeight * variance) = 0`.  Every number of this computation is a
`float64` value, and no operation of it rounds. -/
theorem calcFitness_float_zero_length :
    ValidateScheduleTemplateShiftTime zeroLengthTemplate = none ∧
    (randomInitChromosome zeroLengthScheduler zeroRand).map
        (fun res => res.1.genes.map (fun g => (g.shiftID, g.day, g.principalID, g.assistantIDs))) =
      some [(1, 1, some 10, [])] ∧
    binary64.workDuration ⟨1, "09:00:00", "09:00:00", 1, [1]⟩ = Double.fin 0 ∧
    binary64.workTally [⟨some 10, [], Double.fin 0⟩] = [(10, Double.fin 0)] ∧
    binary64.notWorkPenalty [(10, Double.fin 0)] = Double.fin 1 ∧
    binary64.variance 1 [(10, Double.fin 0)] [(10, Double.fin 0)] = Double.fin 0 ∧
    binary64.mul (Double.fin 1) (Double.fin 0) = Double.fin 0 ∧
    binary64.calcFitness (Double.fin 1) [⟨some 10, [], Double.fin 0⟩] [(10, Double.fin 0)]
      [(10, Double.fin 0)] [(10, Double.fin 0)] = Double.fin (-1) := by
  have hA := binary64_lawful
  obtain ⟨r0, r1, -, rm1⟩ := float_small_values binary64 hA
  have a00 : binary64.add (Double.fin 0) (Double.fin 0) = Double.fin 0 :=
    float_add_zero_left binary64 r0
  have hdur : binary64.workDuration ⟨1, "09:00:00", "09:00:00", 1, [1]⟩ = Double.fin 0 := by
    unfold FloatArith.workDuration FloatArith.hours FloatArith.ofInt
    simp only [sub_self, Int.zero_tdiv, Int.zero_tmod, Int.cast_zero, r0,
      float_div_zero_hour binary64 hA, a00]
  have htally : binary64.workTally [⟨some 10, [], Double.fin 0⟩] = [(10, Double.fin 0)] := by
    simp only [FloatArith.workTally, List.foldl_cons, List.foldl_nil, FloatArith.addGeneWork,
      FloatArith.addWork, a00]
  have hpen : binary64.notWorkPenalty [(10, Double.fin 0)] = Double.fin 1 := by
    have e : Double.eq (Double.fin 0) (Double.fin 0) = true := by decide!
    have a01 : binary64.add (Double.fin 0) (Double.fin 1) = Double.fin 1 :=
      float_add_zero_left binary64 r1
    simp only [FloatArith.notWorkPenalty, List.foldl_cons, List.foldl_nil, e, if_true, a01]
  have hd01 : binary64.div (Double.fin 0) (Double.fin 1) = Double.fin 0 := by
    have hne : ¬ ((1 : ℚ) = 0) := by norm_num
    simp only [FloatArith.div, hne, if_false, zero_div, r0]
  have hs00 : binary64.sub (Double.fin 0) (Double.fin 0) = Double.fin 0 := by
    show binary64.round (0 + -0) = Double.fin 0
    rw [neg_zero, add_zero]
    exact r0
  have hvar : binary64.variance 1 [(10, Double.fin 0)] [(10, Double.fin 0)] = Double.fin 0 := by
    simp only [FloatArith.variance, FloatArith.ofInt, List.foldl_cons, List.foldl_nil, a00,
      Nat.cast_one, Int.cast_one, r1, hd01, hs00, hA.powTwo_zero]
  have hm : binary64.mul (Double.fin 1) (Double.fin 0) = Double.fin 0 := by
    show binary64.round (1 * 0) = Double.fin 0
    rw [mul_zero]
    exact r0
  refine ⟨by decide!, by decide!, hdur, htally, hpen, hvar, hm, ?_⟩
  unfold FloatArith.calcFitness
  rw [hpen, htally]
  simp only [List.length_singleton, hvar]
  rw [hm]
  show binary64.round (-1 + -0) = Double.fin (-1)
  rw [neg_zero, add_zero]
  exact rm1

end ShiftManager
